import Mathlib

/-!
# Courier engine: data structures and controller of `2024-CD-CS-650.cpp`

Shallow embedding of the custom data structures of the courier program
(`ParcelQueue`, `PriorityScheduler`, `RoutingGraph`, `TrackerTable`, `UndoStack`,
`Rider`), of its controller `CourierSystem`, and theorems about them.

Conventions of the embedding.

* A `Parcel*` is a `ParcelPtr` (an address); the objects it points to live in a
  `Store`.  The containers hold addresses, exactly as the C++ containers hold
  pointers, and read parcel fields through the store.
* A singly linked chain (`QueueNode`, `RoadConnections`, `HashNode`) is the
  `List` of its payloads, first node first.
* A fixed C++ array is a total function of its index (`heapArray`, `dist`,
  `parent`, `visited`, `table`) or, for `cityNames`/`adjList`, a list.  An access
  whose index can lie outside the array has an outcome of its own: `none` for the
  write `table[idx] = ...` of `TrackerTable.insert`, `indexOutOfRange` for the reads of
  `TrackerTable.search` and `findAllRoutes`.
* An `int` that holds "an index or -1" is an `Option Nat` (`none` is `-1`);
  a returned `nullptr` is `none`.
* `int` additions that can leave the 32-bit range go through `wrap32`.
* A `double` is the rational number it stands for.  `Rider.assignParcel` and the
  `assignRider` of the controller model add loads and weights exactly; `doubleAdd` is
  the rounded sum the machine computes, and `assignRiderWith doubleAdd` is `assignRider`
  with it.
* `new Parcel` returns the address `next` of the controller state, which then grows by
  one; what the controller prints is left out, what it reads from the input is an
  argument.
-/

namespace Courier

/-! ## Machine integers -/

/-- The C++ constant `INT_MAX` for a 32-bit `int`. -/
def INT_MAX : Int := 2147483647

/-- Two's complement wrap-around of a 32-bit `int`. -/
def wrap32 (x : Int) : Int := (x + 2147483648) % 4294967296 - 2147483648

/-! ## Parcels and the store -/

/-- The fields of `class Parcel`; the history linked list is the list of its events. -/
structure Parcel where
  id : String
  priority : Int
  weight : ℚ
  weightCat : String
  destination : String
  zone : String
  status : String
  deliveryAttempts : Int
  isMissing : Bool
  assignedRiderId : Int
  history : List String
deriving DecidableEq

/-- A `Parcel*`. -/
abbrev ParcelPtr := Nat

/-- The heap memory holding the parcels: what each `Parcel*` points to. -/
abbrev Store := ParcelPtr → Parcel

/-! ## ParcelQueue -/

/-- The linked FIFO `ParcelQueue`: the payloads from `front` to `rear`. -/
structure ParcelQueue where
  nodes : List ParcelPtr
deriving DecidableEq

/-- The constructor `ParcelQueue()`: `front = rear = nullptr`. -/
def ParcelQueue.init : ParcelQueue := ⟨[]⟩

/-- The method `enqueue`: a new node becomes the whole chain when `rear` is null,
and is linked after `rear` otherwise. -/
def ParcelQueue.enqueue (q : ParcelQueue) (p : ParcelPtr) : ParcelQueue :=
  match q.nodes with
  | [] => ⟨[p]⟩
  | n :: rest => ⟨(n :: rest) ++ [p]⟩

/-- The method `dequeue`: `nullptr` on an empty queue, else the payload of `front`,
which is unlinked. -/
def ParcelQueue.dequeue (q : ParcelQueue) : Option ParcelPtr × ParcelQueue :=
  match q.nodes with
  | [] => (none, q)
  | p :: rest => (some p, ⟨rest⟩)

/-- The method `isEmpty`: `front == nullptr`. -/
def ParcelQueue.isEmpty (q : ParcelQueue) : Bool :=
  match q.nodes with
  | [] => true
  | _ :: _ => false

/-- Calls `dequeue` `n` times in a row; the results in call order and the final queue. -/
def ParcelQueue.dequeueTimes : Nat → ParcelQueue → List (Option ParcelPtr) × ParcelQueue
  | 0, q => ([], q)
  | n + 1, q =>
    let r := q.dequeue
    let rs := ParcelQueue.dequeueTimes n r.2
    (r.1 :: rs.1, rs.2)

/-! ## PriorityScheduler -/

/-- The array-backed heap: `heapArray[100]` and `currentSize`. -/
structure PriorityScheduler where
  heapArray : Nat → ParcelPtr
  currentSize : Nat

/-- The private method `swap`. -/
def PriorityScheduler.swap (s : PriorityScheduler) (a b : Nat) : PriorityScheduler :=
  let temp := s.heapArray a
  let arr1 := Function.update s.heapArray a (s.heapArray b)
  { s with heapArray := Function.update arr1 b temp }

/-- The comparator `isHigherPriority`. -/
def isHigherPriority (mem : Store) (a b : ParcelPtr) : Bool :=
  if (mem a).priority ≠ (mem b).priority then
    decide ((mem a).priority < (mem b).priority)
  else
    decide ((mem a).weightCat = "Heavy") && !decide ((mem b).weightCat = "Heavy")

/-- The recursive method `heapifyUp`.  The first argument bounds the recursion depth;
`index` itself is always enough since every call moves to a smaller index. -/
def PriorityScheduler.heapifyUp (mem : Store) :
    Nat → PriorityScheduler → Nat → PriorityScheduler
  | 0, s, _ => s
  | fuel + 1, s, index =>
    if index ≤ 0 then s
    else
      let parent := (index - 1) / 2
      if isHigherPriority mem (s.heapArray index) (s.heapArray parent) then
        PriorityScheduler.heapifyUp mem fuel (s.swap index parent) parent
      else s

/-- The recursive method `heapifyDown`.  The first argument bounds the recursion depth;
`currentSize - index` is always enough since every call moves to a larger index below
`currentSize`. -/
def PriorityScheduler.heapifyDown (mem : Store) :
    Nat → PriorityScheduler → Nat → PriorityScheduler
  | 0, s, _ => s
  | fuel + 1, s, index =>
    let smallest := index
    let left := 2 * index + 1
    let right := 2 * index + 2
    let smallest :=
      if left < s.currentSize && isHigherPriority mem (s.heapArray left) (s.heapArray smallest)
      then left else smallest
    let smallest :=
      if right < s.currentSize && isHigherPriority mem (s.heapArray right) (s.heapArray smallest)
      then right else smallest
    if smallest ≠ index then
      PriorityScheduler.heapifyDown mem fuel (s.swap index smallest) smallest
    else s

/-- The method `insert`: dropped silently when 100 parcels are held. -/
def PriorityScheduler.insert (mem : Store) (s : PriorityScheduler) (p : ParcelPtr) :
    PriorityScheduler :=
  if s.currentSize < 100 then
    let s1 := { s with heapArray := Function.update s.heapArray s.currentSize p }
    let s2 := PriorityScheduler.heapifyUp mem s1.currentSize s1 s1.currentSize
    { s2 with currentSize := s2.currentSize + 1 }
  else s

/-- The method `extractMin`: `nullptr` when empty, else the root. -/
def PriorityScheduler.extractMin (mem : Store) (s : PriorityScheduler) :
    Option ParcelPtr × PriorityScheduler :=
  if s.currentSize ≤ 0 then (none, s)
  else
    let root := s.heapArray 0
    let s1 := { s with heapArray := Function.update s.heapArray 0 (s.heapArray (s.currentSize - 1)) }
    let s2 := { s1 with currentSize := s1.currentSize - 1 }
    (some root, PriorityScheduler.heapifyDown mem s2.currentSize s2 0)

/-- The method `isEmpty`. -/
def PriorityScheduler.isEmpty (s : PriorityScheduler) : Bool :=
  decide (s.currentSize = 0)

/-- The parcels held: `heapArray[0 .. currentSize)`. -/
def PriorityScheduler.held (s : PriorityScheduler) : List ParcelPtr :=
  (List.range s.currentSize).map s.heapArray

/-- The loop `while (!isEmpty()) extractMin()` of `sortToWarehouse`, restricted to the
scheduler: the parcels extracted, in order, and the final scheduler.  The first argument
bounds the number of iterations. -/
def PriorityScheduler.extractAll (mem : Store) :
    Nat → PriorityScheduler → List ParcelPtr × PriorityScheduler
  | 0, s => ([], s)
  | fuel + 1, s =>
    if s.isEmpty then ([], s)
    else
      match s.extractMin mem with
      | (some p, s1) =>
        let r := PriorityScheduler.extractAll mem fuel s1
        (p :: r.1, r.2)
      | (none, s1) => ([], s1)

/-- Calls `extractMin` `n` times in a row; the results in call order and the final
scheduler. -/
def PriorityScheduler.extractTimes (mem : Store) :
    Nat → PriorityScheduler → List (Option ParcelPtr) × PriorityScheduler
  | 0, s => ([], s)
  | n + 1, s =>
    let r := s.extractMin mem
    let rs := PriorityScheduler.extractTimes mem n r.2
    (r.1 :: rs.1, rs.2)

/-- One call of the scheduler's interface. -/
inductive SchedOp where
  | insert (p : ParcelPtr)
  | extractMin

/-- Runs one interface call. -/
def PriorityScheduler.step (mem : Store) (s : PriorityScheduler) : SchedOp → PriorityScheduler
  | SchedOp.insert p => s.insert mem p
  | SchedOp.extractMin => (s.extractMin mem).2

/-! ## RoutingGraph -/

/-- A node of an adjacency chain. -/
structure RoadConnections where
  destination : Nat
  weight : Int
  isBlocked : Bool
deriving DecidableEq

/-- The bound `MAX_CITIES`. -/
def MAX_CITIES : Nat := 10

/-- The graph: `cityNames[0 .. numCities)` and the `MAX_CITIES` adjacency chains. -/
structure RoutingGraph where
  cityNames : List String
  adjList : List (List RoadConnections)
deriving DecidableEq

/-- The counter `numCities`. -/
def RoutingGraph.numCities (g : RoutingGraph) : Nat := g.cityNames.length

/-- The chain `adjList[u]`. -/
def RoutingGraph.adj (g : RoutingGraph) (u : Nat) : List RoadConnections :=
  g.adjList.getD u []

/-- The constructor `RoutingGraph()`. -/
def RoutingGraph.init : RoutingGraph := ⟨[], List.replicate MAX_CITIES []⟩

/-- The scan of `getCityIndex` from index `i` on. -/
def getCityIndexFrom (name : String) : List String → Nat → Option Nat
  | [], _ => none
  | c :: rest, i => if c = name then some i else getCityIndexFrom name rest (i + 1)

/-- The method `getCityIndex`; `none` is the return value `-1`. -/
def RoutingGraph.getCityIndex (g : RoutingGraph) (name : String) : Option Nat :=
  getCityIndexFrom name g.cityNames 0

/-- The method `addCity`. -/
def RoutingGraph.addCity (g : RoutingGraph) (name : String) : RoutingGraph :=
  if g.numCities < MAX_CITIES then { g with cityNames := g.cityNames ++ [name] } else g

/-- The method `addRoute`. -/
def RoutingGraph.addRoute (g : RoutingGraph) (src dest : String) (weight : Int) : RoutingGraph :=
  match g.getCityIndex src, g.getCityIndex dest with
  | some u, some v =>
    let adj1 := g.adjList.set u (⟨v, weight, false⟩ :: g.adjList.getD u [])
    let adj2 := adj1.set v (⟨u, weight, false⟩ :: adj1.getD v [])
    { g with adjList := adj2 }
  | _, _ => g

/-- One scan loop of `blockRoad`: sets the flag of the first node whose destination
is `v`, then `break`s. -/
def setBlockedFirst (v : Nat) (status : Bool) : List RoadConnections → List RoadConnections
  | [] => []
  | e :: rest =>
    if e.destination = v then { e with isBlocked := status } :: rest
    else e :: setBlockedFirst v status rest

/-- The two scan loops of `blockRoad`, for known indices `u` and `v`: first the chain of
`u`, then the chain of `v`. -/
def blockScans (adjList : List (List RoadConnections)) (u v : Nat) (status : Bool) :
    List (List RoadConnections) :=
  let adj1 := adjList.set u (setBlockedFirst v status (adjList.getD u []))
  adj1.set v (setBlockedFirst u status (adj1.getD v []))

/-- The method `blockRoad`. -/
def RoutingGraph.blockRoad (g : RoutingGraph) (src dest : String) (status : Bool) :
    RoutingGraph :=
  match g.getCityIndex src, g.getCityIndex dest with
  | some u, some v => { g with adjList := blockScans g.adjList u v status }
  | _, _ => g

/-- One call of a method that builds or changes the graph. -/
inductive GraphOp where
  | addCity (name : String)
  | addRoute (src dest : String) (weight : Int)
  | blockRoad (src dest : String) (status : Bool)

/-- Runs one graph method. -/
def RoutingGraph.apply (g : RoutingGraph) : GraphOp → RoutingGraph
  | GraphOp.addCity name => g.addCity name
  | GraphOp.addRoute src dest weight => g.addRoute src dest weight
  | GraphOp.blockRoad src dest status => g.blockRoad src dest status

/-- The graph obtained from `RoutingGraph()` by a sequence of method calls. -/
def RoutingGraph.build (ops : List GraphOp) : RoutingGraph :=
  ops.foldl RoutingGraph.apply RoutingGraph.init

/-! ### Shortest path -/

/-- The local arrays of `findShortestPath`. -/
structure DijkstraState where
  dist : Nat → Int
  parent : Nat → Option Nat
  visited : Nat → Bool

/-- The initialisation loop over `i = 0 .. n-1`.  The arrays are uninitialised before
the loop; entries at `numCities` and beyond are never read. -/
def dijkstraInitLoop (n : Nat) : DijkstraState :=
  (List.range n).foldl
    (fun (st : DijkstraState) i =>
      { dist := Function.update st.dist i INT_MAX
        visited := Function.update st.visited i false
        parent := Function.update st.parent i none })
    ⟨fun _ => 0, fun _ => none, fun _ => false⟩

/-- The initialisation loop followed by `dist[start] = 0`. -/
def dijkstraInit (n start : Nat) : DijkstraState :=
  let st := dijkstraInitLoop n
  { st with dist := Function.update st.dist start 0 }

/-- The selection loop: `(minVal, u)` after scanning `i = 0 .. n-1`. -/
def selectMin (st : DijkstraState) (n : Nat) : Int × Option Nat :=
  (List.range n).foldl
    (fun (acc : Int × Option Nat) i =>
      if !st.visited i && decide (st.dist i ≤ acc.1) then (st.dist i, some i) else acc)
    (INT_MAX, none)

/-- The body of the relaxation loop for one adjacency node of `u`. -/
def relaxEdge (u : Nat) (st : DijkstraState) (e : RoadConnections) : DijkstraState :=
  if !e.isBlocked && !st.visited e.destination && decide (st.dist u ≠ INT_MAX)
      && decide (wrap32 (st.dist u + e.weight) < st.dist e.destination) then
    { st with
      dist := Function.update st.dist e.destination (wrap32 (st.dist u + e.weight))
      parent := Function.update st.parent e.destination (some u) }
  else st

/-- The main loop of `findShortestPath` with `rounds` iterations left. -/
def dijkstraLoop (g : RoutingGraph) : Nat → DijkstraState → DijkstraState
  | 0, st => st
  | rounds + 1, st =>
    match (selectMin st g.numCities).2 with
    | none => st
    | some u =>
      let st1 := { st with visited := Function.update st.visited u true }
      dijkstraLoop g rounds ((g.adj u).foldl (relaxEdge u) st1)

/-- The method `printPathRecursive`: the nodes whose names are printed, in print order.
The first argument bounds the recursion depth; `none` means the bound was hit. -/
def printPathRecursive (parent : Nat → Option Nat) : Nat → Nat → Option (List Nat)
  | 0, _ => none
  | fuel + 1, j =>
    match parent j with
    | none => some [j]
    | some pj => (printPathRecursive parent fuel pj).map (fun l => l ++ [j])

/-- What `findShortestPath` prints. -/
inductive PathResult where
  | invalidCities
  | noPath
  | route (cost : Int) (path : Option (List Nat))
deriving DecidableEq

/-- The method `findShortestPath`.  The cost is printed before the path is reconstructed;
the path is `none` if the reconstruction does not end within `numCities` calls (a parent
chain that ends has no repeated city, so it has at most `numCities` cities). -/
def RoutingGraph.findShortestPath (g : RoutingGraph) (startCity endCity : String) :
    PathResult :=
  match g.getCityIndex startCity, g.getCityIndex endCity with
  | some start, some endIdx =>
    let st := dijkstraLoop g (g.numCities - 1) (dijkstraInit g.numCities start)
    if st.dist endIdx = INT_MAX then PathResult.noPath
    else PathResult.route (st.dist endIdx) (printPathRecursive st.parent g.numCities endIdx)
  | _, _ => PathResult.invalidCities

/-! ### All routes -/

/-- The arrays shared by the calls of `printAllPathsUtil`, and the lines printed so far:
`path` is `path[0 .. pathIdx)`. -/
structure RouteState where
  visited : Nat → Bool
  path : List Nat
  out : List (List Nat)

/-- The `while` loop of `printAllPathsUtil` over an adjacency chain; `call` is the
recursive call. -/
def routesLoop (call : Nat → RouteState → Option RouteState) :
    List RoadConnections → RouteState → Option RouteState
  | [], st => some st
  | e :: rest, st =>
    if !st.visited e.destination && !e.isBlocked then
      match call e.destination st with
      | none => none
      | some st1 => routesLoop call rest st1
    else routesLoop call rest st

/-- The method `printAllPathsUtil`.  The first argument bounds the recursion depth;
`none` means the bound was hit. -/
def printAllPathsUtil (g : RoutingGraph) (d : Option Nat) :
    Nat → Nat → RouteState → Option RouteState
  | 0, _, _ => none
  | fuel + 1, u, st =>
    let st1 : RouteState :=
      { st with visited := Function.update st.visited u true, path := st.path ++ [u] }
    let r :=
      if some u = d then some { st1 with out := st1.out ++ [st1.path] }
      else routesLoop (printAllPathsUtil g d fuel) (g.adj u) st1
    match r with
    | none => none
    | some st2 =>
      some { st2 with path := st2.path.dropLast, visited := Function.update st2.visited u false }

/-- What `findAllRoutes` does. -/
inductive RoutesResult where
  | emitted (paths : List (List Nat))
  | indexOutOfRange
  | depthExceeded
deriving DecidableEq

/-- The method `findAllRoutes`.  With an unknown source the call indexes `visited[-1]`.
The depth bound handed to `printAllPathsUtil` is `numCities`: each nested call marks
one more city as visited. -/
def RoutingGraph.findAllRoutes (g : RoutingGraph) (src dest : String) : RoutesResult :=
  match g.getCityIndex src with
  | none => RoutesResult.indexOutOfRange
  | some s =>
    match printAllPathsUtil g (g.getCityIndex dest) g.numCities s ⟨fun _ => false, [], []⟩ with
    | none => RoutesResult.depthExceeded
    | some st => RoutesResult.emitted st.out

/-! ## TrackerTable -/

/-- The values of the `char`s of a string, as `hashFunc` adds them: the bytes of the
UTF-8 encoding read as signed 8-bit integers. -/
def charValues (s : String) : List Int :=
  (s.data.flatMap String.utf8EncodeChar).map
    (fun b => if b.toNat < 128 then (b.toNat : Int) else (b.toNat : Int) - 256)

/-- The method `hashFunc`: `%` is the C++ remainder, which truncates towards zero. -/
def hashFunc (id : String) : Int :=
  Int.tmod ((charValues id).foldl (fun sum c => wrap32 (sum + c)) 0) 50

/-- The bucket array `HashNode* table[50]`: the chain of each cell.  Only the cells
0 .. 49 exist; `insert` and `search` below touch no other. -/
structure TrackerTable where
  table : Nat → List ParcelPtr

/-- The constructor `TrackerTable()`. -/
def TrackerTable.init : TrackerTable := ⟨fun _ => []⟩

/-- The method `insert`: the new node is put in front of its bucket's chain.  `none`
when the index `hashFunc` computes is not one of the table: the statement
`table[idx] = newNode` then writes outside the array. -/
def TrackerTable.insert (mem : Store) (t : TrackerTable) (p : ParcelPtr) :
    Option TrackerTable :=
  let idx := hashFunc (mem p).id
  if 0 ≤ idx ∧ idx < 50 then
    some ⟨Function.update t.table idx.toNat (p :: t.table idx.toNat)⟩
  else none

/-- Calls `insert` for the parcels of a list, in order; `none` as soon as one call
indexes outside the table. -/
def TrackerTable.insertAll (mem : Store) : List ParcelPtr → TrackerTable → Option TrackerTable
  | [], t => some t
  | p :: ps, t =>
    match t.insert mem p with
    | some t1 => TrackerTable.insertAll mem ps t1
    | none => none

/-- The scan loop of `search` along one chain. -/
def searchChain (mem : Store) (id : String) : List ParcelPtr → Option ParcelPtr
  | [] => none
  | p :: rest => if (mem p).id = id then some p else searchChain mem id rest

/-- What `search` does: it returns a parcel, returns `nullptr`, or reads `table[idx]`
with an index that is not one of the table. -/
inductive SearchResult where
  | found (p : ParcelPtr)
  | notFound
  | indexOutOfRange
deriving DecidableEq

/-- The method `search`. -/
def TrackerTable.search (mem : Store) (t : TrackerTable) (id : String) : SearchResult :=
  let idx := hashFunc id
  if 0 ≤ idx ∧ idx < 50 then
    match searchChain mem id (t.table idx.toNat) with
    | some p => SearchResult.found p
    | none => SearchResult.notFound
  else SearchResult.indexOutOfRange

end Courier

namespace Courier

/-- The index `smallest` that `heapifyDown(index)` computes before its final test. -/
def smallestOf (mem : Store) (s : PriorityScheduler) (index : Nat) : Nat :=
  let smallest := index
  let left := 2 * index + 1
  let right := 2 * index + 2
  let smallest :=
    if left < s.currentSize && isHigherPriority mem (s.heapArray left) (s.heapArray smallest)
    then left else smallest
  let smallest :=
    if right < s.currentSize && isHigherPriority mem (s.heapArray right) (s.heapArray smallest)
    then right else smallest
  smallest

/-- The rank the comparator sorts by: priority first, Heavy before non-Heavy. -/
def rankKey (mem : Store) (p : ParcelPtr) : Int :=
  2 * (mem p).priority + (if (mem p).weightCat = "Heavy" then 0 else 1)

/-- The heap order on `heapArray[0 .. n)`: no node ranks before its parent. -/
def IsHeap (mem : Store) (h : Nat → ParcelPtr) (n : Nat) : Prop :=
  ∀ i, 0 < i → i < n → rankKey mem (h ((i - 1) / 2)) ≤ rankKey mem (h i)

/-- The heap order everywhere except between `k` and its parent, with the parent of `k`
already below the children of `k`: the state `heapifyUp(k)` repairs. -/
def UpInv (mem : Store) (h : Nat → ParcelPtr) (n k : Nat) : Prop :=
  (∀ i, 0 < i → i < n → i ≠ k → rankKey mem (h ((i - 1) / 2)) ≤ rankKey mem (h i))
  ∧ (∀ i, 0 < i → i < n → (i - 1) / 2 = k → 0 < k →
      rankKey mem (h ((k - 1) / 2)) ≤ rankKey mem (h i))

/-- The heap order everywhere except between `k` and its children, with the parent of `k`
already below the children of `k`: the state `heapifyDown(k)` repairs. -/
def DownInv (mem : Store) (h : Nat → ParcelPtr) (n k : Nat) : Prop :=
  (∀ i, 0 < i → i < n → (i - 1) / 2 ≠ k → rankKey mem (h ((i - 1) / 2)) ≤ rankKey mem (h i))
  ∧ (∀ i, 0 < i → i < n → (i - 1) / 2 = k → 0 < k →
      rankKey mem (h ((k - 1) / 2)) ≤ rankKey mem (h i))

/-- The representation invariant of the scheduler. -/
def PriorityScheduler.Valid (mem : Store) (s : PriorityScheduler) : Prop :=
  IsHeap mem s.heapArray s.currentSize ∧ s.currentSize ≤ 100

/-- The scheduler states reachable from an empty scheduler by `insert` and `extractMin`. -/
inductive PriorityScheduler.Reachable (mem : Store) : PriorityScheduler → Prop where
  | init (arr : Nat → ParcelPtr) : PriorityScheduler.Reachable mem ⟨arr, 0⟩
  | step (s : PriorityScheduler) (op : SchedOp) :
      PriorityScheduler.Reachable mem s → PriorityScheduler.Reachable mem (s.step mem op)

end Courier

namespace Courier

/-- Every adjacency node points to a city that exists. -/
def RoutingGraph.WF (g : RoutingGraph) : Prop :=
  ∀ l ∈ g.adjList, ∀ e ∈ l, e.destination < g.numCities

/-- Node `u` has a non-blocked adjacency node leading to `v`. -/
def RoutingGraph.Edge (g : RoutingGraph) (u v : Nat) : Prop :=
  ∃ e ∈ g.adj u, e.destination = v ∧ e.isBlocked = false

/-- A node sequence from `s` to `d` that repeats no node and joins consecutive nodes by
non-blocked edges. -/
def RoutingGraph.IsSimpleRoute (g : RoutingGraph) (s d : Nat) (p : List Nat) : Prop :=
  p.head? = some s ∧ p.getLast? = some d ∧ p.Nodup ∧ p.Chain' g.Edge

/-- A simple route from `u` to `d` through nodes not marked in `V`. -/
def RoutingGraph.Avoiding (g : RoutingGraph) (d : Option Nat) (V : Nat → Bool) (u : Nat)
    (r : List Nat) : Prop :=
  r.head? = some u ∧ r.getLast? = d ∧ r.Nodup ∧ r.Chain' g.Edge ∧ ∀ x ∈ r, V x = false

/-- The number of cities not marked in `V`. -/
def freeCount (n : Nat) (V : Nat → Bool) : Nat :=
  ((Finset.range n).filter (fun i => V i = false)).card

/-- The graph after `blockRoad(a, b, true)` for each pair of the list, in order. -/
def RoutingGraph.blockRoads (g : RoutingGraph) (calls : List (String × String)) :
    RoutingGraph :=
  calls.foldl (fun g c => g.blockRoad c.1 c.2 true) g

/-- Every pair of cities joined by an adjacency node is among the pairs of `calls`,
in one order or the other. -/
def RoutingGraph.CoversAllRoads (g : RoutingGraph) (calls : List (String × String)) : Prop :=
  ∀ u, u < g.numCities → ∀ e ∈ g.adj u, ∃ c ∈ calls,
    (g.getCityIndex c.1 = some u ∧ g.getCityIndex c.2 = some e.destination)
    ∨ (g.getCityIndex c.1 = some e.destination ∧ g.getCityIndex c.2 = some u)

/-- No two distinct cities are joined by more than one road: an adjacency chain holds at
most one node for each destination other than its own city. -/
def RoutingGraph.NoParallelRoads (g : RoutingGraph) : Prop :=
  ∀ u, u < g.numCities → ∀ v, v < g.numCities → v ≠ u →
    ((g.adj u).map (fun e => e.destination)).count v ≤ 1

/-- The chain `l2` is the chain `l1` with some more nodes flagged as blocked. -/
def MoreBlocked (l1 l2 : List RoadConnections) : Prop :=
  List.Forall₂ (fun e1 e2 => e2.destination = e1.destination ∧ e2.weight = e1.weight
    ∧ (e1.isBlocked = true → e2.isBlocked = true)) l1 l2

/-- The adjacency nodes `es` lead from `u` to `v`, each one non-blocked and taken from
the chain of the city reached so far. -/
def RoutingGraph.IsWalk (g : RoutingGraph) : Nat → List RoadConnections → Nat → Prop
  | u, [], v => u = v
  | u, e :: es, v => e ∈ g.adj u ∧ e.isBlocked = false ∧ RoutingGraph.IsWalk g e.destination es v

/-- The total weight of a walk, as an exact integer. -/
def walkCost (es : List RoadConnections) : Int :=
  (es.map (fun e => e.weight)).sum

/-- The cities a walk from `s` passes, in order. -/
def walkNodes (s : Nat) (es : List RoadConnections) : List Nat :=
  s :: es.map (fun e => e.destination)

/-- Every adjacency node has a non-negative weight. -/
def RoutingGraph.NonNegWeights (g : RoutingGraph) : Prop :=
  ∀ l ∈ g.adjList, ∀ e ∈ l, 0 ≤ e.weight

/-- No path from `s` that repeats no city has a total weight above `INT_MAX`: the sums
`dist[u] + weight` of findShortestPath stay in the range of `int`. -/
def RoutingGraph.NoOverflow (g : RoutingGraph) (s : Nat) : Prop :=
  ∀ es v, g.IsWalk s es v → (walkNodes s es).Nodup → walkCost es ≤ INT_MAX

/-- No path from `s` that repeats no city has a total weight of `INT_MAX` or more. -/
def RoutingGraph.BelowIntMax (g : RoutingGraph) (s : Nat) : Prop :=
  ∀ es v, g.IsWalk s es v → (walkNodes s es).Nodup → walkCost es < INT_MAX

/-- City `v` has been reached: `dist[v]` is the cost of a path from `s` without repeated
cities, through visited cities, which the parent array reconstructs. -/
def Reached (g : RoutingGraph) (s : Nat) (st : DijkstraState) (v : Nat) : Prop :=
  ∃ es, g.IsWalk s es v ∧ (walkNodes s es).Nodup ∧ walkCost es = st.dist v
    ∧ (∀ x ∈ walkNodes s es, x ≠ v → st.visited x = true)
    ∧ (∀ x ∈ walkNodes s es, st.dist x ≠ INT_MAX)
    ∧ printPathRecursive st.parent (walkNodes s es).length v = some (walkNodes s es)

/-- The loop invariant of findShortestPath between two rounds. -/
structure DijkstraInv (g : RoutingGraph) (s : Nat) (st : DijkstraState) : Prop where
  dist_s : st.dist s = 0
  range : ∀ v, v < g.numCities → 0 ≤ st.dist v ∧ st.dist v ≤ INT_MAX
  reach : ∀ v, v < g.numCities → st.dist v ≠ INT_MAX → Reached g s st v
  closed : ∀ a, a < g.numCities → st.visited a = true → st.dist a ≠ INT_MAX →
    ∀ e ∈ g.adj a, e.isBlocked = false → st.dist e.destination ≤ st.dist a + e.weight
  order : ∀ a b, a < g.numCities → b < g.numCities → st.visited a = true →
    st.visited b = false → st.dist a ≤ st.dist b

/-- The invariant inside the relaxation loop of city `u`. -/
structure RelaxInv (g : RoutingGraph) (s u : Nat) (st : DijkstraState) : Prop where
  pivot_lt : u < g.numCities
  pivot_visited : st.visited u = true
  pivot_max : ∀ a, a < g.numCities → st.visited a = true → st.dist a ≤ st.dist u
  dist_s : st.dist s = 0
  range : ∀ v, v < g.numCities → 0 ≤ st.dist v ∧ st.dist v ≤ INT_MAX
  reach : ∀ v, v < g.numCities → st.dist v ≠ INT_MAX → Reached g s st v
  closed : ∀ a, a < g.numCities → a ≠ u → st.visited a = true → st.dist a ≠ INT_MAX →
    ∀ e ∈ g.adj a, e.isBlocked = false → st.dist e.destination ≤ st.dist a + e.weight
  order : ∀ a b, a < g.numCities → b < g.numCities → st.visited a = true →
    st.visited b = false → st.dist a ≤ st.dist b

/-- The total weight of a walk as findShortestPath accumulates it: in 32-bit `int`
arithmetic, from the source on. -/
def wrapCost (es : List RoadConnections) : Int :=
  es.foldl (fun acc e => wrap32 (acc + e.weight)) 0

/-- City `v` has a parent chain: the parent array reconstructs a path from `s` to `v`
without repeated cities, through visited cities, whose weights add up to `dist[v]` in
32-bit arithmetic. -/
def Traced (g : RoutingGraph) (s : Nat) (st : DijkstraState) (v : Nat) : Prop :=
  ∃ es, g.IsWalk s es v ∧ (walkNodes s es).Nodup ∧ wrapCost es = st.dist v
    ∧ (∀ x ∈ walkNodes s es, x ≠ v → st.visited x = true)
    ∧ printPathRecursive st.parent (walkNodes s es).length v = some (walkNodes s es)

/-- What the parent array satisfies between two rounds of findShortestPath, whatever the
weights are. -/
structure PathInv (g : RoutingGraph) (s : Nat) (st : DijkstraState) : Prop where
  dist_s : st.dist s = 0
  parent_s : st.parent s = none
  start : st.visited s = true ∨
    ((∀ v, v < g.numCities → v ≠ s → st.dist v = INT_MAX)
      ∧ (∀ v, v < g.numCities → st.visited v = false))
  le_max : ∀ v, st.dist v ≤ INT_MAX
  reach : ∀ v, v < g.numCities → st.dist v ≠ INT_MAX → Traced g s st v

/-- What the parent array satisfies inside the relaxation loop of city `u`. -/
structure RelaxPathInv (g : RoutingGraph) (s u : Nat) (st : DijkstraState) : Prop where
  pivot_lt : u < g.numCities
  pivot_visited : st.visited u = true
  source_visited : st.visited s = true
  dist_s : st.dist s = 0
  parent_s : st.parent s = none
  le_max : ∀ v, st.dist v ≤ INT_MAX
  reach : ∀ v, v < g.numCities → st.dist v ≠ INT_MAX → Traced g s st v

end Courier

namespace Courier

/-! ## Concrete inputs -/

/-- Three cities A, B, C with roads A-B 5, B-C 5, A-C 20. -/
def triangleOps : List GraphOp :=
  [GraphOp.addCity "A", GraphOp.addCity "B", GraphOp.addCity "C",
   GraphOp.addRoute "A" "B" 5, GraphOp.addRoute "B" "C" 5, GraphOp.addRoute "A" "C" 20]

/-- Two cities joined by one road of weight `INT_MAX`. -/
def sentinelOps : List GraphOp :=
  [GraphOp.addCity "A", GraphOp.addCity "B", GraphOp.addRoute "A" "B" 2147483647]

/-- Three cities in a row, each road of weight `INT_MAX - 1`. -/
def overflowOps : List GraphOp :=
  [GraphOp.addCity "A", GraphOp.addCity "B", GraphOp.addCity "C",
   GraphOp.addRoute "A" "B" 2147483646, GraphOp.addRoute "B" "C" 2147483646]

/-- Two cities joined by two roads, of weights 5 and 7. -/
def parallelOps : List GraphOp :=
  [GraphOp.addCity "A", GraphOp.addCity "B",
   GraphOp.addRoute "A" "B" 5, GraphOp.addRoute "A" "B" 7]

/-- A parcel as the constructor leaves it, for a Lahore destination. -/
def sampleParcel (id : String) (priority : Int) (weight : ℚ) (weightCat : String) : Parcel :=
  { id := id, priority := priority, weight := weight, weightCat := weightCat,
    destination := "Lahore", zone := "Central", status := "At Hub", deliveryAttempts := 0,
    isMissing := false, assignedRiderId := -1,
    history := ["Parcel Received at Hub (Lahore)"] }

/-- A store with three parcels; the identifiers of the first two have the same hash. -/
def sampleStore : Store := fun p =>
  if p = 0 then sampleParcel "P1" 2 1 "Light"
  else if p = 1 then sampleParcel "1P" 1 25 "Heavy"
  else sampleParcel "Q7" 1 3 "Light"

/-- Scheduler calls on the sample store: two inserts, one extraction, three inserts. -/
def sampleSchedOps : List SchedOp :=
  [SchedOp.insert 0, SchedOp.insert 1, SchedOp.extractMin, SchedOp.insert 2, SchedOp.insert 1,
   SchedOp.insert 3]

/-- The scheduler after `sampleSchedOps`; it holds four parcels. -/
def sampleScheduler : PriorityScheduler :=
  sampleSchedOps.foldl (fun s op => s.step sampleStore op) ⟨fun _ => 0, 0⟩

end Courier

namespace Courier

/-! ## Parcel: constructor and setters -/

/-- The private method `determineWeightCat`. -/
def Parcel.determineWeightCat (w : ℚ) : String :=
  if w < 5 then "Light"
  else if w < 20 then "Medium"
  else "Heavy"

/-- The private method `determineZone`. -/
def Parcel.determineZone (city : String) : String :=
  if city = "Islamabad" ∨ city = "Peshawar" then "North"
  else if city = "Lahore" ∨ city = "Faisalabad" then "Central"
  else if city = "Karachi" ∨ city = "Multan" then "South"
  else "Unknown"

/-- The method `addEvent`: a new node at the tail of the history list. -/
def Parcel.addEvent (p : Parcel) (desc : String) : Parcel :=
  { p with history := p.history ++ [desc] }

/-- The method `setRiderId`. -/
def Parcel.setRiderId (p : Parcel) (rid : Int) : Parcel :=
  { p with assignedRiderId := rid }

/-- The method `setStatus`. -/
def Parcel.setStatus (p : Parcel) (s : String) : Parcel :=
  { p with status := s }

/-- The method `markMissing`. -/
def Parcel.markMissing (p : Parcel) (flag : Bool) : Parcel :=
  { p with isMissing := flag }

/-- The method `incrementAttempts`: `deliveryAttempts++` on a 32-bit `int`. -/
def Parcel.incrementAttempts (p : Parcel) : Parcel :=
  { p with deliveryAttempts := wrap32 (p.deliveryAttempts + 1) }

/-- The constructor `Parcel(pid, p, w, dest)`. -/
def Parcel.new (pid : String) (p : Int) (w : ℚ) (dest : String) : Parcel :=
  Parcel.addEvent
    { id := pid, priority := p, weight := w, weightCat := Parcel.determineWeightCat w,
      destination := dest, zone := Parcel.determineZone dest, status := "At Hub",
      deliveryAttempts := 0, isMissing := false, assignedRiderId := -1, history := [] }
    "Parcel Received at Hub (Lahore)"

/-- A method call `p->f(...)` through a pointer: the object at `p` is replaced by `f` of
it, every other object stays. -/
def Store.modify (mem : Store) (p : ParcelPtr) (f : Parcel → Parcel) : Store :=
  Function.update mem p (f (mem p))

/-! ## UndoStack -/

/-- The struct `UndoState`. -/
structure UndoState where
  p : ParcelPtr
  prevStatus : String
  description : String
deriving DecidableEq

/-- The linked LIFO `UndoStack`: the states from `top` down. -/
structure UndoStack where
  nodes : List UndoState
deriving DecidableEq

/-- The constructor `UndoStack()`. -/
def UndoStack.init : UndoStack := ⟨[]⟩

/-- The method `push`. -/
def UndoStack.push (u : UndoStack) (p : ParcelPtr) (prevStatus desc : String) : UndoStack :=
  ⟨⟨p, prevStatus, desc⟩ :: u.nodes⟩

/-- The method `pop`: `none` is the return value `false` (and `retState` untouched),
`some s` is `true` with `retState = s`. -/
def UndoStack.pop (u : UndoStack) : Option UndoState × UndoStack :=
  match u.nodes with
  | [] => (none, u)
  | s :: rest => (some s, ⟨rest⟩)

/-- The method `isEmpty`. -/
def UndoStack.isEmpty (u : UndoStack) : Bool :=
  match u.nodes with
  | [] => true
  | _ :: _ => false

/-- Calls `pop` `n` times in a row; the results in call order and the final stack. -/
def UndoStack.popTimes : Nat → UndoStack → List (Option UndoState) × UndoStack
  | 0, u => ([], u)
  | n + 1, u =>
    let r := u.pop
    let rs := UndoStack.popTimes n r.2
    (r.1 :: rs.1, rs.2)

/-! ## Rider -/

/-- The class `Rider`; weights are exact numbers. -/
structure Rider where
  id : Int
  name : String
  capacity : ℚ
  currentLoad : ℚ
deriving DecidableEq

/-- The constructor `Rider(rid, rname, cap)`. -/
def Rider.new (rid : Int) (rname : String) (cap : ℚ) : Rider :=
  { id := rid, name := rname, capacity := cap, currentLoad := 0 }

/-- The method `assignParcel`: the returned flag and the rider afterwards. -/
def Rider.assignParcel (r : Rider) (mem : Store) (p : ParcelPtr) : Bool × Rider :=
  if r.currentLoad + (mem p).weight ≤ r.capacity then
    (true, { r with currentLoad := r.currentLoad + (mem p).weight })
  else (false, r)

/-! ## The arithmetic of `double` -/

/-- The power `2^e` for an integer `e`. -/
def pow2 (e : Int) : ℚ :=
  if 0 ≤ e then ((2 ^ e.toNat : Nat) : ℚ) else 1 / ((2 ^ (-e).toNat : Nat) : ℚ)

/-- The number of halvings that take `n` below 2, at most `fuel` of them. -/
def halvings : Nat → Nat → Nat
  | 0, _ => 0
  | fuel + 1, n => if n < 2 then 0 else halvings fuel (n / 2) + 1

/-- The binary logarithm of a positive natural number, rounded down. -/
def natLog2 (n : Nat) : Nat := halvings n n

/-- The binary exponent of a positive number `x`: the `e` with `2^e ≤ x < 2^(e+1)`. -/
def binExp (x : ℚ) : Int :=
  let e0 : Int := (natLog2 x.num.natAbs : Int) - (natLog2 x.den : Int)
  if pow2 e0 ≤ x then e0 else e0 - 1

/-- The `double` nearest to `x`: IEEE 754 binary64 with 53 significant bits, smallest
exponent -1022, round to nearest, ties to even.  Every finite `double` is a rational
number and is its own rounding.  Where the machine yields an infinity (magnitude
`2^1024` and more) the value stays the finite one, which compares with every finite
`double` as the infinity does. -/
def roundDouble (x : ℚ) : ℚ :=
  if x = 0 then 0
  else
    let e := max (binExp (if x < 0 then -x else x)) (-1022)
    let q := pow2 (e - 52)
    let n := x / q
    let f := Rat.floor n
    let r := n - (f : ℚ)
    let k : Int :=
      if r < 1 / 2 then f
      else if 1 / 2 < r then f + 1
      else if f % 2 = 0 then f else f + 1
    (k : ℚ) * q

/-- The sum `x + y` of two `double`s as the machine computes it: the exact sum,
rounded. -/
def doubleAdd (x y : ℚ) : ℚ := roundDouble (x + y)

/-- The method `assignParcel` with the addition of `double` as the parameter `add`:
`doubleAdd` is what the machine computes, the exact sum is `Rider.assignParcel`. -/
def Rider.assignParcelWith (add : ℚ → ℚ → ℚ) (r : Rider) (mem : Store) (p : ParcelPtr) :
    Bool × Rider :=
  if add r.currentLoad (mem p).weight ≤ r.capacity then
    (true, { r with currentLoad := add r.currentLoad (mem p).weight })
  else (false, r)

/-! ## CourierSystem -/

/-- The controller: its members, together with the heap memory of the parcels it has
allocated (`next` is the address the next `new Parcel` returns). -/
structure CourierSystem where
  mem : Store
  next : ParcelPtr
  pickupQueue : ParcelQueue
  sortingEngine : PriorityScheduler
  warehouseQueue : ParcelQueue
  transitQueue : ParcelQueue
  routingEngine : RoutingGraph
  trackingEngine : TrackerTable
  undo : UndoStack
  riders : Nat → Rider

/-- The constructor `CourierSystem()`.  Nothing is allocated yet; what lies at
unallocated addresses and in `riders` beyond index 2 is immaterial. -/
def CourierSystem.init : CourierSystem :=
  { mem := fun _ => Parcel.new "" 0 0 ""
    next := 0
    pickupQueue := ParcelQueue.init
    sortingEngine := ⟨fun _ => 0, 0⟩
    warehouseQueue := ParcelQueue.init
    transitQueue := ParcelQueue.init
    routingEngine :=
      (((((((((((RoutingGraph.init.addCity "Lahore").addCity "Islamabad").addCity
        "Karachi").addCity "Multan").addCity "Peshawar").addRoute "Lahore" "Islamabad"
        380).addRoute "Lahore" "Multan" 340).addRoute "Islamabad" "Peshawar" 180).addRoute
        "Multan" "Karachi" 950).addRoute "Lahore" "Karachi" 1200).addRoute "Lahore"
        "Peshawar" 560)
    trackingEngine := TrackerTable.init
    undo := UndoStack.init
    riders := fun i =>
      if i = 0 then Rider.new 1 "Ali (Bike)" 10
      else if i = 1 then Rider.new 2 "Bob (Van)" 50
      else if i = 2 then Rider.new 3 "Charlie (Truck)" 200
      else Rider.new 0 "" 0 }

/-- The method `registerParcel`.  When `insert` indexes outside the table (`none`) the
cells of the table are as before; what the write does to the memory outside the array is
not part of the state. -/
def CourierSystem.registerParcel (cs : CourierSystem) (id : String) (prio : Int) (w : ℚ)
    (dest : String) : CourierSystem :=
  let p := cs.next
  let mem1 := Function.update cs.mem p (Parcel.new id prio w dest)
  let tracker1 := (cs.trackingEngine.insert mem1 p).getD cs.trackingEngine
  let pickup1 := cs.pickupQueue.enqueue p
  let mem2 := Store.modify mem1 p (fun x => x.setStatus "In Pickup Queue")
  let undo1 := cs.undo.push p "Created" "Added to Pickup"
  { cs with mem := mem2, next := cs.next + 1, trackingEngine := tracker1,
            pickupQueue := pickup1, undo := undo1 }

/-- The `while` loop of `processPickupQueue`.  The first argument bounds the number of
iterations; the length of the queue is always enough. -/
def CourierSystem.processPickupLoop : Nat → CourierSystem → CourierSystem
  | 0, cs => cs
  | fuel + 1, cs =>
    if cs.pickupQueue.isEmpty then cs
    else
      match cs.pickupQueue.dequeue with
      | (none, _) => cs
      | (some p, pickup1) =>
        let undo1 := cs.undo.push p (cs.mem p).status "Moved to Sorter"
        let mem1 := Store.modify cs.mem p (fun x => x.setStatus "Sorting")
        let sorter1 := cs.sortingEngine.insert mem1 p
        CourierSystem.processPickupLoop fuel
          { cs with pickupQueue := pickup1, undo := undo1, mem := mem1,
                    sortingEngine := sorter1 }

/-- The method `processPickupQueue`. -/
def CourierSystem.processPickupQueue (cs : CourierSystem) : CourierSystem :=
  if cs.pickupQueue.isEmpty then cs
  else CourierSystem.processPickupLoop cs.pickupQueue.nodes.length cs

/-- The `while` loop of `sortToWarehouse`.  The first argument bounds the number of
iterations; `currentSize` is always enough. -/
def CourierSystem.sortLoop : Nat → CourierSystem → CourierSystem
  | 0, cs => cs
  | fuel + 1, cs =>
    if cs.sortingEngine.isEmpty then cs
    else
      match cs.sortingEngine.extractMin cs.mem with
      | (none, _) => cs
      | (some p, sorter1) =>
        let undo1 := cs.undo.push p (cs.mem p).status "Moved to Warehouse"
        let mem1 := Store.modify cs.mem p (fun x => x.setStatus "In Warehouse Queue")
        let warehouse1 := cs.warehouseQueue.enqueue p
        CourierSystem.sortLoop fuel
          { cs with sortingEngine := sorter1, undo := undo1, mem := mem1,
                    warehouseQueue := warehouse1 }

/-- The method `sortToWarehouse`. -/
def CourierSystem.sortToWarehouse (cs : CourierSystem) : CourierSystem :=
  if cs.sortingEngine.isEmpty then cs
  else CourierSystem.sortLoop cs.sortingEngine.currentSize cs

/-- The `for` loop of `assignRider` over the rider indices still to try: `some` is the
state after the `break`, `none` means the loop ran out without assigning. -/
def CourierSystem.tryRiders (cs : CourierSystem) (p : ParcelPtr) :
    List Nat → Option CourierSystem
  | [] => none
  | i :: rest =>
    let res := (cs.riders i).assignParcel cs.mem p
    let cs1 := { cs with riders := Function.update cs.riders i res.2 }
    if res.1 then
      let mem1 := Store.modify cs1.mem p (fun x => x.setRiderId (cs1.riders i).id)
      let undo1 := cs1.undo.push p (mem1 p).status "Assigned Rider"
      let mem2 := Store.modify mem1 p
        (fun x => x.setStatus ("In Transit (Rider: " ++ (cs1.riders i).name ++ ")"))
      let mem3 := Store.modify mem2 p
        (fun x => x.addEvent ("Picked up by " ++ (cs1.riders i).name))
      let transit1 := cs1.transitQueue.enqueue p
      some { cs1 with mem := mem3, undo := undo1, transitQueue := transit1 }
    else CourierSystem.tryRiders cs1 p rest

/-- The method `assignRider`.  The route it prints on success is
`routingEngine.findShortestPath "Lahore" dest`; printing changes no member. -/
def CourierSystem.assignRider (cs : CourierSystem) : CourierSystem :=
  if cs.warehouseQueue.isEmpty then cs
  else
    match cs.warehouseQueue.dequeue with
    | (none, _) => cs
    | (some p, warehouse1) =>
      let cs1 := { cs with warehouseQueue := warehouse1 }
      match CourierSystem.tryRiders cs1 p [0, 1, 2] with
      | some cs2 => cs2
      | none => { cs1 with warehouseQueue := cs1.warehouseQueue.enqueue p }

/-- The `for` loop of `assignRider` with the addition of `double` as the parameter
`add`, as in `Rider.assignParcelWith`. -/
def CourierSystem.tryRidersWith (add : ℚ → ℚ → ℚ) (cs : CourierSystem) (p : ParcelPtr) :
    List Nat → Option CourierSystem
  | [] => none
  | i :: rest =>
    let res := (cs.riders i).assignParcelWith add cs.mem p
    let cs1 := { cs with riders := Function.update cs.riders i res.2 }
    if res.1 then
      let mem1 := Store.modify cs1.mem p (fun x => x.setRiderId (cs1.riders i).id)
      let undo1 := cs1.undo.push p (mem1 p).status "Assigned Rider"
      let mem2 := Store.modify mem1 p
        (fun x => x.setStatus ("In Transit (Rider: " ++ (cs1.riders i).name ++ ")"))
      let mem3 := Store.modify mem2 p
        (fun x => x.addEvent ("Picked up by " ++ (cs1.riders i).name))
      let transit1 := cs1.transitQueue.enqueue p
      some { cs1 with mem := mem3, undo := undo1, transitQueue := transit1 }
    else CourierSystem.tryRidersWith add cs1 p rest

/-- The method `assignRider` with the addition of `double` as the parameter `add`:
with `doubleAdd` it is the method as the machine runs it, with the exact sum it is
`CourierSystem.assignRider`. -/
def CourierSystem.assignRiderWith (add : ℚ → ℚ → ℚ) (cs : CourierSystem) : CourierSystem :=
  if cs.warehouseQueue.isEmpty then cs
  else
    match cs.warehouseQueue.dequeue with
    | (none, _) => cs
    | (some p, warehouse1) =>
      let cs1 := { cs with warehouseQueue := warehouse1 }
      match CourierSystem.tryRidersWith add cs1 p [0, 1, 2] with
      | some cs2 => cs2
      | none => { cs1 with warehouseQueue := cs1.warehouseQueue.enqueue p }

/-- The method `reportMissing`.  When `search` indexes outside the table the scan runs
over memory outside the array; the state is then left as it is. -/
def CourierSystem.reportMissing (cs : CourierSystem) (id : String) : CourierSystem :=
  match cs.trackingEngine.search cs.mem id with
  | SearchResult.found p =>
    let undo1 := cs.undo.push p (cs.mem p).status "Reported Missing"
    let mem1 := Store.modify cs.mem p (fun x => x.setStatus "MISSING")
    let mem2 := Store.modify mem1 p (fun x => x.markMissing true)
    { cs with undo := undo1, mem := mem2 }
  | SearchResult.notFound => cs
  | SearchResult.indexOutOfRange => cs

/-- The method `undoLastOperation`. -/
def CourierSystem.undoLastOperation (cs : CourierSystem) : CourierSystem :=
  match cs.undo.pop with
  | (some state, undo1) =>
    { cs with undo := undo1,
              mem := Store.modify cs.mem state.p (fun x => x.setStatus state.prevStatus) }
  | (none, _) => cs

/-- The method `releaseRiderLoad`; `rid - 1` is a subtraction of 32-bit `int`s. -/
def CourierSystem.releaseRiderLoad (cs : CourierSystem) (p : ParcelPtr) : CourierSystem :=
  let rid := (cs.mem p).assignedRiderId
  if rid ≠ -1 then
    let index := wrap32 (rid - 1)
    let riders1 :=
      if 0 ≤ index ∧ index < 3 then
        let r := cs.riders index.toNat
        let load1 := r.currentLoad - (cs.mem p).weight
        let load2 := if load1 < 0 then 0 else load1
        Function.update cs.riders index.toNat { r with currentLoad := load2 }
      else cs.riders
    { cs with riders := riders1, mem := Store.modify cs.mem p (fun x => x.setRiderId (-1)) }
  else cs

/-- The method `simulateParcelLifecycle`; `choice` is the number read from the input.
When `search` indexes outside the table the state is left as it is, as in
`reportMissing`. -/
def CourierSystem.simulateParcelLifecycle (cs : CourierSystem) (id : String) (choice : Int) :
    CourierSystem :=
  match cs.trackingEngine.search cs.mem id with
  | SearchResult.notFound => cs
  | SearchResult.indexOutOfRange => cs
  | SearchResult.found p =>
    if choice = 1 then
      let mem1 := Store.modify cs.mem p (fun x => x.setStatus "Arrived at Dest Hub")
      let mem2 := Store.modify mem1 p
        (fun x => x.addEvent ("Unloaded at " ++ x.destination ++ " warehouse"))
      CourierSystem.releaseRiderLoad { cs with mem := mem2 } p
    else if choice = 2 then
      let mem1 := Store.modify cs.mem p (fun x => x.incrementAttempts)
      let mem2 := Store.modify mem1 p (fun x => x.setStatus "Out for Delivery")
      let mem3 := Store.modify mem2 p
        (fun x => x.addEvent ("Delivery Attempt #" ++ toString x.deliveryAttempts))
      { cs with mem := mem3 }
    else if choice = 3 then
      let mem1 := Store.modify cs.mem p (fun x => x.setStatus "Delivered")
      let mem2 := Store.modify mem1 p (fun x => x.addEvent "Final Delivery Successful")
      CourierSystem.releaseRiderLoad { cs with mem := mem2 } p
    else if choice = 4 then
      let mem1 := Store.modify cs.mem p (fun x => x.setStatus "Returned")
      let mem2 := Store.modify mem1 p
        (fun x => x.addEvent "Returned to Sender (Failed Delivery)")
      CourierSystem.releaseRiderLoad { cs with mem := mem2 } p
    else cs

/-- The method `manageRoads`; `op` is the number read from the input.  Option 3 prints
the routes of `findAllRoutes` and changes no member. -/
def CourierSystem.manageRoads (cs : CourierSystem) (op : Int) (c1 c2 : String) :
    CourierSystem :=
  if op = 1 then { cs with routingEngine := cs.routingEngine.blockRoad c1 c2 true }
  else if op = 2 then { cs with routingEngine := cs.routingEngine.blockRoad c1 c2 false }
  else cs

/-- The method `track`: it prints the parcel found and changes no member. -/
def CourierSystem.track (cs : CourierSystem) (_id : String) : CourierSystem := cs

/-- One call of a public method of the controller. -/
inductive EngineOp where
  | registerParcel (id : String) (prio : Int) (w : ℚ) (dest : String)
  | processPickupQueue
  | sortToWarehouse
  | assignRider
  | reportMissing (id : String)
  | undoLastOperation
  | simulateParcelLifecycle (id : String) (choice : Int)
  | manageRoads (op : Int) (c1 c2 : String)
  | track (id : String)

/-- Runs one method call. -/
def CourierSystem.step (cs : CourierSystem) : EngineOp → CourierSystem
  | EngineOp.registerParcel id prio w dest => cs.registerParcel id prio w dest
  | EngineOp.processPickupQueue => cs.processPickupQueue
  | EngineOp.sortToWarehouse => cs.sortToWarehouse
  | EngineOp.assignRider => cs.assignRider
  | EngineOp.reportMissing id => cs.reportMissing id
  | EngineOp.undoLastOperation => cs.undoLastOperation
  | EngineOp.simulateParcelLifecycle id choice => cs.simulateParcelLifecycle id choice
  | EngineOp.manageRoads op c1 c2 => cs.manageRoads op c1 c2
  | EngineOp.track id => cs.track id

/-- The state after a sequence of method calls on a fresh controller. -/
def CourierSystem.run (ops : List EngineOp) : CourierSystem :=
  ops.foldl CourierSystem.step CourierSystem.init

/-- The controller states a sequence of method calls can lead to. -/
inductive CourierSystem.Reachable : CourierSystem → Prop where
  | init : CourierSystem.Reachable CourierSystem.init
  | step (cs : CourierSystem) (op : EngineOp) :
      CourierSystem.Reachable cs → CourierSystem.Reachable (cs.step op)

/-! ## Predicates used in the statements -/

/-- The fields of a parcel for which the class has no setter. -/
def Parcel.fixed (x : Parcel) : String × Int × ℚ × String × String × String :=
  (x.id, x.priority, x.weight, x.weightCat, x.destination, x.zone)

/-- The fields of a rider other than its load. -/
def Rider.fixed (r : Rider) : Int × String × ℚ := (r.id, r.name, r.capacity)

/-- State `b` continues state `a`: no address handed out in `a` is handed out again, and
the riders and the parcels allocated in `a` have kept their fixed fields. -/
def CourierSystem.Extends (a b : CourierSystem) : Prop :=
  a.next ≤ b.next
  ∧ (∀ i, (b.riders i).fixed = (a.riders i).fixed)
  ∧ ∀ q, q < a.next → (b.mem q).fixed = (a.mem q).fixed

/-! ## Concrete method-call sequences -/

/-- One parcel of 4 kg for Lahore taken through intake, sorting, the warehouse and the
rider assignment. -/
def deliveryOps : List EngineOp :=
  [EngineOp.registerParcel "P1" 1 4 "Lahore", EngineOp.processPickupQueue,
   EngineOp.sortToWarehouse, EngineOp.assignRider]

/-- One parcel of 30 kg, too heavy for the first rider, taken up to the warehouse. -/
def vanOps : List EngineOp :=
  [EngineOp.registerParcel "P1" 1 30 "Multan", EngineOp.processPickupQueue,
   EngineOp.sortToWarehouse]

/-- One parcel of 500 kg, more than any rider carries, taken up to the warehouse. -/
def oversizeOps : List EngineOp :=
  [EngineOp.registerParcel "P1" 1 500 "Karachi", EngineOp.processPickupQueue,
   EngineOp.sortToWarehouse]

/-- Parcels of 4, 4 and 5 kg of priorities 1, 2, 3, registered. -/
def intakeOps : List EngineOp :=
  [EngineOp.registerParcel "A" 1 4 "Lahore", EngineOp.registerParcel "B" 2 4 "Lahore",
   EngineOp.registerParcel "C" 3 5 "Lahore"]

/-- The three parcels of `intakeOps` taken to the warehouse, the two of 4 kg assigned. -/
def bikeOps : List EngineOp :=
  intakeOps ++ [EngineOp.processPickupQueue, EngineOp.sortToWarehouse, EngineOp.assignRider,
    EngineOp.assignRider]

/-- 101 parcels registered one after the other, none moved on yet. -/
def crowdedOps : List EngineOp :=
  (List.range 101).map (fun k => EngineOp.registerParcel ("P" ++ toString k) 1 1 "Lahore")

/-- Three undo records for the parcels 0, 1, 0. -/
def sampleRecords : List UndoState :=
  [⟨0, "At Hub", "first"⟩, ⟨1, "Sorting", "second"⟩, ⟨0, "In Pickup Queue", "third"⟩]

end Courier

namespace Courier

/-! ## Predicates on controller states -/

/-- The positions parcels occupy: the pickup queue, the heap array up to `currentSize`,
the warehouse queue and the transit queue, one after the other. -/
def CourierSystem.positions (cs : CourierSystem) : List ParcelPtr :=
  cs.pickupQueue.nodes ++ cs.sortingEngine.held ++ cs.warehouseQueue.nodes
    ++ cs.transitQueue.nodes

/-- The positions before the rider assignment: pickup queue, heap and warehouse queue. -/
def CourierSystem.waiting (cs : CourierSystem) : List ParcelPtr :=
  cs.pickupQueue.nodes ++ cs.sortingEngine.held ++ cs.warehouseQueue.nodes

/-- No parcel occupies two positions, and the queues, the heap and the tracker index hold
allocated parcels only. -/
def CourierSystem.WF (cs : CourierSystem) : Prop :=
  (∀ q, cs.positions.count q ≤ 1)
  ∧ (∀ q, q ∈ cs.positions → q < cs.next)
  ∧ (∀ h q, q ∈ cs.trackingEngine.table h → q < cs.next)

/-- State `b` has the allocation counter and the tracker index of state `a`, and its
positions are positions of `a`. -/
def CourierSystem.Shuffles (a b : CourierSystem) : Prop :=
  b.next = a.next
  ∧ b.trackingEngine = a.trackingEngine
  ∧ (∀ q, b.positions.count q ≤ a.positions.count q)
  ∧ (∀ q, q ∈ b.waiting → q ∈ a.waiting)

/-- State `b` has the riders of state `a`, and every parcel has the weight and the rider
id it has in `a`. -/
def CourierSystem.Quiet (a b : CourierSystem) : Prop :=
  b.riders = a.riders
  ∧ ∀ q, (b.mem q).weight = (a.mem q).weight
      ∧ (b.mem q).assignedRiderId = (a.mem q).assignedRiderId

/-- The sum of the weights of the allocated parcels whose rider id is `rid`. -/
def CourierSystem.assignedLoad (cs : CourierSystem) (rid : Int) : ℚ :=
  Finset.sum (Finset.range cs.next)
    (fun q => if (cs.mem q).assignedRiderId = rid then (cs.mem q).weight else 0)

/-- The allocated parcels have positive weights and rider id -1, 1, 2 or 3, the parcels
not yet assigned have rider id -1, and the load of each rider is the sum of the weights
of the parcels with his id and is at most his capacity. -/
def CourierSystem.LoadInv (cs : CourierSystem) : Prop :=
  (∀ q, q < cs.next → 0 < (cs.mem q).weight)
  ∧ (∀ q, q < cs.next → (cs.mem q).assignedRiderId = -1
      ∨ ∃ k : Nat, k < 3 ∧ (cs.mem q).assignedRiderId = (k : Int) + 1)
  ∧ (∀ q, q ∈ cs.waiting → (cs.mem q).assignedRiderId = -1)
  ∧ (∀ i : Nat, i < 3 → (cs.riders i).currentLoad = cs.assignedLoad ((i : Int) + 1))
  ∧ (∀ i : Nat, i < 3 → (cs.riders i).currentLoad ≤ (cs.riders i).capacity)

/-- Parcel `p2` carries the identifier of parcel `p1` and stands before every occurrence
of `p1` in the chain of that identifier. -/
def CourierSystem.Shadowed (cs : CourierSystem) (p1 p2 : ParcelPtr) : Prop :=
  p1 < cs.next ∧ p2 < cs.next ∧ p1 ≠ p2 ∧ (cs.mem p2).id = (cs.mem p1).id
  ∧ (0 ≤ hashFunc (cs.mem p1).id ∧ hashFunc (cs.mem p1).id < 50)
  ∧ ∃ pre post, cs.trackingEngine.table (hashFunc (cs.mem p1).id).toNat = pre ++ p2 :: post
      ∧ p1 ∉ pre

/-- The identifier a method call hands to the tracker table, if it hands it one. -/
def EngineOp.ident : EngineOp → Option String
  | EngineOp.registerParcel id _ _ _ => some id
  | EngineOp.reportMissing id => some id
  | EngineOp.simulateParcelLifecycle id _ => some id
  | EngineOp.track id => some id
  | _ => none

/-- Every identifier the method calls of the list hand to the tracker table has its index
among the fifty of the table. -/
def InTable (ops : List EngineOp) : Prop :=
  ∀ op id, op ∈ ops → op.ident = some id → 0 ≤ hashFunc id ∧ hashFunc id < 50

/-- Every method call of the list that registers a parcel gives it a positive weight. -/
def PositiveWeights (ops : List EngineOp) : Prop :=
  ∀ id prio w d, EngineOp.registerParcel id prio w d ∈ ops → 0 < w

/-! ## More concrete method-call sequences -/

/-- The identifier "P1" registered twice, for Lahore and for Multan. -/
def duplicateOps : List EngineOp :=
  [EngineOp.registerParcel "P1" 1 4 "Lahore", EngineOp.registerParcel "P1" 2 6 "Multan"]

/-- The parcels of `bikeOps`, the third assigned as well, the first delivered, the second
reported missing and returned. -/
def roundOps : List EngineOp :=
  bikeOps ++ [EngineOp.assignRider, EngineOp.simulateParcelLifecycle "A" 3,
    EngineOp.reportMissing "B", EngineOp.simulateParcelLifecycle "B" 4,
    EngineOp.undoLastOperation]

/-- The three parcels of `bikeOps`, all three assigned: the first rider carries the two
of 4 kg, the second the one of 5 kg. -/
def loadedOps : List EngineOp :=
  bikeOps ++ [EngineOp.assignRider]

/-- A parcel of 500 kg, more than any rider carries, and one of 4 kg behind it, taken to
the warehouse. -/
def backlogOps : List EngineOp :=
  [EngineOp.registerParcel "BIG" 1 500 "Karachi", EngineOp.registerParcel "SMALL" 2 4 "Lahore",
   EngineOp.processPickupQueue, EngineOp.sortToWarehouse]

/-- A parcel of weight 0.1 as a `double` assigned to the first rider, then a parcel of
weight 9.9 as a `double` taken to the warehouse. -/
def roundingOps : List EngineOp :=
  [EngineOp.registerParcel "A" 1 (roundDouble (1 / 10)) "Lahore", EngineOp.processPickupQueue,
   EngineOp.sortToWarehouse, EngineOp.assignRider,
   EngineOp.registerParcel "B" 1 (roundDouble (99 / 10)) "Lahore", EngineOp.processPickupQueue,
   EngineOp.sortToWarehouse]

/-- Loads of 1e-20, 45 and 195 kg as `double`s on the three riders and a parcel of 10 kg at
the head of the warehouse queue, on an otherwise fresh controller. -/
def absorbedState : CourierSystem :=
  { CourierSystem.init with
    mem := Function.update CourierSystem.init.mem 0 (Parcel.new "P1" 1 10 "Lahore")
    next := 1
    warehouseQueue := ⟨[0]⟩
    riders := fun i =>
      if i = 0 then { Rider.new 1 "Ali (Bike)" 10 with
        currentLoad := roundDouble (1 / 100000000000000000000) }
      else if i = 1 then { Rider.new 2 "Bob (Van)" 50 with currentLoad := 45 }
      else if i = 2 then { Rider.new 3 "Charlie (Truck)" 200 with currentLoad := 195 }
      else Rider.new 0 "" 0 }

end Courier

namespace Courier

/-! ## ParcelQueue: FIFO order -/

theorem ParcelQueue.enqueue_nodes (q : ParcelQueue) (p : ParcelPtr) :
    (q.enqueue p).nodes = q.nodes ++ [p] := by
  unfold ParcelQueue.enqueue
  cases h : q.nodes <;> simp

theorem ParcelQueue.foldl_enqueue_nodes (es : List ParcelPtr) (q : ParcelQueue) :
    (es.foldl ParcelQueue.enqueue q).nodes = q.nodes ++ es := by
  induction es generalizing q with
  | nil => simp
  | cons e es ih => simp [ih, ParcelQueue.enqueue_nodes]

theorem ParcelQueue.dequeueTimes_nodes (es : List ParcelPtr) :
    ParcelQueue.dequeueTimes es.length ⟨es⟩ = (es.map some, ⟨[]⟩) := by
  induction es with
  | nil => rfl
  | cons e es ih => simp [ParcelQueue.dequeueTimes, ParcelQueue.dequeue, ih]

/-- C9: enqueueing `e1 .. en` into an empty queue and then calling `dequeue` `n` times
returns `e1 .. en` in that order; one further `dequeue` returns null and leaves the
queue empty. -/
theorem ParcelQueue.fifo_order (es : List ParcelPtr) :
    (ParcelQueue.dequeueTimes es.length (es.foldl ParcelQueue.enqueue ParcelQueue.init)).1
      = es.map some
    ∧ ((ParcelQueue.dequeueTimes es.length
          (es.foldl ParcelQueue.enqueue ParcelQueue.init)).2.dequeue).1 = none
    ∧ ((ParcelQueue.dequeueTimes es.length
          (es.foldl ParcelQueue.enqueue ParcelQueue.init)).2.dequeue).2.isEmpty = true := by
  have h : es.foldl ParcelQueue.enqueue ParcelQueue.init = ⟨es⟩ := by
    have := ParcelQueue.foldl_enqueue_nodes es ParcelQueue.init
    cases hq : es.foldl ParcelQueue.enqueue ParcelQueue.init with
    | mk nodes => rw [hq] at this; simpa [ParcelQueue.init] using this
  rw [h, ParcelQueue.dequeueTimes_nodes]
  simp [ParcelQueue.dequeue, ParcelQueue.isEmpty]

/-! ## TrackerTable: round trip -/

theorem TrackerTable.insert_some (mem : Store) (t : TrackerTable) (p : ParcelPtr)
    (h : 0 ≤ hashFunc (mem p).id ∧ hashFunc (mem p).id < 50) :
    t.insert mem p
      = some ⟨Function.update t.table (hashFunc (mem p).id).toNat
          (p :: t.table (hashFunc (mem p).id).toNat)⟩ := by
  unfold TrackerTable.insert
  simp only [if_pos h]

theorem TrackerTable.insert_none (mem : Store) (t : TrackerTable) (p : ParcelPtr)
    (h : ¬ (0 ≤ hashFunc (mem p).id ∧ hashFunc (mem p).id < 50)) :
    t.insert mem p = none := by
  unfold TrackerTable.insert
  simp only [if_neg h]

theorem TrackerTable.search_in_range (mem : Store) (t : TrackerTable) (id : String)
    (h : 0 ≤ hashFunc id ∧ hashFunc id < 50) :
    t.search mem id
      = match searchChain mem id (t.table (hashFunc id).toNat) with
        | some p => SearchResult.found p
        | none => SearchResult.notFound := by
  unfold TrackerTable.search
  simp only [if_pos h]

theorem TrackerTable.search_out_of_range (mem : Store) (t : TrackerTable) (id : String)
    (h : ¬ (0 ≤ hashFunc id ∧ hashFunc id < 50)) :
    t.search mem id = SearchResult.indexOutOfRange := by
  unfold TrackerTable.search
  simp only [if_neg h]

theorem TrackerTable.insertAll_table (mem : Store) (ps : List ParcelPtr) (t : TrackerTable)
    (hr : ∀ p, p ∈ ps → 0 ≤ hashFunc (mem p).id ∧ hashFunc (mem p).id < 50) :
    ∃ t1, TrackerTable.insertAll mem ps t = some t1
      ∧ ∀ k, t1.table k
          = (ps.reverse.filter (fun p => decide ((hashFunc (mem p).id).toNat = k)))
              ++ t.table k := by
  induction ps generalizing t with
  | nil => exact ⟨t, rfl, fun k => by simp⟩
  | cons p ps ih =>
    have hp := hr p (List.mem_cons_self _ _)
    obtain ⟨t1, h1, h2⟩ := ih
      ⟨Function.update t.table (hashFunc (mem p).id).toNat
        (p :: t.table (hashFunc (mem p).id).toNat)⟩
      (fun q hq => hr q (List.mem_cons_of_mem _ hq))
    refine ⟨t1, ?_, ?_⟩
    · rw [TrackerTable.insertAll, TrackerTable.insert_some mem t p hp]
      exact h1
    · intro k
      rw [h2 k]
      by_cases hk : (hashFunc (mem p).id).toNat = k
      · subst hk
        simp [List.filter_append, Function.update_same]
      · simp [List.filter_append, hk, Function.update_noteq (Ne.symm hk)]

theorem searchChain_eq_find (mem : Store) (id : String) (l : List ParcelPtr) :
    searchChain mem id l = l.find? (fun p => decide ((mem p).id = id)) := by
  induction l with
  | nil => rfl
  | cons p l ih =>
    by_cases h : (mem p).id = id <;> simp [searchChain, List.find?, h, ih]

theorem find_filter_hash (mem : Store) (id : String) (l : List ParcelPtr) :
    (l.filter (fun p => decide ((hashFunc (mem p).id).toNat = (hashFunc id).toNat))).find?
        (fun p => decide ((mem p).id = id))
      = l.find? (fun p => decide ((mem p).id = id)) := by
  induction l with
  | nil => rfl
  | cons p l ih =>
    by_cases h : (mem p).id = id
    · simp [List.filter, h]
    · by_cases hh : (hashFunc (mem p).id).toNat = (hashFunc id).toNat
      · simp [List.filter, h, hh, ih]
      · simp [List.filter, h, hh, ih]

theorem searchChain_mem (mem : Store) (id : String) (l : List ParcelPtr) (p : ParcelPtr)
    (h : searchChain mem id l = some p) : p ∈ l ∧ (mem p).id = id := by
  induction l with
  | nil => simp [searchChain] at h
  | cons q l ih =>
    unfold searchChain at h
    split at h
    · rename_i hq
      injection h with h
      subst h
      exact ⟨List.mem_cons_self _ _, hq⟩
    · exact ⟨List.mem_cons_of_mem _ (ih h).1, (ih h).2⟩

theorem searchChain_none (mem : Store) (id : String) (l : List ParcelPtr)
    (h : searchChain mem id l = none) : ∀ p, p ∈ l → (mem p).id ≠ id := by
  rw [searchChain_eq_find, List.find?_eq_none] at h
  intro p hp
  simpa using h p hp

/-- A parcel `search` finds is in the chain of the identifier and carries it. -/
theorem TrackerTable.search_found (mem : Store) (t : TrackerTable) (id : String)
    (p : ParcelPtr) (h : t.search mem id = SearchResult.found p) :
    (0 ≤ hashFunc id ∧ hashFunc id < 50) ∧ p ∈ t.table (hashFunc id).toNat
      ∧ (mem p).id = id := by
  by_cases hr : 0 ≤ hashFunc id ∧ hashFunc id < 50
  · rw [TrackerTable.search_in_range mem t id hr] at h
    cases hc : searchChain mem id (t.table (hashFunc id).toNat) with
    | none => rw [hc] at h; cases h
    | some q =>
      rw [hc] at h
      injection h with h
      subst h
      exact ⟨hr, searchChain_mem mem id _ q hc⟩
  · rw [TrackerTable.search_out_of_range mem t id hr] at h
    cases h

/-- When `search` finds nothing, no parcel of the chain of the identifier carries it. -/
theorem TrackerTable.search_notFound (mem : Store) (t : TrackerTable) (id : String)
    (h : t.search mem id = SearchResult.notFound) :
    (0 ≤ hashFunc id ∧ hashFunc id < 50)
      ∧ ∀ p, p ∈ t.table (hashFunc id).toNat → (mem p).id ≠ id := by
  by_cases hr : 0 ≤ hashFunc id ∧ hashFunc id < 50
  · rw [TrackerTable.search_in_range mem t id hr] at h
    cases hc : searchChain mem id (t.table (hashFunc id).toNat) with
    | none => exact ⟨hr, searchChain_none mem id _ hc⟩
    | some q => rw [hc] at h; cases h
  · rw [TrackerTable.search_out_of_range mem t id hr] at h
    cases h

/-- With an index inside the table `search` finds a parcel or finds none. -/
theorem TrackerTable.search_cases (mem : Store) (t : TrackerTable) (id : String)
    (hr : 0 ≤ hashFunc id ∧ hashFunc id < 50) :
    (∃ p, t.search mem id = SearchResult.found p) ∨ t.search mem id = SearchResult.notFound := by
  rw [TrackerTable.search_in_range mem t id hr]
  cases searchChain mem id (t.table (hashFunc id).toNat) with
  | none => exact Or.inr rfl
  | some q => exact Or.inl ⟨q, rfl⟩

/-- The parcel `search` returns after a run of inserts inside the table: the most
recently inserted one with the searched identifier. -/
theorem TrackerTable.search_insertAll (mem : Store) (ps : List ParcelPtr) (t1 : TrackerTable)
    (hr : ∀ p, p ∈ ps → 0 ≤ hashFunc (mem p).id ∧ hashFunc (mem p).id < 50)
    (ht : TrackerTable.insertAll mem ps TrackerTable.init = some t1) (id : String)
    (hid : 0 ≤ hashFunc id ∧ hashFunc id < 50) :
    t1.search mem id
      = match ps.reverse.find? (fun p => decide ((mem p).id = id)) with
        | some p => SearchResult.found p
        | none => SearchResult.notFound := by
  obtain ⟨t2, h1, h2⟩ := TrackerTable.insertAll_table mem ps TrackerTable.init hr
  rw [ht] at h1
  injection h1 with h1
  subst h1
  rw [TrackerTable.search_in_range mem t1 id hid, h2, searchChain_eq_find]
  simp only [TrackerTable.init, List.append_nil]
  rw [find_filter_hash mem id ps.reverse]

theorem find_of_nodup_ids (mem : Store) (l : List ParcelPtr)
    (hd : (l.map (fun p => (mem p).id)).Nodup) (p : ParcelPtr) (hp : p ∈ l) :
    l.find? (fun q => decide ((mem q).id = (mem p).id)) = some p := by
  induction l with
  | nil => simp at hp
  | cons q l ih =>
    rw [List.map_cons, List.nodup_cons] at hd
    rcases List.mem_cons.mp hp with rfl | hpl
    · simp
    · have hne : (mem q).id ≠ (mem p).id := by
        intro heq
        apply hd.1
        rw [heq]
        exact List.mem_map.mpr ⟨p, hpl, rfl⟩
      simp [List.find?, hne, ih hd.2 hpl]

/-- C10: when parcels with pairwise distinct identifiers, each with an index inside the
table, are inserted into an empty table, every `insert` stays inside the table and, for
an identifier `s` with an index inside the table, `search(s)` returns the inserted
parcel whose identifier is `s`, and null when no inserted parcel has identifier `s`,
whatever bucket `s` hashes to.  For an identifier whose index is not one of the table,
as "é" with index -48, `insert` and `search` index outside the array. -/
theorem TrackerTable.search_round_trip (mem : Store) (ps : List ParcelPtr) (s : String) :
    ((ps.map (fun p => (mem p).id)).Nodup →
      (∀ p, p ∈ ps → 0 ≤ hashFunc (mem p).id ∧ hashFunc (mem p).id < 50) →
      ∃ t, TrackerTable.insertAll mem ps TrackerTable.init = some t
        ∧ (0 ≤ hashFunc s ∧ hashFunc s < 50 →
            (∀ p, p ∈ ps → (mem p).id = s → t.search mem s = SearchResult.found p)
            ∧ ((∀ p, p ∈ ps → (mem p).id ≠ s) → t.search mem s = SearchResult.notFound)))
    ∧ (∀ (t : TrackerTable) p,
        ¬ (0 ≤ hashFunc (mem p).id ∧ hashFunc (mem p).id < 50) → t.insert mem p = none)
    ∧ (∀ t : TrackerTable, ¬ (0 ≤ hashFunc s ∧ hashFunc s < 50) →
        t.search mem s = SearchResult.indexOutOfRange)
    ∧ hashFunc "é" = -48 := by
  refine ⟨?_, fun t p h => TrackerTable.insert_none mem t p h,
    fun t h => TrackerTable.search_out_of_range mem t s h, by decide⟩
  intro hd hr
  obtain ⟨t, ht, _⟩ := TrackerTable.insertAll_table mem ps TrackerTable.init hr
  refine ⟨t, ht, ?_⟩
  intro hs
  rw [TrackerTable.search_insertAll mem ps t hr ht s hs]
  constructor
  · intro p hp hps
    subst hps
    rw [find_of_nodup_ids mem ps.reverse
      (by rw [List.map_reverse]; exact List.nodup_reverse.mpr hd) p (List.mem_reverse.mpr hp)]
  · intro h
    have : ps.reverse.find? (fun p => decide ((mem p).id = s)) = none := by
      rw [List.find?_eq_none]
      intro p hp
      simpa using h p (List.mem_reverse.mp hp)
    rw [this]

end Courier

namespace Courier

/-! ## PriorityScheduler: heap order -/

theorem isHigherPriority_iff (mem : Store) (a b : ParcelPtr) :
    isHigherPriority mem a b = true ↔ rankKey mem a < rankKey mem b := by
  unfold isHigherPriority rankKey
  by_cases hp : (mem a).priority = (mem b).priority
  · by_cases ha : (mem a).weightCat = "Heavy" <;> by_cases hb : (mem b).weightCat = "Heavy" <;>
      simp [hp, ha, hb]
  · by_cases ha : (mem a).weightCat = "Heavy" <;> by_cases hb : (mem b).weightCat = "Heavy" <;>
      simp [hp, ha, hb] <;> omega

theorem isHigherPriority_false_iff (mem : Store) (a b : ParcelPtr) :
    isHigherPriority mem a b = false ↔ rankKey mem b ≤ rankKey mem a := by
  rw [← not_lt, ← isHigherPriority_iff]
  simp

theorem PriorityScheduler.swap_apply (s : PriorityScheduler) (a b x : Nat) :
    (s.swap a b).heapArray x =
      if x = b then s.heapArray a else if x = a then s.heapArray b else s.heapArray x := by
  simp only [PriorityScheduler.swap, Function.update_apply]

theorem PriorityScheduler.swap_size (s : PriorityScheduler) (a b : Nat) :
    (s.swap a b).currentSize = s.currentSize := rfl

theorem IsHeap.root_le (mem : Store) (h : Nat → ParcelPtr) (n : Nat) (hh : IsHeap mem h n) :
    ∀ i, i < n → rankKey mem (h 0) ≤ rankKey mem (h i) := by
  intro i
  induction i using Nat.strong_induction_on with
  | _ i ih =>
    intro hi
    by_cases h0 : i = 0
    · subst h0; exact le_refl _
    · have hp := hh i (by omega) hi
      have := ih ((i - 1) / 2) (by omega) (by omega)
      omega

theorem heapifyUp_size (mem : Store) (fuel : Nat) (s : PriorityScheduler) (k : Nat) :
    (PriorityScheduler.heapifyUp mem fuel s k).currentSize = s.currentSize := by
  induction fuel generalizing s k with
  | zero => rfl
  | succ fuel ih =>
    unfold PriorityScheduler.heapifyUp
    split
    · rfl
    · simp only
      split
      · rw [ih, PriorityScheduler.swap_size]
      · rfl

theorem heapifyDown_succ (mem : Store) (fuel : Nat) (s : PriorityScheduler) (k : Nat) :
    PriorityScheduler.heapifyDown mem (fuel + 1) s k =
      if smallestOf mem s k ≠ k then
        PriorityScheduler.heapifyDown mem fuel (s.swap k (smallestOf mem s k)) (smallestOf mem s k)
      else s := rfl

theorem heapifyDown_size (mem : Store) (fuel : Nat) (s : PriorityScheduler) (k : Nat) :
    (PriorityScheduler.heapifyDown mem fuel s k).currentSize = s.currentSize := by
  induction fuel generalizing s k with
  | zero => rfl
  | succ fuel ih =>
    rw [heapifyDown_succ]
    split
    · rw [ih, PriorityScheduler.swap_size]
    · rfl

theorem swap_rank (mem : Store) (s : PriorityScheduler) (a b x : Nat) :
    rankKey mem ((s.swap a b).heapArray x) =
      if x = b then rankKey mem (s.heapArray a)
      else if x = a then rankKey mem (s.heapArray b) else rankKey mem (s.heapArray x) := by
  rw [PriorityScheduler.swap_apply]
  split
  · rfl
  · split <;> rfl

theorem heapifyUp_isHeap (mem : Store) (n : Nat) (fuel : Nat) (s : PriorityScheduler) (k : Nat)
    (hk : k < n) (hf : k ≤ fuel) (hinv : UpInv mem s.heapArray n k) :
    IsHeap mem (PriorityScheduler.heapifyUp mem fuel s k).heapArray n := by
  induction fuel generalizing s k with
  | zero =>
    have hk0 : k = 0 := by omega
    subst hk0
    intro i hi hin
    exact hinv.1 i hi hin (by omega)
  | succ fuel ih =>
    unfold PriorityScheduler.heapifyUp
    split
    · have hk0 : k = 0 := by omega
      subst hk0
      intro i hi hin
      exact hinv.1 i hi hin (by omega)
    · rename_i hkpos
      simp only
      split
      · rename_i hcmp
        rw [isHigherPriority_iff] at hcmp
        apply ih _ _ (by omega) (by omega)
        obtain ⟨h1, h2⟩ := hinv
        have hpk : (k - 1) / 2 < k := by omega
        constructor
        · intro i hi hin hne
          rw [swap_rank, swap_rank, if_neg hne]
          by_cases hik : i = k
          · rw [if_pos hik, hik, if_pos rfl]
            omega
          · rw [if_neg hik]
            by_cases hpar : (i - 1) / 2 = (k - 1) / 2
            · rw [if_pos hpar]
              have := h1 i hi hin hik
              rw [hpar] at this
              omega
            · rw [if_neg hpar]
              by_cases hpark : (i - 1) / 2 = k
              · rw [if_pos hpark]
                exact h2 i hi hin hpark (by omega)
              · rw [if_neg hpark]
                exact h1 i hi hin hik
        · intro i hi hin hpar hppos
          have e1 : ¬ ((k - 1) / 2 - 1) / 2 = (k - 1) / 2 := by omega
          have e2 : ¬ ((k - 1) / 2 - 1) / 2 = k := by omega
          have e3 : ¬ i = (k - 1) / 2 := by omega
          rw [swap_rank, swap_rank, if_neg e1, if_neg e2, if_neg e3]
          have hp := h1 ((k - 1) / 2) hppos (by omega) (by omega)
          by_cases hik : i = k
          · rw [if_pos hik]
            exact hp
          · rw [if_neg hik]
            have := h1 i hi hin hik
            rw [hpar] at this
            omega
      · rename_i hcmp
        have hcmp' : rankKey mem (s.heapArray ((k - 1) / 2)) ≤ rankKey mem (s.heapArray k) := by
          rw [← isHigherPriority_false_iff]
          simpa using hcmp
        intro i hi hin
        by_cases hik : i = k
        · subst hik; exact hcmp'
        · exact hinv.1 i hi hin hik

theorem smallestOf_spec (mem : Store) (s : PriorityScheduler) (k : Nat) :
    (smallestOf mem s k = k
      ∧ (2 * k + 1 < s.currentSize →
          rankKey mem (s.heapArray k) ≤ rankKey mem (s.heapArray (2 * k + 1)))
      ∧ (2 * k + 2 < s.currentSize →
          rankKey mem (s.heapArray k) ≤ rankKey mem (s.heapArray (2 * k + 2))))
    ∨ (smallestOf mem s k = 2 * k + 1 ∧ 2 * k + 1 < s.currentSize
      ∧ rankKey mem (s.heapArray (2 * k + 1)) < rankKey mem (s.heapArray k)
      ∧ (2 * k + 2 < s.currentSize →
          rankKey mem (s.heapArray (2 * k + 1)) ≤ rankKey mem (s.heapArray (2 * k + 2))))
    ∨ (smallestOf mem s k = 2 * k + 2 ∧ 2 * k + 2 < s.currentSize
      ∧ rankKey mem (s.heapArray (2 * k + 2)) < rankKey mem (s.heapArray k)
      ∧ rankKey mem (s.heapArray (2 * k + 2)) ≤ rankKey mem (s.heapArray (2 * k + 1))) := by
  unfold smallestOf
  simp only [Bool.and_eq_true, decide_eq_true_eq, isHigherPriority_iff]
  by_cases hl : 2 * k + 1 < s.currentSize ∧
      rankKey mem (s.heapArray (2 * k + 1)) < rankKey mem (s.heapArray k)
  · rw [if_pos hl]
    by_cases hr : 2 * k + 2 < s.currentSize ∧
        rankKey mem (s.heapArray (2 * k + 2)) < rankKey mem (s.heapArray (2 * k + 1))
    · rw [if_pos hr]
      right; right
      exact ⟨rfl, hr.1, by omega, by omega⟩
    · rw [if_neg hr]
      right; left
      refine ⟨rfl, hl.1, hl.2, ?_⟩
      intro h2
      by_contra hc
      exact hr ⟨h2, by omega⟩
  · rw [if_neg hl]
    by_cases hr : 2 * k + 2 < s.currentSize ∧
        rankKey mem (s.heapArray (2 * k + 2)) < rankKey mem (s.heapArray k)
    · rw [if_pos hr]
      right; right
      refine ⟨rfl, hr.1, hr.2, ?_⟩
      by_contra hc
      exact hl ⟨by omega, by omega⟩
    · rw [if_neg hr]
      left
      refine ⟨rfl, ?_, ?_⟩
      · intro h1
        by_contra hc
        exact hl ⟨h1, by omega⟩
      · intro h2
        by_contra hc
        exact hr ⟨h2, by omega⟩

theorem downInv_swap (mem : Store) (s : PriorityScheduler) (k c : Nat)
    (hinv : DownInv mem s.heapArray s.currentSize k)
    (hc : c = 2 * k + 1 ∨ c = 2 * k + 2) (hcn : c < s.currentSize)
    (hlt : rankKey mem (s.heapArray c) < rankKey mem (s.heapArray k))
    (hmin : ∀ i, i < s.currentSize → (i = 2 * k + 1 ∨ i = 2 * k + 2) →
      rankKey mem (s.heapArray c) ≤ rankKey mem (s.heapArray i)) :
    DownInv mem (s.swap k c).heapArray s.currentSize c := by
  obtain ⟨h1, h2⟩ := hinv
  have hkc : ¬ k = c := by omega
  have hpc : (c - 1) / 2 = k := by omega
  constructor
  · intro i hi hin hne
    rw [swap_rank, swap_rank, if_neg hne]
    by_cases hpk : (i - 1) / 2 = k
    · rw [if_pos hpk]
      by_cases hic : i = c
      · rw [if_pos hic]; omega
      · have hik : ¬ i = k := by omega
        rw [if_neg hic, if_neg hik]
        exact hmin i hin (by omega)
    · rw [if_neg hpk]
      have hic : ¬ i = c := by
        intro e; rw [e] at hpk; exact hpk hpc
      rw [if_neg hic]
      by_cases hik : i = k
      · rw [if_pos hik]
        have := h2 c (by omega) hcn hpc (by omega)
        rw [← hik] at this
        exact this
      · rw [if_neg hik]
        exact h1 i hi hin hpk
  · intro i hi hin hpar hcpos
    have e1 : ¬ (c - 1) / 2 = c := by omega
    have e2 : ¬ i = c := by omega
    have e3 : ¬ i = k := by omega
    rw [swap_rank, swap_rank, if_neg e1, if_pos hpc, if_neg e2, if_neg e3]
    have := h1 i hi hin (by omega)
    rw [hpar] at this
    exact this

theorem heapifyDown_isHeap (mem : Store) (fuel : Nat) (s : PriorityScheduler) (k : Nat)
    (hf : s.currentSize ≤ fuel + k) (hinv : DownInv mem s.heapArray s.currentSize k) :
    IsHeap mem (PriorityScheduler.heapifyDown mem fuel s k).heapArray s.currentSize := by
  induction fuel generalizing s k with
  | zero =>
    intro i hi hin
    exact hinv.1 i hi hin (by omega)
  | succ fuel ih =>
    rw [heapifyDown_succ]
    rcases smallestOf_spec mem s k with ⟨hc, hl, hr⟩ | ⟨hc, hcn, hlt, hr⟩ | ⟨hc, hcn, hlt, hl⟩
    · rw [if_neg (by rw [hc]; simp)]
      intro i hi hin
      by_cases hpk : (i - 1) / 2 = k
      · rw [hpk]
        have : i = 2 * k + 1 ∨ i = 2 * k + 2 := by omega
        rcases this with e | e
        · rw [e]; exact hl (by omega)
        · rw [e]; exact hr (by omega)
      · exact hinv.1 i hi hin hpk
    · rw [if_pos (by rw [hc]; omega), hc]
      have := ih (s.swap k (2 * k + 1)) (2 * k + 1)
        (by rw [PriorityScheduler.swap_size]; omega)
        (by
          rw [PriorityScheduler.swap_size]
          apply downInv_swap mem s k (2 * k + 1) hinv (Or.inl rfl) hcn hlt
          intro i hin hi
          rcases hi with e | e
          · rw [e]
          · rw [e]; exact hr (by omega))
      rw [PriorityScheduler.swap_size] at this
      exact this
    · rw [if_pos (by rw [hc]; omega), hc]
      have := ih (s.swap k (2 * k + 2)) (2 * k + 2)
        (by rw [PriorityScheduler.swap_size]; omega)
        (by
          rw [PriorityScheduler.swap_size]
          apply downInv_swap mem s k (2 * k + 2) hinv (Or.inr rfl) hcn hlt
          intro i hin hi
          rcases hi with e | e
          · rw [e]; exact hl
          · rw [e])
      rw [PriorityScheduler.swap_size] at this
      exact this

/-! ### The parcels held -/

theorem map_swap_perm (h : Nat → ParcelPtr) (a b n : Nat) (ha : a < n) (hb : b < n) :
    ((List.range n).map (fun x => if x = b then h a else if x = a then h b else h x)).Perm
      ((List.range n).map h) := by
  have hfun : (fun x => if x = b then h a else if x = a then h b else h x)
      = h ∘ (Equiv.swap a b) := by
    funext x
    simp only [Function.comp, Equiv.swap_apply_def]
    by_cases hxa : x = a
    · subst hxa
      by_cases hxb : x = b
      · subst hxb; simp
      · simp [hxb]
    · by_cases hxb : x = b
      · subst hxb
        have : ¬ a = x := fun e => hxa e.symm
        simp [hxa, this]
      · simp [hxa, hxb]
  rw [hfun, ← List.map_map]
  apply List.Perm.map
  apply (List.perm_ext_iff_of_nodup ?_ (List.nodup_range n)).2
  · intro x
    simp only [List.mem_map, List.mem_range]
    constructor
    · rintro ⟨y, hy, rfl⟩
      rw [Equiv.swap_apply_def]
      split
      · exact hb
      · split
        · exact ha
        · exact hy
    · intro hx
      refine ⟨Equiv.swap a b x, ?_, by simp⟩
      rw [Equiv.swap_apply_def]
      split
      · exact hb
      · split
        · exact ha
        · exact hx
  · exact (List.nodup_range n).map (Equiv.swap a b).injective

theorem swap_held_perm (s : PriorityScheduler) (a b n : Nat) (ha : a < n) (hb : b < n) :
    ((List.range n).map (s.swap a b).heapArray).Perm ((List.range n).map s.heapArray) := by
  have : (s.swap a b).heapArray
      = fun x => if x = b then s.heapArray a else if x = a then s.heapArray b
          else s.heapArray x := by
    funext x
    exact PriorityScheduler.swap_apply s a b x
  rw [this]
  exact map_swap_perm s.heapArray a b n ha hb

theorem heapifyUp_perm (mem : Store) (n : Nat) (fuel : Nat) (s : PriorityScheduler) (k : Nat)
    (hk : k < n) :
    ((List.range n).map (PriorityScheduler.heapifyUp mem fuel s k).heapArray).Perm
      ((List.range n).map s.heapArray) := by
  induction fuel generalizing s k with
  | zero => exact List.Perm.refl _
  | succ fuel ih =>
    unfold PriorityScheduler.heapifyUp
    split
    · exact List.Perm.refl _
    · simp only
      split
      · exact (ih (s.swap k ((k - 1) / 2)) ((k - 1) / 2) (by omega)).trans
          (swap_held_perm s k ((k - 1) / 2) n hk (by omega))
      · exact List.Perm.refl _

theorem heapifyDown_perm (mem : Store) (fuel : Nat) (s : PriorityScheduler) (k : Nat)
    (hk : k < s.currentSize) :
    ((List.range s.currentSize).map (PriorityScheduler.heapifyDown mem fuel s k).heapArray).Perm
      ((List.range s.currentSize).map s.heapArray) := by
  induction fuel generalizing s k with
  | zero => exact List.Perm.refl _
  | succ fuel ih =>
    rw [heapifyDown_succ]
    rcases smallestOf_spec mem s k with ⟨hc, _, _⟩ | ⟨hc, hcn, _, _⟩ | ⟨hc, hcn, _, _⟩
    · rw [if_neg (by rw [hc]; simp)]
    · rw [if_pos (by rw [hc]; omega), hc]
      have := ih (s.swap k (2 * k + 1)) (2 * k + 1) hcn
      rw [PriorityScheduler.swap_size] at this
      exact this.trans (swap_held_perm s k (2 * k + 1) s.currentSize hk hcn)
    · rw [if_pos (by rw [hc]; omega), hc]
      have := ih (s.swap k (2 * k + 2)) (2 * k + 2) hcn
      rw [PriorityScheduler.swap_size] at this
      exact this.trans (swap_held_perm s k (2 * k + 2) s.currentSize hk hcn)

/-! ### insert and extractMin -/

theorem PriorityScheduler.insert_full (mem : Store) (s : PriorityScheduler) (p : ParcelPtr)
    (h : ¬ s.currentSize < 100) : s.insert mem p = s := by
  unfold PriorityScheduler.insert
  rw [if_neg h]

theorem PriorityScheduler.insert_spec (mem : Store) (s : PriorityScheduler) (p : ParcelPtr)
    (hv : s.Valid mem) (hlt : s.currentSize < 100) :
    (s.insert mem p).Valid mem ∧ (s.insert mem p).currentSize = s.currentSize + 1
    ∧ (s.insert mem p).held.Perm (s.held ++ [p]) := by
  unfold PriorityScheduler.insert
  rw [if_pos hlt]
  simp only
  have hsize : (PriorityScheduler.heapifyUp mem s.currentSize
      { heapArray := Function.update s.heapArray s.currentSize p,
        currentSize := s.currentSize } s.currentSize).currentSize = s.currentSize := by
    rw [heapifyUp_size]
  have hinv : UpInv mem (Function.update s.heapArray s.currentSize p) (s.currentSize + 1)
      s.currentSize := by
    constructor
    · intro i hi hin hne
      have h1 : i ≠ s.currentSize := hne
      have h2 : (i - 1) / 2 ≠ s.currentSize := by omega
      rw [Function.update_noteq h1, Function.update_noteq h2]
      exact hv.1 i hi (by omega)
    · intro i hi hin hpar hpos
      omega
  have hheap := heapifyUp_isHeap mem (s.currentSize + 1) s.currentSize
    { heapArray := Function.update s.heapArray s.currentSize p, currentSize := s.currentSize }
    s.currentSize (by omega) (le_refl _) hinv
  have hperm := heapifyUp_perm mem (s.currentSize + 1) s.currentSize
    { heapArray := Function.update s.heapArray s.currentSize p, currentSize := s.currentSize }
    s.currentSize (by omega)
  refine ⟨⟨?_, ?_⟩, ?_, ?_⟩
  · simp only [hsize]
    exact hheap
  · simp only [hsize]
    omega
  · simp only [hsize]
  · unfold PriorityScheduler.held
    simp only [hsize]
    refine hperm.trans ?_
    rw [List.range_succ, List.map_append, List.map_singleton]
    simp only [Function.update_same]
    have : (List.range s.currentSize).map (Function.update s.heapArray s.currentSize p)
        = (List.range s.currentSize).map s.heapArray := by
      apply List.map_congr_left
      intro x hx
      rw [List.mem_range] at hx
      rw [Function.update_noteq (by omega)]
    rw [this]

theorem extract_front_perm (h : Nat → ParcelPtr) (n : Nat) (hn : 0 < n) :
    ((List.range n).map h).Perm
      (h 0 :: (List.range (n - 1)).map (Function.update h 0 (h (n - 1)))) := by
  obtain ⟨m, rfl⟩ : ∃ m, n = m + 1 := ⟨n - 1, by omega⟩
  simp only [Nat.add_sub_cancel]
  by_cases hm : m = 0
  · subst hm
    simp [List.range_succ]
  · have hsw := map_swap_perm h 0 m (m + 1) (by omega) (by omega)
    refine hsw.symm.trans ?_
    rw [List.range_succ, List.map_append, List.map_singleton]
    simp only [if_true]
    refine (List.perm_append_singleton _ _).trans ?_
    apply List.Perm.cons
    apply List.Perm.of_eq
    apply List.map_congr_left
    intro x hx
    rw [List.mem_range] at hx
    have hxm : ¬ x = m := by omega
    simp only [if_neg hxm]
    by_cases hx0 : x = 0
    · subst hx0
      simp
    · rw [if_neg hx0, Function.update_noteq hx0]

theorem PriorityScheduler.extractMin_empty (mem : Store) (s : PriorityScheduler)
    (h : s.currentSize = 0) : s.extractMin mem = (none, s) := by
  unfold PriorityScheduler.extractMin
  rw [if_pos (by omega)]

theorem PriorityScheduler.extractMin_spec (mem : Store) (s : PriorityScheduler)
    (hv : s.Valid mem) (hpos : 0 < s.currentSize) :
    (s.extractMin mem).1 = some (s.heapArray 0)
    ∧ (s.extractMin mem).2.Valid mem
    ∧ (s.extractMin mem).2.currentSize = s.currentSize - 1
    ∧ s.held.Perm (s.heapArray 0 :: (s.extractMin mem).2.held)
    ∧ (∀ q ∈ s.held, rankKey mem (s.heapArray 0) ≤ rankKey mem q) := by
  unfold PriorityScheduler.extractMin
  rw [if_neg (by omega)]
  simp only
  have hsize : (PriorityScheduler.heapifyDown mem (s.currentSize - 1)
      { heapArray := Function.update s.heapArray 0 (s.heapArray (s.currentSize - 1)),
        currentSize := s.currentSize - 1 } 0).currentSize = s.currentSize - 1 := by
    rw [heapifyDown_size]
  have hinv : DownInv mem (Function.update s.heapArray 0 (s.heapArray (s.currentSize - 1)))
      (s.currentSize - 1) 0 := by
    constructor
    · intro i hi hin hne
      have h1 : i ≠ 0 := by omega
      rw [Function.update_noteq h1, Function.update_noteq hne]
      exact hv.1 i hi (by omega)
    · intro i hi hin hpar hpos
      omega
  have hheap := heapifyDown_isHeap mem (s.currentSize - 1)
    { heapArray := Function.update s.heapArray 0 (s.heapArray (s.currentSize - 1)),
      currentSize := s.currentSize - 1 } 0 (by simp) hinv
  refine ⟨trivial, ⟨?_, ?_⟩, hsize, ?_, ?_⟩
  · simp only [hsize]
    exact hheap
  · simp only [hsize]
    have := hv.2
    omega
  · unfold PriorityScheduler.held
    simp only [hsize]
    refine (extract_front_perm s.heapArray s.currentSize hpos).trans ?_
    apply List.Perm.cons
    by_cases h1 : s.currentSize - 1 = 0
    · rw [h1]
      simp
    · exact (heapifyDown_perm mem (s.currentSize - 1)
        { heapArray := Function.update s.heapArray 0 (s.heapArray (s.currentSize - 1)),
          currentSize := s.currentSize - 1 } 0 (by simp only; omega)).symm
  · intro q hq
    unfold PriorityScheduler.held at hq
    rw [List.mem_map] at hq
    obtain ⟨i, hi, rfl⟩ := hq
    exact IsHeap.root_le mem s.heapArray s.currentSize hv.1 i (List.mem_range.mp hi)

theorem PriorityScheduler.Reachable.valid (mem : Store) (s : PriorityScheduler)
    (hr : PriorityScheduler.Reachable mem s) : s.Valid mem := by
  induction hr with
  | init arr =>
    refine ⟨?_, by simp⟩
    intro i hi hin
    simp at hin
  | step s op _ ih =>
    cases op with
    | insert p =>
      simp only [PriorityScheduler.step]
      by_cases hlt : s.currentSize < 100
      · exact (PriorityScheduler.insert_spec mem s p ih hlt).1
      · rw [PriorityScheduler.insert_full mem s p hlt]
        exact ih
    | extractMin =>
      simp only [PriorityScheduler.step]
      by_cases hpos : 0 < s.currentSize
      · exact (PriorityScheduler.extractMin_spec mem s ih hpos).2.1
      · rw [PriorityScheduler.extractMin_empty mem s (by omega)]
        exact ih

/-- C6: in every scheduler state reachable from the empty scheduler by insert and
extractMin calls, if the scheduler is not empty then extractMin returns a held parcel m
before which no held parcel ranks under the comparator, and the parcels held
afterwards are the previous ones minus one occurrence of m. -/
theorem PriorityScheduler.extractMin_returns_minimum (mem : Store) (s : PriorityScheduler)
    (hr : PriorityScheduler.Reachable mem s) (hne : s.isEmpty = false) :
    ∃ m, (s.extractMin mem).1 = some m ∧ m ∈ s.held
      ∧ (∀ q ∈ s.held, isHigherPriority mem q m = false)
      ∧ s.held.Perm (m :: (s.extractMin mem).2.held) := by
  have hv := PriorityScheduler.Reachable.valid mem s hr
  have hpos : 0 < s.currentSize := by
    unfold PriorityScheduler.isEmpty at hne
    simp at hne
    omega
  obtain ⟨h1, _, _, h4, h5⟩ := PriorityScheduler.extractMin_spec mem s hv hpos
  refine ⟨s.heapArray 0, h1, ?_, ?_, h4⟩
  · exact h4.symm.subset (List.mem_cons_self _ _)
  · intro q hq
    rw [isHigherPriority_false_iff]
    exact h5 q hq

end Courier

namespace Courier

/-! ### The recursion bounds of heapifyUp and heapifyDown are never hit -/

/-- With the bound at least `index`, heapifyUp ends by its own tests: a larger bound gives
the same result. -/
theorem heapifyUp_bound_irrelevant (mem : Store) (fuel fuel' : Nat) (s : PriorityScheduler)
    (k : Nat) (h : k ≤ fuel) (h' : k ≤ fuel') :
    PriorityScheduler.heapifyUp mem fuel s k = PriorityScheduler.heapifyUp mem fuel' s k := by
  induction fuel generalizing fuel' s k with
  | zero =>
    have hk : k = 0 := by omega
    subst hk
    cases fuel' with
    | zero => rfl
    | succ f => simp [PriorityScheduler.heapifyUp]
  | succ fuel ih =>
    cases fuel' with
    | zero =>
      have hk : k = 0 := by omega
      subst hk
      simp [PriorityScheduler.heapifyUp]
    | succ f =>
      unfold PriorityScheduler.heapifyUp
      split
      · rfl
      · simp only
        split
        · exact ih f _ _ (by omega) (by omega)
        · rfl

/-- With the bound at least `currentSize - index`, heapifyDown ends by its own tests: a
larger bound gives the same result. -/
theorem heapifyDown_bound_irrelevant (mem : Store) (fuel fuel' : Nat) (s : PriorityScheduler)
    (k : Nat) (h : s.currentSize ≤ fuel + k) (h' : s.currentSize ≤ fuel' + k) :
    PriorityScheduler.heapifyDown mem fuel s k = PriorityScheduler.heapifyDown mem fuel' s k := by
  induction fuel generalizing fuel' s k with
  | zero =>
    cases fuel' with
    | zero => rfl
    | succ f =>
      rw [heapifyDown_succ]
      rcases smallestOf_spec mem s k with ⟨hc, _⟩ | ⟨_, hcn, _⟩ | ⟨_, hcn, _⟩
      · rw [if_neg (by rw [hc]; simp)]
        rfl
      · omega
      · omega
  | succ fuel ih =>
    cases fuel' with
    | zero =>
      rw [heapifyDown_succ]
      rcases smallestOf_spec mem s k with ⟨hc, _⟩ | ⟨_, hcn, _⟩ | ⟨_, hcn, _⟩
      · rw [if_neg (by rw [hc]; simp)]
        rfl
      · omega
      · omega
    | succ f =>
      rw [heapifyDown_succ, heapifyDown_succ]
      rcases smallestOf_spec mem s k with ⟨hc, _⟩ | ⟨hc, hcn, _⟩ | ⟨hc, hcn, _⟩
      · rw [if_neg (by rw [hc]; simp), if_neg (by rw [hc]; simp)]
      · rw [if_pos (by rw [hc]; omega), if_pos (by rw [hc]; omega)]
        apply ih
        · rw [PriorityScheduler.swap_size, hc]; omega
        · rw [PriorityScheduler.swap_size, hc]; omega
      · rw [if_pos (by rw [hc]; omega), if_pos (by rw [hc]; omega)]
        apply ih
        · rw [PriorityScheduler.swap_size, hc]; omega
        · rw [PriorityScheduler.swap_size, hc]; omega

end Courier

namespace Courier

/-! ### Runs of inserts and extractions -/

theorem PriorityScheduler.foldl_insert_spec (mem : Store) (ps : List ParcelPtr)
    (s : PriorityScheduler) (hv : s.Valid mem) :
    (ps.foldl (PriorityScheduler.insert mem) s).Valid mem
    ∧ (ps.foldl (PriorityScheduler.insert mem) s).currentSize
        = min (s.currentSize + ps.length) 100
    ∧ (ps.foldl (PriorityScheduler.insert mem) s).held.Perm
        (s.held ++ ps.take (100 - s.currentSize)) := by
  induction ps generalizing s with
  | nil =>
    have := hv.2
    refine ⟨hv, ?_, ?_⟩
    · simp only [List.foldl_nil, List.length_nil]; omega
    · simp
  | cons p ps ih =>
    rw [List.foldl_cons]
    by_cases hlt : s.currentSize < 100
    · obtain ⟨h1, h2, h3⟩ := PriorityScheduler.insert_spec mem s p hv hlt
      obtain ⟨i1, i2, i3⟩ := ih (s.insert mem p) h1
      refine ⟨i1, ?_, ?_⟩
      · rw [i2, h2, List.length_cons]; omega
      · refine i3.trans ?_
        rw [h2]
        have e : 100 - s.currentSize = (100 - (s.currentSize + 1)) + 1 := by omega
        rw [e, List.take_succ_cons]
        refine (List.Perm.append_right _ h3).trans ?_
        simp
    · rw [PriorityScheduler.insert_full mem s p hlt]
      obtain ⟨i1, i2, i3⟩ := ih s hv
      have hs := hv.2
      refine ⟨i1, ?_, ?_⟩
      · rw [i2, List.length_cons]; omega
      · have e : 100 - s.currentSize = 0 := by omega
        rw [e] at i3 ⊢
        simpa using i3

theorem PriorityScheduler.extractAll_spec (mem : Store) (fuel : Nat) (s : PriorityScheduler)
    (hv : s.Valid mem) (hf : s.currentSize ≤ fuel) :
    (PriorityScheduler.extractAll mem fuel s).1.Perm s.held
    ∧ (PriorityScheduler.extractAll mem fuel s).2.currentSize = 0
    ∧ (PriorityScheduler.extractAll mem fuel s).1.Pairwise
        (fun a b => rankKey mem a ≤ rankKey mem b)
    ∧ PriorityScheduler.extractTimes mem s.currentSize s
        = ((PriorityScheduler.extractAll mem fuel s).1.map some,
            (PriorityScheduler.extractAll mem fuel s).2) := by
  induction fuel generalizing s with
  | zero =>
    have h0 : s.currentSize = 0 := by omega
    simp [PriorityScheduler.extractAll, PriorityScheduler.held, h0,
      PriorityScheduler.extractTimes]
  | succ fuel ih =>
    unfold PriorityScheduler.extractAll
    by_cases h0 : s.currentSize = 0
    · simp [PriorityScheduler.isEmpty, PriorityScheduler.held, h0,
        PriorityScheduler.extractTimes]
    · have hemp : s.isEmpty = false := by simp [PriorityScheduler.isEmpty, h0]
      rw [hemp]
      simp only [Bool.false_eq_true, if_false]
      obtain ⟨h1, h2, h3, h4, h5⟩ := PriorityScheduler.extractMin_spec mem s hv (by omega)
      obtain ⟨i1, i2, i3, i4⟩ := ih (s.extractMin mem).2 h2 (by omega)
      have hpair : s.extractMin mem = (some (s.heapArray 0), (s.extractMin mem).2) := by
        rw [← h1]
      rw [hpair]
      simp only
      refine ⟨?_, i2, ?_, ?_⟩
      · exact (List.Perm.cons _ i1).trans h4.symm
      · rw [List.pairwise_cons]
        refine ⟨?_, i3⟩
        intro q hq
        apply h5
        exact h4.symm.subset (List.mem_cons_of_mem _ (i1.subset hq))
      · obtain ⟨m, hm⟩ : ∃ m, s.currentSize = m + 1 := ⟨s.currentSize - 1, by omega⟩
        rw [hm, PriorityScheduler.extractTimes]
        rw [hm] at h3
        simp only [Nat.add_sub_cancel] at h3
        rw [← h3, i4, h1]
        simp

theorem PriorityScheduler.extractTimes_add (mem : Store) (a b : Nat) (s : PriorityScheduler) :
    PriorityScheduler.extractTimes mem (a + b) s
      = ((PriorityScheduler.extractTimes mem a s).1
          ++ (PriorityScheduler.extractTimes mem b (PriorityScheduler.extractTimes mem a s).2).1,
        (PriorityScheduler.extractTimes mem b (PriorityScheduler.extractTimes mem a s).2).2) := by
  induction a generalizing s with
  | zero => simp [PriorityScheduler.extractTimes]
  | succ a ih =>
    rw [Nat.add_right_comm, PriorityScheduler.extractTimes, ih]
    simp [PriorityScheduler.extractTimes]

theorem rankKey_le_priority (mem : Store) (a b : ParcelPtr)
    (h : rankKey mem a ≤ rankKey mem b) : (mem a).priority ≤ (mem b).priority := by
  unfold rankKey at h
  split at h <;> split at h <;> omega

theorem rankKey_le_heavy (mem : Store) (a b : ParcelPtr)
    (h : rankKey mem a ≤ rankKey mem b) (hp : (mem a).priority = (mem b).priority) :
    ¬ ((mem a).weightCat ≠ "Heavy" ∧ (mem b).weightCat = "Heavy") := by
  rintro ⟨ha, hb⟩
  unfold rankKey at h
  rw [if_neg ha, if_pos hb, hp] at h
  omega

theorem PriorityScheduler.valid_init (mem : Store) (arr : Nat → ParcelPtr) :
    PriorityScheduler.Valid mem ⟨arr, 0⟩ := by
  refine ⟨?_, by simp⟩
  intro i hi hin
  simp at hin

/-- C7: after inserting at most 100 parcels into an empty scheduler, calling extractMin
until the scheduler is empty ends, leaves the scheduler empty, and yields a
permutation of the inserted parcels in which priorities never decrease and, among
parcels of equal priority, no non-Heavy parcel precedes a Heavy one. -/
theorem PriorityScheduler.extractAll_sorted (mem : Store) (arr : Nat → ParcelPtr)
    (ps : List ParcelPtr) (hlen : ps.length ≤ 100) (fuel : Nat) (hfuel : ps.length ≤ fuel) :
    (PriorityScheduler.extractAll mem fuel
        (ps.foldl (PriorityScheduler.insert mem) ⟨arr, 0⟩)).2.isEmpty = true
    ∧ (PriorityScheduler.extractAll mem fuel
        (ps.foldl (PriorityScheduler.insert mem) ⟨arr, 0⟩)).1.Perm ps
    ∧ (PriorityScheduler.extractAll mem fuel
        (ps.foldl (PriorityScheduler.insert mem) ⟨arr, 0⟩)).1.Pairwise
          (fun a b => (mem a).priority ≤ (mem b).priority)
    ∧ (PriorityScheduler.extractAll mem fuel
        (ps.foldl (PriorityScheduler.insert mem) ⟨arr, 0⟩)).1.Pairwise
          (fun a b => (mem a).priority = (mem b).priority →
            ¬ ((mem a).weightCat ≠ "Heavy" ∧ (mem b).weightCat = "Heavy")) := by
  obtain ⟨h1, h2, h3⟩ :=
    PriorityScheduler.foldl_insert_spec mem ps ⟨arr, 0⟩ (PriorityScheduler.valid_init mem arr)
  simp only [Nat.zero_add, Nat.sub_zero] at h2 h3
  obtain ⟨e1, e2, e3, _⟩ := PriorityScheduler.extractAll_spec mem fuel _ h1 (by rw [h2]; omega)
  refine ⟨?_, ?_, ?_, ?_⟩
  · simp [PriorityScheduler.isEmpty, e2]
  · refine e1.trans (h3.trans ?_)
    rw [List.take_of_length_le hlen]
    simp [PriorityScheduler.held]
  · exact e3.imp (fun {a b} h => rankKey_le_priority mem a b h)
  · exact e3.imp (fun {a b} h => rankKey_le_heavy mem a b h)

/-- C8: an insert into a scheduler holding 100 parcels changes nothing; hence after
inserting n parcels into an empty scheduler, the first min(n, 100) calls of extractMin
each return a parcel, the next call returns null, and the parcels returned are a
permutation of the first min(n, 100) parcels inserted. -/
theorem PriorityScheduler.capacity_bound (mem : Store) (arr : Nat → ParcelPtr)
    (ps : List ParcelPtr) :
    (∀ (s : PriorityScheduler) (p : ParcelPtr), s.currentSize = 100 → s.insert mem p = s)
    ∧ ∃ out : List ParcelPtr,
        out.length = min ps.length 100
        ∧ out.Perm (ps.take (min ps.length 100))
        ∧ (PriorityScheduler.extractTimes mem (min ps.length 100 + 1)
            (ps.foldl (PriorityScheduler.insert mem) ⟨arr, 0⟩)).1 = out.map some ++ [none]
        ∧ (ps.foldl (PriorityScheduler.insert mem) ⟨arr, 0⟩).isEmpty
            = decide (ps.length = 0) := by
  constructor
  · intro s p hs
    exact PriorityScheduler.insert_full mem s p (by omega)
  obtain ⟨h1, h2, h3⟩ :=
    PriorityScheduler.foldl_insert_spec mem ps ⟨arr, 0⟩ (PriorityScheduler.valid_init mem arr)
  simp only [Nat.zero_add, Nat.sub_zero] at h2 h3
  obtain ⟨e1, e2, _, e4⟩ := PriorityScheduler.extractAll_spec mem 100 _ h1 (by rw [h2]; omega)
  have hheld : (ps.foldl (PriorityScheduler.insert mem) ⟨arr, 0⟩).held.length
      = min ps.length 100 := by
    simp [PriorityScheduler.held, h2]
  refine ⟨(PriorityScheduler.extractAll mem 100
    (ps.foldl (PriorityScheduler.insert mem) ⟨arr, 0⟩)).1, ?_, ?_, ?_, ?_⟩
  · rw [e1.length_eq, hheld]
  · refine e1.trans (h3.trans ?_)
    have : ps.take (min ps.length 100) = ps.take 100 := by
      rw [List.take_eq_take]
      omega
    rw [this]
    simp [PriorityScheduler.held]
  · rw [← h2, PriorityScheduler.extractTimes_add, e4]
    simp only [PriorityScheduler.extractTimes]
    rw [PriorityScheduler.extractMin_empty mem _ e2]
  · simp only [PriorityScheduler.isEmpty, h2]
    by_cases hz : ps.length = 0
    · simp [hz]
    · have : ¬ min ps.length 100 = 0 := by omega
      simp [hz, this]

end Courier

namespace Courier

/-! ## RoutingGraph: blocking and restoring a road -/

theorem setBlockedFirst_false_of_unblocked (v : Nat) (l : List RoadConnections)
    (h : ∀ e ∈ l, e.isBlocked = false) : setBlockedFirst v false l = l := by
  induction l with
  | nil => rfl
  | cons e l ih =>
    have he : e.isBlocked = false := h e (List.mem_cons_self _ _)
    have hl : ∀ x ∈ l, x.isBlocked = false := fun x hx => h x (List.mem_cons_of_mem _ hx)
    unfold setBlockedFirst
    split
    · cases e
      simp_all
    · rw [ih hl]

theorem setBlockedFirst_idem (v : Nat) (b : Bool) (l : List RoadConnections) :
    setBlockedFirst v b (setBlockedFirst v b l) = setBlockedFirst v b l := by
  induction l with
  | nil => rfl
  | cons e l ih =>
    by_cases hv : e.destination = v
    · simp [setBlockedFirst, hv]
    · simp [setBlockedFirst, hv, ih]

theorem setBlockedFirst_false_true (v : Nat) (l : List RoadConnections)
    (h : ∀ e ∈ l, e.isBlocked = false) :
    setBlockedFirst v false (setBlockedFirst v true l) = l := by
  induction l with
  | nil => rfl
  | cons e l ih =>
    have he : e.isBlocked = false := h e (List.mem_cons_self _ _)
    have hl : ∀ x ∈ l, x.isBlocked = false := fun x hx => h x (List.mem_cons_of_mem _ hx)
    by_cases hv : e.destination = v
    · cases e
      simp_all [setBlockedFirst]
    · simp [setBlockedFirst, hv, ih hl]

theorem RoutingGraph.getCityIndex_blockRoad (g : RoutingGraph) (a b : String) (status : Bool)
    (name : String) :
    (g.blockRoad a b status).getCityIndex name = g.getCityIndex name := by
  unfold RoutingGraph.blockRoad
  cases g.getCityIndex a <;> cases g.getCityIndex b <;> rfl

theorem getD_set_chain (A : List (List RoadConnections)) (u j : Nat)
    (x : List RoadConnections) :
    (A.set u x).getD j [] = if u = j ∧ u < A.length then x else A.getD j [] := by
  by_cases h : u = j
  · subst h
    by_cases hu : u < A.length
    · simp [List.getD, hu]
    · have h1 : (A.set u x)[u]? = none :=
        List.getElem?_eq_none (by simpa using not_lt.mp hu)
      have h2 : A[u]? = none := List.getElem?_eq_none (not_lt.mp hu)
      simp [List.getD, hu, h1, h2]
  · simp [List.getD, h, List.getElem?_set_ne h]

theorem getD_nil_of_le (A : List (List RoadConnections)) (j : Nat) (h : A.length ≤ j) :
    A.getD j [] = [] := by
  simp [List.getD, List.getElem?_eq_none h]

theorem ext_getD (A B : List (List RoadConnections)) (hlen : A.length = B.length)
    (h : ∀ j, A.getD j [] = B.getD j []) : A = B := by
  apply List.ext_getElem hlen
  intro i h1 h2
  have := h i
  simpa [List.getD, h1, h2] using this

theorem mem_getD_unblocked (A : List (List RoadConnections))
    (h : ∀ l ∈ A, ∀ e ∈ l, e.isBlocked = false) (j : Nat) :
    ∀ e ∈ A.getD j [], e.isBlocked = false := by
  intro e he
  by_cases hj : j < A.length
  · have : A.getD j [] = A[j] := by simp [List.getD, hj]
    rw [this] at he
    exact h _ (List.getElem_mem _) e he
  · rw [getD_nil_of_le A j (not_lt.mp hj)] at he
    simp at he

theorem blockScans_length (A : List (List RoadConnections)) (u v : Nat) (status : Bool) :
    (blockScans A u v status).length = A.length := by
  simp [blockScans]

theorem blockScans_getD (A : List (List RoadConnections)) (u v : Nat) (status : Bool)
    (j : Nat) :
    (blockScans A u v status).getD j [] =
      if v = j ∧ v < A.length then
        setBlockedFirst u status
          (if u = v ∧ u < A.length then setBlockedFirst v status (A.getD u [])
            else A.getD v [])
      else if u = j ∧ u < A.length then setBlockedFirst v status (A.getD u [])
      else A.getD j [] := by
  simp only [blockScans, getD_set_chain, List.length_set]

/-- Blocking a road and then restoring it gives back the adjacency lists. -/
theorem blockScans_unblock (A : List (List RoadConnections)) (u v : Nat)
    (h : ∀ l ∈ A, ∀ e ∈ l, e.isBlocked = false) :
    blockScans (blockScans A u v true) u v false = A := by
  have hget := mem_getD_unblocked A h
  have hft : ∀ w k, setBlockedFirst w false (setBlockedFirst w true (A.getD k [])) = A.getD k [] :=
    fun w k => setBlockedFirst_false_true w _ (hget k)
  have hf : ∀ w k, setBlockedFirst w false (A.getD k []) = A.getD k [] :=
    fun w k => setBlockedFirst_false_of_unblocked w _ (hget k)
  apply ext_getD
  · simp [blockScans_length]
  intro j
  simp only [blockScans_getD, blockScans_length]
  by_cases hv : v < A.length
  · by_cases hu : u < A.length
    · by_cases huv : u = v
      · subst huv
        by_cases hj : u = j
        · subst hj
          simp only [hu, and_self, if_true, setBlockedFirst_idem, hft, hf]
        · simp only [hj, false_and, if_false]
      · have hvu : ¬ v = u := fun e => huv e.symm
        by_cases hj : v = j
        · subst hj
          simp only [hv, hu, huv, hvu, and_self, and_true, true_and, false_and, if_true,
            if_false, hft, hf]
        · by_cases hj2 : u = j
          · subst hj2
            simp only [hv, hu, huv, hvu, hj, and_self, and_true, true_and, false_and, if_true,
              if_false, hft, hf]
          · simp only [hj, hj2, false_and, if_false]
    · by_cases hj : v = j
      · subst hj
        simp only [hv, hu, and_self, and_true, true_and, and_false, false_and, if_true,
          if_false, hft, hf]
      · simp only [hj, hu, and_false, false_and, if_false]
  · by_cases hu : u < A.length
    · by_cases hj : u = j
      · subst hj
        simp only [hv, hu, and_self, and_true, true_and, and_false, false_and, if_true,
          if_false, hft, hf]
      · simp only [hj, hv, and_false, false_and, if_false]
    · simp only [hv, hu, and_false, if_false]

theorem RoutingGraph.blockRoad_some (g : RoutingGraph) (a b : String) (status : Bool)
    (u v : Nat) (hu : g.getCityIndex a = some u) (hv : g.getCityIndex b = some v) :
    g.blockRoad a b status = ⟨g.cityNames, blockScans g.adjList u v status⟩ := by
  unfold RoutingGraph.blockRoad
  rw [hu, hv]

theorem RoutingGraph.blockRoad_none (g : RoutingGraph) (a b : String) (status : Bool)
    (h : g.getCityIndex a = none ∨ g.getCityIndex b = none) :
    g.blockRoad a b status = g := by
  unfold RoutingGraph.blockRoad
  rcases h with h | h
  · rw [h]
  · rw [h]
    cases g.getCityIndex a <;> rfl

/-- C5: in a graph without blocked edges, blockRoad(a, b, true) followed by
blockRoad(a, b, false) gives back the original graph state, so findShortestPath
and findAllRoutes answer every query as before. -/
theorem RoutingGraph.blockRoad_then_restore (g : RoutingGraph)
    (hno : ∀ l ∈ g.adjList, ∀ e ∈ l, e.isBlocked = false) (a b : String) :
    (g.blockRoad a b true).blockRoad a b false = g
    ∧ (∀ src dst, ((g.blockRoad a b true).blockRoad a b false).findShortestPath src dst
        = g.findShortestPath src dst)
    ∧ (∀ src dst, ((g.blockRoad a b true).blockRoad a b false).findAllRoutes src dst
        = g.findAllRoutes src dst) := by
  have key : (g.blockRoad a b true).blockRoad a b false = g := by
    cases hu : g.getCityIndex a with
    | none => rw [RoutingGraph.blockRoad_none g a b true (Or.inl hu),
        RoutingGraph.blockRoad_none g a b false (Or.inl hu)]
    | some u =>
      cases hv : g.getCityIndex b with
      | none => rw [RoutingGraph.blockRoad_none g a b true (Or.inr hv),
          RoutingGraph.blockRoad_none g a b false (Or.inr hv)]
      | some v =>
        have hu1 : (g.blockRoad a b true).getCityIndex a = some u := by
          rw [RoutingGraph.getCityIndex_blockRoad, hu]
        have hv1 : (g.blockRoad a b true).getCityIndex b = some v := by
          rw [RoutingGraph.getCityIndex_blockRoad, hv]
        rw [RoutingGraph.blockRoad_some _ a b false u v hu1 hv1]
        rw [RoutingGraph.blockRoad_some g a b true u v hu hv]
        cases g with
        | mk names A =>
          simp only
          congr 1
          exact blockScans_unblock A u v hno
  exact ⟨key, fun src dst => by rw [key], fun src dst => by rw [key]⟩

end Courier

namespace Courier

/-! ## RoutingGraph: well-formedness of built graphs -/

theorem getCityIndexFrom_bound (name : String) (names : List String) (i k : Nat)
    (h : getCityIndexFrom name names i = some k) : i ≤ k ∧ k < i + names.length := by
  induction names generalizing i with
  | nil => simp [getCityIndexFrom] at h
  | cons c rest ih =>
    unfold getCityIndexFrom at h
    split at h
    · simp only [Option.some.injEq] at h
      subst h
      simp
    · have := ih (i + 1) h
      simp only [List.length_cons]
      omega

theorem RoutingGraph.getCityIndex_lt (g : RoutingGraph) (name : String) (k : Nat)
    (h : g.getCityIndex name = some k) : k < g.numCities := by
  have := getCityIndexFrom_bound name g.cityNames 0 k h
  unfold RoutingGraph.numCities
  omega

theorem mem_setBlockedFirst (v : Nat) (status : Bool) (l : List RoadConnections)
    (e : RoadConnections) (h : e ∈ setBlockedFirst v status l) :
    ∃ e0 ∈ l, e0.destination = e.destination ∧ e0.weight = e.weight := by
  induction l with
  | nil => simp [setBlockedFirst] at h
  | cons a l ih =>
    unfold setBlockedFirst at h
    split at h
    · rcases List.mem_cons.mp h with rfl | h
      · exact ⟨a, List.mem_cons_self _ _, rfl, rfl⟩
      · exact ⟨e, List.mem_cons_of_mem _ h, rfl, rfl⟩
    · rcases List.mem_cons.mp h with rfl | h
      · exact ⟨e, List.mem_cons_self _ _, rfl, rfl⟩
      · obtain ⟨e0, h0, h1⟩ := ih h
        exact ⟨e0, List.mem_cons_of_mem _ h0, h1⟩

theorem mem_getD_of_mem (A : List (List RoadConnections)) (j : Nat) (e : RoadConnections)
    (h : e ∈ A.getD j []) : ∃ l ∈ A, e ∈ l := by
  by_cases hj : j < A.length
  · have : A.getD j [] = A[j] := by simp [List.getD, hj]
    rw [this] at h
    exact ⟨A[j], List.getElem_mem _, h⟩
  · rw [getD_nil_of_le A j (not_lt.mp hj)] at h
    simp at h

theorem RoutingGraph.WF_apply (g : RoutingGraph) (op : GraphOp) (h : g.WF) :
    (g.apply op).WF := by
  cases op with
  | addCity name =>
    simp only [RoutingGraph.apply, RoutingGraph.addCity]
    split
    · intro l hl e he
      have := h l hl e he
      simp only [RoutingGraph.numCities, List.length_append, List.length_singleton] at this ⊢
      omega
    · exact h
  | addRoute src dest weight =>
    simp only [RoutingGraph.apply, RoutingGraph.addRoute]
    split
    · rename_i u v hu hv
      have hun := g.getCityIndex_lt src u hu
      have hvn := g.getCityIndex_lt dest v hv
      intro l hl e he
      simp only at hl
      rcases List.mem_or_eq_of_mem_set hl with hl | rfl
      · rcases List.mem_or_eq_of_mem_set hl with hl | rfl
        · exact h l hl e he
        · rcases List.mem_cons.mp he with rfl | he
          · exact hvn
          · obtain ⟨l0, hl0, he0⟩ := mem_getD_of_mem _ _ _ he
            exact h l0 hl0 e he0
      · rcases List.mem_cons.mp he with rfl | he
        · exact hun
        · obtain ⟨l0, hl0, he0⟩ := mem_getD_of_mem _ _ _ he
          rcases List.mem_or_eq_of_mem_set hl0 with hl0 | rfl
          · exact h l0 hl0 e he0
          · rcases List.mem_cons.mp he0 with rfl | he0
            · exact hvn
            · obtain ⟨l1, hl1, he1⟩ := mem_getD_of_mem _ _ _ he0
              exact h l1 hl1 e he1
    · exact h
  | blockRoad src dest status =>
    simp only [RoutingGraph.apply, RoutingGraph.blockRoad]
    split
    · rename_i u v hu hv
      intro l hl e he
      simp only [blockScans] at hl
      show e.destination < g.numCities
      rcases List.mem_or_eq_of_mem_set hl with hl | rfl
      · rcases List.mem_or_eq_of_mem_set hl with hl | rfl
        · exact h l hl e he
        · obtain ⟨e0, h0, h1, _⟩ := mem_setBlockedFirst _ _ _ _ he
          obtain ⟨l0, hl0, he0⟩ := mem_getD_of_mem _ _ _ h0
          rw [← h1]
          exact h l0 hl0 e0 he0
      · obtain ⟨e0, h0, h1, _⟩ := mem_setBlockedFirst _ _ _ _ he
        obtain ⟨l0, hl0, he0⟩ := mem_getD_of_mem _ _ _ h0
        rw [← h1]
        rcases List.mem_or_eq_of_mem_set hl0 with hl0 | rfl
        · exact h l0 hl0 e0 he0
        · obtain ⟨e1, h2, h3, _⟩ := mem_setBlockedFirst _ _ _ _ he0
          obtain ⟨l1, hl1, he1⟩ := mem_getD_of_mem _ _ _ h2
          rw [← h3]
          exact h l1 hl1 e1 he1
    · exact h

theorem RoutingGraph.WF_foldl (ops : List GraphOp) (g : RoutingGraph) (h : g.WF) :
    (ops.foldl RoutingGraph.apply g).WF := by
  induction ops generalizing g with
  | nil => exact h
  | cons op ops ih => exact ih _ (RoutingGraph.WF_apply g op h)

theorem RoutingGraph.WF_build (ops : List GraphOp) : (RoutingGraph.build ops).WF := by
  apply RoutingGraph.WF_foldl
  intro l hl e he
  simp only [RoutingGraph.init, List.mem_replicate] at hl
  rw [hl.2] at he
  simp at he

theorem RoutingGraph.WF.adj_lt (g : RoutingGraph) (h : g.WF) (u : Nat) (e : RoadConnections)
    (he : e ∈ g.adj u) : e.destination < g.numCities := by
  obtain ⟨l, hl, hel⟩ := mem_getD_of_mem _ _ _ he
  exact h l hl e hel

end Courier

namespace Courier

/-! ## RoutingGraph: findAllRoutes -/

theorem freeCount_pos (n : Nat) (V : Nat → Bool) (u : Nat) (hu : u < n) (hV : V u = false) :
    0 < freeCount n V := by
  unfold freeCount
  apply Finset.card_pos.mpr
  exact ⟨u, by simp [hu, hV]⟩

theorem freeCount_update (n : Nat) (V : Nat → Bool) (u : Nat) (hu : u < n)
    (hV : V u = false) : freeCount n (Function.update V u true) + 1 = freeCount n V := by
  unfold freeCount
  have hmem : u ∈ (Finset.range n).filter (fun i => V i = false) := by simp [hu, hV]
  have heq : (Finset.range n).filter (fun i => Function.update V u true i = false)
      = ((Finset.range n).filter (fun i => V i = false)).erase u := by
    ext x
    by_cases hx : x = u
    · subst hx; simp
    · simp [Function.update_noteq hx, hx]
  rw [heq, Finset.card_erase_of_mem hmem]
  have := Finset.card_pos.mpr ⟨u, hmem⟩
  omega

theorem RoutingGraph.avoiding_at_dest (g : RoutingGraph) (V : Nat → Bool) (u : Nat)
    (r : List Nat) : g.Avoiding (some u) V u r ↔ r = [u] ∧ V u = false := by
  constructor
  · rintro ⟨hh, hl, hnd, _, hV⟩
    cases r with
    | nil => simp at hh
    | cons x rest =>
      simp only [List.head?_cons, Option.some.injEq] at hh
      subst hh
      cases rest with
      | nil => exact ⟨rfl, hV x (List.mem_cons_self _ _)⟩
      | cons y rest =>
        exfalso
        have hmem : x ∈ (y :: rest) := by
          have h2 : (y :: rest).getLast? = some x := by
            rw [List.getLast?_cons_cons] at hl; exact hl
          exact List.mem_of_getLast?_eq_some h2
        exact (List.nodup_cons.mp hnd).1 hmem
  · rintro ⟨rfl, hV⟩
    refine ⟨rfl, rfl, List.nodup_singleton _, List.chain'_singleton _, ?_⟩
    intro x hx
    rw [List.mem_singleton] at hx
    rw [hx]; exact hV

theorem RoutingGraph.avoiding_step (g : RoutingGraph) (d : Option Nat) (V : Nat → Bool)
    (u : Nat) (hne : some u ≠ d) (r : List Nat) :
    g.Avoiding d V u r ↔
      ∃ v r', r = u :: r' ∧ V u = false ∧ g.Edge u v
        ∧ g.Avoiding d (Function.update V u true) v r' := by
  constructor
  · rintro ⟨hh, hl, hnd, hch, hV⟩
    cases r with
    | nil => simp at hh
    | cons x rest =>
      simp only [List.head?_cons, Option.some.injEq] at hh
      subst hh
      cases rest with
      | nil =>
        exfalso
        apply hne
        rw [← hl]; rfl
      | cons y rest =>
        rw [List.chain'_cons] at hch
        rw [List.nodup_cons] at hnd
        refine ⟨y, y :: rest, rfl, hV x (List.mem_cons_self _ _), hch.1, rfl, ?_, hnd.2, hch.2, ?_⟩
        · rw [List.getLast?_cons_cons] at hl; exact hl
        · intro z hz
          have hzx : z ≠ x := fun e => hnd.1 (e ▸ hz)
          rw [Function.update_noteq hzx]
          exact hV z (List.mem_cons_of_mem _ hz)
  · rintro ⟨v, r', rfl, hVu, hE, hh, hl, hnd, hch, hV⟩
    cases r' with
    | nil => simp at hh
    | cons y rest =>
      simp only [List.head?_cons, Option.some.injEq] at hh
      subst hh
      have hux : u ∉ (y :: rest) := by
        intro hmem
        have := hV u hmem
        simp at this
      refine ⟨rfl, ?_, List.nodup_cons.mpr ⟨hux, hnd⟩, List.chain'_cons.mpr ⟨hE, hch⟩, ?_⟩
      · rw [List.getLast?_cons_cons]; exact hl
      · intro z hz
        rcases List.mem_cons.mp hz with rfl | hz
        · exact hVu
        · have hzu : z ≠ u := fun e => hux (e ▸ hz)
          have := hV z hz
          rw [Function.update_noteq hzu] at this
          exact this

/-- The loop of printAllPathsUtil, given that each recursive call behaves as specified. -/
theorem routesLoop_spec (g : RoutingGraph) (d : Option Nat)
    (call : Nat → RouteState → Option RouteState) (V : Nat → Bool) (P : List Nat)
    (hcall : ∀ v O, v < g.numCities → V v = false →
      ∃ L, call v ⟨V, P, O⟩ = some ⟨V, P, O ++ L⟩
        ∧ ∀ q, q ∈ L ↔ ∃ r, q = P ++ r ∧ g.Avoiding d V v r)
    (l : List RoadConnections) (hl : ∀ e ∈ l, e.destination < g.numCities)
    (O : List (List Nat)) :
    ∃ L, routesLoop call l ⟨V, P, O⟩ = some ⟨V, P, O ++ L⟩
      ∧ ∀ q, q ∈ L ↔ ∃ e ∈ l, e.isBlocked = false ∧ V e.destination = false
          ∧ ∃ r, q = P ++ r ∧ g.Avoiding d V e.destination r := by
  induction l generalizing O with
  | nil => exact ⟨[], by simp [routesLoop], by simp⟩
  | cons e rest ih =>
    have hrest : ∀ x ∈ rest, x.destination < g.numCities :=
      fun x hx => hl x (List.mem_cons_of_mem _ hx)
    unfold routesLoop
    by_cases hc : V e.destination = false ∧ e.isBlocked = false
    · obtain ⟨L1, h1, h1'⟩ := hcall e.destination O (hl e (List.mem_cons_self _ _)) hc.1
      obtain ⟨L2, h2, h2'⟩ := ih hrest (O ++ L1)
      refine ⟨L1 ++ L2, ?_, ?_⟩
      · simp only [hc.1, hc.2, Bool.not_false, Bool.and_self, if_true, h1, h2,
          List.append_assoc]
      · intro q
        rw [List.mem_append, h1', h2']
        constructor
        · rintro (h | ⟨x, hx, h⟩)
          · exact ⟨e, List.mem_cons_self _ _, hc.2, hc.1, h⟩
          · exact ⟨x, List.mem_cons_of_mem _ hx, h⟩
        · rintro ⟨x, hx, hb, hv, h⟩
          rcases List.mem_cons.mp hx with rfl | hx
          · exact Or.inl h
          · exact Or.inr ⟨x, hx, hb, hv, h⟩
    · obtain ⟨L2, h2, h2'⟩ := ih hrest O
      refine ⟨L2, ?_, ?_⟩
      · have : (!V e.destination && !e.isBlocked) = false := by
          cases hV : V e.destination <;> cases hB : e.isBlocked <;> simp_all
        simp only [this, Bool.false_eq_true, if_false, h2]
      · intro q
        rw [h2']
        constructor
        · rintro ⟨x, hx, h⟩
          exact ⟨x, List.mem_cons_of_mem _ hx, h⟩
        · rintro ⟨x, hx, hb, hv, h⟩
          rcases List.mem_cons.mp hx with rfl | hx
          · exact absurd ⟨hv, hb⟩ hc
          · exact ⟨x, hx, hb, hv, h⟩

/-- The lines one call of printAllPathsUtil prints, and the state it leaves. -/
theorem printAllPathsUtil_spec (g : RoutingGraph) (hwf : g.WF) (d : Option Nat) (fuel : Nat) :
    ∀ (u : Nat) (V : Nat → Bool) (P : List Nat) (O : List (List Nat)),
      u < g.numCities → V u = false → freeCount g.numCities V ≤ fuel →
      ∃ L, printAllPathsUtil g d fuel u ⟨V, P, O⟩ = some ⟨V, P, O ++ L⟩
        ∧ ∀ q, q ∈ L ↔ ∃ r, q = P ++ r ∧ g.Avoiding d V u r := by
  induction fuel with
  | zero =>
    intro u V P O hu hV hf
    have := freeCount_pos g.numCities V u hu hV
    omega
  | succ fuel ih =>
    intro u V P O hu hV hf
    have hfree := freeCount_update g.numCities V u hu hV
    have hrestore : Function.update (Function.update V u true) u false = V := by
      rw [Function.update_idem, ← hV, Function.update_eq_self]
    unfold printAllPathsUtil
    by_cases hud : some u = d
    · refine ⟨[P ++ [u]], ?_, ?_⟩
      · simp only [hud, if_true, hrestore, List.dropLast_concat]
      · intro q
        rw [List.mem_singleton]
        subst hud
        constructor
        · rintro rfl
          exact ⟨[u], rfl, (g.avoiding_at_dest V u [u]).mpr ⟨rfl, hV⟩⟩
        · rintro ⟨r, rfl, hr⟩
          rw [((g.avoiding_at_dest V u r).mp hr).1]
    · have hcall : ∀ v O', v < g.numCities → Function.update V u true v = false →
          ∃ L, printAllPathsUtil g d fuel v ⟨Function.update V u true, P ++ [u], O'⟩
              = some ⟨Function.update V u true, P ++ [u], O' ++ L⟩
            ∧ ∀ q, q ∈ L ↔ ∃ r, q = (P ++ [u]) ++ r
                ∧ g.Avoiding d (Function.update V u true) v r := by
        intro v O' hv hVv
        exact ih v _ _ O' hv hVv (by omega)
      obtain ⟨L, hL, hL'⟩ := routesLoop_spec g d (printAllPathsUtil g d fuel)
        (Function.update V u true) (P ++ [u]) hcall (g.adj u)
        (fun e he => hwf.adj_lt g u e he) O
      refine ⟨L, ?_, ?_⟩
      · simp only [hud, if_false, hL, hrestore, List.dropLast_concat]
      · intro q
        rw [hL']
        constructor
        · rintro ⟨e, he, hb, hv, r, rfl, hr⟩
          refine ⟨u :: r, by simp, ?_⟩
          exact (g.avoiding_step d V u hud (u :: r)).mpr
            ⟨e.destination, r, rfl, hV, ⟨e, he, rfl, hb⟩, hr⟩
        · rintro ⟨r, rfl, hr⟩
          obtain ⟨v, r', rfl, _, ⟨e, he, hev, hb⟩, hr'⟩ :=
            (g.avoiding_step d V u hud r).mp hr
          subst hev
          have hVe : Function.update V u true e.destination = false :=
            hr'.2.2.2.2 e.destination (List.mem_of_mem_head? hr'.1)
          exact ⟨e, he, hb, hVe, r', by simp, hr'⟩

theorem freeCount_le (n : Nat) (V : Nat → Bool) : freeCount n V ≤ n := by
  unfold freeCount
  calc ((Finset.range n).filter (fun i => V i = false)).card
      ≤ (Finset.range n).card := Finset.card_filter_le _ _
    _ = n := Finset.card_range n

/-- C3: for a graph built by addCity, addRoute and blockRoad calls and two known cities,
findAllRoutes ends and the node sequences it emits are exactly the simple paths from
the source to the destination over non-blocked edges. -/
theorem RoutingGraph.findAllRoutes_exact (ops : List GraphOp) (src dst : String) (s d : Nat)
    (hs : (RoutingGraph.build ops).getCityIndex src = some s)
    (hd : (RoutingGraph.build ops).getCityIndex dst = some d) :
    ∃ paths, (RoutingGraph.build ops).findAllRoutes src dst = RoutesResult.emitted paths
      ∧ ∀ p, p ∈ paths ↔ (RoutingGraph.build ops).IsSimpleRoute s d p := by
  have hwf := RoutingGraph.WF_build ops
  obtain ⟨L, hL, hL'⟩ := printAllPathsUtil_spec (RoutingGraph.build ops) hwf (some d)
    (RoutingGraph.build ops).numCities s (fun _ => false) [] []
    (RoutingGraph.getCityIndex_lt _ src s hs) rfl (freeCount_le _ _)
  refine ⟨L, ?_, ?_⟩
  · unfold RoutingGraph.findAllRoutes
    rw [hs, hd]
    simp only [hL, List.nil_append]
  · intro p
    rw [hL']
    constructor
    · rintro ⟨r, rfl, h1, h2, h3, h4, _⟩
      exact ⟨h1, h2, h3, h4⟩
    · rintro ⟨h1, h2, h3, h4⟩
      exact ⟨p, by simp, h1, h2, h3, h4, fun _ _ => rfl⟩

end Courier

namespace Courier

/-! ## RoutingGraph: blocking every road -/

theorem MoreBlocked.refl (l : List RoadConnections) : MoreBlocked l l := by
  induction l with
  | nil => exact List.Forall₂.nil
  | cons e l ih => exact List.Forall₂.cons ⟨rfl, rfl, id⟩ ih

theorem MoreBlocked.trans {l1 l2 l3 : List RoadConnections} (h12 : MoreBlocked l1 l2)
    (h23 : MoreBlocked l2 l3) : MoreBlocked l1 l3 := by
  induction h12 generalizing l3 with
  | nil => cases h23; exact List.Forall₂.nil
  | cons h _ ih =>
    cases h23 with
    | cons h' t' =>
      exact List.Forall₂.cons
        ⟨h'.1.trans h.1, h'.2.1.trans h.2.1, fun hb => h'.2.2 (h.2.2 hb)⟩ (ih t')

theorem MoreBlocked.setBlockedFirst (v : Nat) (l : List RoadConnections) :
    MoreBlocked l (setBlockedFirst v true l) := by
  induction l with
  | nil => exact List.Forall₂.nil
  | cons e l ih =>
    unfold Courier.setBlockedFirst
    split
    · exact List.Forall₂.cons ⟨rfl, rfl, fun _ => rfl⟩ (MoreBlocked.refl l)
    · exact List.Forall₂.cons ⟨rfl, rfl, id⟩ ih

theorem MoreBlocked.map_destination {l1 l2 : List RoadConnections} (h : MoreBlocked l1 l2) :
    l2.map (fun e => e.destination) = l1.map (fun e => e.destination) := by
  induction h with
  | nil => rfl
  | cons h _ ih => simp [h.1, ih]

theorem MoreBlocked.blocked_to {l1 l2 : List RoadConnections} (h : MoreBlocked l1 l2)
    (v : Nat) (hb : ∀ e ∈ l1, e.destination = v → e.isBlocked = true) :
    ∀ e ∈ l2, e.destination = v → e.isBlocked = true := by
  induction h with
  | nil => intro e he; simp at he
  | cons h _ ih =>
    intro e he hv
    rcases List.mem_cons.mp he with rfl | he
    · exact h.2.2 (hb _ (List.mem_cons_self _ _) (h.1 ▸ hv))
    · exact ih (fun x hx => hb x (List.mem_cons_of_mem _ hx)) e he hv

theorem setBlockedFirst_blocks (v : Nat) (l : List RoadConnections)
    (hc : (l.map (fun e => e.destination)).count v ≤ 1) :
    ∀ e ∈ setBlockedFirst v true l, e.destination = v → e.isBlocked = true := by
  induction l with
  | nil => intro e he; simp [setBlockedFirst] at he
  | cons a l ih =>
    intro e he hv
    unfold setBlockedFirst at he
    split at he
    · rename_i hav
      rcases List.mem_cons.mp he with rfl | he
      · rfl
      · exfalso
        rw [List.map_cons, hav, List.count_cons_self] at hc
        have : 0 < (l.map (fun e => e.destination)).count v :=
          List.count_pos_iff.mpr (List.mem_map.mpr ⟨e, he, hv⟩)
        omega
    · rename_i hav
      rcases List.mem_cons.mp he with rfl | he
      · exact absurd hv hav
      · apply ih _ e he hv
        rw [List.map_cons, List.count_cons_of_ne (fun h => hav h.symm)] at hc
        exact hc

theorem blockScans_moreBlocked (A : List (List RoadConnections)) (u v j : Nat) :
    MoreBlocked (A.getD j []) ((blockScans A u v true).getD j []) := by
  rw [blockScans_getD]
  split
  · rename_i h
    split
    · rename_i h2
      rw [← h.1, ← h2.1]
      exact (MoreBlocked.setBlockedFirst _ _).trans (MoreBlocked.setBlockedFirst _ _)
    · rw [← h.1]
      exact MoreBlocked.setBlockedFirst _ _
  · split
    · rename_i h
      rw [← h.1]
      exact MoreBlocked.setBlockedFirst _ _
    · exact MoreBlocked.refl _

theorem blockScans_blocks (A : List (List RoadConnections)) (u v : Nat) (huv : u ≠ v)
    (hcu : ((A.getD u []).map (fun e => e.destination)).count v ≤ 1)
    (hcv : ((A.getD v []).map (fun e => e.destination)).count u ≤ 1) :
    (∀ e ∈ (blockScans A u v true).getD u [], e.destination = v → e.isBlocked = true)
    ∧ (∀ e ∈ (blockScans A u v true).getD v [], e.destination = u → e.isBlocked = true) := by
  have hvu : ¬ v = u := fun e => huv e.symm
  constructor
  · rw [blockScans_getD]
    simp only [hvu, false_and, if_false, true_and]
    split
    · exact setBlockedFirst_blocks v _ hcu
    · rename_i h
      rw [getD_nil_of_le A u (not_lt.mp h)]
      intro e he; simp at he
  · rw [blockScans_getD]
    simp only [huv, false_and, if_false, true_and]
    split
    · exact setBlockedFirst_blocks u _ hcv
    · rename_i h
      rw [getD_nil_of_le A v (not_lt.mp h)]
      intro e he; simp at he

theorem RoutingGraph.blockRoad_cityNames (g : RoutingGraph) (a b : String) (status : Bool) :
    (g.blockRoad a b status).cityNames = g.cityNames := by
  unfold RoutingGraph.blockRoad
  cases g.getCityIndex a <;> cases g.getCityIndex b <;> rfl

theorem RoutingGraph.blockRoad_moreBlocked (g : RoutingGraph) (a b : String) (j : Nat) :
    MoreBlocked (g.adj j) ((g.blockRoad a b true).adj j) := by
  cases hu : g.getCityIndex a with
  | none => rw [RoutingGraph.blockRoad_none g a b true (Or.inl hu)]; exact MoreBlocked.refl _
  | some u =>
    cases hv : g.getCityIndex b with
    | none => rw [RoutingGraph.blockRoad_none g a b true (Or.inr hv)]; exact MoreBlocked.refl _
    | some v =>
      rw [RoutingGraph.blockRoad_some g a b true u v hu hv]
      exact blockScans_moreBlocked g.adjList u v j

theorem RoutingGraph.blockRoads_cityNames (calls : List (String × String)) (g : RoutingGraph) :
    (g.blockRoads calls).cityNames = g.cityNames := by
  induction calls generalizing g with
  | nil => rfl
  | cons c calls ih =>
    unfold RoutingGraph.blockRoads at ih ⊢
    rw [List.foldl_cons, ih, RoutingGraph.blockRoad_cityNames]

theorem RoutingGraph.blockRoads_moreBlocked (calls : List (String × String))
    (g : RoutingGraph) (j : Nat) : MoreBlocked (g.adj j) ((g.blockRoads calls).adj j) := by
  induction calls generalizing g with
  | nil => exact MoreBlocked.refl _
  | cons c calls ih =>
    unfold RoutingGraph.blockRoads at ih ⊢
    rw [List.foldl_cons]
    exact (RoutingGraph.blockRoad_moreBlocked g c.1 c.2 j).trans (ih _)

theorem RoutingGraph.getCityIndex_congr (g g' : RoutingGraph) (h : g'.cityNames = g.cityNames)
    (name : String) : g'.getCityIndex name = g.getCityIndex name := by
  unfold RoutingGraph.getCityIndex
  rw [h]

/-- After the calls of `calls`, each called pair of distinct cities has all its roads
blocked, when no two cities are joined twice. -/
theorem RoutingGraph.blockRoads_blocks (calls : List (String × String)) (g : RoutingGraph)
    (hnp : g.NoParallelRoads) (c : String × String) (hc : c ∈ calls) (u v : Nat)
    (hu : g.getCityIndex c.1 = some u) (hv : g.getCityIndex c.2 = some v) (huv : u ≠ v) :
    (∀ e ∈ (g.blockRoads calls).adj u, e.destination = v → e.isBlocked = true)
    ∧ (∀ e ∈ (g.blockRoads calls).adj v, e.destination = u → e.isBlocked = true) := by
  induction calls generalizing g with
  | nil => simp at hc
  | cons c0 calls ih =>
    have hstep : (g.blockRoads (c0 :: calls)) = (g.blockRoad c0.1 c0.2 true).blockRoads calls := by
      unfold RoutingGraph.blockRoads
      rw [List.foldl_cons]
    rw [hstep]
    rcases List.mem_cons.mp hc with rfl | hc
    · have hun := g.getCityIndex_lt c.1 u hu
      have hvn := g.getCityIndex_lt c.2 v hv
      have h1 := blockScans_blocks g.adjList u v huv
        (hnp u hun v hvn (fun e => huv e.symm)) (hnp v hvn u hun huv)
      have hadj : ∀ j, (g.blockRoad c.1 c.2 true).adj j
          = (blockScans g.adjList u v true).getD j [] := by
        intro j
        rw [RoutingGraph.blockRoad_some g c.1 c.2 true u v hu hv]
        rfl
      rw [← hadj u, ← hadj v] at h1
      exact ⟨(RoutingGraph.blockRoads_moreBlocked calls _ u).blocked_to v h1.1,
        (RoutingGraph.blockRoads_moreBlocked calls _ v).blocked_to u h1.2⟩
    · have hnames := RoutingGraph.blockRoad_cityNames g c0.1 c0.2 true
      apply ih (g.blockRoad c0.1 c0.2 true) _ hc
      · rw [RoutingGraph.getCityIndex_blockRoad]; exact hu
      · rw [RoutingGraph.getCityIndex_blockRoad]; exact hv
      · intro a ha b hb hba
        unfold RoutingGraph.numCities at ha hb
        rw [hnames] at ha hb
        rw [(RoutingGraph.blockRoad_moreBlocked g c0.1 c0.2 a).map_destination]
        exact hnp a ha b hb hba

/-- After blocking every road of a graph without parallel roads, every adjacency node
that leads to another city is blocked. -/
theorem RoutingGraph.blockRoads_all (calls : List (String × String)) (g : RoutingGraph)
    (hnp : g.NoParallelRoads) (hcov : g.CoversAllRoads calls) :
    ∀ u, u < g.numCities → ∀ e ∈ (g.blockRoads calls).adj u,
      e.destination ≠ u → e.isBlocked = true := by
  intro u hu e he hne
  have hmb := RoutingGraph.blockRoads_moreBlocked calls g u
  have hdest : e.destination ∈ (g.adj u).map (fun e => e.destination) := by
    rw [← hmb.map_destination]
    exact List.mem_map.mpr ⟨e, he, rfl⟩
  obtain ⟨e0, he0, hd0⟩ := List.mem_map.mp hdest
  obtain ⟨c, hc, h | h⟩ := hcov u hu e0 he0
  · rw [hd0] at h
    exact (RoutingGraph.blockRoads_blocks calls g hnp c hc u e.destination h.1 h.2
      (fun e' => hne e'.symm)).1 e he rfl
  · rw [hd0] at h
    exact (RoutingGraph.blockRoads_blocks calls g hnp c hc e.destination u h.1 h.2 hne).2
      e he rfl

end Courier

namespace Courier

/-! ## RoutingGraph: the pieces of findShortestPath -/

theorem dijkstraInitLoop_spec (n : Nat) :
    (∀ i, (dijkstraInitLoop n).dist i = if i < n then INT_MAX else 0)
    ∧ (∀ i, (dijkstraInitLoop n).parent i = none)
    ∧ (∀ i, (dijkstraInitLoop n).visited i = false) := by
  induction n with
  | zero => simp [dijkstraInitLoop]
  | succ n ih =>
    have hstep : dijkstraInitLoop (n + 1) =
        { dist := Function.update (dijkstraInitLoop n).dist n INT_MAX
          visited := Function.update (dijkstraInitLoop n).visited n false
          parent := Function.update (dijkstraInitLoop n).parent n none } := by
      simp only [dijkstraInitLoop, List.range_succ, List.foldl_append, List.foldl_cons,
        List.foldl_nil]
    rw [hstep]
    obtain ⟨h1, h2, h3⟩ := ih
    refine ⟨?_, ?_, ?_⟩
    · intro i
      by_cases hi : i = n
      · subst hi; simp
      · simp only [Function.update_noteq hi, h1]
        by_cases hlt : i < n
        · simp [hlt, Nat.lt_succ_of_lt hlt]
        · have : ¬ i < n + 1 := by omega
          simp [hlt, this]
    · intro i
      by_cases hi : i = n
      · subst hi; simp
      · simp only [Function.update_noteq hi, h2]
    · intro i
      by_cases hi : i = n
      · subst hi; simp
      · simp only [Function.update_noteq hi, h3]

theorem dijkstraInit_spec (n start : Nat) :
    (∀ i, (dijkstraInit n start).dist i
        = if i = start then 0 else if i < n then INT_MAX else 0)
    ∧ (∀ i, (dijkstraInit n start).parent i = none)
    ∧ (∀ i, (dijkstraInit n start).visited i = false) := by
  obtain ⟨h1, h2, h3⟩ := dijkstraInitLoop_spec n
  unfold dijkstraInit
  refine ⟨?_, h2, h3⟩
  intro i
  by_cases hi : i = start
  · subst hi; simp
  · simp only [Function.update_noteq hi, if_neg hi]
    exact h1 i

theorem selectMin_spec (st : DijkstraState) (n : Nat) :
    (selectMin st n).1 ≤ INT_MAX
    ∧ (∀ i, i < n → st.visited i = false → (selectMin st n).1 ≤ st.dist i)
    ∧ ((selectMin st n).2 = none → (selectMin st n).1 = INT_MAX)
    ∧ (∀ u, (selectMin st n).2 = some u →
        u < n ∧ st.visited u = false ∧ st.dist u = (selectMin st n).1) := by
  induction n with
  | zero =>
    refine ⟨by simp [selectMin], ?_, ?_, ?_⟩
    · intro i hi; omega
    · intro _; rfl
    · intro u hu; simp [selectMin] at hu
  | succ n ih =>
    obtain ⟨h1, h2, h3, h4⟩ := ih
    have hstep : selectMin st (n + 1) =
        if !st.visited n && decide (st.dist n ≤ (selectMin st n).1) then (st.dist n, some n)
        else selectMin st n := by
      simp only [selectMin, List.range_succ, List.foldl_append, List.foldl_cons,
        List.foldl_nil]
    rw [hstep]
    by_cases hc : st.visited n = false ∧ st.dist n ≤ (selectMin st n).1
    · have hif : (!st.visited n && decide (st.dist n ≤ (selectMin st n).1)) = true := by
        simp [hc.1, hc.2]
      rw [if_pos hif]
      refine ⟨le_trans hc.2 h1, ?_, ?_, ?_⟩
      · intro i hi hv
        by_cases hin : i = n
        · subst hin; exact le_refl _
        · exact le_trans hc.2 (h2 i (by omega) hv)
      · intro h; simp at h
      · intro u hu
        simp only [Option.some.injEq] at hu
        subst hu
        exact ⟨by omega, hc.1, rfl⟩
    · have hif : ¬ (!st.visited n && decide (st.dist n ≤ (selectMin st n).1)) = true := by
        intro h
        apply hc
        simp only [Bool.and_eq_true, Bool.not_eq_true', decide_eq_true_eq] at h
        exact h
      rw [if_neg hif]
      refine ⟨h1, ?_, ?_, ?_⟩
      · intro i hi hv
        by_cases hin : i = n
        · subst hin
          have : ¬ st.dist i ≤ (selectMin st i).1 := fun h => hc ⟨hv, h⟩
          omega
        · exact h2 i (by omega) hv
      · exact h3
      · intro u hu
        obtain ⟨a, b, c⟩ := h4 u hu
        exact ⟨by omega, b, c⟩

end Courier

namespace Courier

/-! ## RoutingGraph: queries after blocking every road -/

theorem relaxEdge_skip (u : Nat) (st : DijkstraState) (e : RoadConnections)
    (h : e.isBlocked = true ∨ st.visited e.destination = true) : relaxEdge u st e = st := by
  unfold relaxEdge
  rcases h with h | h <;> simp [h]

theorem foldl_relaxEdge_skip (u : Nat) (st : DijkstraState) (l : List RoadConnections)
    (h : ∀ e ∈ l, e.isBlocked = true ∨ st.visited e.destination = true) :
    l.foldl (relaxEdge u) st = st := by
  induction l with
  | nil => rfl
  | cons e l ih =>
    rw [List.foldl_cons, relaxEdge_skip u st e (h e (List.mem_cons_self _ _))]
    exact ih (fun x hx => h x (List.mem_cons_of_mem _ hx))

theorem dijkstraLoop_all_blocked (g : RoutingGraph)
    (hb : ∀ u, u < g.numCities → ∀ e ∈ g.adj u, e.destination ≠ u → e.isBlocked = true)
    (rounds : Nat) (st : DijkstraState) :
    (dijkstraLoop g rounds st).dist = st.dist := by
  induction rounds generalizing st with
  | zero => rfl
  | succ rounds ih =>
    unfold dijkstraLoop
    cases hsel : (selectMin st g.numCities).2 with
    | none => rfl
    | some u =>
      simp only
      obtain ⟨hun, _, _⟩ := (selectMin_spec st g.numCities).2.2.2 u hsel
      rw [foldl_relaxEdge_skip, ih]
      intro e he
      by_cases hd : e.destination = u
      · right; rw [hd]; simp
      · left; exact hb u hun e he hd

theorem getCityIndexFrom_name (name : String) (names : List String) (i k : Nat)
    (h : getCityIndexFrom name names i = some k) : names[k - i]? = some name := by
  induction names generalizing i with
  | nil => simp [getCityIndexFrom] at h
  | cons c rest ih =>
    unfold getCityIndexFrom at h
    split at h
    · rename_i hc
      simp only [Option.some.injEq] at h
      subst h
      simp [hc]
    · have hb := getCityIndexFrom_bound name rest (i + 1) k h
      have := ih (i + 1) h
      have e : k - i = (k - (i + 1)) + 1 := by omega
      rw [e, List.getElem?_cons_succ]
      exact this

theorem RoutingGraph.getCityIndex_inj (g : RoutingGraph) (a b : String) (k : Nat)
    (ha : g.getCityIndex a = some k) (hb : g.getCityIndex b = some k) : a = b := by
  have h1 := getCityIndexFrom_name a g.cityNames 0 k ha
  have h2 := getCityIndexFrom_name b g.cityNames 0 k hb
  rw [h1] at h2
  exact Option.some.inj h2

theorem RoutingGraph.WF_blockRoads (calls : List (String × String)) (g : RoutingGraph)
    (h : g.WF) : (g.blockRoads calls).WF := by
  induction calls generalizing g with
  | nil => exact h
  | cons c calls ih =>
    unfold RoutingGraph.blockRoads at ih ⊢
    rw [List.foldl_cons]
    exact ih _ (RoutingGraph.WF_apply g (GraphOp.blockRoad c.1 c.2 true) h)

/-- C4 (amended): for a graph built by addCity, addRoute and blockRoad calls in which no
two distinct cities are joined by more than one road, after blockRoad(a, b, true) has
been called for every pair of cities joined by a road, findShortestPath between two
distinct known cities reports no path and findAllRoutes emits no path. -/
theorem RoutingGraph.all_roads_blocked (ops : List GraphOp) (calls : List (String × String))
    (src dst : String) (s d : Nat)
    (hnp : (RoutingGraph.build ops).NoParallelRoads)
    (hcov : (RoutingGraph.build ops).CoversAllRoads calls)
    (hs : (RoutingGraph.build ops).getCityIndex src = some s)
    (hd : (RoutingGraph.build ops).getCityIndex dst = some d)
    (hne : src ≠ dst) :
    ((RoutingGraph.build ops).blockRoads calls).findShortestPath src dst = PathResult.noPath
    ∧ ((RoutingGraph.build ops).blockRoads calls).findAllRoutes src dst
        = RoutesResult.emitted [] := by
  have hnames := RoutingGraph.blockRoads_cityNames calls (RoutingGraph.build ops)
  have hidx := RoutingGraph.getCityIndex_congr _ _ hnames
  have hn : ((RoutingGraph.build ops).blockRoads calls).numCities
      = (RoutingGraph.build ops).numCities := by
    unfold RoutingGraph.numCities; rw [hnames]
  have hsd : s ≠ d := by
    intro e
    subst e
    exact hne (RoutingGraph.getCityIndex_inj _ src dst s hs hd)
  have hdn := RoutingGraph.getCityIndex_lt _ dst d hd
  have hsn := RoutingGraph.getCityIndex_lt _ src s hs
  have hall := RoutingGraph.blockRoads_all calls _ hnp hcov
  have hwf := RoutingGraph.WF_blockRoads calls _ (RoutingGraph.WF_build ops)
  constructor
  · unfold RoutingGraph.findShortestPath
    rw [hidx, hidx, hs, hd]
    simp only
    rw [dijkstraLoop_all_blocked _ (by rw [hn]; exact hall)]
    have hds : ¬ d = s := fun e => hsd e.symm
    have hdist : (dijkstraInit ((RoutingGraph.build ops).blockRoads calls).numCities s).dist d
        = INT_MAX := by
      rw [(dijkstraInit_spec _ s).1 d, if_neg hds, hn, if_pos hdn]
    rw [if_pos hdist]
  · obtain ⟨L, hL, hL'⟩ := printAllPathsUtil_spec _ hwf (some d)
      ((RoutingGraph.build ops).blockRoads calls).numCities s (fun _ => false) [] []
      (by rw [hn]; exact hsn) rfl (freeCount_le _ _)
    have hempty : L = [] := by
      apply List.eq_nil_iff_forall_not_mem.mpr
      intro q hq
      obtain ⟨r, _, hr⟩ := (hL' q).mp hq
      obtain ⟨v, r', _, _, ⟨e, he, hev, hbl⟩, hr'⟩ :=
        (RoutingGraph.avoiding_step _ (some d) _ s
          (by simpa using hsd) r).mp hr
      have hvs : e.destination ≠ s := by
        intro hes
        have := hr'.2.2.2.2 v (List.mem_of_mem_head? hr'.1)
        rw [← hev, hes] at this
        simp at this
      have := hall s hsn e he hvs
      rw [hbl] at this
      simp at this
    unfold RoutingGraph.findAllRoutes
    rw [hidx, hidx, hs, hd]
    simp only [hL, hempty, List.append_nil]

end Courier

namespace Courier

/-! ## RoutingGraph: walks and the parent array -/

theorem wrap32_of_range (x : Int) (h0 : 0 ≤ x) (h1 : x ≤ INT_MAX) : wrap32 x = x := by
  unfold wrap32
  unfold INT_MAX at h1
  omega

theorem RoutingGraph.IsWalk.append_single (g : RoutingGraph) (s u : Nat)
    (es : List RoadConnections) (e : RoadConnections) (hw : g.IsWalk s es u)
    (he : e ∈ g.adj u) (hb : e.isBlocked = false) : g.IsWalk s (es ++ [e]) e.destination := by
  induction es generalizing s with
  | nil =>
    simp only [RoutingGraph.IsWalk] at hw
    subst hw
    exact ⟨he, hb, rfl⟩
  | cons a es ih =>
    obtain ⟨h1, h2, h3⟩ := hw
    exact ⟨h1, h2, ih a.destination h3⟩

theorem RoutingGraph.IsWalk.split_last (g : RoutingGraph) (s v : Nat)
    (es : List RoadConnections) (e : RoadConnections) (hw : g.IsWalk s (es ++ [e]) v) :
    ∃ u, g.IsWalk s es u ∧ e ∈ g.adj u ∧ e.isBlocked = false ∧ e.destination = v := by
  induction es generalizing s with
  | nil =>
    obtain ⟨h1, h2, h3⟩ := hw
    exact ⟨s, rfl, h1, h2, h3⟩
  | cons a es ih =>
    obtain ⟨h1, h2, h3⟩ := hw
    obtain ⟨u, hu⟩ := ih a.destination h3
    exact ⟨u, ⟨h1, h2, hu.1⟩, hu.2⟩

theorem walkNodes_append (s : Nat) (es : List RoadConnections) (e : RoadConnections) :
    walkNodes s (es ++ [e]) = walkNodes s es ++ [e.destination] := by
  simp [walkNodes]

theorem walkCost_append (es : List RoadConnections) (e : RoadConnections) :
    walkCost (es ++ [e]) = walkCost es + e.weight := by
  simp [walkCost]

theorem RoutingGraph.IsWalk.last_mem (g : RoutingGraph) (s v : Nat)
    (es : List RoadConnections) (hw : g.IsWalk s es v) : v ∈ walkNodes s es := by
  induction es generalizing s with
  | nil =>
    simp only [RoutingGraph.IsWalk] at hw
    subst hw
    simp [walkNodes]
  | cons a es ih =>
    have := ih a.destination hw.2.2
    simp only [walkNodes, List.map_cons, List.mem_cons] at this ⊢
    right
    exact this

theorem RoutingGraph.IsWalk.nodes_lt (g : RoutingGraph) (hwf : g.WF) (s v : Nat)
    (es : List RoadConnections) (hs : s < g.numCities) (hw : g.IsWalk s es v) :
    ∀ x ∈ walkNodes s es, x < g.numCities := by
  induction es generalizing s with
  | nil =>
    intro x hx
    simp only [walkNodes, List.map_nil, List.mem_singleton] at hx
    rw [hx]; exact hs
  | cons a es ih =>
    intro x hx
    simp only [walkNodes, List.map_cons, List.mem_cons] at hx
    rcases hx with rfl | hx
    · exact hs
    · apply ih a.destination (hwf.adj_lt g s a hw.1) hw.2.2
      simp only [walkNodes, List.mem_cons]
      exact hx

theorem nodup_length_le (n : Nat) (l : List Nat) (hnd : l.Nodup) (hlt : ∀ x ∈ l, x < n) :
    l.length ≤ n := by
  have hsub : l ⊆ List.range n := fun x hx => List.mem_range.mpr (hlt x hx)
  have := (List.Nodup.subperm hnd hsub).length_le
  simpa using this

theorem printPathRecursive_none (parent : Nat → Option Nat) (fuel j : Nat)
    (h : parent j = none) : printPathRecursive parent (fuel + 1) j = some [j] := by
  unfold printPathRecursive
  rw [h]

theorem printPathRecursive_some (parent : Nat → Option Nat) (fuel j pj : Nat)
    (h : parent j = some pj) :
    printPathRecursive parent (fuel + 1) j
      = (printPathRecursive parent fuel pj).map (fun l => l ++ [j]) := by
  rw [printPathRecursive, h]

theorem printPathRecursive_mem (parent : Nat → Option Nat) (fuel j : Nat) (l : List Nat)
    (h : printPathRecursive parent fuel j = some l) : j ∈ l := by
  cases fuel with
  | zero => simp [printPathRecursive] at h
  | succ fuel =>
    unfold printPathRecursive at h
    split at h
    · simp only [Option.some.injEq] at h
      rw [← h]; simp
    · cases hr : printPathRecursive parent fuel _ with
      | none => rw [hr] at h; simp at h
      | some l0 =>
        rw [hr] at h
        simp only [Option.map_some', Option.some.injEq] at h
        rw [← h]; simp

theorem printPathRecursive_congr (parent parent' : Nat → Option Nat) (fuel j : Nat)
    (l : List Nat) (h : printPathRecursive parent fuel j = some l)
    (hag : ∀ x ∈ l, parent' x = parent x) : printPathRecursive parent' fuel j = some l := by
  induction fuel generalizing j l with
  | zero => simp [printPathRecursive] at h
  | succ fuel ih =>
    have hj := printPathRecursive_mem parent (fuel + 1) j l h
    unfold printPathRecursive at h ⊢
    rw [hag j hj]
    split at h
    · exact h
    · rename_i pj hp
      cases hr : printPathRecursive parent fuel pj with
      | none => rw [hr] at h; simp at h
      | some l0 =>
        rw [hr] at h
        simp only [Option.map_some', Option.some.injEq] at h
        rw [ih pj l0 hr (fun x hx => hag x (by rw [← h]; simp [hx]))]
        simp [h]

theorem printPathRecursive_mono (parent : Nat → Option Nat) (fuel fuel' j : Nat)
    (l : List Nat) (h : printPathRecursive parent fuel j = some l) (hle : fuel ≤ fuel') :
    printPathRecursive parent fuel' j = some l := by
  induction fuel generalizing j l fuel' with
  | zero => simp [printPathRecursive] at h
  | succ fuel ih =>
    obtain ⟨k, rfl⟩ : ∃ k, fuel' = k + 1 := ⟨fuel' - 1, by omega⟩
    unfold printPathRecursive at h ⊢
    split at h
    · exact h
    · rename_i pj hp
      cases hr : printPathRecursive parent fuel pj with
      | none => rw [hr] at h; simp at h
      | some l0 =>
        rw [hr] at h
        rw [ih k pj l0 hr (by omega)]
        exact h

end Courier

namespace Courier

/-! ## RoutingGraph: the loop invariant of findShortestPath -/

theorem reached_transfer (g : RoutingGraph) (s z : Nat) (st st' : DijkstraState)
    (hr : Reached g s st z)
    (hvis : ∀ x, st.visited x = true → st'.visited x = true)
    (hag : ∀ x, (x = z ∨ st.visited x = true) →
      st'.dist x = st.dist x ∧ st'.parent x = st.parent x) :
    Reached g s st' z := by
  obtain ⟨es, hwalk, hnd, hcost, hv, hfin, hpath⟩ := hr
  have hnode : ∀ x ∈ walkNodes s es, x = z ∨ st.visited x = true := by
    intro x hx
    by_cases hxz : x = z
    · exact Or.inl hxz
    · exact Or.inr (hv x hx hxz)
  refine ⟨es, hwalk, hnd, ?_, ?_, ?_, ?_⟩
  · rw [(hag z (Or.inl rfl)).1]; exact hcost
  · intro x hx hxz
    exact hvis x (hv x hx hxz)
  · intro x hx
    rw [(hag x (hnode x hx)).1]
    exact hfin x hx
  · exact printPathRecursive_congr st.parent st'.parent _ z _ hpath
      (fun x hx => (hag x (hnode x hx)).2)

theorem RoutingGraph.NonNegWeights.adj (g : RoutingGraph) (h : g.NonNegWeights) (u : Nat)
    (e : RoadConnections) (he : e ∈ g.adj u) : 0 ≤ e.weight := by
  obtain ⟨l, hl, hel⟩ := mem_getD_of_mem _ _ _ he
  exact h l hl e hel

theorem relaxEdge_spec (g : RoutingGraph) (hwf : g.WF) (hnn : g.NonNegWeights) (s u : Nat)
    (hno : g.NoOverflow s) (st : DijkstraState) (hinv : RelaxInv g s u st)
    (e : RoadConnections) (he : e ∈ g.adj u) :
    RelaxInv g s u (relaxEdge u st e)
    ∧ (∀ x, (relaxEdge u st e).dist x ≤ st.dist x)
    ∧ (relaxEdge u st e).dist u = st.dist u
    ∧ (e.isBlocked = false → st.dist u ≠ INT_MAX →
        (relaxEdge u st e).dist e.destination ≤ st.dist u + e.weight) := by
  have hvn : e.destination < g.numCities := hwf.adj_lt g u e he
  have hw0 : 0 ≤ e.weight := hnn.adj g u e he
  by_cases hb : e.isBlocked = false
  swap
  · have hsame : relaxEdge u st e = st := by simp [relaxEdge, hb]
    rw [hsame]
    exact ⟨hinv, fun x => le_refl _, rfl, fun h => absurd h hb⟩
  by_cases hv : st.visited e.destination = false
  swap
  · have hsame : relaxEdge u st e = st := by simp [relaxEdge, hv]
    rw [hsame]
    refine ⟨hinv, fun x => le_refl _, rfl, fun _ _ => ?_⟩
    have := hinv.pivot_max e.destination hvn (by simpa using hv)
    omega
  by_cases hd : st.dist u ≠ INT_MAX
  swap
  · have hsame : relaxEdge u st e = st := by
      have : st.dist u = INT_MAX := by simpa using hd
      simp [relaxEdge, this]
    rw [hsame]
    exact ⟨hinv, fun x => le_refl _, rfl, fun _ h => absurd h hd⟩
  obtain ⟨es, hwalk, hnd, hcost, hvis, hfin, hpath⟩ := hinv.reach u hinv.pivot_lt hd
  have hvu : e.destination ≠ u := by
    intro h
    rw [h, hinv.pivot_visited] at hv
    simp at hv
  have hvnot : e.destination ∉ walkNodes s es := by
    intro hmem
    have := hvis _ hmem hvu
    rw [hv] at this
    simp at this
  have hwalk' := RoutingGraph.IsWalk.append_single g s u es e hwalk he hb
  have hnd' : (walkNodes s (es ++ [e])).Nodup := by
    rw [walkNodes_append]
    apply List.Nodup.append hnd (List.nodup_singleton _)
    intro x hx hx'
    rw [List.mem_singleton] at hx'
    exact hvnot (hx' ▸ hx)
  have hsum_le : st.dist u + e.weight ≤ INT_MAX := by
    have := hno _ _ hwalk' hnd'
    rw [walkCost_append, hcost] at this
    exact this
  have hsum_ge : 0 ≤ st.dist u + e.weight := by
    have := (hinv.range u hinv.pivot_lt).1
    omega
  have hwrap := wrap32_of_range _ hsum_ge hsum_le
  by_cases hlt : st.dist u + e.weight < st.dist e.destination
  swap
  · have hsame : relaxEdge u st e = st := by simp [relaxEdge, hwrap, hlt]
    rw [hsame]
    exact ⟨hinv, fun x => le_refl _, rfl, fun _ _ => not_lt.mp hlt⟩
  have hnew : relaxEdge u st e =
      { st with
        dist := Function.update st.dist e.destination (st.dist u + e.weight)
        parent := Function.update st.parent e.destination (some u) } := by
    simp [relaxEdge, hb, hv, hd, hwrap, hlt]
  rw [hnew]
  have hdv : ∀ x, st.visited x = true → x ≠ e.destination := by
    intro x hx hxe
    rw [hxe, hv] at hx
    simp at hx
  have hsv : s ≠ e.destination := by
    intro h
    rw [← h, hinv.dist_s] at hlt
    omega
  refine ⟨⟨hinv.pivot_lt, hinv.pivot_visited, ?_, ?_, ?_, ?_, ?_, ?_⟩, ?_, ?_, ?_⟩
  · intro a ha hav
    simp only [Function.update_noteq (hdv a hav), Function.update_noteq (Ne.symm hvu)]
    exact hinv.pivot_max a ha hav
  · simp only [Function.update_noteq hsv]
    exact hinv.dist_s
  · intro x hx
    by_cases hxe : x = e.destination
    · subst hxe
      simp only [Function.update_same]
      exact ⟨hsum_ge, hsum_le⟩
    · simp only [Function.update_noteq hxe]
      exact hinv.range x hx
  · intro z hz hzd
    by_cases hze : z = e.destination
    · subst hze
      refine ⟨es ++ [e], hwalk', hnd', ?_, ?_, ?_, ?_⟩
      · simp only [Function.update_same]
        rw [walkCost_append, hcost]
      · intro x hx hxe
        rw [walkNodes_append, List.mem_append, List.mem_singleton] at hx
        rcases hx with hx | hx
        · by_cases hxu : x = u
          · rw [hxu]; exact hinv.pivot_visited
          · exact hvis x hx hxu
        · exact absurd hx hxe
      · intro x hx
        rw [walkNodes_append, List.mem_append, List.mem_singleton] at hx
        rcases hx with hx | hx
        · have hxe : x ≠ e.destination := fun h => hvnot (h ▸ hx)
          simp only [Function.update_noteq hxe]
          exact hfin x hx
        · subst hx
          simp only [Function.update_same]
          have := (hinv.range e.destination hvn).2
          omega
      · rw [walkNodes_append, List.length_append, List.length_singleton]
        rw [printPathRecursive_some _ _ _ u (by simp)]
        rw [printPathRecursive_congr st.parent _ _ u _ hpath
          (fun x hx => by
            have hxe : x ≠ e.destination := fun h => hvnot (h ▸ hx)
            simp only [Function.update_noteq hxe])]
        rfl
    · simp only [Function.update_noteq hze] at hzd
      refine reached_transfer g s z st _ (hinv.reach z hz hzd) (fun x hx => hx) ?_
      intro x hx
      have hxe : x ≠ e.destination := by
        rcases hx with rfl | hx
        · exact hze
        · exact hdv x hx
      simp only [Function.update_noteq hxe, and_self]
  · intro a ha hau hav had e' he' hb'
    simp only [Function.update_noteq (hdv a hav)] at had ⊢
    have := hinv.closed a ha hau hav had e' he' hb'
    by_cases hx : e'.destination = e.destination
    · rw [hx]
      simp only [Function.update_same]
      rw [hx] at this
      omega
    · simp only [Function.update_noteq hx]
      exact this
  · intro a b ha hb' hav hbv
    simp only [Function.update_noteq (hdv a hav)]
    by_cases hx : b = e.destination
    · subst hx
      simp only [Function.update_same]
      have := hinv.pivot_max a ha hav
      omega
    · simp only [Function.update_noteq hx]
      exact hinv.order a b ha hb' hav hbv
  · intro x
    by_cases hx : x = e.destination
    · subst hx
      simp only [Function.update_same]
      omega
    · simp only [Function.update_noteq hx]
      exact le_refl _
  · simp only [Function.update_noteq (Ne.symm hvu)]
  · intro _ _
    simp only [Function.update_same]
    exact le_refl _

end Courier

namespace Courier

theorem relaxEdge_visited (u : Nat) (st : DijkstraState) (e : RoadConnections) :
    (relaxEdge u st e).visited = st.visited := by
  unfold relaxEdge
  split <;> rfl

theorem foldl_relaxEdge_spec (g : RoutingGraph) (hwf : g.WF) (hnn : g.NonNegWeights)
    (s u : Nat) (hno : g.NoOverflow s) (l : List RoadConnections) (st : DijkstraState)
    (hinv : RelaxInv g s u st) (hl : ∀ e ∈ l, e ∈ g.adj u) :
    RelaxInv g s u (l.foldl (relaxEdge u) st)
    ∧ (∀ x, (l.foldl (relaxEdge u) st).dist x ≤ st.dist x)
    ∧ (l.foldl (relaxEdge u) st).dist u = st.dist u
    ∧ (l.foldl (relaxEdge u) st).visited = st.visited
    ∧ (∀ e ∈ l, e.isBlocked = false → st.dist u ≠ INT_MAX →
        (l.foldl (relaxEdge u) st).dist e.destination ≤ st.dist u + e.weight) := by
  induction l generalizing st with
  | nil =>
    refine ⟨hinv, fun x => le_refl _, rfl, rfl, ?_⟩
    intro e he
    simp at he
  | cons a l ih =>
    rw [List.foldl_cons]
    obtain ⟨h1, h2, h3, h4⟩ := relaxEdge_spec g hwf hnn s u hno st hinv a
      (hl a (List.mem_cons_self _ _))
    obtain ⟨i1, i2, i3, i4, i5⟩ := ih (relaxEdge u st a) h1
      (fun e he => hl e (List.mem_cons_of_mem _ he))
    refine ⟨i1, fun x => le_trans (i2 x) (h2 x), by rw [i3, h3],
      by rw [i4, relaxEdge_visited], ?_⟩
    intro e he hb hd
    rcases List.mem_cons.mp he with rfl | he
    · exact le_trans (i2 _) (h4 hb hd)
    · have := i5 e he hb (by rw [h3]; exact hd)
      rw [h3] at this
      exact this

theorem selectMin_succ (st : DijkstraState) (n : Nat) :
    selectMin st (n + 1) =
      if !st.visited n && decide (st.dist n ≤ (selectMin st n).1) then (st.dist n, some n)
      else selectMin st n := by
  simp only [selectMin, List.range_succ, List.foldl_append, List.foldl_cons, List.foldl_nil]

theorem selectMin_some (st : DijkstraState) (n i : Nat) (hi : i < n)
    (hv : st.visited i = false) (hd : st.dist i ≤ INT_MAX) : (selectMin st n).2 ≠ none := by
  induction n with
  | zero => omega
  | succ n ih =>
    rw [selectMin_succ]
    split
    · simp
    · rename_i hc
      by_cases hin : i = n
      · subst hin
        have hnot : ¬ st.dist i ≤ (selectMin st i).1 := by
          intro h
          apply hc
          simp [hv, h]
        intro hnone
        have := (selectMin_spec st i).2.2.1 hnone
        omega
      · exact ih (by omega)

theorem freeCount_le_one (n : Nat) (V : Nat → Bool) (h : freeCount n V ≤ 1) (a b : Nat)
    (ha : a < n) (hb : b < n) (hVa : V a = false) (hVb : V b = false) : a = b := by
  unfold freeCount at h
  exact Finset.card_le_one.mp h a (by simp [ha, hVa]) b (by simp [hb, hVb])

theorem freeCount_zero (n : Nat) (V : Nat → Bool) (h : ∀ i, i < n → V i = true) :
    freeCount n V = 0 := by
  unfold freeCount
  rw [Finset.card_eq_zero, Finset.filter_eq_empty_iff]
  intro i hi
  rw [Finset.mem_range] at hi
  simp [h i hi]

/-- One round of the main loop keeps the invariant and visits one more city. -/
theorem dijkstraRound_spec (g : RoutingGraph) (hwf : g.WF) (hnn : g.NonNegWeights) (s : Nat)
    (hno : g.NoOverflow s) (st : DijkstraState) (hinv : DijkstraInv g s st) (u : Nat)
    (hsel : (selectMin st g.numCities).2 = some u) :
    DijkstraInv g s ((g.adj u).foldl (relaxEdge u)
        { st with visited := Function.update st.visited u true })
    ∧ freeCount g.numCities ((g.adj u).foldl (relaxEdge u)
        { st with visited := Function.update st.visited u true }).visited + 1
      = freeCount g.numCities st.visited := by
  obtain ⟨_, hmin, _, hsome⟩ := selectMin_spec st g.numCities
  obtain ⟨hun, huv, hdu⟩ := hsome u hsel
  have hvis1 : ∀ x, x ≠ u → Function.update st.visited u true x = st.visited x :=
    fun x hx => Function.update_noteq hx _ _
  have hrel : RelaxInv g s u { st with visited := Function.update st.visited u true } := by
    refine ⟨hun, by simp, ?_, hinv.dist_s, hinv.range, ?_, ?_, ?_⟩
    · intro a ha hav
      by_cases hau : a = u
      · rw [hau]
      · simp only [hvis1 a hau] at hav
        exact hinv.order a u ha hun hav huv
    · intro z hz hzd
      refine reached_transfer g s z st _ (hinv.reach z hz hzd) ?_ (fun x _ => ⟨rfl, rfl⟩)
      intro x hx
      by_cases hxu : x = u
      · rw [hxu]; simp
      · simp only [hvis1 x hxu]; exact hx
    · intro a ha hau hav had
      simp only [hvis1 a hau] at hav
      exact hinv.closed a ha hav had
    · intro a b ha hb hav hbv
      have hbu : b ≠ u := by
        intro h
        rw [h] at hbv
        simp at hbv
      simp only [hvis1 b hbu] at hbv
      by_cases hau : a = u
      · rw [hau]
        have := hmin b hb hbv
        simp only at this ⊢
        omega
      · simp only [hvis1 a hau] at hav
        exact hinv.order a b ha hb hav hbv
  obtain ⟨f1, f2, f3, f4, f5⟩ := foldl_relaxEdge_spec g hwf hnn s u hno (g.adj u) _ hrel
    (fun e he => he)
  constructor
  · refine ⟨f1.dist_s, f1.range, f1.reach, ?_, f1.order⟩
    intro a ha hav had e he hb
    by_cases hau : a = u
    · subst hau
      rw [f3] at had ⊢
      exact f5 e he hb had
    · exact f1.closed a ha hau hav had e he hb
  · rw [f4]
    exact freeCount_update g.numCities st.visited u hun huv

theorem dijkstraLoop_spec (g : RoutingGraph) (hwf : g.WF) (hnn : g.NonNegWeights) (s : Nat)
    (hno : g.NoOverflow s) (rounds : Nat) (st : DijkstraState) (hinv : DijkstraInv g s st) :
    DijkstraInv g s (dijkstraLoop g rounds st)
    ∧ freeCount g.numCities (dijkstraLoop g rounds st).visited + rounds
        ≤ max (freeCount g.numCities st.visited) rounds := by
  induction rounds generalizing st with
  | zero => exact ⟨hinv, by simp [dijkstraLoop]⟩
  | succ rounds ih =>
    unfold dijkstraLoop
    cases hsel : (selectMin st g.numCities).2 with
    | none =>
      simp only
      refine ⟨hinv, ?_⟩
      have hz : freeCount g.numCities st.visited = 0 := by
        apply freeCount_zero
        intro i hi
        by_contra hv
        exact selectMin_some st g.numCities i hi (by simpa using hv) (hinv.range i hi).2 hsel
      rw [hz]
      simp
    | some u =>
      simp only
      obtain ⟨h1, h2⟩ := dijkstraRound_spec g hwf hnn s hno st hinv u hsel
      obtain ⟨i1, i2⟩ := ih _ h1
      refine ⟨i1, ?_⟩
      omega

theorem dijkstraInit_inv (g : RoutingGraph) (s : Nat) (hs : s < g.numCities) :
    DijkstraInv g s (dijkstraInit g.numCities s) := by
  obtain ⟨h1, h2, h3⟩ := dijkstraInit_spec g.numCities s
  have hINT : (0 : Int) ≤ INT_MAX := by unfold INT_MAX; omega
  refine ⟨by rw [h1]; simp, ?_, ?_, ?_, ?_⟩
  · intro v hv
    rw [h1]
    by_cases hvs : v = s
    · simp [hvs, hINT]
    · simp [hvs, hv, hINT]
  · intro v hv hd
    have hvs : v = s := by
      by_contra hvs
      apply hd
      rw [h1, if_neg hvs, if_pos hv]
    subst hvs
    refine ⟨[], rfl, by simp [walkNodes], ?_, ?_, ?_, ?_⟩
    · rw [h1]; simp [walkCost]
    · intro x hx hxv
      simp [walkNodes] at hx
      exact absurd hx hxv
    · intro x hx
      simp only [walkNodes, List.map_nil, List.mem_singleton] at hx
      rw [hx]; exact hd
    · simp only [walkNodes, List.map_nil, List.length_singleton]
      exact printPathRecursive_none _ 0 v (h2 v)
  · intro a _ hav
    rw [h3] at hav
    simp at hav
  · intro a b _ _ hav
    rw [h3] at hav
    simp at hav

/-- The state findShortestPath ends its main loop in: the invariant holds and every
non-blocked adjacency node of a reached city is relaxed. -/
theorem dijkstra_final (g : RoutingGraph) (hwf : g.WF) (hnn : g.NonNegWeights) (s : Nat)
    (hs : s < g.numCities) (hno : g.NoOverflow s) :
    DijkstraInv g s (dijkstraLoop g (g.numCities - 1) (dijkstraInit g.numCities s))
    ∧ ∀ a, a < g.numCities →
        (dijkstraLoop g (g.numCities - 1) (dijkstraInit g.numCities s)).dist a ≠ INT_MAX →
        ∀ e ∈ g.adj a, e.isBlocked = false →
          (dijkstraLoop g (g.numCities - 1) (dijkstraInit g.numCities s)).dist e.destination
            ≤ (dijkstraLoop g (g.numCities - 1) (dijkstraInit g.numCities s)).dist a
              + e.weight := by
  obtain ⟨h1, h2⟩ := dijkstraLoop_spec g hwf hnn s hno (g.numCities - 1) _
    (dijkstraInit_inv g s hs)
  have hfree : freeCount g.numCities
      (dijkstraLoop g (g.numCities - 1) (dijkstraInit g.numCities s)).visited ≤ 1 := by
    have := freeCount_le g.numCities (dijkstraInit g.numCities s).visited
    omega
  refine ⟨h1, ?_⟩
  intro a ha had e he hb
  have hvn := hwf.adj_lt g a e he
  have hw0 := hnn.adj g a e he
  cases hav : (dijkstraLoop g (g.numCities - 1) (dijkstraInit g.numCities s)).visited a with
  | true => exact h1.closed a ha hav had e he hb
  | false =>
    cases hvv : (dijkstraLoop g (g.numCities - 1)
        (dijkstraInit g.numCities s)).visited e.destination with
    | true =>
      have := h1.order e.destination a hvn ha hvv hav
      omega
    | false =>
      have := freeCount_le_one _ _ hfree a e.destination ha hvn hav hvv
      rw [← this]
      omega

end Courier

namespace Courier

/-! ## RoutingGraph: findShortestPath -/

theorem RoutingGraph.IsWalk.getLast (g : RoutingGraph) (s v : Nat)
    (es : List RoadConnections) (hw : g.IsWalk s es v) :
    (walkNodes s es).getLast? = some v := by
  induction es generalizing s with
  | nil =>
    simp only [RoutingGraph.IsWalk] at hw
    subst hw
    rfl
  | cons a es ih =>
    have := ih a.destination hw.2.2
    simp only [walkNodes, List.map_cons] at this ⊢
    rw [List.getLast?_cons_cons]
    exact this

theorem walkCost_le_length (g : RoutingGraph) (W : Int)
    (hW : ∀ l ∈ g.adjList, ∀ e ∈ l, e.weight ≤ W) (s v : Nat) (es : List RoadConnections)
    (hw : g.IsWalk s es v) : walkCost es ≤ es.length * W := by
  induction es generalizing s with
  | nil => simp [walkCost]
  | cons a es ih =>
    have h1 := ih a.destination hw.2.2
    obtain ⟨l, hl, hal⟩ := mem_getD_of_mem _ _ _ hw.1
    have h2 := hW l hl a hal
    simp only [walkCost, List.map_cons, List.sum_cons, List.length_cons, Nat.cast_add,
      Nat.cast_one] at h1 ⊢
    linarith

theorem walkCost_le_of_bounded (g : RoutingGraph) (hwf : g.WF) (W : Int)
    (hW : ∀ l ∈ g.adjList, ∀ e ∈ l, e.weight ≤ W) (h0 : 0 ≤ W) (s : Nat)
    (hs : s < g.numCities) (es : List RoadConnections) (v : Nat) (hw : g.IsWalk s es v)
    (hnd : (walkNodes s es).Nodup) : walkCost es ≤ ((g.numCities : Int) - 1) * W := by
  have h1 := walkCost_le_length g W hW s v es hw
  have h2 := nodup_length_le g.numCities _ hnd (RoutingGraph.IsWalk.nodes_lt g hwf s v es hs hw)
  simp only [walkNodes, List.length_cons, List.length_map] at h2
  have h3 : (es.length : Int) ≤ (g.numCities : Int) - 1 := by omega
  have h4 : (es.length : Int) * W ≤ ((g.numCities : Int) - 1) * W :=
    mul_le_mul_of_nonneg_right h3 h0
  linarith

/-- A bound on the weights that keeps every path total below `INT_MAX`. -/
theorem RoutingGraph.belowIntMax_of_bounded (g : RoutingGraph) (hwf : g.WF) (W : Int)
    (hW : ∀ l ∈ g.adjList, ∀ e ∈ l, e.weight ≤ W) (h0 : 0 ≤ W)
    (hlt : ((g.numCities : Int) - 1) * W < INT_MAX) (s : Nat) (hs : s < g.numCities) :
    g.BelowIntMax s := by
  intro es v hw hnd
  exact lt_of_le_of_lt (walkCost_le_of_bounded g hwf W hW h0 s hs es v hw hnd) hlt

/-- A bound on the weights that keeps every path total within `INT_MAX`. -/
theorem RoutingGraph.noOverflow_of_bounded (g : RoutingGraph) (hwf : g.WF) (W : Int)
    (hW : ∀ l ∈ g.adjList, ∀ e ∈ l, e.weight ≤ W) (h0 : 0 ≤ W)
    (hle : ((g.numCities : Int) - 1) * W ≤ INT_MAX) (s : Nat) (hs : s < g.numCities) :
    g.NoOverflow s := by
  intro es v hw hnd
  exact le_trans (walkCost_le_of_bounded g hwf W hW h0 s hs es v hw hnd) hle

theorem walkCost_nonneg (g : RoutingGraph) (hnn : g.NonNegWeights) (s v : Nat)
    (es : List RoadConnections) (hw : g.IsWalk s es v) : 0 ≤ walkCost es := by
  induction es generalizing s with
  | nil => simp [walkCost]
  | cons a es ih =>
    have h1 := ih a.destination hw.2.2
    have h2 := hnn.adj g s a hw.1
    simp only [walkCost, List.map_cons, List.sum_cons] at h1 ⊢
    omega

/-- No walk is cheaper than the distance the main loop ends with, and every city a walk
reaches has a distance below `INT_MAX`. -/
theorem dist_le_walkCost (g : RoutingGraph) (hwf : g.WF) (s : Nat) (hs : s < g.numCities)
    (hlim : g.BelowIntMax s) (st : DijkstraState) (hinv : DijkstraInv g s st)
    (hclosed : ∀ a, a < g.numCities → st.dist a ≠ INT_MAX → ∀ e ∈ g.adj a,
      e.isBlocked = false → st.dist e.destination ≤ st.dist a + e.weight)
    (es : List RoadConnections) :
    ∀ v, g.IsWalk s es v → v < g.numCities ∧ st.dist v ≠ INT_MAX ∧ st.dist v ≤ walkCost es := by
  induction es using List.reverseRecOn with
  | nil =>
    intro v hw
    simp only [RoutingGraph.IsWalk] at hw
    subst hw
    have hINT : (0 : Int) ≠ INT_MAX := by unfold INT_MAX; omega
    refine ⟨hs, by rw [hinv.dist_s]; exact hINT, by rw [hinv.dist_s]; simp [walkCost]⟩
  | append_singleton es e ih =>
    intro v hw
    obtain ⟨u, hwu, he, hb, hev⟩ := RoutingGraph.IsWalk.split_last g s v es e hw
    obtain ⟨hun, hdu, hle⟩ := ih u hwu
    have hvn : v < g.numCities := hev ▸ hwf.adj_lt g u e he
    have hcl := hclosed u hun hdu e he hb
    rw [hev] at hcl
    refine ⟨hvn, ?_, ?_⟩
    · obtain ⟨es0, hw0, hnd0, hc0, _, hfin0, _⟩ := hinv.reach u hun hdu
      by_cases hmem : v ∈ walkNodes s es0
      · exact hfin0 v hmem
      · have hw1 := RoutingGraph.IsWalk.append_single g s u es0 e hw0 he hb
        have hnd1 : (walkNodes s (es0 ++ [e])).Nodup := by
          rw [walkNodes_append]
          apply List.Nodup.append hnd0 (List.nodup_singleton _)
          intro x hx hx'
          rw [List.mem_singleton] at hx'
          rw [hx', hev] at hx
          exact hmem hx
        have := hlim _ _ hw1 hnd1
        rw [walkCost_append, hc0] at this
        omega
    · rw [walkCost_append]
      omega

/-- No walk is cheaper than the distance the main loop ends with. -/
theorem dist_le_walkCost_all (g : RoutingGraph) (hwf : g.WF) (hnn : g.NonNegWeights) (s : Nat)
    (hs : s < g.numCities) (st : DijkstraState) (hinv : DijkstraInv g s st)
    (hclosed : ∀ a, a < g.numCities → st.dist a ≠ INT_MAX → ∀ e ∈ g.adj a,
      e.isBlocked = false → st.dist e.destination ≤ st.dist a + e.weight)
    (es : List RoadConnections) :
    ∀ v, g.IsWalk s es v → v < g.numCities ∧ st.dist v ≤ walkCost es := by
  induction es using List.reverseRecOn with
  | nil =>
    intro v hw
    simp only [RoutingGraph.IsWalk] at hw
    subst hw
    exact ⟨hs, by rw [hinv.dist_s]; simp [walkCost]⟩
  | append_singleton es e ih =>
    intro v hw
    obtain ⟨u, hwu, he, hb, hev⟩ := RoutingGraph.IsWalk.split_last g s v es e hw
    obtain ⟨hun, hle⟩ := ih u hwu
    have hvn : v < g.numCities := hev ▸ hwf.adj_lt g u e he
    have hw0 := hnn.adj g u e he
    refine ⟨hvn, ?_⟩
    rw [walkCost_append]
    by_cases hdu : st.dist u = INT_MAX
    · have := (hinv.range v hvn).2
      omega
    · have hcl := hclosed u hun hdu e he hb
      rw [hev] at hcl
      omega

/-- C1 (amended): for a graph built by addCity, addRoute and blockRoad calls whose weights
are non-negative and so small that no int sum overflows (no path without repeated
cities from the source costs more than INT_MAX), and for two known cities,
findShortestPath reports no path exactly when no path over non-blocked edges costs less
than INT_MAX, and otherwise reports a cost that some such path without repeated cities
has and that no such path, with or without repeated cities, undercuts; when every path
without repeated cities from the source costs less than INT_MAX, it reports no path
exactly when no path over non-blocked edges exists. -/
theorem RoutingGraph.findShortestPath_cost (ops : List GraphOp) (src dst : String) (s d : Nat)
    (hs : (RoutingGraph.build ops).getCityIndex src = some s)
    (hd : (RoutingGraph.build ops).getCityIndex dst = some d)
    (hnn : (RoutingGraph.build ops).NonNegWeights)
    (hno : (RoutingGraph.build ops).NoOverflow s) :
    ((RoutingGraph.build ops).findShortestPath src dst = PathResult.noPath
        ↔ ¬ ∃ es, (RoutingGraph.build ops).IsWalk s es d ∧ walkCost es < INT_MAX)
    ∧ ((∃ es, (RoutingGraph.build ops).IsWalk s es d ∧ walkCost es < INT_MAX) →
        ∃ c p, (RoutingGraph.build ops).findShortestPath src dst = PathResult.route c p
          ∧ (∃ es, (RoutingGraph.build ops).IsWalk s es d ∧ (walkNodes s es).Nodup
              ∧ walkCost es = c)
          ∧ ∀ es, (RoutingGraph.build ops).IsWalk s es d → c ≤ walkCost es)
    ∧ ((RoutingGraph.build ops).BelowIntMax s →
        ((RoutingGraph.build ops).findShortestPath src dst = PathResult.noPath
          ↔ ¬ ∃ es, (RoutingGraph.build ops).IsWalk s es d)) := by
  have hwf := RoutingGraph.WF_build ops
  have hsn := RoutingGraph.getCityIndex_lt _ src s hs
  have hdn := RoutingGraph.getCityIndex_lt _ dst d hd
  obtain ⟨hinv, hclosed⟩ := dijkstra_final _ hwf hnn s hsn hno
  have hlow := dist_le_walkCost_all _ hwf hnn s hsn _ hinv hclosed
  have hres : (RoutingGraph.build ops).findShortestPath src dst =
      if (dijkstraLoop (RoutingGraph.build ops) ((RoutingGraph.build ops).numCities - 1)
          (dijkstraInit (RoutingGraph.build ops).numCities s)).dist d = INT_MAX
      then PathResult.noPath
      else PathResult.route
        ((dijkstraLoop (RoutingGraph.build ops) ((RoutingGraph.build ops).numCities - 1)
          (dijkstraInit (RoutingGraph.build ops).numCities s)).dist d)
        (printPathRecursive
          (dijkstraLoop (RoutingGraph.build ops) ((RoutingGraph.build ops).numCities - 1)
            (dijkstraInit (RoutingGraph.build ops).numCities s)).parent
          (RoutingGraph.build ops).numCities d) := by
    unfold RoutingGraph.findShortestPath
    rw [hs, hd]
  have hiff : (RoutingGraph.build ops).findShortestPath src dst = PathResult.noPath
      ↔ (dijkstraLoop (RoutingGraph.build ops) ((RoutingGraph.build ops).numCities - 1)
          (dijkstraInit (RoutingGraph.build ops).numCities s)).dist d = INT_MAX := by
    rw [hres]
    constructor
    · intro h
      split at h
      · assumption
      · simp at h
    · intro h
      rw [if_pos h]
  have hcheap : (∃ es, (RoutingGraph.build ops).IsWalk s es d ∧ walkCost es < INT_MAX)
      ↔ (dijkstraLoop (RoutingGraph.build ops) ((RoutingGraph.build ops).numCities - 1)
          (dijkstraInit (RoutingGraph.build ops).numCities s)).dist d ≠ INT_MAX := by
    constructor
    · rintro ⟨es, hw, hc⟩ hdist
      have := (hlow es d hw).2
      omega
    · intro hdist
      obtain ⟨es, hw, _, hc, _⟩ := hinv.reach d hdn hdist
      have := (hinv.range d hdn).2
      exact ⟨es, hw, by omega⟩
  refine ⟨?_, ?_, ?_⟩
  · rw [hiff, hcheap]
    simp
  · intro h
    have hdist := hcheap.mp h
    rw [hres, if_neg hdist]
    refine ⟨_, _, rfl, ?_, ?_⟩
    · obtain ⟨es0, hw0, hnd0, hc0, _⟩ := hinv.reach d hdn hdist
      exact ⟨es0, hw0, hnd0, hc0⟩
    · intro es' hw'
      exact (hlow es' d hw').2
  · intro hlim
    rw [hiff]
    constructor
    · rintro hdist ⟨es, hw⟩
      exact (dist_le_walkCost _ hwf s hsn hlim _ hinv hclosed es d hw).2.1 hdist
    · intro h
      by_contra hdist
      obtain ⟨es, hw, _⟩ := hinv.reach d hdn hdist
      exact h ⟨es, hw⟩

end Courier

namespace Courier

/-! ## RoutingGraph: the path findShortestPath prints -/

theorem wrapCost_append (es : List RoadConnections) (e : RoadConnections) :
    wrapCost (es ++ [e]) = wrap32 (wrapCost es + e.weight) := by
  simp [wrapCost, List.foldl_append]

theorem wrap32_le (x : Int) : wrap32 x ≤ INT_MAX := by
  unfold wrap32 INT_MAX
  omega

theorem traced_transfer (g : RoutingGraph) (s z : Nat) (st st' : DijkstraState)
    (hr : Traced g s st z)
    (hvis : ∀ x, st.visited x = true → st'.visited x = true)
    (hag : ∀ x, (x = z ∨ st.visited x = true) →
      st'.dist x = st.dist x ∧ st'.parent x = st.parent x) :
    Traced g s st' z := by
  obtain ⟨es, hwalk, hnd, hcost, hv, hpath⟩ := hr
  have hnode : ∀ x ∈ walkNodes s es, x = z ∨ st.visited x = true := by
    intro x hx
    by_cases hxz : x = z
    · exact Or.inl hxz
    · exact Or.inr (hv x hx hxz)
  refine ⟨es, hwalk, hnd, ?_, ?_, ?_⟩
  · rw [(hag z (Or.inl rfl)).1]; exact hcost
  · intro x hx hxz
    exact hvis x (hv x hx hxz)
  · exact printPathRecursive_congr st.parent st'.parent _ z _ hpath
      (fun x hx => (hag x (hnode x hx)).2)

theorem relaxEdge_path (g : RoutingGraph) (s u : Nat) (st : DijkstraState)
    (hinv : RelaxPathInv g s u st) (e : RoadConnections) (he : e ∈ g.adj u) :
    RelaxPathInv g s u (relaxEdge u st e) := by
  by_cases hc : (!e.isBlocked && !st.visited e.destination && decide (st.dist u ≠ INT_MAX)
      && decide (wrap32 (st.dist u + e.weight) < st.dist e.destination)) = true
  swap
  · have hsame : relaxEdge u st e = st := by
      unfold relaxEdge
      rw [if_neg hc]
    rw [hsame]
    exact hinv
  have hnew : relaxEdge u st e =
      { st with
        dist := Function.update st.dist e.destination (wrap32 (st.dist u + e.weight))
        parent := Function.update st.parent e.destination (some u) } := by
    unfold relaxEdge
    rw [if_pos hc]
  simp only [Bool.and_eq_true, Bool.not_eq_true', decide_eq_true_eq] at hc
  obtain ⟨⟨⟨hb, hv⟩, hd⟩, hlt⟩ := hc
  rw [hnew]
  obtain ⟨es, hwalk, hnd, hcost, hvis, hpath⟩ := hinv.reach u hinv.pivot_lt hd
  have hvu : e.destination ≠ u := by
    intro h
    rw [h, hinv.pivot_visited] at hv
    simp at hv
  have hdv : ∀ x, st.visited x = true → x ≠ e.destination := by
    intro x hx hxe
    rw [hxe, hv] at hx
    simp at hx
  have hvnot : e.destination ∉ walkNodes s es := by
    intro hmem
    exact hdv _ (hvis _ hmem hvu) rfl
  have hsv : s ≠ e.destination := hdv s hinv.source_visited
  refine ⟨hinv.pivot_lt, hinv.pivot_visited, hinv.source_visited, ?_, ?_, ?_, ?_⟩
  · simp only [Function.update_noteq hsv]
    exact hinv.dist_s
  · simp only [Function.update_noteq hsv]
    exact hinv.parent_s
  · intro x
    by_cases hxe : x = e.destination
    · subst hxe
      simp only [Function.update_same]
      exact wrap32_le _
    · simp only [Function.update_noteq hxe]
      exact hinv.le_max x
  · intro z hz hzd
    by_cases hze : z = e.destination
    · subst hze
      refine ⟨es ++ [e], RoutingGraph.IsWalk.append_single g s u es e hwalk he hb, ?_, ?_, ?_, ?_⟩
      · rw [walkNodes_append]
        apply List.Nodup.append hnd (List.nodup_singleton _)
        intro x hx hx'
        rw [List.mem_singleton] at hx'
        exact hvnot (hx' ▸ hx)
      · simp only [Function.update_same]
        rw [wrapCost_append, hcost]
      · intro x hx hxe
        rw [walkNodes_append, List.mem_append, List.mem_singleton] at hx
        rcases hx with hx | hx
        · by_cases hxu : x = u
          · rw [hxu]; exact hinv.pivot_visited
          · exact hvis x hx hxu
        · exact absurd hx hxe
      · rw [walkNodes_append, List.length_append, List.length_singleton]
        rw [printPathRecursive_some _ _ _ u (by simp)]
        rw [printPathRecursive_congr st.parent _ _ u _ hpath
          (fun x hx => by
            have hxe : x ≠ e.destination := fun h => hvnot (h ▸ hx)
            simp only [Function.update_noteq hxe])]
        rfl
    · simp only [Function.update_noteq hze] at hzd
      refine traced_transfer g s z st _ (hinv.reach z hz hzd) (fun x hx => hx) ?_
      intro x hx
      have hxe : x ≠ e.destination := by
        rcases hx with rfl | hx
        · exact hze
        · exact hdv x hx
      simp only [Function.update_noteq hxe, and_self]

theorem foldl_relaxEdge_path (g : RoutingGraph) (s u : Nat) (l : List RoadConnections)
    (st : DijkstraState) (hinv : RelaxPathInv g s u st) (hl : ∀ e ∈ l, e ∈ g.adj u) :
    RelaxPathInv g s u (l.foldl (relaxEdge u) st) := by
  induction l generalizing st with
  | nil => exact hinv
  | cons a l ih =>
    rw [List.foldl_cons]
    exact ih _ (relaxEdge_path g s u st hinv a (hl a (List.mem_cons_self _ _)))
      (fun e he => hl e (List.mem_cons_of_mem _ he))

theorem dijkstraRound_path (g : RoutingGraph) (s : Nat) (hs : s < g.numCities)
    (st : DijkstraState) (hinv : PathInv g s st) (u : Nat)
    (hsel : (selectMin st g.numCities).2 = some u) :
    PathInv g s ((g.adj u).foldl (relaxEdge u)
      { st with visited := Function.update st.visited u true }) := by
  obtain ⟨_, hmin, _, hsome⟩ := selectMin_spec st g.numCities
  obtain ⟨hun, huv, hdu⟩ := hsome u hsel
  have hsvis : Function.update st.visited u true s = true := by
    rcases hinv.start with h | ⟨hfresh, hnone⟩
    · by_cases hsu : s = u
      · rw [hsu]; simp
      · rw [Function.update_noteq hsu]; exact h
    · have hus : u = s := by
        by_contra hne
        have h1 := hfresh u hun hne
        have h2 := hmin s hs (hnone s hs)
        rw [hinv.dist_s, ← hdu, h1] at h2
        unfold INT_MAX at h2
        omega
      rw [hus]; simp
  have hrel : RelaxPathInv g s u { st with visited := Function.update st.visited u true } := by
    refine ⟨hun, by simp, hsvis, hinv.dist_s, hinv.parent_s, hinv.le_max, ?_⟩
    intro z hz hzd
    refine traced_transfer g s z st _ (hinv.reach z hz hzd) ?_ (fun x _ => ⟨rfl, rfl⟩)
    intro x hx
    by_cases hxu : x = u
    · rw [hxu]; simp
    · simp only [Function.update_noteq hxu]; exact hx
  have hfin := foldl_relaxEdge_path g s u (g.adj u) _ hrel (fun e he => he)
  exact ⟨hfin.dist_s, hfin.parent_s, Or.inl hfin.source_visited, hfin.le_max, hfin.reach⟩

theorem dijkstraLoop_path (g : RoutingGraph) (s : Nat) (hs : s < g.numCities) (rounds : Nat)
    (st : DijkstraState) (hinv : PathInv g s st) : PathInv g s (dijkstraLoop g rounds st) := by
  induction rounds generalizing st with
  | zero => exact hinv
  | succ rounds ih =>
    unfold dijkstraLoop
    cases hsel : (selectMin st g.numCities).2 with
    | none => exact hinv
    | some u => exact ih _ (dijkstraRound_path g s hs st hinv u hsel)

theorem dijkstraInit_path (g : RoutingGraph) (s : Nat) (hs : s < g.numCities) :
    PathInv g s (dijkstraInit g.numCities s) := by
  obtain ⟨h1, h2, h3⟩ := dijkstraInit_spec g.numCities s
  have hINT : (0 : Int) ≤ INT_MAX := by unfold INT_MAX; omega
  refine ⟨by rw [h1]; simp, h2 s, Or.inr ⟨?_, fun v _ => h3 v⟩, ?_, ?_⟩
  · intro v hv hvs
    rw [h1, if_neg hvs, if_pos hv]
  · intro v
    rw [h1]
    split
    · exact hINT
    · split
      · exact le_refl _
      · exact hINT
  · intro v hv hd
    have hvs : v = s := by
      by_contra hvs
      apply hd
      rw [h1, if_neg hvs, if_pos hv]
    subst hvs
    refine ⟨[], rfl, by simp [walkNodes], ?_, ?_, ?_⟩
    · rw [h1]; simp [wrapCost]
    · intro x hx hxv
      simp [walkNodes] at hx
      exact absurd hx hxv
    · simp only [walkNodes, List.map_nil, List.length_singleton]
      exact printPathRecursive_none _ 0 v (h2 v)

theorem RoutingGraph.IsWalk.prefix_walk (g : RoutingGraph) (s v : Nat)
    (es : List RoadConnections) (e : RoadConnections) (hw : g.IsWalk s (es ++ [e]) v)
    (hnd : (walkNodes s (es ++ [e])).Nodup) :
    ∃ u, g.IsWalk s es u ∧ (walkNodes s es).Nodup ∧ e ∈ g.adj u := by
  obtain ⟨u, hwu, he, _, _⟩ := RoutingGraph.IsWalk.split_last g s v es e hw
  rw [walkNodes_append] at hnd
  exact ⟨u, hwu, (List.nodup_append.mp hnd).1, he⟩

/-- Without overflow the 32-bit total of a path is its exact total. -/
theorem wrapCost_eq_walkCost (g : RoutingGraph) (hnn : g.NonNegWeights) (s : Nat)
    (hno : g.NoOverflow s) (es : List RoadConnections) :
    ∀ v, g.IsWalk s es v → (walkNodes s es).Nodup → wrapCost es = walkCost es := by
  induction es using List.reverseRecOn with
  | nil => intro v _ _; rfl
  | append_singleton es e ih =>
    intro v hw hnd
    obtain ⟨u, hwu, hndu, _⟩ := RoutingGraph.IsWalk.prefix_walk g s v es e hw hnd
    rw [wrapCost_append, ih u hwu hndu, ← walkCost_append]
    exact wrap32_of_range _ (walkCost_nonneg g hnn s v _ hw) (hno _ v hw hnd)

end Courier

namespace Courier

/-- C2 (amended): for a graph built by addCity, addRoute and blockRoad calls, whatever its
weights, and for two known cities for which findShortestPath reports a cost, the
reconstruction through the parent array ends and prints a node sequence that starts at
the source, ends at the destination, repeats no node and follows non-blocked adjacency
nodes whose weights, added up in 32-bit int arithmetic, give the reported cost; when
the weights are non-negative and no int sum overflows, their exact sum is the reported
cost. -/
theorem RoutingGraph.findShortestPath_path (ops : List GraphOp) (src dst : String) (s d : Nat)
    (hs : (RoutingGraph.build ops).getCityIndex src = some s)
    (hd : (RoutingGraph.build ops).getCityIndex dst = some d)
    (c : Int) (p : Option (List Nat))
    (hres : (RoutingGraph.build ops).findShortestPath src dst = PathResult.route c p) :
    ∃ es, p = some (walkNodes s es)
      ∧ (walkNodes s es).head? = some s
      ∧ (walkNodes s es).getLast? = some d
      ∧ (walkNodes s es).Nodup
      ∧ (RoutingGraph.build ops).IsWalk s es d
      ∧ wrapCost es = c
      ∧ ((RoutingGraph.build ops).NonNegWeights → (RoutingGraph.build ops).NoOverflow s →
          walkCost es = c) := by
  have hwf := RoutingGraph.WF_build ops
  have hsn := RoutingGraph.getCityIndex_lt _ src s hs
  have hdn := RoutingGraph.getCityIndex_lt _ dst d hd
  have hinv := dijkstraLoop_path _ s hsn ((RoutingGraph.build ops).numCities - 1) _
    (dijkstraInit_path _ s hsn)
  unfold RoutingGraph.findShortestPath at hres
  rw [hs, hd] at hres
  simp only at hres
  split at hres
  · simp at hres
  · rename_i hdist
    simp only [PathResult.route.injEq] at hres
    obtain ⟨hc, hp⟩ := hres
    obtain ⟨es, hw, hnd, hcost, _, hpath⟩ := hinv.reach d hdn hdist
    refine ⟨es, ?_, rfl, RoutingGraph.IsWalk.getLast _ s d es hw, hnd, hw, ?_, ?_⟩
    · rw [← hp]
      apply printPathRecursive_mono _ _ _ d _ hpath
      exact nodup_length_le _ _ hnd (RoutingGraph.IsWalk.nodes_lt _ hwf s d es hsn hw)
    · rw [hcost, hc]
    · intro hnn hno
      rw [← wrapCost_eq_walkCost _ hnn s hno es d hw hnd, hcost, hc]

end Courier

namespace Courier

/-! ## Concrete scenarios -/

/-- The triangle A-B 5, B-C 5, A-C 20: the route from A to C costs 10 through B, and 20
directly once A-B is blocked. -/
theorem RoutingGraph.findShortestPath_scenario :
    (RoutingGraph.build triangleOps).findShortestPath "A" "C"
      = PathResult.route 10 (some [0, 1, 2])
    ∧ ((RoutingGraph.build triangleOps).blockRoad "A" "B" true).findShortestPath "A" "C"
      = PathResult.route 20 (some [0, 2]) := by
  decide

/-- The shortest-path theorem applied to the triangle, from A to C. -/
theorem RoutingGraph.findShortestPath_cost_witness :
    (RoutingGraph.build triangleOps).getCityIndex "A" = some 0
    ∧ (RoutingGraph.build triangleOps).getCityIndex "C" = some 2
    ∧ (RoutingGraph.build triangleOps).NonNegWeights
    ∧ (RoutingGraph.build triangleOps).NoOverflow 0
    ∧ (((RoutingGraph.build triangleOps).findShortestPath "A" "C" = PathResult.noPath
        ↔ ¬ ∃ es, (RoutingGraph.build triangleOps).IsWalk 0 es 2 ∧ walkCost es < INT_MAX)
      ∧ ((∃ es, (RoutingGraph.build triangleOps).IsWalk 0 es 2 ∧ walkCost es < INT_MAX) →
        ∃ c p, (RoutingGraph.build triangleOps).findShortestPath "A" "C" = PathResult.route c p
          ∧ (∃ es, (RoutingGraph.build triangleOps).IsWalk 0 es 2 ∧ (walkNodes 0 es).Nodup
              ∧ walkCost es = c)
          ∧ ∀ es, (RoutingGraph.build triangleOps).IsWalk 0 es 2 → c ≤ walkCost es)
      ∧ ((RoutingGraph.build triangleOps).BelowIntMax 0 →
        ((RoutingGraph.build triangleOps).findShortestPath "A" "C" = PathResult.noPath
          ↔ ¬ ∃ es, (RoutingGraph.build triangleOps).IsWalk 0 es 2))) :=
  have hnn : (RoutingGraph.build triangleOps).NonNegWeights := by
    unfold RoutingGraph.NonNegWeights; decide
  have hno : (RoutingGraph.build triangleOps).NoOverflow 0 :=
    RoutingGraph.noOverflow_of_bounded _ (RoutingGraph.WF_build triangleOps) 20
      (by decide) (by decide) (by decide) 0 (by decide)
  ⟨by decide, by decide, hnn, hno,
    RoutingGraph.findShortestPath_cost triangleOps "A" "C" 0 2 (by decide) (by decide) hnn hno⟩

/-- C1 (counterexample): with one road A-B of weight INT_MAX, the weights are non-negative
and no sum leaves the range of int, a path from A to B exists, and findShortestPath
reports no path. -/
theorem RoutingGraph.findShortestPath_cost_counterexample :
    (RoutingGraph.build sentinelOps).getCityIndex "A" = some 0
    ∧ (RoutingGraph.build sentinelOps).getCityIndex "B" = some 1
    ∧ (RoutingGraph.build sentinelOps).NonNegWeights
    ∧ (RoutingGraph.build sentinelOps).NoOverflow 0
    ∧ (∃ es, (RoutingGraph.build sentinelOps).IsWalk 0 es 1)
    ∧ (RoutingGraph.build sentinelOps).findShortestPath "A" "B" = PathResult.noPath :=
  ⟨by decide, by decide, by unfold RoutingGraph.NonNegWeights; decide,
    RoutingGraph.noOverflow_of_bounded _ (RoutingGraph.WF_build sentinelOps) 2147483647
      (by decide) (by decide) (by decide) 0 (by decide),
    ⟨[⟨1, 2147483647, false⟩], by decide, rfl, rfl⟩, by decide⟩

/-- The path theorem applied to the triangle, from A to C. -/
theorem RoutingGraph.findShortestPath_path_witness :
    (RoutingGraph.build triangleOps).getCityIndex "A" = some 0
    ∧ (RoutingGraph.build triangleOps).getCityIndex "C" = some 2
    ∧ (RoutingGraph.build triangleOps).findShortestPath "A" "C"
        = PathResult.route 10 (some [0, 1, 2])
    ∧ ∃ es, some [0, 1, 2] = some (walkNodes 0 es)
      ∧ (walkNodes 0 es).head? = some 0
      ∧ (walkNodes 0 es).getLast? = some 2
      ∧ (walkNodes 0 es).Nodup
      ∧ (RoutingGraph.build triangleOps).IsWalk 0 es 2
      ∧ wrapCost es = 10
      ∧ ((RoutingGraph.build triangleOps).NonNegWeights →
          (RoutingGraph.build triangleOps).NoOverflow 0 → walkCost es = 10) :=
  ⟨by decide, by decide, by decide,
    RoutingGraph.findShortestPath_path triangleOps "A" "C" 0 2 (by decide) (by decide)
      10 (some [0, 1, 2]) (by decide)⟩

/-- C2 (counterexample): with roads A-B and B-C of weight INT_MAX - 1 the weights are
non-negative, findShortestPath reports the cost -4 for A to C along A, B, C, and no path
from A to C has total weight -4. -/
theorem RoutingGraph.findShortestPath_path_counterexample :
    (RoutingGraph.build overflowOps).getCityIndex "A" = some 0
    ∧ (RoutingGraph.build overflowOps).getCityIndex "C" = some 2
    ∧ (RoutingGraph.build overflowOps).NonNegWeights
    ∧ (RoutingGraph.build overflowOps).findShortestPath "A" "C"
        = PathResult.route (-4) (some [0, 1, 2])
    ∧ ∀ es, (RoutingGraph.build overflowOps).IsWalk 0 es 2 → walkCost es ≠ -4 :=
  have hnn : (RoutingGraph.build overflowOps).NonNegWeights := by
    unfold RoutingGraph.NonNegWeights; decide
  ⟨by decide, by decide, hnn, by decide, fun es hw h => by
    have := walkCost_nonneg _ hnn 0 2 es hw
    omega⟩

/-- The all-routes theorem applied to the triangle, from A to C. -/
theorem RoutingGraph.findAllRoutes_exact_witness :
    (RoutingGraph.build triangleOps).getCityIndex "A" = some 0
    ∧ (RoutingGraph.build triangleOps).getCityIndex "C" = some 2
    ∧ ∃ paths, (RoutingGraph.build triangleOps).findAllRoutes "A" "C"
        = RoutesResult.emitted paths
      ∧ ∀ p, p ∈ paths ↔ (RoutingGraph.build triangleOps).IsSimpleRoute 0 2 p :=
  ⟨by decide, by decide,
    RoutingGraph.findAllRoutes_exact triangleOps "A" "C" 0 2 (by decide) (by decide)⟩

/-- C4 (counterexample): with two roads between A and B, after blockRoad(A, B, true) has
been called for the only joined pair, findShortestPath still reports a route of cost 5
and findAllRoutes still emits a path. -/
theorem RoutingGraph.all_roads_blocked_counterexample :
    (RoutingGraph.build parallelOps).getCityIndex "A" = some 0
    ∧ (RoutingGraph.build parallelOps).getCityIndex "B" = some 1
    ∧ (RoutingGraph.build parallelOps).CoversAllRoads [("A", "B")]
    ∧ ((RoutingGraph.build parallelOps).blockRoads [("A", "B")]).findShortestPath "A" "B"
        = PathResult.route 5 (some [0, 1])
    ∧ ((RoutingGraph.build parallelOps).blockRoads [("A", "B")]).findAllRoutes "A" "B"
        = RoutesResult.emitted [[0, 1]] :=
  ⟨by decide, by decide, by unfold RoutingGraph.CoversAllRoads; decide, by decide, by decide⟩

/-- The blocking theorem applied to the triangle with its three roads blocked. -/
theorem RoutingGraph.all_roads_blocked_witness :
    (RoutingGraph.build triangleOps).NoParallelRoads
    ∧ (RoutingGraph.build triangleOps).CoversAllRoads [("A", "B"), ("B", "C"), ("C", "A")]
    ∧ (RoutingGraph.build triangleOps).getCityIndex "A" = some 0
    ∧ (RoutingGraph.build triangleOps).getCityIndex "C" = some 2
    ∧ "A" ≠ "C"
    ∧ (((RoutingGraph.build triangleOps).blockRoads
          [("A", "B"), ("B", "C"), ("C", "A")]).findShortestPath "A" "C" = PathResult.noPath
      ∧ ((RoutingGraph.build triangleOps).blockRoads
          [("A", "B"), ("B", "C"), ("C", "A")]).findAllRoutes "A" "C"
        = RoutesResult.emitted []) :=
  have hnp : (RoutingGraph.build triangleOps).NoParallelRoads := by
    unfold RoutingGraph.NoParallelRoads; decide
  have hcov : (RoutingGraph.build triangleOps).CoversAllRoads
      [("A", "B"), ("B", "C"), ("C", "A")] := by
    unfold RoutingGraph.CoversAllRoads; decide
  ⟨hnp, hcov, by decide, by decide, by decide,
    RoutingGraph.all_roads_blocked triangleOps [("A", "B"), ("B", "C"), ("C", "A")] "A" "C" 0 2
      hnp hcov (by decide) (by decide) (by decide)⟩

/-- The restore theorem applied to the triangle and the road A-B. -/
theorem RoutingGraph.blockRoad_then_restore_witness :
    (∀ l ∈ (RoutingGraph.build triangleOps).adjList, ∀ e ∈ l, e.isBlocked = false)
    ∧ (((RoutingGraph.build triangleOps).blockRoad "A" "B" true).blockRoad "A" "B" false
        = RoutingGraph.build triangleOps
      ∧ (∀ src dst,
          (((RoutingGraph.build triangleOps).blockRoad "A" "B" true).blockRoad "A" "B"
            false).findShortestPath src dst
          = (RoutingGraph.build triangleOps).findShortestPath src dst)
      ∧ (∀ src dst,
          (((RoutingGraph.build triangleOps).blockRoad "A" "B" true).blockRoad "A" "B"
            false).findAllRoutes src dst
          = (RoutingGraph.build triangleOps).findAllRoutes src dst)) :=
  ⟨by decide,
    RoutingGraph.blockRoad_then_restore (RoutingGraph.build triangleOps) (by decide) "A" "B"⟩

theorem PriorityScheduler.reachable_sched_foldl (mem : Store) (ops : List SchedOp)
    (s : PriorityScheduler) (h : PriorityScheduler.Reachable mem s) :
    PriorityScheduler.Reachable mem (ops.foldl (fun s op => s.step mem op) s) := by
  induction ops generalizing s with
  | nil => exact h
  | cons op ops ih => exact ih _ (PriorityScheduler.Reachable.step s op h)

/-- The minimum theorem applied to the scheduler after `sampleSchedOps`, which holds the
parcels 1, 3, 2 and 0 of the sample store: `extractMin` returns parcel 1, the Heavy one of
priority 1, before which none of the four ranks, and parcels 3, 0 and 2 stay. -/
theorem PriorityScheduler.extractMin_returns_minimum_witness :
    PriorityScheduler.Reachable sampleStore sampleScheduler
    ∧ sampleScheduler.isEmpty = false
    ∧ sampleScheduler.held = [1, 3, 2, 0]
    ∧ (sampleScheduler.extractMin sampleStore).1 = some 1
    ∧ (sampleScheduler.extractMin sampleStore).2.held = [3, 0, 2]
    ∧ (∀ q ∈ sampleScheduler.held, isHigherPriority sampleStore q 1 = false)
    ∧ ∃ m, (sampleScheduler.extractMin sampleStore).1 = some m
      ∧ m ∈ sampleScheduler.held
      ∧ (∀ q ∈ sampleScheduler.held, isHigherPriority sampleStore q m = false)
      ∧ sampleScheduler.held.Perm (m :: (sampleScheduler.extractMin sampleStore).2.held) :=
  have hr : PriorityScheduler.Reachable sampleStore sampleScheduler :=
    PriorityScheduler.reachable_sched_foldl sampleStore sampleSchedOps _
      (PriorityScheduler.Reachable.init _)
  ⟨hr, by decide, by decide, by decide, by decide, by decide,
    PriorityScheduler.extractMin_returns_minimum sampleStore sampleScheduler hr (by decide)⟩

/-- The sorting theorem applied to the three parcels of the sample store. -/
theorem PriorityScheduler.extractAll_sorted_witness :
    [0, 1, 2].length ≤ 100 ∧ [0, 1, 2].length ≤ 3
    ∧ ((PriorityScheduler.extractAll sampleStore 3
        ([0, 1, 2].foldl (PriorityScheduler.insert sampleStore) ⟨fun _ => 0, 0⟩)).2.isEmpty
          = true
      ∧ (PriorityScheduler.extractAll sampleStore 3
        ([0, 1, 2].foldl (PriorityScheduler.insert sampleStore) ⟨fun _ => 0, 0⟩)).1.Perm
          [0, 1, 2]
      ∧ (PriorityScheduler.extractAll sampleStore 3
        ([0, 1, 2].foldl (PriorityScheduler.insert sampleStore) ⟨fun _ => 0, 0⟩)).1.Pairwise
          (fun a b => (sampleStore a).priority ≤ (sampleStore b).priority)
      ∧ (PriorityScheduler.extractAll sampleStore 3
        ([0, 1, 2].foldl (PriorityScheduler.insert sampleStore) ⟨fun _ => 0, 0⟩)).1.Pairwise
          (fun a b => (sampleStore a).priority = (sampleStore b).priority →
            ¬ ((sampleStore a).weightCat ≠ "Heavy" ∧ (sampleStore b).weightCat = "Heavy"))) :=
  ⟨by decide, by decide,
    PriorityScheduler.extractAll_sorted sampleStore (fun _ => 0) [0, 1, 2] (by decide) 3
      (by decide)⟩

/-- The three sample parcels leave the scheduler Heavy priority 1 first, then Light
priority 1, then priority 2. -/
theorem PriorityScheduler.extractAll_scenario :
    (PriorityScheduler.extractAll sampleStore 3
      ([0, 1, 2].foldl (PriorityScheduler.insert sampleStore) ⟨fun _ => 0, 0⟩)).1 = [1, 2, 0] := by
  decide

/-- The round-trip theorem applied to the three parcels of the sample store and the
identifier "1P", which shares its bucket with "P1", and to the identifier "Q0" of the same
bucket, which is not inserted. -/
theorem TrackerTable.search_round_trip_witness :
    ([0, 1, 2].map (fun p => (sampleStore p).id)).Nodup
    ∧ (∀ p, p ∈ [0, 1, 2] → 0 ≤ hashFunc (sampleStore p).id ∧ hashFunc (sampleStore p).id < 50)
    ∧ (0 ≤ hashFunc "1P" ∧ hashFunc "1P" < 50)
    ∧ (∃ t, TrackerTable.insertAll sampleStore [0, 1, 2] TrackerTable.init = some t
        ∧ t.search sampleStore "1P" = SearchResult.found 1)
    ∧ (∃ t, TrackerTable.insertAll sampleStore [0, 1, 2] TrackerTable.init = some t
        ∧ t.search sampleStore "Q0" = SearchResult.notFound) :=
  have hd : ([0, 1, 2].map (fun p => (sampleStore p).id)).Nodup := by decide
  have hr : ∀ p, p ∈ [0, 1, 2] →
      0 ≤ hashFunc (sampleStore p).id ∧ hashFunc (sampleStore p).id < 50 := by decide
  have h1 := (TrackerTable.search_round_trip sampleStore [0, 1, 2] "1P").1 hd hr
  have h2 := (TrackerTable.search_round_trip sampleStore [0, 1, 2] "Q0").1 hd hr
  ⟨hd, hr, by decide,
    h1.elim (fun t ht => ⟨t, ht.1, (ht.2 (by decide)).1 1 (by decide) (by decide)⟩),
    h2.elim (fun t ht => ⟨t, ht.1, (ht.2 (by decide)).2 (by decide)⟩)⟩

/-- Two identifiers with equal hash are told apart, and an identifier never inserted
that shares their bucket is not found; the identifier "é" has no cell of the table, so
that a parcel carrying it is not inserted and a search for it leaves the table. -/
theorem TrackerTable.search_scenario :
    hashFunc "P1" = hashFunc "1P" ∧ hashFunc "Q0" = hashFunc "P1"
    ∧ (TrackerTable.insertAll sampleStore [0, 1, 2] TrackerTable.init).map
        (fun t => t.search sampleStore "P1") = some (SearchResult.found 0)
    ∧ (TrackerTable.insertAll sampleStore [0, 1, 2] TrackerTable.init).map
        (fun t => t.search sampleStore "1P") = some (SearchResult.found 1)
    ∧ (TrackerTable.insertAll sampleStore [0, 1, 2] TrackerTable.init).map
        (fun t => t.search sampleStore "Q0") = some SearchResult.notFound
    ∧ (TrackerTable.insert (fun _ => sampleParcel "é" 1 1 "Light") TrackerTable.init 0).isNone
        = true
    ∧ TrackerTable.init.search sampleStore "é" = SearchResult.indexOutOfRange := by
  decide

end Courier

namespace Courier

/-! ## UndoStack: LIFO order -/

theorem UndoStack.foldl_push_nodes (rs : List UndoState) (u : UndoStack) :
    (rs.foldl (fun u r => u.push r.p r.prevStatus r.description) u).nodes
      = rs.reverse ++ u.nodes := by
  induction rs generalizing u with
  | nil => simp
  | cons r rs ih =>
    rw [List.foldl_cons, ih]
    simp [UndoStack.push]

theorem UndoStack.popTimes_nodes (rs : List UndoState) :
    UndoStack.popTimes rs.length ⟨rs⟩ = (rs.map some, ⟨[]⟩) := by
  induction rs with
  | nil => rfl
  | cons r rs ih => simp [UndoStack.popTimes, UndoStack.pop, ih]

/-- C11: pushing the records `r1 .. rn` onto an empty undo stack and then calling `pop`
`n` times returns `rn .. r1`, each with the parcel, previous status and description it
was pushed with; one further `pop` returns false and leaves the stack empty. -/
theorem UndoStack.lifo_order (rs : List UndoState) :
    (UndoStack.popTimes rs.length
        (rs.foldl (fun u r => u.push r.p r.prevStatus r.description) UndoStack.init)).1
      = rs.reverse.map some
    ∧ ((UndoStack.popTimes rs.length
          (rs.foldl (fun u r => u.push r.p r.prevStatus r.description)
            UndoStack.init)).2.pop).1 = none
    ∧ ((UndoStack.popTimes rs.length
          (rs.foldl (fun u r => u.push r.p r.prevStatus r.description)
            UndoStack.init)).2.pop).2.isEmpty = true := by
  have h : rs.foldl (fun u r => u.push r.p r.prevStatus r.description) UndoStack.init
      = ⟨rs.reverse⟩ := by
    have := UndoStack.foldl_push_nodes rs UndoStack.init
    cases hu : rs.foldl (fun u r => u.push r.p r.prevStatus r.description) UndoStack.init with
    | mk nodes => rw [hu] at this; simpa [UndoStack.init] using this
  have hlen : rs.length = rs.reverse.length := by simp
  rw [h, hlen, UndoStack.popTimes_nodes]
  simp [UndoStack.pop, UndoStack.isEmpty]

/-! ## Rider: capacity -/

/-- C12: `assignParcel` returns true exactly when the load plus the weight is at most the
capacity; then only the load changes, to the sum; when it returns false the rider is as
before; so a load that is at most the capacity stays so. -/
theorem Rider.assignParcel_capacity (r : Rider) (mem : Store) (p : ParcelPtr) :
    ((r.assignParcel mem p).1 = true ↔ r.currentLoad + (mem p).weight ≤ r.capacity)
    ∧ ((r.assignParcel mem p).1 = true →
        (r.assignParcel mem p).2
          = { id := r.id, name := r.name, capacity := r.capacity,
              currentLoad := r.currentLoad + (mem p).weight })
    ∧ ((r.assignParcel mem p).1 = false → (r.assignParcel mem p).2 = r)
    ∧ (r.currentLoad ≤ r.capacity →
        (r.assignParcel mem p).2.currentLoad ≤ (r.assignParcel mem p).2.capacity) := by
  unfold Rider.assignParcel
  by_cases h : r.currentLoad + (mem p).weight ≤ r.capacity
  · rw [if_pos h]
    simp [h]
  · rw [if_neg h]
    simp [h]

/-! ## undoLastOperation: what it changes -/

/-- C18: on a non-empty undo stack `undoLastOperation` removes the top record and gives
the parcel the record points to the record's previous status; every other field of that
parcel, every other parcel, the riders, the three queues, the scheduler, the tracker
index and the road map are as before.  On an empty undo stack the state is as before. -/
theorem CourierSystem.undoLastOperation_frame (cs : CourierSystem) :
    (∀ r rest, cs.undo.nodes = r :: rest →
      cs.undoLastOperation.undo.nodes = rest
      ∧ cs.undoLastOperation.mem r.p = { cs.mem r.p with status := r.prevStatus }
      ∧ (∀ q, q ≠ r.p → cs.undoLastOperation.mem q = cs.mem q)
      ∧ cs.undoLastOperation.riders = cs.riders
      ∧ cs.undoLastOperation.pickupQueue = cs.pickupQueue
      ∧ cs.undoLastOperation.warehouseQueue = cs.warehouseQueue
      ∧ cs.undoLastOperation.transitQueue = cs.transitQueue
      ∧ cs.undoLastOperation.sortingEngine = cs.sortingEngine
      ∧ cs.undoLastOperation.trackingEngine = cs.trackingEngine
      ∧ cs.undoLastOperation.routingEngine = cs.routingEngine
      ∧ cs.undoLastOperation.next = cs.next)
    ∧ (cs.undo.nodes = [] → cs.undoLastOperation = cs) := by
  constructor
  · intro r rest h
    unfold CourierSystem.undoLastOperation UndoStack.pop
    rw [h]
    simp only [Store.modify, Parcel.setStatus, Function.update_same]
    refine ⟨trivial, trivial, ?_, trivial, trivial, trivial, trivial, trivial, trivial, trivial,
      trivial⟩
    intro q hq
    rw [Function.update_noteq hq]
  · intro h
    unfold CourierSystem.undoLastOperation UndoStack.pop
    rw [h]

end Courier

namespace Courier

/-! ## assignRider: the rider loop -/

theorem ParcelQueue.enqueue_eq (q : ParcelQueue) (p : ParcelPtr) :
    q.enqueue p = ⟨q.nodes ++ [p]⟩ := by
  have := ParcelQueue.enqueue_nodes q p
  cases hq : q.enqueue p with
  | mk nodes => rw [hq] at this; simpa using this

theorem ParcelQueue.dequeue_cons (q : ParcelQueue) (p : ParcelPtr) (rest : List ParcelPtr)
    (h : q.nodes = p :: rest) : q.dequeue = (some p, ⟨rest⟩) ∧ q.isEmpty = false := by
  unfold ParcelQueue.dequeue ParcelQueue.isEmpty
  rw [h]
  exact ⟨rfl, rfl⟩

theorem CourierSystem.tryRiders_skip (cs : CourierSystem) (p : ParcelPtr) (j : Nat)
    (l : List Nat)
    (h : ¬ (cs.riders j).currentLoad + (cs.mem p).weight ≤ (cs.riders j).capacity) :
    CourierSystem.tryRiders cs p (j :: l) = CourierSystem.tryRiders cs p l := by
  rw [CourierSystem.tryRiders]
  simp only [Rider.assignParcel, if_neg h, Function.update_eq_self]
  rfl

theorem CourierSystem.tryRiders_take (cs : CourierSystem) (p : ParcelPtr) (i : Nat)
    (l : List Nat)
    (h : (cs.riders i).currentLoad + (cs.mem p).weight ≤ (cs.riders i).capacity) :
    CourierSystem.tryRiders cs p (i :: l)
      = some { cs with
          riders := Function.update cs.riders i
            { cs.riders i with currentLoad := (cs.riders i).currentLoad + (cs.mem p).weight }
          mem := Function.update cs.mem p
            { cs.mem p with
              assignedRiderId := (cs.riders i).id
              status := "In Transit (Rider: " ++ (cs.riders i).name ++ ")"
              history := (cs.mem p).history ++ ["Picked up by " ++ (cs.riders i).name] }
          undo := ⟨⟨p, (cs.mem p).status, "Assigned Rider"⟩ :: cs.undo.nodes⟩
          transitQueue := ⟨cs.transitQueue.nodes ++ [p]⟩ } := by
  rw [CourierSystem.tryRiders]
  simp only [Rider.assignParcel, if_pos h, if_true, Function.update_same, Store.modify,
    Parcel.setRiderId, Parcel.setStatus, Parcel.addEvent, UndoStack.push,
    ParcelQueue.enqueue_eq, Function.update_idem]

theorem CourierSystem.assignRider_take (cs : CourierSystem) (p : ParcelPtr)
    (rest : List ParcelPtr) (i : Nat)
    (hq : cs.warehouseQueue.nodes = p :: rest) (hi : i < 3)
    (hfit : (cs.riders i).currentLoad + (cs.mem p).weight ≤ (cs.riders i).capacity)
    (hlow : ∀ j, j < i →
      ¬ (cs.riders j).currentLoad + (cs.mem p).weight ≤ (cs.riders j).capacity) :
    cs.assignRider
      = { cs with
          warehouseQueue := ⟨rest⟩
          riders := Function.update cs.riders i
            { cs.riders i with currentLoad := (cs.riders i).currentLoad + (cs.mem p).weight }
          mem := Function.update cs.mem p
            { cs.mem p with
              assignedRiderId := (cs.riders i).id
              status := "In Transit (Rider: " ++ (cs.riders i).name ++ ")"
              history := (cs.mem p).history ++ ["Picked up by " ++ (cs.riders i).name] }
          undo := ⟨⟨p, (cs.mem p).status, "Assigned Rider"⟩ :: cs.undo.nodes⟩
          transitQueue := ⟨cs.transitQueue.nodes ++ [p]⟩ } := by
  have hd := ParcelQueue.dequeue_cons cs.warehouseQueue p rest hq
  unfold CourierSystem.assignRider
  rw [hd.2, hd.1]
  simp only [Bool.false_eq_true, if_false]
  have h3 : i = 0 ∨ i = 1 ∨ i = 2 := by omega
  rcases h3 with h | h | h
  · subst h
    rw [CourierSystem.tryRiders_take { cs with warehouseQueue := ⟨rest⟩ } p 0 _ hfit]
  · subst h
    rw [CourierSystem.tryRiders_skip { cs with warehouseQueue := ⟨rest⟩ } p 0 _ (hlow 0 (by omega)),
      CourierSystem.tryRiders_take { cs with warehouseQueue := ⟨rest⟩ } p 1 _ hfit]
  · subst h
    rw [CourierSystem.tryRiders_skip { cs with warehouseQueue := ⟨rest⟩ } p 0 _ (hlow 0 (by omega)),
      CourierSystem.tryRiders_skip { cs with warehouseQueue := ⟨rest⟩ } p 1 _ (hlow 1 (by omega)),
      CourierSystem.tryRiders_take { cs with warehouseQueue := ⟨rest⟩ } p 2 _ hfit]

/-! ## assignRider with the addition of `double` -/

theorem CourierSystem.tryRidersWith_skip (add : ℚ → ℚ → ℚ) (cs : CourierSystem)
    (p : ParcelPtr) (j : Nat) (l : List Nat)
    (h : ¬ add (cs.riders j).currentLoad (cs.mem p).weight ≤ (cs.riders j).capacity) :
    CourierSystem.tryRidersWith add cs p (j :: l) = CourierSystem.tryRidersWith add cs p l := by
  rw [CourierSystem.tryRidersWith]
  simp only [Rider.assignParcelWith, if_neg h, Function.update_eq_self]
  rfl

theorem CourierSystem.tryRidersWith_take (add : ℚ → ℚ → ℚ) (cs : CourierSystem)
    (p : ParcelPtr) (i : Nat) (l : List Nat)
    (h : add (cs.riders i).currentLoad (cs.mem p).weight ≤ (cs.riders i).capacity) :
    CourierSystem.tryRidersWith add cs p (i :: l)
      = some { cs with
          riders := Function.update cs.riders i
            { cs.riders i with
              currentLoad := add (cs.riders i).currentLoad (cs.mem p).weight }
          mem := Function.update cs.mem p
            { cs.mem p with
              assignedRiderId := (cs.riders i).id
              status := "In Transit (Rider: " ++ (cs.riders i).name ++ ")"
              history := (cs.mem p).history ++ ["Picked up by " ++ (cs.riders i).name] }
          undo := ⟨⟨p, (cs.mem p).status, "Assigned Rider"⟩ :: cs.undo.nodes⟩
          transitQueue := ⟨cs.transitQueue.nodes ++ [p]⟩ } := by
  rw [CourierSystem.tryRidersWith]
  simp only [Rider.assignParcelWith, if_pos h, if_true, Function.update_same, Store.modify,
    Parcel.setRiderId, Parcel.setStatus, Parcel.addEvent, UndoStack.push,
    ParcelQueue.enqueue_eq, Function.update_idem]

theorem CourierSystem.assignRiderWith_take (add : ℚ → ℚ → ℚ) (cs : CourierSystem)
    (p : ParcelPtr) (rest : List ParcelPtr) (i : Nat)
    (hq : cs.warehouseQueue.nodes = p :: rest) (hi : i < 3)
    (hfit : add (cs.riders i).currentLoad (cs.mem p).weight ≤ (cs.riders i).capacity)
    (hlow : ∀ j, j < i →
      ¬ add (cs.riders j).currentLoad (cs.mem p).weight ≤ (cs.riders j).capacity) :
    cs.assignRiderWith add
      = { cs with
          warehouseQueue := ⟨rest⟩
          riders := Function.update cs.riders i
            { cs.riders i with
              currentLoad := add (cs.riders i).currentLoad (cs.mem p).weight }
          mem := Function.update cs.mem p
            { cs.mem p with
              assignedRiderId := (cs.riders i).id
              status := "In Transit (Rider: " ++ (cs.riders i).name ++ ")"
              history := (cs.mem p).history ++ ["Picked up by " ++ (cs.riders i).name] }
          undo := ⟨⟨p, (cs.mem p).status, "Assigned Rider"⟩ :: cs.undo.nodes⟩
          transitQueue := ⟨cs.transitQueue.nodes ++ [p]⟩ } := by
  have hd := ParcelQueue.dequeue_cons cs.warehouseQueue p rest hq
  unfold CourierSystem.assignRiderWith
  rw [hd.2, hd.1]
  simp only [Bool.false_eq_true, if_false]
  have h3 : i = 0 ∨ i = 1 ∨ i = 2 := by omega
  rcases h3 with h | h | h
  · subst h
    rw [CourierSystem.tryRidersWith_take add { cs with warehouseQueue := ⟨rest⟩ } p 0 _ hfit]
  · subst h
    rw [CourierSystem.tryRidersWith_skip add { cs with warehouseQueue := ⟨rest⟩ } p 0 _
        (hlow 0 (by omega)),
      CourierSystem.tryRidersWith_take add { cs with warehouseQueue := ⟨rest⟩ } p 1 _ hfit]
  · subst h
    rw [CourierSystem.tryRidersWith_skip add { cs with warehouseQueue := ⟨rest⟩ } p 0 _
        (hlow 0 (by omega)),
      CourierSystem.tryRidersWith_skip add { cs with warehouseQueue := ⟨rest⟩ } p 1 _
        (hlow 1 (by omega)),
      CourierSystem.tryRidersWith_take add { cs with warehouseQueue := ⟨rest⟩ } p 2 _ hfit]

theorem CourierSystem.tryRidersWith_exact (cs : CourierSystem) (p : ParcelPtr) (l : List Nat) :
    CourierSystem.tryRidersWith (fun x y => x + y) cs p l = CourierSystem.tryRiders cs p l := by
  induction l generalizing cs with
  | nil => rfl
  | cons i l ih =>
    rw [CourierSystem.tryRidersWith, CourierSystem.tryRiders]
    simp only [Rider.assignParcelWith, Rider.assignParcel, ih]

/-- With the exact sum for `add`, `assignRiderWith` is the `assignRider` of the
controller model. -/
theorem CourierSystem.assignRiderWith_exact (cs : CourierSystem) :
    cs.assignRiderWith (fun x y => x + y) = cs.assignRider := by
  unfold CourierSystem.assignRiderWith CourierSystem.assignRider
  simp only [CourierSystem.tryRidersWith_exact]

/-- C14: with `p` at the head of the warehouse queue and `i` the lowest index of a rider
for whom the sum of his load and the weight of `p`, as the program computes it, is at
most his capacity, `assignRider` changes the load of rider `i` to that sum and changes no
other rider, records the id of rider `i` on `p`, removes `p` from the warehouse queue,
appends it to the transit queue and pushes one undo record that holds the status `p` had
before the call.  The sum is `add load weight`: the theorem holds for the addition of
`double`, which is `doubleAdd`, and for the exact sum alike. -/
theorem CourierSystem.assignRider_success (add : ℚ → ℚ → ℚ) (cs : CourierSystem)
    (p : ParcelPtr) (rest : List ParcelPtr) (i : Nat)
    (hq : cs.warehouseQueue.nodes = p :: rest) (hi : i < 3)
    (hfit : add (cs.riders i).currentLoad (cs.mem p).weight ≤ (cs.riders i).capacity)
    (hlow : ∀ j, j < i →
      ¬ add (cs.riders j).currentLoad (cs.mem p).weight ≤ (cs.riders j).capacity) :
    (cs.assignRiderWith add).riders i
      = { id := (cs.riders i).id, name := (cs.riders i).name,
          capacity := (cs.riders i).capacity,
          currentLoad := add (cs.riders i).currentLoad (cs.mem p).weight }
    ∧ (∀ j, j ≠ i → (cs.assignRiderWith add).riders j = cs.riders j)
    ∧ ((cs.assignRiderWith add).mem p).assignedRiderId = (cs.riders i).id
    ∧ (cs.assignRiderWith add).warehouseQueue.nodes = rest
    ∧ (cs.assignRiderWith add).transitQueue.nodes = cs.transitQueue.nodes ++ [p]
    ∧ (cs.assignRiderWith add).undo.nodes
        = { p := p, prevStatus := (cs.mem p).status, description := "Assigned Rider" }
            :: cs.undo.nodes
    ∧ ((cs.assignRiderWith add).mem p).status
        = "In Transit (Rider: " ++ (cs.riders i).name ++ ")"
    ∧ ((cs.assignRiderWith add).mem p).history
        = (cs.mem p).history ++ ["Picked up by " ++ (cs.riders i).name]
    ∧ (∀ q, q ≠ p → (cs.assignRiderWith add).mem q = cs.mem q) := by
  rw [CourierSystem.assignRiderWith_take add cs p rest i hq hi hfit hlow]
  simp only [Function.update_same]
  refine ⟨trivial, ?_, trivial, trivial, trivial, trivial, trivial, trivial, ?_⟩
  · intro j hj
    rw [Function.update_noteq hj]
  · intro q hq1
    rw [Function.update_noteq hq1]

/-- C15: with `p` at the head of the warehouse queue and no rider for whom the sum of his
load and the weight of `p`, as the program computes it, is at most his capacity,
`assignRider` moves `p` to the tail of the warehouse queue, the other members keeping
their order, and changes nothing else: the riders, every parcel (status, rider id and
history of `p` included), the transit queue and the undo stack are as before.  The sum is
`add load weight`: the theorem holds for the addition of `double`, which is `doubleAdd`,
and for the exact sum alike. -/
theorem CourierSystem.assignRider_failure (add : ℚ → ℚ → ℚ) (cs : CourierSystem)
    (p : ParcelPtr) (rest : List ParcelPtr)
    (hq : cs.warehouseQueue.nodes = p :: rest)
    (hnone : ∀ i, i < 3 →
      ¬ add (cs.riders i).currentLoad (cs.mem p).weight ≤ (cs.riders i).capacity) :
    (cs.assignRiderWith add).warehouseQueue.nodes = rest ++ [p]
    ∧ (cs.assignRiderWith add).riders = cs.riders
    ∧ (cs.assignRiderWith add).mem = cs.mem
    ∧ (cs.assignRiderWith add).transitQueue = cs.transitQueue
    ∧ (cs.assignRiderWith add).undo = cs.undo
    ∧ (cs.assignRiderWith add).pickupQueue = cs.pickupQueue
    ∧ (cs.assignRiderWith add).sortingEngine = cs.sortingEngine
    ∧ (cs.assignRiderWith add).trackingEngine = cs.trackingEngine := by
  have hd := ParcelQueue.dequeue_cons cs.warehouseQueue p rest hq
  unfold CourierSystem.assignRiderWith
  rw [hd.2, hd.1]
  simp only [Bool.false_eq_true, if_false]
  rw [CourierSystem.tryRidersWith_skip add { cs with warehouseQueue := ⟨rest⟩ } p 0 _
      (hnone 0 (by omega)),
    CourierSystem.tryRidersWith_skip add { cs with warehouseQueue := ⟨rest⟩ } p 1 _
      (hnone 1 (by omega)),
    CourierSystem.tryRidersWith_skip add { cs with warehouseQueue := ⟨rest⟩ } p 2 _
      (hnone 2 (by omega))]
  simp only [CourierSystem.tryRidersWith, ParcelQueue.enqueue_eq]
  exact ⟨trivial, trivial, trivial, trivial, trivial, trivial, trivial, trivial⟩

end Courier

namespace Courier

/-! ## What no method call changes -/

theorem CourierSystem.extends_refl (a : CourierSystem) : a.Extends a :=
  ⟨le_refl _, fun _ => rfl, fun _ _ => rfl⟩

theorem CourierSystem.extends_trans (a b c : CourierSystem) (h1 : a.Extends b)
    (h2 : b.Extends c) : a.Extends c :=
  ⟨le_trans h1.1 h2.1, fun i => (h2.2.1 i).trans (h1.2.1 i),
    fun q hq => (h2.2.2 q (lt_of_lt_of_le hq h1.1)).trans (h1.2.2 q hq)⟩

theorem Store.modify_fixed (mem : Store) (p : ParcelPtr) (f : Parcel → Parcel)
    (hf : ∀ x, (f x).fixed = x.fixed) (q : ParcelPtr) :
    (Store.modify mem p f q).fixed = (mem q).fixed := by
  unfold Store.modify
  by_cases h : q = p
  · subst h
    rw [Function.update_same, hf]
  · rw [Function.update_noteq h]

theorem Store.modify_setStatus_fixed (mem : Store) (p : ParcelPtr) (g : Parcel → String)
    (q : ParcelPtr) : (Store.modify mem p (fun x => x.setStatus (g x)) q).fixed = (mem q).fixed :=
  Store.modify_fixed mem p (fun x => x.setStatus (g x)) (fun _ => rfl) q

theorem Store.modify_setRiderId_fixed (mem : Store) (p : ParcelPtr) (g : Parcel → Int)
    (q : ParcelPtr) : (Store.modify mem p (fun x => x.setRiderId (g x)) q).fixed = (mem q).fixed :=
  Store.modify_fixed mem p (fun x => x.setRiderId (g x)) (fun _ => rfl) q

theorem Store.modify_markMissing_fixed (mem : Store) (p : ParcelPtr) (g : Parcel → Bool)
    (q : ParcelPtr) : (Store.modify mem p (fun x => x.markMissing (g x)) q).fixed = (mem q).fixed :=
  Store.modify_fixed mem p (fun x => x.markMissing (g x)) (fun _ => rfl) q

theorem Store.modify_addEvent_fixed (mem : Store) (p : ParcelPtr) (g : Parcel → String)
    (q : ParcelPtr) : (Store.modify mem p (fun x => x.addEvent (g x)) q).fixed = (mem q).fixed :=
  Store.modify_fixed mem p (fun x => x.addEvent (g x)) (fun _ => rfl) q

theorem Store.modify_incrementAttempts_fixed (mem : Store) (p : ParcelPtr) (q : ParcelPtr) :
    (Store.modify mem p (fun x => x.incrementAttempts) q).fixed = (mem q).fixed :=
  Store.modify_fixed mem p (fun x => x.incrementAttempts) (fun _ => rfl) q

/-- A state that differs from `a` only in members other than `next`, in rider loads and
in parcel fields that have a setter continues `a`. -/
theorem CourierSystem.extends_of (a b : CourierSystem) (hn : b.next = a.next)
    (hr : ∀ i, (b.riders i).fixed = (a.riders i).fixed)
    (hm : ∀ q, (b.mem q).fixed = (a.mem q).fixed) : a.Extends b :=
  ⟨le_of_eq hn.symm, hr, fun q _ => hm q⟩

theorem CourierSystem.registerParcel_extends (cs : CourierSystem) (id : String) (prio : Int)
    (w : ℚ) (dest : String) : cs.Extends (cs.registerParcel id prio w dest) := by
  refine ⟨Nat.le_succ _, fun _ => rfl, ?_⟩
  intro q hq
  have hne : q ≠ cs.next := Nat.ne_of_lt hq
  simp only [CourierSystem.registerParcel, Store.modify, Function.update_noteq hne]

theorem CourierSystem.processPickupLoop_extends (fuel : Nat) (cs : CourierSystem) :
    cs.Extends (CourierSystem.processPickupLoop fuel cs) := by
  induction fuel generalizing cs with
  | zero => exact CourierSystem.extends_refl cs
  | succ fuel ih =>
    rw [CourierSystem.processPickupLoop]
    split
    · exact CourierSystem.extends_refl cs
    · split
      · exact CourierSystem.extends_refl cs
      · refine CourierSystem.extends_trans _ _ _ ?_ (ih _)
        refine CourierSystem.extends_of _ _ rfl (fun _ => rfl) (fun q => ?_)
        simp only [Store.modify_setStatus_fixed]

theorem CourierSystem.sortLoop_extends (fuel : Nat) (cs : CourierSystem) :
    cs.Extends (CourierSystem.sortLoop fuel cs) := by
  induction fuel generalizing cs with
  | zero => exact CourierSystem.extends_refl cs
  | succ fuel ih =>
    rw [CourierSystem.sortLoop]
    split
    · exact CourierSystem.extends_refl cs
    · split
      · exact CourierSystem.extends_refl cs
      · refine CourierSystem.extends_trans _ _ _ ?_ (ih _)
        refine CourierSystem.extends_of _ _ rfl (fun _ => rfl) (fun q => ?_)
        simp only [Store.modify_setStatus_fixed]

theorem Rider.assignParcel_fixed (r : Rider) (mem : Store) (p : ParcelPtr) :
    (r.assignParcel mem p).2.fixed = r.fixed := by
  unfold Rider.assignParcel
  split <;> rfl

theorem CourierSystem.tryRiders_extends (p : ParcelPtr) (l : List Nat) (cs cs' : CourierSystem)
    (h : CourierSystem.tryRiders cs p l = some cs') : cs.Extends cs' := by
  induction l generalizing cs with
  | nil => simp [CourierSystem.tryRiders] at h
  | cons i l ih =>
    by_cases hfit : (cs.riders i).currentLoad + (cs.mem p).weight ≤ (cs.riders i).capacity
    · rw [CourierSystem.tryRiders_take cs p i l hfit] at h
      injection h with h
      subst h
      refine CourierSystem.extends_of _ _ rfl ?_ ?_
      · intro j
        by_cases hj : j = i
        · subst hj
          simp only [Function.update_same]
          rfl
        · simp only [Function.update_noteq hj]
      · intro q
        by_cases hq : q = p
        · subst hq
          simp only [Function.update_same]
          rfl
        · simp only [Function.update_noteq hq]
    · rw [CourierSystem.tryRiders_skip cs p i l hfit] at h
      exact ih cs h

theorem CourierSystem.assignRider_extends (cs : CourierSystem) : cs.Extends cs.assignRider := by
  unfold CourierSystem.assignRider
  split
  · exact CourierSystem.extends_refl cs
  · split
    · exact CourierSystem.extends_refl cs
    · dsimp only
      split
      · rename_i cs2 h
        refine CourierSystem.extends_trans _ _ _ ?_ (CourierSystem.tryRiders_extends _ _ _ _ h)
        exact CourierSystem.extends_of _ _ rfl (fun _ => rfl) (fun _ => rfl)
      · exact CourierSystem.extends_of _ _ rfl (fun _ => rfl) (fun _ => rfl)

theorem CourierSystem.reportMissing_extends (cs : CourierSystem) (id : String) :
    cs.Extends (cs.reportMissing id) := by
  unfold CourierSystem.reportMissing
  split
  · refine CourierSystem.extends_of _ _ rfl (fun _ => rfl) (fun q => ?_)
    simp only [Store.modify_setStatus_fixed, Store.modify_markMissing_fixed]
  · exact CourierSystem.extends_refl cs
  · exact CourierSystem.extends_refl cs

theorem CourierSystem.undoLastOperation_extends (cs : CourierSystem) :
    cs.Extends cs.undoLastOperation := by
  unfold CourierSystem.undoLastOperation
  split
  · refine CourierSystem.extends_of _ _ rfl (fun _ => rfl) (fun q => ?_)
    simp only [Store.modify_setStatus_fixed]
  · exact CourierSystem.extends_refl cs

theorem CourierSystem.releaseRiderLoad_extends (cs : CourierSystem) (p : ParcelPtr) :
    cs.Extends (cs.releaseRiderLoad p) := by
  unfold CourierSystem.releaseRiderLoad
  dsimp only
  split
  · refine CourierSystem.extends_of _ _ rfl (fun i => ?_) (fun q => ?_)
    · dsimp only
      split
      · by_cases hi : i = (wrap32 ((cs.mem p).assignedRiderId - 1)).toNat
        · subst hi
          simp only [Function.update_same]
          rfl
        · simp only [Function.update_noteq hi]
      · rfl
    · simp only [Store.modify_setRiderId_fixed]
  · exact CourierSystem.extends_refl cs

theorem CourierSystem.simulateParcelLifecycle_extends (cs : CourierSystem) (id : String)
    (choice : Int) : cs.Extends (cs.simulateParcelLifecycle id choice) := by
  unfold CourierSystem.simulateParcelLifecycle
  split
  · exact CourierSystem.extends_refl cs
  · exact CourierSystem.extends_refl cs
  · rename_i p _
    split
    · refine CourierSystem.extends_trans _ _ _ ?_ (CourierSystem.releaseRiderLoad_extends _ p)
      refine CourierSystem.extends_of _ _ rfl (fun _ => rfl) (fun q => ?_)
      simp only [Store.modify_setStatus_fixed, Store.modify_addEvent_fixed]
    · split
      · refine CourierSystem.extends_of _ _ rfl (fun _ => rfl) (fun q => ?_)
        simp only [Store.modify_setStatus_fixed, Store.modify_addEvent_fixed,
          Store.modify_incrementAttempts_fixed]
      · split
        · refine CourierSystem.extends_trans _ _ _ ?_
            (CourierSystem.releaseRiderLoad_extends _ p)
          refine CourierSystem.extends_of _ _ rfl (fun _ => rfl) (fun q => ?_)
          simp only [Store.modify_setStatus_fixed, Store.modify_addEvent_fixed]
        · split
          · refine CourierSystem.extends_trans _ _ _ ?_
              (CourierSystem.releaseRiderLoad_extends _ p)
            refine CourierSystem.extends_of _ _ rfl (fun _ => rfl) (fun q => ?_)
            simp only [Store.modify_setStatus_fixed, Store.modify_addEvent_fixed]
          · exact CourierSystem.extends_refl cs

theorem CourierSystem.step_extends (cs : CourierSystem) (op : EngineOp) :
    cs.Extends (cs.step op) := by
  cases op with
  | registerParcel id prio w dest => exact CourierSystem.registerParcel_extends cs id prio w dest
  | processPickupQueue =>
    show cs.Extends cs.processPickupQueue
    unfold CourierSystem.processPickupQueue
    split
    · exact CourierSystem.extends_refl cs
    · exact CourierSystem.processPickupLoop_extends _ cs
  | sortToWarehouse =>
    show cs.Extends cs.sortToWarehouse
    unfold CourierSystem.sortToWarehouse
    split
    · exact CourierSystem.extends_refl cs
    · exact CourierSystem.sortLoop_extends _ cs
  | assignRider => exact CourierSystem.assignRider_extends cs
  | reportMissing id => exact CourierSystem.reportMissing_extends cs id
  | undoLastOperation => exact CourierSystem.undoLastOperation_extends cs
  | simulateParcelLifecycle id choice =>
    exact CourierSystem.simulateParcelLifecycle_extends cs id choice
  | manageRoads op c1 c2 =>
    show cs.Extends (cs.manageRoads op c1 c2)
    unfold CourierSystem.manageRoads
    split
    · exact CourierSystem.extends_of _ _ rfl (fun _ => rfl) (fun _ => rfl)
    · split
      · exact CourierSystem.extends_of _ _ rfl (fun _ => rfl) (fun _ => rfl)
      · exact CourierSystem.extends_refl cs
  | track id => exact CourierSystem.extends_refl cs

theorem CourierSystem.foldl_step_extends (ops : List EngineOp) (cs : CourierSystem) :
    cs.Extends (ops.foldl CourierSystem.step cs) := by
  induction ops generalizing cs with
  | nil => exact CourierSystem.extends_refl cs
  | cons op ops ih =>
    exact CourierSystem.extends_trans _ _ _ (CourierSystem.step_extends cs op) (ih _)

theorem CourierSystem.extends_init_of_reachable (cs : CourierSystem) (h : cs.Reachable) :
    CourierSystem.init.Extends cs := by
  induction h with
  | init => exact CourierSystem.extends_refl _
  | step cs op _ ih => exact CourierSystem.extends_trans _ _ _ ih (CourierSystem.step_extends cs op)

theorem CourierSystem.reachable_foldl (ops : List EngineOp) (cs : CourierSystem)
    (h : cs.Reachable) : (ops.foldl CourierSystem.step cs).Reachable := by
  induction ops generalizing cs with
  | nil => exact h
  | cons op ops ih => exact ih _ (CourierSystem.Reachable.step cs op h)

theorem CourierSystem.reachable_run (ops : List EngineOp) : (CourierSystem.run ops).Reachable :=
  CourierSystem.reachable_foldl ops _ CourierSystem.Reachable.init

/-- The riders keep the ids the constructor gave them: rider `i` has id `i + 1`. -/
theorem CourierSystem.rider_id_of_reachable (cs : CourierSystem) (h : cs.Reachable) (i : Nat)
    (hi : i < 3) : (cs.riders i).id = (i : Int) + 1 := by
  have hf := (CourierSystem.extends_init_of_reachable cs h).2.1 i
  have hid : (cs.riders i).id = (CourierSystem.init.riders i).id := congrArg Prod.fst hf
  rw [hid]
  have h3 : i = 0 ∨ i = 1 ∨ i = 2 := by omega
  rcases h3 with h | h | h <;> subst h <;> rfl

end Courier

namespace Courier

/-! ## releaseRiderLoad -/

/-- C13: in a state reached by method calls, if the rider id on `p` is that of rider `i`,
`releaseRiderLoad p` sets the load of rider `i` to the larger of zero and the load minus
the weight of `p`, changes no other rider and sets the rider id on `p` to -1; if the
rider id on `p` is -1 it changes nothing; and if no load of the three riders was below
zero, none is afterwards. -/
theorem CourierSystem.releaseRiderLoad_clamped (cs : CourierSystem) (hr : cs.Reachable)
    (p : ParcelPtr) :
    (∀ i, i < 3 → (cs.mem p).assignedRiderId = (cs.riders i).id →
      (cs.releaseRiderLoad p).riders i
        = { id := (cs.riders i).id, name := (cs.riders i).name,
            capacity := (cs.riders i).capacity,
            currentLoad := max 0 ((cs.riders i).currentLoad - (cs.mem p).weight) }
      ∧ (∀ j, j ≠ i → (cs.releaseRiderLoad p).riders j = cs.riders j)
      ∧ ((cs.releaseRiderLoad p).mem p).assignedRiderId = -1)
    ∧ ((cs.mem p).assignedRiderId = -1 → cs.releaseRiderLoad p = cs)
    ∧ ((∀ j, j < 3 → 0 ≤ (cs.riders j).currentLoad) →
        ∀ j, j < 3 → 0 ≤ ((cs.releaseRiderLoad p).riders j).currentLoad) := by
  refine ⟨?_, ?_, ?_⟩
  · intro i hi hid
    have hrid : (cs.mem p).assignedRiderId = (i : Int) + 1 := by
      rw [hid, CourierSystem.rider_id_of_reachable cs hr i hi]
    have h1 : (cs.mem p).assignedRiderId ≠ -1 := by omega
    have hw : wrap32 ((cs.mem p).assignedRiderId - 1) = (i : Int) := by
      unfold wrap32
      omega
    have h2 : 0 ≤ wrap32 ((cs.mem p).assignedRiderId - 1)
        ∧ wrap32 ((cs.mem p).assignedRiderId - 1) < 3 := by
      rw [hw]
      omega
    have h3 : (wrap32 ((cs.mem p).assignedRiderId - 1)).toNat = i := by
      rw [hw]
      omega
    unfold CourierSystem.releaseRiderLoad
    dsimp only
    rw [if_pos h1, if_pos h2, h3]
    dsimp only
    refine ⟨?_, ?_, ?_⟩
    · rw [Function.update_same]
      by_cases hneg : (cs.riders i).currentLoad - (cs.mem p).weight < 0
      · rw [if_pos hneg, max_eq_left (le_of_lt hneg)]
      · rw [if_neg hneg, max_eq_right (not_lt.mp hneg)]
    · intro j hj
      rw [Function.update_noteq hj]
    · simp only [Store.modify, Function.update_same, Parcel.setRiderId]
  · intro h
    unfold CourierSystem.releaseRiderLoad
    dsimp only
    rw [if_neg (not_not.mpr h)]
  · intro hnn j hj
    unfold CourierSystem.releaseRiderLoad
    dsimp only
    split
    · dsimp only
      split
      · by_cases hji : j = (wrap32 ((cs.mem p).assignedRiderId - 1)).toNat
        · rw [hji, Function.update_same]
          dsimp only
          split
          · exact le_refl _
          · rename_i hneg
            exact not_lt.mp hneg
        · rw [Function.update_noteq hji]
          exact hnn j hj
      · exact hnn j hj
    · exact hnn j hj

/-! ## Weight class, zone and identifier -/

theorem Parcel.determineZone_unknown (d : String)
    (h : d ≠ "Islamabad" ∧ d ≠ "Peshawar" ∧ d ≠ "Lahore" ∧ d ≠ "Faisalabad" ∧ d ≠ "Karachi"
      ∧ d ≠ "Multan") : Parcel.determineZone d = "Unknown" := by
  unfold Parcel.determineZone
  simp [h.1, h.2.1, h.2.2.1, h.2.2.2.1, h.2.2.2.2.1, h.2.2.2.2.2]

/-- C20: the parcel the constructor builds from weight `w` and destination `d` has
weight class Light for `w < 5`, Medium for `5 ≤ w < 20`, Heavy for `20 ≤ w`, and zone
North for Islamabad and Peshawar, Central for Lahore and Faisalabad, South for Karachi
and Multan, Unknown for every other name; and after `registerParcel` has created it, in
any state, it keeps its identifier, weight class and zone through every sequence of
method calls. -/
theorem CourierSystem.weightCat_zone_fixed (id : String) (prio : Int) (w : ℚ) (d : String)
    (cs : CourierSystem) (ops : List EngineOp) :
    ((w < 5 → (Parcel.new id prio w d).weightCat = "Light")
      ∧ (5 ≤ w → w < 20 → (Parcel.new id prio w d).weightCat = "Medium")
      ∧ (20 ≤ w → (Parcel.new id prio w d).weightCat = "Heavy"))
    ∧ ((d = "Islamabad" ∨ d = "Peshawar" → (Parcel.new id prio w d).zone = "North")
      ∧ (d = "Lahore" ∨ d = "Faisalabad" → (Parcel.new id prio w d).zone = "Central")
      ∧ (d = "Karachi" ∨ d = "Multan" → (Parcel.new id prio w d).zone = "South")
      ∧ (d ≠ "Islamabad" ∧ d ≠ "Peshawar" ∧ d ≠ "Lahore" ∧ d ≠ "Faisalabad" ∧ d ≠ "Karachi"
          ∧ d ≠ "Multan" → (Parcel.new id prio w d).zone = "Unknown"))
    ∧ ((cs.registerParcel id prio w d).mem cs.next).id = id
    ∧ ((cs.registerParcel id prio w d).mem cs.next).weightCat
        = (Parcel.new id prio w d).weightCat
    ∧ ((cs.registerParcel id prio w d).mem cs.next).zone = (Parcel.new id prio w d).zone
    ∧ ((ops.foldl CourierSystem.step (cs.registerParcel id prio w d)).mem cs.next).id = id
    ∧ ((ops.foldl CourierSystem.step (cs.registerParcel id prio w d)).mem cs.next).weightCat
        = (Parcel.new id prio w d).weightCat
    ∧ ((ops.foldl CourierSystem.step (cs.registerParcel id prio w d)).mem cs.next).zone
        = (Parcel.new id prio w d).zone := by
  have hreg : ((cs.registerParcel id prio w d).mem cs.next).fixed
      = (Parcel.new id prio w d).fixed := by
    simp only [CourierSystem.registerParcel, Store.modify, Function.update_same]
    rfl
  have hrun := (CourierSystem.foldl_step_extends ops (cs.registerParcel id prio w d)).2.2
    cs.next (Nat.lt_succ_self _)
  rw [hreg] at hrun
  have hid : ∀ x : Parcel, x.fixed = (Parcel.new id prio w d).fixed →
      x.id = id ∧ x.weightCat = (Parcel.new id prio w d).weightCat
        ∧ x.zone = (Parcel.new id prio w d).zone := by
    intro x hx
    simp only [Parcel.fixed, Prod.mk.injEq] at hx
    exact ⟨hx.1, hx.2.2.2.1, hx.2.2.2.2.2⟩
  refine ⟨⟨?_, ?_, ?_⟩, ⟨?_, ?_, ?_, ?_⟩, (hid _ hreg).1, (hid _ hreg).2.1, (hid _ hreg).2.2,
    (hid _ hrun).1, (hid _ hrun).2.1, (hid _ hrun).2.2⟩
  · intro h
    show Parcel.determineWeightCat w = "Light"
    unfold Parcel.determineWeightCat
    rw [if_pos h]
  · intro h5 h20
    show Parcel.determineWeightCat w = "Medium"
    unfold Parcel.determineWeightCat
    rw [if_neg (not_lt.mpr h5), if_pos h20]
  · intro h
    show Parcel.determineWeightCat w = "Heavy"
    unfold Parcel.determineWeightCat
    rw [if_neg (not_lt.mpr (le_trans (by norm_num) h)), if_neg (not_lt.mpr h)]
  · intro h
    show Parcel.determineZone d = "North"
    unfold Parcel.determineZone
    rw [if_pos h]
  · intro h
    show Parcel.determineZone d = "Central"
    rcases h with h | h <;> subst h <;> decide
  · intro h
    show Parcel.determineZone d = "South"
    rcases h with h | h <;> subst h <;> decide
  · intro h
    exact Parcel.determineZone_unknown d h

end Courier

namespace Courier

/-! ## processPickupQueue -/

/-- The parcels held after an `insert` below the capacity bound; no heap order is
assumed. -/
theorem PriorityScheduler.insert_held (mem : Store) (s : PriorityScheduler) (p : ParcelPtr)
    (hlt : s.currentSize < 100) :
    (s.insert mem p).currentSize = s.currentSize + 1
    ∧ (s.insert mem p).held.Perm (s.held ++ [p]) := by
  unfold PriorityScheduler.insert
  rw [if_pos hlt]
  simp only
  have hsize : (PriorityScheduler.heapifyUp mem s.currentSize
      { heapArray := Function.update s.heapArray s.currentSize p,
        currentSize := s.currentSize } s.currentSize).currentSize = s.currentSize := by
    rw [heapifyUp_size]
  have hperm := heapifyUp_perm mem (s.currentSize + 1) s.currentSize
    { heapArray := Function.update s.heapArray s.currentSize p, currentSize := s.currentSize }
    s.currentSize (by omega)
  refine ⟨?_, ?_⟩
  · simp only [hsize]
  · unfold PriorityScheduler.held
    simp only [hsize]
    refine hperm.trans ?_
    rw [List.range_succ, List.map_append, List.map_singleton]
    simp only [Function.update_same]
    have : (List.range s.currentSize).map (Function.update s.heapArray s.currentSize p)
        = (List.range s.currentSize).map s.heapArray := by
      apply List.map_congr_left
      intro x hx
      rw [List.mem_range] at hx
      rw [Function.update_noteq (by omega)]
    rw [this]

/-- The loop of `processPickupQueue`, run on a pickup queue holding `l`: it empties the
queue, pushes one undo record per member, sets the status of each member to Sorting and
inserts the members into the scheduler until it is full. -/
theorem CourierSystem.processPickupLoop_spec (l : List ParcelPtr) (fuel : Nat)
    (cs : CourierSystem) (hl : cs.pickupQueue.nodes = l) (hf : l.length ≤ fuel) :
    (CourierSystem.processPickupLoop fuel cs).pickupQueue.nodes = []
    ∧ (∃ rs, (CourierSystem.processPickupLoop fuel cs).undo.nodes = rs ++ cs.undo.nodes
        ∧ rs.map (fun r => r.p) = l.reverse
        ∧ (∀ r, r ∈ rs → r.description = "Moved to Sorter")
        ∧ (l.Nodup → rs = l.reverse.map (fun p =>
            { p := p, prevStatus := (cs.mem p).status, description := "Moved to Sorter" })))
    ∧ (CourierSystem.processPickupLoop fuel cs).sortingEngine.held.Perm
        (cs.sortingEngine.held ++ l.take (100 - cs.sortingEngine.currentSize))
    ∧ (CourierSystem.processPickupLoop fuel cs).sortingEngine.currentSize
        = cs.sortingEngine.currentSize + min l.length (100 - cs.sortingEngine.currentSize)
    ∧ (∀ q, (CourierSystem.processPickupLoop fuel cs).mem q
        = if q ∈ l then (cs.mem q).setStatus "Sorting" else cs.mem q)
    ∧ (CourierSystem.processPickupLoop fuel cs).riders = cs.riders
    ∧ (CourierSystem.processPickupLoop fuel cs).warehouseQueue = cs.warehouseQueue
    ∧ (CourierSystem.processPickupLoop fuel cs).transitQueue = cs.transitQueue
    ∧ (CourierSystem.processPickupLoop fuel cs).trackingEngine = cs.trackingEngine
    ∧ (CourierSystem.processPickupLoop fuel cs).routingEngine = cs.routingEngine
    ∧ (CourierSystem.processPickupLoop fuel cs).next = cs.next := by
  induction l generalizing fuel cs with
  | nil =>
    have hcs : CourierSystem.processPickupLoop fuel cs = cs := by
      cases fuel with
      | zero => rfl
      | succ fuel =>
        rw [CourierSystem.processPickupLoop]
        have : cs.pickupQueue.isEmpty = true := by
          unfold ParcelQueue.isEmpty
          rw [hl]
        rw [if_pos this]
    rw [hcs]
    refine ⟨hl, ⟨[], rfl, rfl, ?_, fun _ => rfl⟩, ?_, ?_, ?_, rfl, rfl, rfl, rfl, rfl, rfl⟩
    · intro r hr
      cases hr
    · simp
    · simp
    · intro q
      simp
  | cons p rest ih =>
    cases fuel with
    | zero => simp at hf
    | succ fuel =>
      have hd := ParcelQueue.dequeue_cons cs.pickupQueue p rest hl
      rw [CourierSystem.processPickupLoop, hd.2, hd.1]
      simp only [Bool.false_eq_true, if_false]
      have hf' : rest.length ≤ fuel := by
        simp only [List.length_cons] at hf
        omega
      obtain ⟨h1, ⟨rs, hrs, hrp, hrd, hrn⟩, h3, h4, h5, h6, h7, h8, h9, h10, h11⟩ :=
        ih fuel
          { cs with
            pickupQueue := ⟨rest⟩
            undo := cs.undo.push p (cs.mem p).status "Moved to Sorter"
            mem := Store.modify cs.mem p (fun x => x.setStatus "Sorting")
            sortingEngine := cs.sortingEngine.insert
              (Store.modify cs.mem p (fun x => x.setStatus "Sorting")) p }
          rfl hf'
      refine ⟨h1, ⟨rs ++ [⟨p, (cs.mem p).status, "Moved to Sorter"⟩], ?_, ?_, ?_, ?_⟩, ?_, ?_, ?_,
        h6, h7, h8, h9, h10, h11⟩
      · rw [hrs]
        simp [UndoStack.push]
      · simp [hrp]
      · intro r hr
        rw [List.mem_append] at hr
        rcases hr with hr | hr
        · exact hrd r hr
        · simp only [List.mem_singleton] at hr
          rw [hr]
      · intro hnd
        rw [List.nodup_cons] at hnd
        rw [hrn hnd.2]
        simp only [List.reverse_cons, List.map_append, List.map_cons, List.map_nil]
        congr 1
        apply List.map_congr_left
        intro q hq
        have hqp : q ≠ p := by
          intro h
          rw [h] at hq
          exact hnd.1 (List.mem_reverse.mp hq)
        simp only [Store.modify, Function.update_noteq hqp]
      · by_cases hlt : cs.sortingEngine.currentSize < 100
        · obtain ⟨hs, hp⟩ := PriorityScheduler.insert_held
            (Store.modify cs.mem p (fun x => x.setStatus "Sorting")) cs.sortingEngine p hlt
          simp only [hs] at h3
          refine h3.trans ?_
          have h100 : 100 - cs.sortingEngine.currentSize
              = (100 - (cs.sortingEngine.currentSize + 1)) + 1 := by omega
          rw [h100, List.take_succ_cons]
          refine (List.Perm.append_right _ hp).trans ?_
          simp
        · have e1 : (cs.sortingEngine.insert
              (Store.modify cs.mem p (fun x => x.setStatus "Sorting")) p).held
                = cs.sortingEngine.held := by
            rw [PriorityScheduler.insert_full _ _ _ hlt]
          have e2 : (cs.sortingEngine.insert
              (Store.modify cs.mem p (fun x => x.setStatus "Sorting")) p).currentSize
                = cs.sortingEngine.currentSize := by
            rw [PriorityScheduler.insert_full _ _ _ hlt]
          simp only [e1, e2] at h3
          have h0 : 100 - cs.sortingEngine.currentSize = 0 := by omega
          rw [h0] at h3 ⊢
          simpa using h3
      · by_cases hlt : cs.sortingEngine.currentSize < 100
        · obtain ⟨hs, _⟩ := PriorityScheduler.insert_held
            (Store.modify cs.mem p (fun x => x.setStatus "Sorting")) cs.sortingEngine p hlt
          simp only [hs] at h4
          rw [h4]
          simp only [List.length_cons]
          omega
        · have e2 : (cs.sortingEngine.insert
              (Store.modify cs.mem p (fun x => x.setStatus "Sorting")) p).currentSize
                = cs.sortingEngine.currentSize := by
            rw [PriorityScheduler.insert_full _ _ _ hlt]
          simp only [e2] at h4
          rw [h4]
          simp only [List.length_cons]
          omega
      · intro q
        rw [h5 q]
        by_cases hq : q = p
        · subst hq
          simp only [Store.modify, Function.update_same, List.mem_cons, true_or, if_true]
          split <;> rfl
        · simp only [Store.modify, Function.update_noteq hq, List.mem_cons, hq, false_or]

theorem CourierSystem.processPickupQueue_eq (cs : CourierSystem) :
    cs.processPickupQueue = CourierSystem.processPickupLoop cs.pickupQueue.nodes.length cs := by
  unfold CourierSystem.processPickupQueue
  split
  · rename_i h
    have hnil : cs.pickupQueue.nodes = [] := by
      unfold ParcelQueue.isEmpty at h
      split at h
      · assumption
      · cases h
    rw [hnil]
    rfl
  · rfl

/-! ## sortToWarehouse -/

/-- The root and the parcels held after an `extractMin` on a scheduler that is not empty;
no heap order is assumed. -/
theorem PriorityScheduler.extractMin_held (mem : Store) (s : PriorityScheduler)
    (hpos : 0 < s.currentSize) :
    s.extractMin mem = (some (s.heapArray 0), (s.extractMin mem).2)
    ∧ (s.extractMin mem).2.currentSize = s.currentSize - 1
    ∧ s.held.Perm (s.heapArray 0 :: (s.extractMin mem).2.held) := by
  unfold PriorityScheduler.extractMin
  rw [if_neg (by omega)]
  simp only
  have hsize : (PriorityScheduler.heapifyDown mem (s.currentSize - 1)
      { heapArray := Function.update s.heapArray 0 (s.heapArray (s.currentSize - 1)),
        currentSize := s.currentSize - 1 } 0).currentSize = s.currentSize - 1 := by
    rw [heapifyDown_size]
  refine ⟨trivial, hsize, ?_⟩
  unfold PriorityScheduler.held
  simp only [hsize]
  refine (extract_front_perm s.heapArray s.currentSize hpos).trans ?_
  apply List.Perm.cons
  by_cases h1 : s.currentSize - 1 = 0
  · rw [h1]
    simp
  · exact (heapifyDown_perm mem (s.currentSize - 1)
      { heapArray := Function.update s.heapArray 0 (s.heapArray (s.currentSize - 1)),
        currentSize := s.currentSize - 1 } 0 (by simp only; omega)).symm

/-- The loop of `sortToWarehouse`, run on a scheduler holding `n` parcels: it empties the
scheduler, appends the parcels it held to the warehouse queue in the order `ex` of their
extraction, pushes one undo record per parcel and sets the status of each. -/
theorem CourierSystem.sortLoop_spec (n : Nat) (fuel : Nat) (cs : CourierSystem)
    (hn : cs.sortingEngine.currentSize = n) (hf : n ≤ fuel) :
    (CourierSystem.sortLoop fuel cs).sortingEngine.currentSize = 0
    ∧ (∃ ex : List ParcelPtr, ex.Perm cs.sortingEngine.held
        ∧ (CourierSystem.sortLoop fuel cs).warehouseQueue.nodes
            = cs.warehouseQueue.nodes ++ ex
        ∧ ∃ rs, (CourierSystem.sortLoop fuel cs).undo.nodes = rs ++ cs.undo.nodes
          ∧ rs.map (fun r => r.p) = ex.reverse
          ∧ (∀ r, r ∈ rs → r.description = "Moved to Warehouse")
          ∧ (cs.sortingEngine.held.Nodup → rs = ex.reverse.map (fun p =>
              { p := p, prevStatus := (cs.mem p).status,
                description := "Moved to Warehouse" })))
    ∧ (∀ q, (CourierSystem.sortLoop fuel cs).mem q
        = if q ∈ cs.sortingEngine.held then (cs.mem q).setStatus "In Warehouse Queue"
          else cs.mem q)
    ∧ (CourierSystem.sortLoop fuel cs).riders = cs.riders
    ∧ (CourierSystem.sortLoop fuel cs).pickupQueue = cs.pickupQueue
    ∧ (CourierSystem.sortLoop fuel cs).transitQueue = cs.transitQueue
    ∧ (CourierSystem.sortLoop fuel cs).trackingEngine = cs.trackingEngine
    ∧ (CourierSystem.sortLoop fuel cs).routingEngine = cs.routingEngine
    ∧ (CourierSystem.sortLoop fuel cs).next = cs.next := by
  induction n generalizing fuel cs with
  | zero =>
    have hcs : CourierSystem.sortLoop fuel cs = cs := by
      cases fuel with
      | zero => rfl
      | succ fuel =>
        rw [CourierSystem.sortLoop]
        have : cs.sortingEngine.isEmpty = true := by
          unfold PriorityScheduler.isEmpty
          rw [hn]
          rfl
        rw [if_pos this]
    have hheld : cs.sortingEngine.held = [] := by
      unfold PriorityScheduler.held
      rw [hn]
      rfl
    rw [hcs, hheld]
    refine ⟨hn, ⟨[], List.Perm.refl _, by simp, [], rfl, rfl, ?_, fun _ => rfl⟩, ?_, rfl, rfl,
      rfl, rfl, rfl, rfl⟩
    · intro r hr
      cases hr
    · intro q
      simp
  | succ n ih =>
    cases fuel with
    | zero => omega
    | succ fuel =>
      have hpos : 0 < cs.sortingEngine.currentSize := by omega
      obtain ⟨he, hsz, hperm⟩ := PriorityScheduler.extractMin_held cs.mem cs.sortingEngine hpos
      have hne : cs.sortingEngine.isEmpty = false := by
        unfold PriorityScheduler.isEmpty
        rw [hn]
        rfl
      rw [CourierSystem.sortLoop, hne, he]
      simp only [Bool.false_eq_true, if_false]
      obtain ⟨h1, ⟨ex, hex, hw, rs, hrs, hrp, hrd, hrn⟩, h5, h6, h7, h8, h9, h10, h11⟩ :=
        ih fuel
          { cs with
            sortingEngine := (cs.sortingEngine.extractMin cs.mem).2
            undo := cs.undo.push (cs.sortingEngine.heapArray 0)
              (cs.mem (cs.sortingEngine.heapArray 0)).status "Moved to Warehouse"
            mem := (Store.modify cs.mem (cs.sortingEngine.heapArray 0)
              (fun x => x.setStatus "In Warehouse Queue"))
            warehouseQueue := cs.warehouseQueue.enqueue (cs.sortingEngine.heapArray 0) }
          (by simp only [hsz]; omega) (by omega)
      have hexr : (cs.sortingEngine.heapArray 0 :: ex).Perm cs.sortingEngine.held :=
        (List.Perm.cons _ hex).trans hperm.symm
      refine ⟨h1, ⟨cs.sortingEngine.heapArray 0 :: ex, hexr, ?_,
        rs ++ [⟨cs.sortingEngine.heapArray 0, (cs.mem (cs.sortingEngine.heapArray 0)).status,
          "Moved to Warehouse"⟩], ?_, ?_, ?_, ?_⟩, ?_, h6, h7, h8, h9, h10, h11⟩
      · rw [hw]
        simp [ParcelQueue.enqueue_eq]
      · rw [hrs]
        simp [UndoStack.push]
      · simp [hrp]
      · intro r hr
        rw [List.mem_append] at hr
        rcases hr with hr | hr
        · exact hrd r hr
        · simp only [List.mem_singleton] at hr
          rw [hr]
      · intro hnd
        have hnd2 : (cs.sortingEngine.heapArray 0
            :: (cs.sortingEngine.extractMin cs.mem).2.held).Nodup := hperm.nodup_iff.mp hnd
        rw [List.nodup_cons] at hnd2
        rw [hrn hnd2.2]
        simp only [List.reverse_cons, List.map_append, List.map_cons, List.map_nil]
        congr 1
        apply List.map_congr_left
        intro q hq
        have hqp : q ≠ cs.sortingEngine.heapArray 0 := by
          intro h
          rw [h] at hq
          exact hnd2.1 (hex.mem_iff.mp (List.mem_reverse.mp hq))
        simp only [Store.modify, Function.update_noteq hqp]
      · intro q
        rw [h5 q]
        have hmem : q ∈ cs.sortingEngine.held
            ↔ q = cs.sortingEngine.heapArray 0
              ∨ q ∈ (cs.sortingEngine.extractMin cs.mem).2.held := by
          rw [hperm.mem_iff, List.mem_cons]
        by_cases hq : q = cs.sortingEngine.heapArray 0
        · have hin : q ∈ cs.sortingEngine.held := hmem.mpr (Or.inl hq)
          rw [if_pos hin]
          subst hq
          simp only [Store.modify, Function.update_same]
          split <;> rfl
        · simp only [Store.modify, Function.update_noteq hq]
          by_cases hin : q ∈ (cs.sortingEngine.extractMin cs.mem).2.held
          · rw [if_pos hin, if_pos (hmem.mpr (Or.inr hin))]
          · rw [if_neg hin, if_neg (fun h => (hmem.mp h).elim hq hin)]

theorem CourierSystem.sortToWarehouse_eq (cs : CourierSystem) :
    cs.sortToWarehouse = CourierSystem.sortLoop cs.sortingEngine.currentSize cs := by
  unfold CourierSystem.sortToWarehouse
  split
  · rename_i h
    have h0 : cs.sortingEngine.currentSize = 0 := by
      unfold PriorityScheduler.isEmpty at h
      exact of_decide_eq_true h
    rw [h0]
    rfl
  · rfl

end Courier

namespace Courier

theorem CourierSystem.foldl_register (regs : List EngineOp) (cs : CourierSystem)
    (hreg : ∀ op, op ∈ regs → ∃ id prio w d, op = EngineOp.registerParcel id prio w d) :
    (regs.foldl CourierSystem.step cs).pickupQueue.nodes
      = cs.pickupQueue.nodes ++ List.range' cs.next regs.length
    ∧ (regs.foldl CourierSystem.step cs).sortingEngine = cs.sortingEngine
    ∧ (regs.foldl CourierSystem.step cs).undo.nodes.length
      = cs.undo.nodes.length + regs.length := by
  induction regs generalizing cs with
  | nil => simp
  | cons op regs ih =>
    obtain ⟨id, prio, w, d, hop⟩ := hreg op (List.mem_cons_self _ _)
    obtain ⟨h1, h2, h3⟩ := ih (cs.step op) (fun o ho => hreg o (List.mem_cons_of_mem _ ho))
    rw [List.foldl_cons, h1, h2, h3, hop]
    simp only [CourierSystem.step, CourierSystem.registerParcel, ParcelQueue.enqueue_eq,
      UndoStack.push, List.length_cons, List.range'_succ, List.append_assoc,
      List.singleton_append]
    refine ⟨trivial, trivial, ?_⟩
    omega

theorem CourierSystem.run_crowdedOps :
    (CourierSystem.run crowdedOps).pickupQueue.nodes = List.range 101
    ∧ (CourierSystem.run crowdedOps).sortingEngine.currentSize = 0
    ∧ (CourierSystem.run crowdedOps).sortingEngine.held = []
    ∧ (CourierSystem.run crowdedOps).undo.nodes.length = 101 := by
  have hreg : ∀ op, op ∈ crowdedOps →
      ∃ id prio w d, op = EngineOp.registerParcel id prio w d := by
    intro op hop
    unfold crowdedOps at hop
    rw [List.mem_map] at hop
    obtain ⟨k, _, hk⟩ := hop
    exact ⟨_, _, _, _, hk.symm⟩
  obtain ⟨h1, h2, h3⟩ := CourierSystem.foldl_register crowdedOps CourierSystem.init hreg
  have hlen : crowdedOps.length = 101 := by simp [crowdedOps]
  unfold CourierSystem.run
  rw [h1, h2, h3, hlen]
  refine ⟨?_, rfl, rfl, rfl⟩
  rw [List.range_eq_range']
  rfl

theorem CourierSystem.processPickupQueue_spec (cs : CourierSystem) :
    cs.processPickupQueue.pickupQueue.isEmpty = true
    ∧ cs.processPickupQueue.sortingEngine.held.Perm
        (cs.sortingEngine.held
          ++ cs.pickupQueue.nodes.take (100 - cs.sortingEngine.currentSize))
    ∧ (cs.sortingEngine.currentSize + cs.pickupQueue.nodes.length ≤ 100 →
        cs.processPickupQueue.sortingEngine.held.Perm
          (cs.sortingEngine.held ++ cs.pickupQueue.nodes))
    ∧ (∃ rs, cs.processPickupQueue.undo.nodes = rs ++ cs.undo.nodes
        ∧ rs.map (fun r => r.p) = cs.pickupQueue.nodes.reverse
        ∧ (∀ r, r ∈ rs → r.description = "Moved to Sorter")
        ∧ (cs.pickupQueue.nodes.Nodup → rs = cs.pickupQueue.nodes.reverse.map (fun p =>
            { p := p, prevStatus := (cs.mem p).status, description := "Moved to Sorter" }))) := by
  rw [CourierSystem.processPickupQueue_eq]
  obtain ⟨h1, h2, h3, _⟩ :=
    CourierSystem.processPickupLoop_spec cs.pickupQueue.nodes cs.pickupQueue.nodes.length cs rfl
      (le_refl _)
  refine ⟨?_, h3, ?_, h2⟩
  · unfold ParcelQueue.isEmpty
    rw [h1]
  · intro hle
    have : cs.pickupQueue.nodes.take (100 - cs.sortingEngine.currentSize)
        = cs.pickupQueue.nodes := List.take_of_length_le (by omega)
    rw [this] at h3
    exact h3

/-- C19 (amended): after `processPickupQueue` the pickup queue is empty, one undo record
per former member has been pushed, in the order of the queue, and the scheduler holds what
it held before plus the first `100 - currentSize` former members; so it holds every former
member when they all fit below the bound of 100. -/
theorem CourierSystem.processPickupQueue_moves (cs : CourierSystem) :
    cs.processPickupQueue.pickupQueue.isEmpty = true
    ∧ cs.processPickupQueue.sortingEngine.held.Perm
        (cs.sortingEngine.held
          ++ cs.pickupQueue.nodes.take (100 - cs.sortingEngine.currentSize))
    ∧ (cs.sortingEngine.currentSize + cs.pickupQueue.nodes.length ≤ 100 →
        cs.processPickupQueue.sortingEngine.held.Perm
          (cs.sortingEngine.held ++ cs.pickupQueue.nodes))
    ∧ (∃ rs, cs.processPickupQueue.undo.nodes = rs ++ cs.undo.nodes
        ∧ rs.map (fun r => r.p) = cs.pickupQueue.nodes.reverse
        ∧ ∀ r, r ∈ rs → r.description = "Moved to Sorter") := by
  obtain ⟨h1, h2, h3, rs, h4, h5, h6, _⟩ := CourierSystem.processPickupQueue_spec cs
  exact ⟨h1, h2, h3, rs, h4, h5, h6⟩

/-- C19 (counterexample): after 101 registrations the pickup queue holds the parcels
0 .. 100 and the scheduler is empty; `processPickupQueue` empties the queue and pushes
101 undo records, but the scheduler holds 100 parcels only and parcel 100 is not among
them. -/
theorem CourierSystem.processPickupQueue_counterexample :
    (100 : ParcelPtr) ∈ (CourierSystem.run crowdedOps).pickupQueue.nodes
    ∧ (CourierSystem.run crowdedOps).sortingEngine.currentSize = 0
    ∧ (CourierSystem.run crowdedOps).processPickupQueue.pickupQueue.isEmpty = true
    ∧ (CourierSystem.run crowdedOps).processPickupQueue.undo.nodes.length = 101 + 101
    ∧ (CourierSystem.run crowdedOps).processPickupQueue.sortingEngine.held.length = 100
    ∧ (100 : ParcelPtr) ∉
        (CourierSystem.run crowdedOps).processPickupQueue.sortingEngine.held := by
  obtain ⟨hq, hs, hh, hu⟩ := CourierSystem.run_crowdedOps
  obtain ⟨h1, h2, _, rs, h4, h5, _⟩ :=
    CourierSystem.processPickupQueue_spec (CourierSystem.run crowdedOps)
  rw [hq, hs, hh] at h2
  have htake : List.take (100 - 0) (List.range 101) = List.range 100 := by decide
  rw [htake, List.nil_append] at h2
  refine ⟨?_, hs, h1, ?_, ?_, ?_⟩
  · rw [hq]
    decide
  · rw [h4, List.length_append, hu]
    have : rs.length = 101 := by
      have := congrArg List.length h5
      rw [List.length_map, List.length_reverse, hq, List.length_range] at this
      exact this
    rw [this]
  · rw [h2.length_eq]
    simp
  · intro hmem
    have := h2.mem_iff.mp hmem
    rw [List.mem_range] at this
    omega

/-! ## The manual status updates -/

theorem CourierSystem.releaseRiderLoad_keeps (cs : CourierSystem) (p : ParcelPtr) :
    (cs.releaseRiderLoad p).undo = cs.undo
    ∧ (∀ q, ((cs.releaseRiderLoad p).mem q).history = (cs.mem q).history)
    ∧ (∀ q, ((cs.releaseRiderLoad p).mem q).status = (cs.mem q).status)
    ∧ (cs.releaseRiderLoad p).trackingEngine = cs.trackingEngine := by
  unfold CourierSystem.releaseRiderLoad
  dsimp only
  split
  · refine ⟨rfl, ?_, ?_, rfl⟩
    · intro q
      by_cases hq : q = p
      · subst hq
        simp only [Store.modify, Function.update_same, Parcel.setRiderId]
      · simp only [Store.modify, Function.update_noteq hq]
    · intro q
      by_cases hq : q = p
      · subst hq
        simp only [Store.modify, Function.update_same, Parcel.setRiderId]
      · simp only [Store.modify, Function.update_noteq hq]
  · exact ⟨rfl, fun _ => rfl, fun _ => rfl, rfl⟩

theorem CourierSystem.simulateParcelLifecycle_spec (cs : CourierSystem) (id : String)
    (p : ParcelPtr) (choice : Int)
    (hs : cs.trackingEngine.search cs.mem id = SearchResult.found p)
    (hc : choice = 1 ∨ choice = 2 ∨ choice = 3 ∨ choice = 4) :
    (cs.simulateParcelLifecycle id choice).undo = cs.undo
    ∧ ((cs.simulateParcelLifecycle id choice).mem p).history
        = (cs.mem p).history ++
          [if choice = 1 then "Unloaded at " ++ (cs.mem p).destination ++ " warehouse"
           else if choice = 2 then
            "Delivery Attempt #" ++ toString (wrap32 ((cs.mem p).deliveryAttempts + 1))
           else if choice = 3 then "Final Delivery Successful"
           else "Returned to Sender (Failed Delivery)"]
    ∧ ((cs.simulateParcelLifecycle id choice).mem p).status
        = (if choice = 1 then "Arrived at Dest Hub"
           else if choice = 2 then "Out for Delivery"
           else if choice = 3 then "Delivered"
           else "Returned") := by
  unfold CourierSystem.simulateParcelLifecycle
  rw [hs]
  dsimp only
  rcases hc with h | h | h | h
  · subst h
    rw [if_pos rfl]
    obtain ⟨h1, h2, h3, _⟩ := CourierSystem.releaseRiderLoad_keeps
      { cs with mem := (Store.modify
          (Store.modify cs.mem p (fun x => x.setStatus "Arrived at Dest Hub")) p
          (fun x => x.addEvent ("Unloaded at " ++ x.destination ++ " warehouse"))) } p
    rw [h1, h2 p, h3 p]
    simp [Store.modify, Parcel.setStatus, Parcel.addEvent]
  · subst h
    rw [if_neg (by decide), if_pos rfl]
    simp [Store.modify, Parcel.setStatus, Parcel.addEvent, Parcel.incrementAttempts]
  · subst h
    rw [if_neg (by decide), if_neg (by decide), if_pos rfl]
    obtain ⟨h1, h2, h3, _⟩ := CourierSystem.releaseRiderLoad_keeps
      { cs with mem := (Store.modify
          (Store.modify cs.mem p (fun x => x.setStatus "Delivered")) p
          (fun x => x.addEvent "Final Delivery Successful")) } p
    rw [h1, h2 p, h3 p]
    simp [Store.modify, Parcel.setStatus, Parcel.addEvent]
  · subst h
    rw [if_neg (by decide), if_neg (by decide), if_neg (by decide), if_pos rfl]
    obtain ⟨h1, h2, h3, _⟩ := CourierSystem.releaseRiderLoad_keeps
      { cs with mem := (Store.modify
          (Store.modify cs.mem p (fun x => x.setStatus "Returned")) p
          (fun x => x.addEvent "Returned to Sender (Failed Delivery)")) } p
    rw [h1, h2 p, h3 p]
    simp [Store.modify, Parcel.setStatus, Parcel.addEvent]

theorem CourierSystem.undoLastOperation_cons (cs : CourierSystem) (r : UndoState)
    (rest : List UndoState) (h : cs.undo.nodes = r :: rest) :
    cs.undoLastOperation
      = { cs with undo := ⟨rest⟩
                  mem := Store.modify cs.mem r.p (fun x => x.setStatus r.prevStatus) } := by
  unfold CourierSystem.undoLastOperation UndoStack.pop
  rw [h]

theorem CourierSystem.undoLastOperation_nil (cs : CourierSystem) (h : cs.undo.nodes = []) :
    cs.undoLastOperation = cs := by
  unfold CourierSystem.undoLastOperation UndoStack.pop
  rw [h]

/-- C17: for a parcel `p` found under the identifier and each of the four updates
(1 unload, 2 delivery attempt, 3 final delivery, 4 return), the update appends exactly
one event to the log of `p` and sets the status of `p`, but it pushes no undo record: the
undo stack is as it was.  So an `undoLastOperation` that follows does not restore the
status `p` had before the update: it pops the record that was on top before the update
and gives the parcel of that record the status that record holds, and it does nothing
when the stack was empty. -/
theorem CourierSystem.simulateParcelLifecycle_no_record (cs : CourierSystem) (id : String)
    (p : ParcelPtr) (choice : Int)
    (hs : cs.trackingEngine.search cs.mem id = SearchResult.found p)
    (hc : choice = 1 ∨ choice = 2 ∨ choice = 3 ∨ choice = 4) :
    (cs.simulateParcelLifecycle id choice).undo = cs.undo
    ∧ ((cs.simulateParcelLifecycle id choice).mem p).history
        = (cs.mem p).history ++
          [if choice = 1 then "Unloaded at " ++ (cs.mem p).destination ++ " warehouse"
           else if choice = 2 then
            "Delivery Attempt #" ++ toString (wrap32 ((cs.mem p).deliveryAttempts + 1))
           else if choice = 3 then "Final Delivery Successful"
           else "Returned to Sender (Failed Delivery)"]
    ∧ ((cs.simulateParcelLifecycle id choice).mem p).status
        = (if choice = 1 then "Arrived at Dest Hub"
           else if choice = 2 then "Out for Delivery"
           else if choice = 3 then "Delivered"
           else "Returned")
    ∧ (∀ r rest, cs.undo.nodes = r :: rest →
        (cs.simulateParcelLifecycle id choice).undoLastOperation.undo.nodes = rest
        ∧ ((cs.simulateParcelLifecycle id choice).undoLastOperation.mem r.p).status
            = r.prevStatus)
    ∧ (cs.undo.nodes = [] →
        (cs.simulateParcelLifecycle id choice).undoLastOperation
          = cs.simulateParcelLifecycle id choice) := by
  obtain ⟨h1, h2, h3⟩ := CourierSystem.simulateParcelLifecycle_spec cs id p choice hs hc
  refine ⟨h1, h2, h3, ?_, ?_⟩
  · intro r rest hr
    rw [CourierSystem.undoLastOperation_cons _ r rest (by rw [h1, hr])]
    simp only [Store.modify, Function.update_same, Parcel.setStatus]
    exact ⟨trivial, trivial⟩
  · intro hnil
    exact CourierSystem.undoLastOperation_nil _ (by rw [h1, hnil])

/-! ## The previous status in the undo records -/

/-- The records `reportMissing`, `assignRider`, `processPickupQueue` and `sortToWarehouse`
push hold the status the parcel had when the call began (for the two loops: when no
parcel is in the pickup queue, or in the scheduler, twice). -/
theorem CourierSystem.prior_status_recorded (cs : CourierSystem) :
    (∀ id p, cs.trackingEngine.search cs.mem id = SearchResult.found p →
      (cs.reportMissing id).undo.nodes
        = { p := p, prevStatus := (cs.mem p).status, description := "Reported Missing" }
            :: cs.undo.nodes)
    ∧ (∀ p rest i, cs.warehouseQueue.nodes = p :: rest → i < 3 →
        (cs.riders i).currentLoad + (cs.mem p).weight ≤ (cs.riders i).capacity →
        (∀ j, j < i →
          ¬ (cs.riders j).currentLoad + (cs.mem p).weight ≤ (cs.riders j).capacity) →
        cs.assignRider.undo.nodes
          = { p := p, prevStatus := (cs.mem p).status, description := "Assigned Rider" }
              :: cs.undo.nodes)
    ∧ (cs.pickupQueue.nodes.Nodup →
        cs.processPickupQueue.undo.nodes
          = cs.pickupQueue.nodes.reverse.map (fun p =>
              { p := p, prevStatus := (cs.mem p).status, description := "Moved to Sorter" })
            ++ cs.undo.nodes)
    ∧ (cs.sortingEngine.held.Nodup →
        ∃ ex : List ParcelPtr, ex.Perm cs.sortingEngine.held
          ∧ cs.sortToWarehouse.warehouseQueue.nodes = cs.warehouseQueue.nodes ++ ex
          ∧ cs.sortToWarehouse.undo.nodes
            = ex.reverse.map (fun p =>
                { p := p, prevStatus := (cs.mem p).status,
                  description := "Moved to Warehouse" })
              ++ cs.undo.nodes) := by
  refine ⟨?_, ?_, ?_, ?_⟩
  · intro id p hs
    unfold CourierSystem.reportMissing
    rw [hs]
    rfl
  · intro p rest i hq hi hfit hlow
    rw [CourierSystem.assignRider_take cs p rest i hq hi hfit hlow]
  · intro hnd
    obtain ⟨_, _, _, rs, h4, _, _, h7⟩ := CourierSystem.processPickupQueue_spec cs
    rw [h4, h7 hnd]
  · intro hnd
    obtain ⟨_, ⟨ex, hex, hw, rs, hrs, _, _, hrn⟩, _⟩ :=
      CourierSystem.sortLoop_spec cs.sortingEngine.currentSize cs.sortingEngine.currentSize cs
        rfl (le_refl _)
    rw [CourierSystem.sortToWarehouse_eq]
    exact ⟨ex, hex, hw, by rw [hrs, hrn hnd]⟩

/-- C16: `registerParcel` builds the parcel with the constructor, whose status is
"At Hub", sets the status to "In Pickup Queue" and then pushes an undo record of which
the previous status is the text "Created"; so `undoLastOperation` right after
`registerParcel` leaves the parcel with status "Created", not with the status "At Hub"
the constructor gave it. -/
theorem CourierSystem.registerParcel_undo_status (cs : CourierSystem) (id : String)
    (prio : Int) (w : ℚ) (d : String) :
    (Parcel.new id prio w d).status = "At Hub"
    ∧ ((cs.registerParcel id prio w d).mem cs.next).status = "In Pickup Queue"
    ∧ (cs.registerParcel id prio w d).undo.nodes
        = { p := cs.next, prevStatus := "Created", description := "Added to Pickup" }
            :: cs.undo.nodes
    ∧ ((cs.registerParcel id prio w d).undoLastOperation.mem cs.next).status = "Created"
    ∧ ((cs.registerParcel id prio w d).undoLastOperation.mem cs.next).status
        ≠ (Parcel.new id prio w d).status := by
  have hu : (cs.registerParcel id prio w d).undo.nodes
      = { p := cs.next, prevStatus := "Created", description := "Added to Pickup" }
          :: cs.undo.nodes := rfl
  have hst : ((cs.registerParcel id prio w d).undoLastOperation.mem cs.next).status
      = "Created" := by
    rw [CourierSystem.undoLastOperation_cons _ _ _ hu]
    simp only [Store.modify, Function.update_same, Parcel.setStatus]
  refine ⟨rfl, ?_, hu, hst, ?_⟩
  · simp only [CourierSystem.registerParcel, Store.modify, Function.update_same,
      Parcel.setStatus]
  · rw [hst]
    show ("Created" : String) ≠ "At Hub"
    decide

end Courier

namespace Courier

/-! ## Concrete scenarios of the controller -/

/-- Three records pushed and popped: they come back last first, then `pop` fails. -/
theorem UndoStack.lifo_scenario :
    (UndoStack.popTimes 4
      (sampleRecords.foldl (fun u r => u.push r.p r.prevStatus r.description)
        UndoStack.init)).1
      = [some ⟨0, "In Pickup Queue", "third"⟩, some ⟨1, "Sorting", "second"⟩,
         some ⟨0, "At Hub", "first"⟩, none] := by
  decide

/-- The capacity theorem applied to the first rider (capacity 10) after he has taken the
parcels of 4 and 4 kg of `bikeOps`: the parcel of 5 kg is refused and he is as before;
and applied once the first parcel is delivered: the parcel of 5 kg is accepted, and his
load goes from 4 to 9. -/
theorem Rider.assignParcel_capacity_witness :
    ((CourierSystem.run bikeOps).riders 0).capacity = 10
    ∧ ((CourierSystem.run bikeOps).riders 0).currentLoad = 8
    ∧ ((CourierSystem.run bikeOps).mem 2).weight = 5
    ∧ (((CourierSystem.run bikeOps).riders 0).assignParcel (CourierSystem.run bikeOps).mem
        2).1 = false
    ∧ (((CourierSystem.run bikeOps).riders 0).assignParcel (CourierSystem.run bikeOps).mem
        2).2 = (CourierSystem.run bikeOps).riders 0
    ∧ (((CourierSystem.run bikeOps).simulateParcelLifecycle "A" 3).riders 0).currentLoad = 4
    ∧ ((((CourierSystem.run bikeOps).simulateParcelLifecycle "A" 3).riders 0).assignParcel
        ((CourierSystem.run bikeOps).simulateParcelLifecycle "A" 3).mem 2).1 = true
    ∧ ((((CourierSystem.run bikeOps).simulateParcelLifecycle "A" 3).riders 0).assignParcel
        ((CourierSystem.run bikeOps).simulateParcelLifecycle "A" 3).mem 2).2
        = { id := 1, name := "Ali (Bike)", capacity := 10, currentLoad := 9 }
    ∧ ((((CourierSystem.run bikeOps).simulateParcelLifecycle "A" 3).riders 0).assignParcel
        ((CourierSystem.run bikeOps).simulateParcelLifecycle "A" 3).mem 2).2.currentLoad
        ≤ ((((CourierSystem.run bikeOps).simulateParcelLifecycle "A" 3).riders
            0).assignParcel
          ((CourierSystem.run bikeOps).simulateParcelLifecycle "A" 3).mem 2).2.capacity :=
  have t0 := Rider.assignParcel_capacity ((CourierSystem.run bikeOps).riders 0)
    (CourierSystem.run bikeOps).mem 2
  have t1 := Rider.assignParcel_capacity
    (((CourierSystem.run bikeOps).simulateParcelLifecycle "A" 3).riders 0)
    ((CourierSystem.run bikeOps).simulateParcelLifecycle "A" 3).mem 2
  have h0 : (((CourierSystem.run bikeOps).riders 0).assignParcel (CourierSystem.run bikeOps).mem
      2).1 = false := Bool.eq_false_iff.mpr (fun ht => absurd (t0.1.mp ht) (by decide!))
  have h1 : ((((CourierSystem.run bikeOps).simulateParcelLifecycle "A" 3).riders
      0).assignParcel ((CourierSystem.run bikeOps).simulateParcelLifecycle "A" 3).mem 2).1
      = true := t1.1.mpr (by decide!)
  ⟨by decide!, by decide!, by decide!, h0, t0.2.2.1 h0, by decide!, h1,
    (t1.2.1 h1).trans (by decide!), t1.2.2.2 (by decide!)⟩

/-- The rider of capacity 10: parcels of 4 and 4 kg are accepted (load 8), the one of
5 kg is refused (load still 8, it goes to the second rider); once the first parcel is
delivered the load is 4 and the parcel of 5 kg is accepted (load 9). -/
theorem Rider.capacity_scenario :
    ((CourierSystem.run bikeOps).riders 0).currentLoad = 8
    ∧ ((CourierSystem.run bikeOps).warehouseQueue.nodes = [2])
    ∧ ((CourierSystem.run bikeOps).riders 0).assignParcel (CourierSystem.run bikeOps).mem 2
        = (false, (CourierSystem.run bikeOps).riders 0)
    ∧ ((CourierSystem.run bikeOps).assignRider.riders 0).currentLoad = 8
    ∧ ((CourierSystem.run bikeOps).assignRider.riders 1).currentLoad = 5
    ∧ (((CourierSystem.run bikeOps).simulateParcelLifecycle "A" 3).riders 0).currentLoad = 4
    ∧ (((CourierSystem.run bikeOps).simulateParcelLifecycle "A" 3).assignRider.riders
        0).currentLoad = 9 := by
  decide!

/-- The release theorem applied to the delivered parcel of `deliveryOps`, which the first
rider carries. -/
theorem CourierSystem.releaseRiderLoad_clamped_witness :
    (CourierSystem.run deliveryOps).Reachable
    ∧ ((CourierSystem.run deliveryOps).mem 0).assignedRiderId
        = ((CourierSystem.run deliveryOps).riders 0).id
    ∧ ((CourierSystem.run deliveryOps).releaseRiderLoad 0).riders 0
        = { id := ((CourierSystem.run deliveryOps).riders 0).id,
            name := ((CourierSystem.run deliveryOps).riders 0).name,
            capacity := ((CourierSystem.run deliveryOps).riders 0).capacity,
            currentLoad := max 0 (((CourierSystem.run deliveryOps).riders 0).currentLoad
              - ((CourierSystem.run deliveryOps).mem 0).weight) }
    ∧ (((CourierSystem.run deliveryOps).releaseRiderLoad 0).mem 0).assignedRiderId = -1 :=
  have h := (CourierSystem.releaseRiderLoad_clamped (CourierSystem.run deliveryOps)
    (CourierSystem.reachable_run deliveryOps) 0).1 0 (by decide) (by decide!)
  ⟨CourierSystem.reachable_run deliveryOps, by decide!, h.1, h.2.2⟩

/-- The parcel of `deliveryOps` released: the first rider goes from 4 kg to none. -/
theorem CourierSystem.releaseRiderLoad_scenario :
    ((CourierSystem.run deliveryOps).riders 0).currentLoad = 4
    ∧ (((CourierSystem.run deliveryOps).releaseRiderLoad 0).riders 0).currentLoad = 0
    ∧ ((((CourierSystem.run deliveryOps).releaseRiderLoad 0).releaseRiderLoad 0).riders
        0).currentLoad = 0 := by
  decide!

/-- The assignment theorem applied with the addition of `double`, first to the parcel of
30 kg of `vanOps`, for which the first rider (capacity 10) does not fit and the second
(capacity 50) does, then to the state after `roundingOps`: the first rider carries 0.1
and the parcel at the head weighs 9.9, both as `double`s; their sum as a `double` is 10,
so the first rider takes the parcel, where the exact sum of the two is above 10. -/
theorem CourierSystem.assignRider_success_witness :
    ((CourierSystem.run vanOps).warehouseQueue.nodes = [0]
      ∧ ¬ doubleAdd ((CourierSystem.run vanOps).riders 0).currentLoad
            ((CourierSystem.run vanOps).mem 0).weight
          ≤ ((CourierSystem.run vanOps).riders 0).capacity
      ∧ doubleAdd ((CourierSystem.run vanOps).riders 1).currentLoad
            ((CourierSystem.run vanOps).mem 0).weight
          ≤ ((CourierSystem.run vanOps).riders 1).capacity
      ∧ ((CourierSystem.run vanOps).assignRiderWith doubleAdd).riders 1
          = { id := 2, name := "Bob (Van)", capacity := 50, currentLoad := 30 }
      ∧ ((CourierSystem.run vanOps).assignRiderWith doubleAdd).riders 0
          = (CourierSystem.run vanOps).riders 0
      ∧ (((CourierSystem.run vanOps).assignRiderWith doubleAdd).mem 0).assignedRiderId = 2
      ∧ ((CourierSystem.run vanOps).assignRiderWith doubleAdd).warehouseQueue.nodes = []
      ∧ ((CourierSystem.run vanOps).assignRiderWith doubleAdd).transitQueue.nodes
          = (CourierSystem.run vanOps).transitQueue.nodes ++ [0]
      ∧ ((CourierSystem.run vanOps).assignRiderWith doubleAdd).undo.nodes
          = { p := 0, prevStatus := ((CourierSystem.run vanOps).mem 0).status,
              description := "Assigned Rider" } :: (CourierSystem.run vanOps).undo.nodes)
    ∧ ((CourierSystem.run roundingOps).warehouseQueue.nodes = [1]
      ∧ ((CourierSystem.run roundingOps).riders 0).currentLoad
          = 3602879701896397 / 36028797018963968
      ∧ ((CourierSystem.run roundingOps).mem 1).weight = 5573204538870989 / 562949953421312
      ∧ doubleAdd ((CourierSystem.run roundingOps).riders 0).currentLoad
            ((CourierSystem.run roundingOps).mem 1).weight = 10
      ∧ ¬ ((CourierSystem.run roundingOps).riders 0).currentLoad
            + ((CourierSystem.run roundingOps).mem 1).weight
          ≤ ((CourierSystem.run roundingOps).riders 0).capacity
      ∧ ((CourierSystem.run roundingOps).assignRiderWith doubleAdd).riders 0
          = { id := 1, name := "Ali (Bike)", capacity := 10, currentLoad := 10 }
      ∧ (((CourierSystem.run roundingOps).assignRiderWith doubleAdd).mem 1).assignedRiderId = 1
      ∧ ((CourierSystem.run roundingOps).assignRiderWith doubleAdd).warehouseQueue.nodes = []
      ∧ ((CourierSystem.run roundingOps).assignRiderWith doubleAdd).transitQueue.nodes
          = (CourierSystem.run roundingOps).transitQueue.nodes ++ [1]) :=
  have h0 : ¬ doubleAdd ((CourierSystem.run vanOps).riders 0).currentLoad
          ((CourierSystem.run vanOps).mem 0).weight
        ≤ ((CourierSystem.run vanOps).riders 0).capacity := by decide!
  have h1 : doubleAdd ((CourierSystem.run vanOps).riders 1).currentLoad
          ((CourierSystem.run vanOps).mem 0).weight
        ≤ ((CourierSystem.run vanOps).riders 1).capacity := by decide!
  have h := CourierSystem.assignRider_success doubleAdd (CourierSystem.run vanOps) 0 [] 1
    (by decide!) (by decide) h1 (fun j hj => by
      have hj0 : j = 0 := by omega
      subst hj0
      exact h0)
  have hs : doubleAdd ((CourierSystem.run roundingOps).riders 0).currentLoad
      ((CourierSystem.run roundingOps).mem 1).weight = 10 := by decide!
  have g := CourierSystem.assignRider_success doubleAdd (CourierSystem.run roundingOps) 1 [] 0
    (by decide!) (by decide) (by rw [hs]; decide!) (fun j hj => absurd hj (Nat.not_lt_zero j))
  ⟨⟨by decide!, h0, h1, h.1.trans (by decide!), h.2.1 0 (by decide),
      h.2.2.1.trans (by decide!), h.2.2.2.1, h.2.2.2.2.1, h.2.2.2.2.2.1⟩,
    ⟨by decide!, by decide!, by decide!, hs, by decide!, g.1.trans (by decide!),
      g.2.2.1.trans (by decide!), g.2.2.2.1, g.2.2.2.2.1⟩⟩

/-- The parcel of 30 kg after `assignRider`: with the second rider, in transit. -/
theorem CourierSystem.assignRider_scenario :
    ((CourierSystem.run vanOps).assignRider.riders 1).currentLoad = 30
    ∧ ((CourierSystem.run vanOps).assignRider.mem 0).assignedRiderId = 2
    ∧ ((CourierSystem.run vanOps).assignRider.mem 0).status = "In Transit (Rider: Bob (Van))"
    ∧ ((CourierSystem.run vanOps).assignRider.undo.nodes.map (fun r => r.prevStatus))
        = ["In Warehouse Queue", "Sorting", "In Pickup Queue", "Created"] := by
  decide!

/-- The failure theorem applied with the addition of `double` to the state after
`backlogOps`: the parcel of 500 kg is at the head of the warehouse queue, the one of 4 kg
behind it; no rider can take the 500 kg, which go behind the 4 kg. -/
theorem CourierSystem.assignRider_failure_witness :
    (CourierSystem.run backlogOps).warehouseQueue.nodes = [0, 1]
    ∧ ((CourierSystem.run backlogOps).mem 0).weight = 500
    ∧ (∀ i, i < 3 → ¬ doubleAdd ((CourierSystem.run backlogOps).riders i).currentLoad
          ((CourierSystem.run backlogOps).mem 0).weight
        ≤ ((CourierSystem.run backlogOps).riders i).capacity)
    ∧ ((CourierSystem.run backlogOps).assignRiderWith doubleAdd).warehouseQueue.nodes = [1, 0]
    ∧ ((CourierSystem.run backlogOps).assignRiderWith doubleAdd).riders
        = (CourierSystem.run backlogOps).riders
    ∧ ((CourierSystem.run backlogOps).assignRiderWith doubleAdd).mem
        = (CourierSystem.run backlogOps).mem
    ∧ ((CourierSystem.run backlogOps).assignRiderWith doubleAdd).transitQueue
        = (CourierSystem.run backlogOps).transitQueue
    ∧ ((CourierSystem.run backlogOps).assignRiderWith doubleAdd).undo
        = (CourierSystem.run backlogOps).undo :=
  have hnone : ∀ i, i < 3 → ¬ doubleAdd ((CourierSystem.run backlogOps).riders i).currentLoad
          ((CourierSystem.run backlogOps).mem 0).weight
        ≤ ((CourierSystem.run backlogOps).riders i).capacity := by
    intro i hi
    have h3 : i = 0 ∨ i = 1 ∨ i = 2 := by omega
    rcases h3 with h | h | h <;> subst h <;> decide!
  have h := CourierSystem.assignRider_failure doubleAdd (CourierSystem.run backlogOps) 0 [1]
    (by decide!) hnone
  ⟨by decide!, by decide!, hnone, h.1, h.2.1, h.2.2.1, h.2.2.2.1, h.2.2.2.2.1⟩

/-- Rounding in the capacity test.  With loads of 1e-20, 45 and 195 kg on the three riders
and a parcel of 10 kg, the sum 1e-20 + 10 as a `double` is 10: the first rider takes the
parcel and his load is 10.  With the exact sum no rider takes it.  And 0.1 + 0.2 as a
`double` is above 0.3 as a `double`; the other lines are roundings of `roundDouble`:
exact values, thirds, ties at 53 bits and below the smallest exponent. -/
theorem CourierSystem.assignRider_rounding_scenario :
    absorbedState.warehouseQueue.nodes = [0]
    ∧ doubleAdd (absorbedState.riders 0).currentLoad (absorbedState.mem 0).weight = 10
    ∧ ((absorbedState.assignRiderWith doubleAdd).riders 0).currentLoad = 10
    ∧ ((absorbedState.assignRiderWith doubleAdd).mem 0).assignedRiderId = 1
    ∧ (absorbedState.assignRiderWith doubleAdd).warehouseQueue.nodes = []
    ∧ absorbedState.assignRider.warehouseQueue.nodes = [0]
    ∧ absorbedState.assignRider.riders 0 = absorbedState.riders 0
    ∧ roundDouble (1 / 10) = 3602879701896397 / 36028797018963968
    ∧ roundDouble (3 / 10) = 5404319552844595 / 18014398509481984
    ∧ doubleAdd (roundDouble (1 / 10)) (roundDouble (2 / 10))
        = 1351079888211149 / 4503599627370496
    ∧ roundDouble (3 / 10) < doubleAdd (roundDouble (1 / 10)) (roundDouble (2 / 10))
    ∧ roundDouble 10 = 10 ∧ roundDouble (-3) = -3 ∧ roundDouble 500 = 500
    ∧ roundDouble (1 / 3) = 6004799503160661 / 18014398509481984
    ∧ roundDouble (-1 / 3) = -6004799503160661 / 18014398509481984
    ∧ roundDouble (9007199254740993 : ℚ) = 9007199254740992
    ∧ roundDouble (9007199254740995 : ℚ) = 9007199254740996
    ∧ roundDouble (3 * pow2 (-1075)) = pow2 (-1073)
    ∧ roundDouble (pow2 (-1076)) = 0 := by
  decide!

/-- The undo theorem applied after `deliveryOps`, whose last record is that of the rider
assignment, and to the fresh controller, whose undo stack is empty. -/
theorem CourierSystem.undoLastOperation_frame_witness :
    (CourierSystem.run deliveryOps).undo.nodes
      = ⟨0, "In Warehouse Queue", "Assigned Rider"⟩
        :: [⟨0, "Sorting", "Moved to Warehouse"⟩, ⟨0, "In Pickup Queue", "Moved to Sorter"⟩,
            ⟨0, "Created", "Added to Pickup"⟩]
    ∧ (CourierSystem.run deliveryOps).undoLastOperation.undo.nodes
      = [⟨0, "Sorting", "Moved to Warehouse"⟩, ⟨0, "In Pickup Queue", "Moved to Sorter"⟩,
          ⟨0, "Created", "Added to Pickup"⟩]
    ∧ (CourierSystem.run deliveryOps).undoLastOperation.mem 0
      = { (CourierSystem.run deliveryOps).mem 0 with status := "In Warehouse Queue" }
    ∧ (CourierSystem.run deliveryOps).undoLastOperation.riders
      = (CourierSystem.run deliveryOps).riders
    ∧ CourierSystem.init.undo.nodes = []
    ∧ CourierSystem.init.undoLastOperation = CourierSystem.init :=
  have hn : (CourierSystem.run deliveryOps).undo.nodes
      = ⟨0, "In Warehouse Queue", "Assigned Rider"⟩
        :: [⟨0, "Sorting", "Moved to Warehouse"⟩, ⟨0, "In Pickup Queue", "Moved to Sorter"⟩,
            ⟨0, "Created", "Added to Pickup"⟩] := by decide!
  have h := (CourierSystem.undoLastOperation_frame (CourierSystem.run deliveryOps)).1 _ _ hn
  ⟨hn, h.1, h.2.1, h.2.2.2.1, rfl,
    (CourierSystem.undoLastOperation_frame CourierSystem.init).2 rfl⟩

/-- The pickup theorem applied to the three registered parcels of `intakeOps`: they all
fit, and the scheduler holds them afterwards. -/
theorem CourierSystem.processPickupQueue_moves_witness :
    (CourierSystem.run intakeOps).sortingEngine.currentSize
        + (CourierSystem.run intakeOps).pickupQueue.nodes.length ≤ 100
    ∧ (CourierSystem.run intakeOps).pickupQueue.nodes = [0, 1, 2]
    ∧ (CourierSystem.run intakeOps).processPickupQueue.pickupQueue.isEmpty = true
    ∧ (CourierSystem.run intakeOps).processPickupQueue.sortingEngine.held.Perm
        ((CourierSystem.run intakeOps).sortingEngine.held
          ++ (CourierSystem.run intakeOps).pickupQueue.nodes) :=
  have hle : (CourierSystem.run intakeOps).sortingEngine.currentSize
        + (CourierSystem.run intakeOps).pickupQueue.nodes.length ≤ 100 := by decide
  have h := CourierSystem.processPickupQueue_moves (CourierSystem.run intakeOps)
  ⟨hle, by decide, h.1, h.2.2.1 hle⟩

/-- The update theorem applied to the parcel of `deliveryOps`, which is in transit with
the first rider, and to its final delivery: the log grows by one event, the status is
"Delivered", the four undo records are as before, and the `undoLastOperation` that
follows pops the record of the rider assignment and gives the parcel the status
"In Warehouse Queue", not the status it had before the update. -/
theorem CourierSystem.simulateParcelLifecycle_no_record_witness :
    (CourierSystem.run deliveryOps).trackingEngine.search (CourierSystem.run deliveryOps).mem
        "P1" = SearchResult.found 0
    ∧ ((CourierSystem.run deliveryOps).mem 0).status = "In Transit (Rider: Ali (Bike))"
    ∧ (CourierSystem.run deliveryOps).undo.nodes
        = ⟨0, "In Warehouse Queue", "Assigned Rider"⟩
          :: [⟨0, "Sorting", "Moved to Warehouse"⟩, ⟨0, "In Pickup Queue", "Moved to Sorter"⟩,
              ⟨0, "Created", "Added to Pickup"⟩]
    ∧ ((CourierSystem.run deliveryOps).simulateParcelLifecycle "P1" 3).undo
        = (CourierSystem.run deliveryOps).undo
    ∧ (((CourierSystem.run deliveryOps).simulateParcelLifecycle "P1" 3).mem 0).history
        = ((CourierSystem.run deliveryOps).mem 0).history ++ ["Final Delivery Successful"]
    ∧ (((CourierSystem.run deliveryOps).simulateParcelLifecycle "P1" 3).mem 0).status
        = "Delivered"
    ∧ ((CourierSystem.run deliveryOps).simulateParcelLifecycle "P1"
        3).undoLastOperation.undo.nodes
        = [⟨0, "Sorting", "Moved to Warehouse"⟩, ⟨0, "In Pickup Queue", "Moved to Sorter"⟩,
            ⟨0, "Created", "Added to Pickup"⟩]
    ∧ (((CourierSystem.run deliveryOps).simulateParcelLifecycle "P1"
        3).undoLastOperation.mem 0).status = "In Warehouse Queue" :=
  have hs : (CourierSystem.run deliveryOps).trackingEngine.search
      (CourierSystem.run deliveryOps).mem "P1" = SearchResult.found 0 := by decide!
  have hn : (CourierSystem.run deliveryOps).undo.nodes
      = ⟨0, "In Warehouse Queue", "Assigned Rider"⟩
        :: [⟨0, "Sorting", "Moved to Warehouse"⟩, ⟨0, "In Pickup Queue", "Moved to Sorter"⟩,
            ⟨0, "Created", "Added to Pickup"⟩] := by decide!
  have h := CourierSystem.simulateParcelLifecycle_no_record (CourierSystem.run deliveryOps)
    "P1" 0 3 hs (Or.inr (Or.inr (Or.inl rfl)))
  ⟨hs, by decide!, hn, h.1, h.2.1, h.2.2.1, (h.2.2.2.1 _ _ hn).1, (h.2.2.2.1 _ _ hn).2⟩

/-- The parcel of `deliveryOps` is in transit with the first rider
and four undo records have been pushed.  Each of the four updates leaves those four
records as they are, and the `undoLastOperation` that follows gives the parcel the status
"In Warehouse Queue" of the record of the rider assignment, not the status it had before
the update. -/
theorem CourierSystem.simulateParcelLifecycle_undo_scenario :
    (CourierSystem.run deliveryOps).trackingEngine.search (CourierSystem.run deliveryOps).mem
        "P1" = SearchResult.found 0
    ∧ ((CourierSystem.run deliveryOps).mem 0).status = "In Transit (Rider: Ali (Bike))"
    ∧ (CourierSystem.run deliveryOps).undo.nodes.length = 4
    ∧ ∀ c, c ∈ [(1 : Int), 2, 3, 4] →
        ((CourierSystem.run deliveryOps).simulateParcelLifecycle "P1" c).undo
          = (CourierSystem.run deliveryOps).undo
        ∧ (((CourierSystem.run deliveryOps).simulateParcelLifecycle "P1" c).mem 0).status
          ≠ "In Transit (Rider: Ali (Bike))"
        ∧ (((CourierSystem.run deliveryOps).simulateParcelLifecycle "P1"
            c).undoLastOperation.mem 0).status = "In Warehouse Queue" := by
  decide!

/-- The parcel of `deliveryOps` after a delivery attempt: status, counter and log. -/
theorem CourierSystem.simulateParcelLifecycle_scenario :
    (((CourierSystem.run deliveryOps).simulateParcelLifecycle "P1" 2).mem 0).status
      = "Out for Delivery"
    ∧ (((CourierSystem.run deliveryOps).simulateParcelLifecycle "P1" 2).mem 0).deliveryAttempts
      = 1
    ∧ (((CourierSystem.run deliveryOps).simulateParcelLifecycle "P1" 2).mem 0).history
      = ["Parcel Received at Hub (Lahore)", "Picked up by Ali (Bike)", "Delivery Attempt #1"] := by
  decide!

/-- A parcel registered on the fresh controller and the registration undone at once: the
status is "Created", the constructor gave "At Hub". -/
theorem CourierSystem.registerParcel_undo_scenario :
    (Parcel.new "P1" 1 2 "Lahore").status = "At Hub"
    ∧ ((CourierSystem.run [EngineOp.registerParcel "P1" 1 2 "Lahore"]).mem 0).status
      = "In Pickup Queue"
    ∧ ((CourierSystem.run [EngineOp.registerParcel "P1" 1 2 "Lahore",
        EngineOp.undoLastOperation]).mem 0).status = "Created" := by
  decide

/-- The weight-class theorem applied to a parcel of 4 kg for Lahore registered on the
fresh controller and taken to a rider. -/
theorem CourierSystem.weightCat_zone_fixed_witness :
    (4 : ℚ) < 5
    ∧ (Parcel.new "P1" 1 4 "Lahore").weightCat = "Light"
    ∧ (Parcel.new "P1" 1 4 "Lahore").zone = "Central"
    ∧ ((CourierSystem.run deliveryOps).mem 0).id = "P1"
    ∧ ((CourierSystem.run deliveryOps).mem 0).weightCat
        = (Parcel.new "P1" 1 4 "Lahore").weightCat
    ∧ ((CourierSystem.run deliveryOps).mem 0).zone = (Parcel.new "P1" 1 4 "Lahore").zone :=
  have h := CourierSystem.weightCat_zone_fixed "P1" 1 4 "Lahore" CourierSystem.init
    [EngineOp.processPickupQueue, EngineOp.sortToWarehouse, EngineOp.assignRider]
  have h4 : (4 : ℚ) < 5 := by norm_num
  ⟨h4, h.1.1 h4, h.2.1.2.1 (Or.inl rfl), h.2.2.2.2.2.1, h.2.2.2.2.2.2.1, h.2.2.2.2.2.2.2⟩

/-- The weight classes and zones at their borders. -/
theorem Parcel.weightCat_zone_scenario :
    (Parcel.new "a" 1 (49 / 10) "Peshawar").weightCat = "Light"
    ∧ (Parcel.new "a" 1 5 "Peshawar").weightCat = "Medium"
    ∧ (Parcel.new "a" 1 (199 / 10) "Peshawar").weightCat = "Medium"
    ∧ (Parcel.new "a" 1 20 "Peshawar").weightCat = "Heavy"
    ∧ (Parcel.new "a" 1 1 "Peshawar").zone = "North"
    ∧ (Parcel.new "a" 1 1 "Faisalabad").zone = "Central"
    ∧ (Parcel.new "a" 1 1 "Multan").zone = "South"
    ∧ (Parcel.new "a" 1 1 "Quetta").zone = "Unknown"
    ∧ (Parcel.new "a" 1 1 "lahore").zone = "Unknown" := by
  decide!

end Courier

namespace Courier

/-! ## reportMissing -/

/-- C21: when `search` finds a parcel `p` under the identifier, `reportMissing` sets the
missing flag of `p` to true and its status to "MISSING", pushes one undo record holding
the status `p` had, and leaves every other field of `p` (the rider id among them), every
other parcel, the three queues, the scheduler, the riders, the tracker index and the road
map as they were; when `search` finds none, the state is as before.  For an identifier
with an index inside the table `search` finds a parcel of the chain that carries the
identifier, or finds none and no parcel of the chain carries it.  For an identifier with
an index outside the table, as "éa" with index -1 on the fresh controller, which holds no
parcel, `search` reads a cell outside the array. -/
theorem CourierSystem.reportMissing_frame (cs : CourierSystem) (id : String) :
    (∀ p, cs.trackingEngine.search cs.mem id = SearchResult.found p →
      (cs.reportMissing id).mem p = { cs.mem p with status := "MISSING", isMissing := true }
      ∧ (cs.reportMissing id).undo.nodes
          = { p := p, prevStatus := (cs.mem p).status, description := "Reported Missing" }
              :: cs.undo.nodes
      ∧ ((cs.reportMissing id).mem p).assignedRiderId = (cs.mem p).assignedRiderId
      ∧ (∀ q, q ≠ p → (cs.reportMissing id).mem q = cs.mem q)
      ∧ (cs.reportMissing id).pickupQueue = cs.pickupQueue
      ∧ (cs.reportMissing id).warehouseQueue = cs.warehouseQueue
      ∧ (cs.reportMissing id).transitQueue = cs.transitQueue
      ∧ (cs.reportMissing id).sortingEngine = cs.sortingEngine
      ∧ (cs.reportMissing id).riders = cs.riders
      ∧ (cs.reportMissing id).trackingEngine = cs.trackingEngine
      ∧ (cs.reportMissing id).routingEngine = cs.routingEngine
      ∧ (cs.reportMissing id).next = cs.next)
    ∧ (cs.trackingEngine.search cs.mem id = SearchResult.notFound → cs.reportMissing id = cs)
    ∧ (0 ≤ hashFunc id ∧ hashFunc id < 50 →
        (∃ p, cs.trackingEngine.search cs.mem id = SearchResult.found p
          ∧ p ∈ cs.trackingEngine.table (hashFunc id).toNat ∧ (cs.mem p).id = id)
        ∨ (cs.trackingEngine.search cs.mem id = SearchResult.notFound
          ∧ ∀ p, p ∈ cs.trackingEngine.table (hashFunc id).toNat → (cs.mem p).id ≠ id))
    ∧ (¬ (0 ≤ hashFunc id ∧ hashFunc id < 50) →
        cs.trackingEngine.search cs.mem id = SearchResult.indexOutOfRange)
    ∧ hashFunc "éa" = -1
    ∧ CourierSystem.init.trackingEngine.search CourierSystem.init.mem "éa"
        = SearchResult.indexOutOfRange := by
  refine ⟨?_, ?_, ?_, fun hr => TrackerTable.search_out_of_range _ _ id hr, by decide,
    by decide⟩
  · intro p hs
    unfold CourierSystem.reportMissing
    rw [hs]
    simp only [Store.modify, Parcel.setStatus, Parcel.markMissing, Function.update_same,
      Function.update_idem, UndoStack.push]
    refine ⟨trivial, trivial, trivial, ?_, trivial, trivial, trivial, trivial, trivial, trivial,
      trivial, trivial⟩
    intro q hq
    rw [Function.update_noteq hq]
  · intro hs
    unfold CourierSystem.reportMissing
    rw [hs]
  · intro hr
    rcases TrackerTable.search_cases cs.mem cs.trackingEngine id hr with ⟨p, hp⟩ | hn
    · exact Or.inl ⟨p, hp, (TrackerTable.search_found _ _ id p hp).2⟩
    · exact Or.inr ⟨hn, (TrackerTable.search_notFound _ _ id hn).2⟩

/-! ## Route queries with an unknown city name -/

theorem RoutingGraph.findAllRoutes_unknown_dest (g : RoutingGraph) (hwf : g.WF)
    (src dst : String) (s : Nat) (hs : g.getCityIndex src = some s)
    (hd : g.getCityIndex dst = none) : g.findAllRoutes src dst = RoutesResult.emitted [] := by
  obtain ⟨L, hL, hL'⟩ := printAllPathsUtil_spec g hwf none g.numCities s (fun _ => false) [] []
    (RoutingGraph.getCityIndex_lt _ src s hs) rfl (freeCount_le _ _)
  have hnil : L = [] := by
    apply List.eq_nil_iff_forall_not_mem.mpr
    intro q hq
    obtain ⟨r, _, h1, h2, _⟩ := (hL' q).mp hq
    cases r with
    | nil => simp at h1
    | cons a r => simp [List.getLast?_cons_cons] at h2
  unfold RoutingGraph.findAllRoutes
  rw [hs, hd]
  simp only [hL, hnil, List.append_nil]

/-- C22: on a graph built by addCity, addRoute and blockRoad calls, `findShortestPath`
with an unknown source or destination reports invalid cities before it touches an array,
and `findAllRoutes` with a known source and an unknown destination prints no route; but
`findAllRoutes` with an unknown source passes -1 to `printAllPathsUtil`, which writes
`visited[-1]`. -/
theorem RoutingGraph.unknown_city_queries (ops : List GraphOp) (src dst : String) :
    ((RoutingGraph.build ops).getCityIndex src = none
        ∨ (RoutingGraph.build ops).getCityIndex dst = none →
      (RoutingGraph.build ops).findShortestPath src dst = PathResult.invalidCities)
    ∧ (∀ s, (RoutingGraph.build ops).getCityIndex src = some s →
        (RoutingGraph.build ops).getCityIndex dst = none →
        (RoutingGraph.build ops).findAllRoutes src dst = RoutesResult.emitted [])
    ∧ ((RoutingGraph.build ops).getCityIndex src = none →
        (RoutingGraph.build ops).findAllRoutes src dst = RoutesResult.indexOutOfRange) := by
  refine ⟨?_, ?_, ?_⟩
  · intro h
    unfold RoutingGraph.findShortestPath
    rcases h with h | h
    · rw [h]
    · rw [h]
      cases (RoutingGraph.build ops).getCityIndex src <;> rfl
  · intro s hs hd
    exact RoutingGraph.findAllRoutes_unknown_dest _ (RoutingGraph.WF_build ops) src dst s hs hd
  · intro h
    unfold RoutingGraph.findAllRoutes
    rw [h]

/-! ## hashFunc: the range of the bucket index -/

theorem hashFunc_foldl (l : List Int) (acc : Int) (hacc : 0 ≤ acc)
    (hl : ∀ c, c ∈ l → 0 ≤ c ∧ c ≤ 127) (hb : acc + 127 * l.length ≤ INT_MAX) :
    l.foldl (fun sum c => wrap32 (sum + c)) acc = acc + l.sum := by
  induction l generalizing acc with
  | nil => simp
  | cons c l ih =>
    have hc := hl c (List.mem_cons_self _ _)
    simp only [List.length_cons, Nat.cast_add, Nat.cast_one] at hb
    have hw : wrap32 (acc + c) = acc + c :=
      wrap32_of_range _ (by omega) (by omega)
    rw [List.foldl_cons, hw, ih (acc + c) (by omega)
      (fun x hx => hl x (List.mem_cons_of_mem _ hx)) (by omega), List.sum_cons]
    omega

theorem sum_nonneg_of_chars (l : List Int) (hl : ∀ c, c ∈ l → 0 ≤ c ∧ c ≤ 127) :
    0 ≤ l.sum := by
  induction l with
  | nil => simp
  | cons c l ih =>
    have hc := hl c (List.mem_cons_self _ _)
    have := ih (fun x hx => hl x (List.mem_cons_of_mem _ hx))
    rw [List.sum_cons]
    omega

/-- C24: for an identifier of at most 16909320 chars, all with values in 0 .. 127,
`hashFunc` returns the sum of the char values modulo 50, which lies in 0 .. 49; for the
identifier "é", whose two chars have the values -61 and -87, it returns -48. -/
theorem hashFunc_range :
    (∀ id : String, (∀ c, c ∈ charValues id → 0 ≤ c ∧ c ≤ 127) →
      (charValues id).length ≤ 16909320 →
      hashFunc id = (charValues id).sum % 50 ∧ 0 ≤ hashFunc id ∧ hashFunc id < 50)
    ∧ charValues "é" = [-61, -87]
    ∧ hashFunc "é" = -48
    ∧ ¬ (0 ≤ hashFunc "é") := by
  refine ⟨?_, by decide, by decide, by decide⟩
  intro id hl hlen
  have hb : (0 : Int) + 127 * (charValues id).length ≤ INT_MAX := by
    unfold INT_MAX
    omega
  have hsum := hashFunc_foldl (charValues id) 0 (le_refl _) hl hb
  have hnn := sum_nonneg_of_chars (charValues id) hl
  unfold hashFunc
  rw [hsum, zero_add, Int.tmod_eq_emod hnn (by decide)]
  refine ⟨rfl, ?_, ?_⟩
  · exact Int.emod_nonneg _ (by decide)
  · exact Int.emod_lt_of_pos _ (by decide)

end Courier

namespace Courier

/-! ## How the method calls move parcels -/

theorem CourierSystem.shuffles_refl (cs : CourierSystem) : cs.Shuffles cs :=
  ⟨rfl, rfl, fun _ => le_refl _, fun _ h => h⟩

theorem CourierSystem.shuffles_trans (a b c : CourierSystem) (h1 : a.Shuffles b)
    (h2 : b.Shuffles c) : a.Shuffles c :=
  ⟨h2.1.trans h1.1, h2.2.1.trans h1.2.1, fun q => le_trans (h2.2.2.1 q) (h1.2.2.1 q),
    fun q hq => h1.2.2.2 q (h2.2.2.2 q hq)⟩

theorem CourierSystem.quiet_refl (cs : CourierSystem) : cs.Quiet cs :=
  ⟨rfl, fun _ => ⟨rfl, rfl⟩⟩

/-- A state with the queues, the scheduler, the tracker index and the allocation counter
of `a` has the positions of `a`. -/
theorem CourierSystem.shuffles_of_eq (a b : CourierSystem) (hn : b.next = a.next)
    (ht : b.trackingEngine = a.trackingEngine) (hp : b.pickupQueue = a.pickupQueue)
    (hs : b.sortingEngine = a.sortingEngine) (hw : b.warehouseQueue = a.warehouseQueue)
    (hr : b.transitQueue = a.transitQueue) : a.Shuffles b := by
  refine ⟨hn, ht, ?_, ?_⟩
  · intro q
    unfold CourierSystem.positions
    rw [hp, hs, hw, hr]
  · intro q hq
    unfold CourierSystem.waiting at hq ⊢
    rw [hp, hs, hw] at hq
    exact hq

theorem PriorityScheduler.held_of_size_zero (s : PriorityScheduler) (h : s.currentSize = 0) :
    s.held = [] := by
  unfold PriorityScheduler.held
  rw [h]
  rfl

theorem CourierSystem.processPickupQueue_shuffles (cs : CourierSystem) :
    cs.Shuffles cs.processPickupQueue ∧ cs.Quiet cs.processPickupQueue := by
  rw [CourierSystem.processPickupQueue_eq]
  obtain ⟨h1, _, h3, _, h5, h6, h7, h8, h9, _, h11⟩ :=
    CourierSystem.processPickupLoop_spec cs.pickupQueue.nodes cs.pickupQueue.nodes.length cs rfl
      (le_refl _)
  refine ⟨⟨h11, h9, ?_, ?_⟩, h6, ?_⟩
  · intro q
    unfold CourierSystem.positions
    rw [h1, h7, h8]
    simp only [List.count_append, List.count_nil, h3.count_eq q]
    have := List.Sublist.count_le (List.take_sublist (100 - cs.sortingEngine.currentSize)
      cs.pickupQueue.nodes) q
    omega
  · intro q hq
    unfold CourierSystem.waiting at hq ⊢
    rw [h1, h7] at hq
    simp only [List.nil_append, List.mem_append] at hq ⊢
    rcases hq with hq | hq
    · have := h3.mem_iff.mp hq
      rw [List.mem_append] at this
      rcases this with h | h
      · exact Or.inl (Or.inr h)
      · exact Or.inl (Or.inl (List.mem_of_mem_take h))
    · exact Or.inr hq
  · intro q
    rw [h5 q]
    split <;> exact ⟨rfl, rfl⟩

theorem CourierSystem.sortToWarehouse_shuffles (cs : CourierSystem) :
    cs.Shuffles cs.sortToWarehouse ∧ cs.Quiet cs.sortToWarehouse := by
  rw [CourierSystem.sortToWarehouse_eq]
  obtain ⟨h1, ⟨ex, hex, hw, _⟩, h5, h6, h7, h8, h9, _, h11⟩ :=
    CourierSystem.sortLoop_spec cs.sortingEngine.currentSize cs.sortingEngine.currentSize cs rfl
      (le_refl _)
  have hheld := PriorityScheduler.held_of_size_zero _ h1
  refine ⟨⟨h11, h9, ?_, ?_⟩, h6, ?_⟩
  · intro q
    unfold CourierSystem.positions
    rw [h7, hheld, hw, h8]
    simp only [List.count_append, List.count_nil, hex.count_eq q]
    omega
  · intro q hq
    unfold CourierSystem.waiting at hq ⊢
    rw [h7, hheld, hw] at hq
    simp only [List.append_nil, List.mem_append] at hq ⊢
    rcases hq with hq | hq | hq
    · exact Or.inl (Or.inl hq)
    · exact Or.inr hq
    · exact Or.inl (Or.inr (hex.mem_iff.mp hq))
  · intro q
    rw [h5 q]
    split <;> exact ⟨rfl, rfl⟩

theorem CourierSystem.assignRider_none (cs : CourierSystem) (p : ParcelPtr)
    (rest : List ParcelPtr) (hq : cs.warehouseQueue.nodes = p :: rest)
    (hnone : ∀ i, i < 3 →
      ¬ (cs.riders i).currentLoad + (cs.mem p).weight ≤ (cs.riders i).capacity) :
    cs.assignRider = { cs with warehouseQueue := ⟨rest ++ [p]⟩ } := by
  have hd := ParcelQueue.dequeue_cons cs.warehouseQueue p rest hq
  unfold CourierSystem.assignRider
  rw [hd.2, hd.1]
  simp only [Bool.false_eq_true, if_false]
  rw [CourierSystem.tryRiders_skip { cs with warehouseQueue := ⟨rest⟩ } p 0 _
      (hnone 0 (by omega)),
    CourierSystem.tryRiders_skip { cs with warehouseQueue := ⟨rest⟩ } p 1 _
      (hnone 1 (by omega)),
    CourierSystem.tryRiders_skip { cs with warehouseQueue := ⟨rest⟩ } p 2 _
      (hnone 2 (by omega))]
  simp only [CourierSystem.tryRiders, ParcelQueue.enqueue_eq]

theorem CourierSystem.assignRider_empty (cs : CourierSystem)
    (hq : cs.warehouseQueue.nodes = []) : cs.assignRider = cs := by
  unfold CourierSystem.assignRider ParcelQueue.isEmpty
  rw [hq]
  rfl

/-- The three ways `assignRider` ends: nothing to assign, no rider fits, or the first
rider that fits takes the parcel. -/
theorem CourierSystem.assignRider_cases (cs : CourierSystem) :
    cs.assignRider = cs
    ∨ (∃ p rest, cs.warehouseQueue.nodes = p :: rest
        ∧ cs.assignRider = { cs with warehouseQueue := ⟨rest ++ [p]⟩ })
    ∨ (∃ p rest i, cs.warehouseQueue.nodes = p :: rest ∧ i < 3
        ∧ (cs.riders i).currentLoad + (cs.mem p).weight ≤ (cs.riders i).capacity
        ∧ cs.assignRider
          = { cs with
              warehouseQueue := ⟨rest⟩
              riders := Function.update cs.riders i
                { cs.riders i with
                  currentLoad := (cs.riders i).currentLoad + (cs.mem p).weight }
              mem := Function.update cs.mem p
                { cs.mem p with
                  assignedRiderId := (cs.riders i).id
                  status := "In Transit (Rider: " ++ (cs.riders i).name ++ ")"
                  history := (cs.mem p).history ++ ["Picked up by " ++ (cs.riders i).name] }
              undo := ⟨⟨p, (cs.mem p).status, "Assigned Rider"⟩ :: cs.undo.nodes⟩
              transitQueue := ⟨cs.transitQueue.nodes ++ [p]⟩ }) := by
  cases hq : cs.warehouseQueue.nodes with
  | nil => exact Or.inl (CourierSystem.assignRider_empty cs hq)
  | cons p rest =>
    by_cases h0 : (cs.riders 0).currentLoad + (cs.mem p).weight ≤ (cs.riders 0).capacity
    · exact Or.inr (Or.inr ⟨p, rest, 0, rfl, by omega, h0,
        CourierSystem.assignRider_take cs p rest 0 hq (by omega) h0 (fun j hj => by omega)⟩)
    · by_cases h1 : (cs.riders 1).currentLoad + (cs.mem p).weight ≤ (cs.riders 1).capacity
      · refine Or.inr (Or.inr ⟨p, rest, 1, rfl, by omega, h1,
          CourierSystem.assignRider_take cs p rest 1 hq (by omega) h1 (fun j hj => ?_)⟩)
        have : j = 0 := by omega
        subst this
        exact h0
      · by_cases h2 : (cs.riders 2).currentLoad + (cs.mem p).weight ≤ (cs.riders 2).capacity
        · refine Or.inr (Or.inr ⟨p, rest, 2, rfl, by omega, h2,
            CourierSystem.assignRider_take cs p rest 2 hq (by omega) h2 (fun j hj => ?_)⟩)
          have : j = 0 ∨ j = 1 := by omega
          rcases this with h | h <;> subst h <;> assumption
        · refine Or.inr (Or.inl ⟨p, rest, rfl,
            CourierSystem.assignRider_none cs p rest hq (fun i hi => ?_)⟩)
          have : i = 0 ∨ i = 1 ∨ i = 2 := by omega
          rcases this with h | h | h <;> subst h <;> assumption

theorem CourierSystem.releaseRiderLoad_shuffles (cs : CourierSystem) (p : ParcelPtr) :
    cs.Shuffles (cs.releaseRiderLoad p) := by
  unfold CourierSystem.releaseRiderLoad
  dsimp only
  split
  · exact CourierSystem.shuffles_of_eq _ _ rfl rfl rfl rfl rfl rfl
  · exact CourierSystem.shuffles_refl cs

/-- What a manual update is made of: writes to the status, the attempt counter and the
log of the parcel found, followed for three of the four updates by `releaseRiderLoad`. -/
theorem CourierSystem.simulateParcelLifecycle_cases (cs : CourierSystem) (id : String)
    (choice : Int) :
    ∃ cs1, cs.Shuffles cs1 ∧ cs.Quiet cs1
      ∧ (cs.simulateParcelLifecycle id choice = cs1
        ∨ ∃ p, cs.trackingEngine.search cs.mem id = SearchResult.found p
            ∧ cs.simulateParcelLifecycle id choice = cs1.releaseRiderLoad p) := by
  unfold CourierSystem.simulateParcelLifecycle
  cases hs : cs.trackingEngine.search cs.mem id with
  | notFound =>
    exact ⟨cs, CourierSystem.shuffles_refl cs, CourierSystem.quiet_refl cs, Or.inl rfl⟩
  | indexOutOfRange =>
    exact ⟨cs, CourierSystem.shuffles_refl cs, CourierSystem.quiet_refl cs, Or.inl rfl⟩
  | found p =>
    dsimp only
    have hq : ∀ (m : Store), (∀ q, (m q).weight = (cs.mem q).weight
        ∧ (m q).assignedRiderId = (cs.mem q).assignedRiderId) →
        cs.Shuffles { cs with mem := m } ∧ cs.Quiet { cs with mem := m } :=
      fun m hm => ⟨CourierSystem.shuffles_of_eq _ _ rfl rfl rfl rfl rfl rfl, rfl, hm⟩
    split
    · refine ⟨_, (hq _ ?_).1, (hq _ ?_).2, Or.inr ⟨p, rfl, rfl⟩⟩ <;>
      · intro q
        by_cases hqp : q = p
        · subst hqp
          simp [Store.modify, Parcel.setStatus, Parcel.addEvent]
        · simp [Store.modify, Function.update_noteq hqp]
    · split
      · refine ⟨_, (hq _ ?_).1, (hq _ ?_).2, Or.inl rfl⟩ <;>
        · intro q
          by_cases hqp : q = p
          · subst hqp
            simp [Store.modify, Parcel.setStatus, Parcel.addEvent, Parcel.incrementAttempts]
          · simp [Store.modify, Function.update_noteq hqp]
      · split
        · refine ⟨_, (hq _ ?_).1, (hq _ ?_).2, Or.inr ⟨p, rfl, rfl⟩⟩ <;>
          · intro q
            by_cases hqp : q = p
            · subst hqp
              simp [Store.modify, Parcel.setStatus, Parcel.addEvent]
            · simp [Store.modify, Function.update_noteq hqp]
        · split
          · refine ⟨_, (hq _ ?_).1, (hq _ ?_).2, Or.inr ⟨p, rfl, rfl⟩⟩ <;>
            · intro q
              by_cases hqp : q = p
              · subst hqp
                simp [Store.modify, Parcel.setStatus, Parcel.addEvent]
              · simp [Store.modify, Function.update_noteq hqp]
          · exact ⟨cs, CourierSystem.shuffles_refl cs, CourierSystem.quiet_refl cs, Or.inl rfl⟩

/-- Every method call but `registerParcel` either moves parcels between positions and
writes neither a weight, a rider id nor a rider, or is the successful branch of
`assignRider`, or ends with `releaseRiderLoad` on the parcel found. -/
theorem CourierSystem.step_cases (cs : CourierSystem) (op : EngineOp) :
    (∃ id prio w d, op = EngineOp.registerParcel id prio w d)
    ∨ (cs.Shuffles (cs.step op) ∧ cs.Quiet (cs.step op))
    ∨ (∃ p rest i, cs.warehouseQueue.nodes = p :: rest ∧ i < 3
        ∧ (cs.riders i).currentLoad + (cs.mem p).weight ≤ (cs.riders i).capacity
        ∧ cs.step op
          = { cs with
              warehouseQueue := ⟨rest⟩
              riders := Function.update cs.riders i
                { cs.riders i with
                  currentLoad := (cs.riders i).currentLoad + (cs.mem p).weight }
              mem := Function.update cs.mem p
                { cs.mem p with
                  assignedRiderId := (cs.riders i).id
                  status := "In Transit (Rider: " ++ (cs.riders i).name ++ ")"
                  history := (cs.mem p).history ++ ["Picked up by " ++ (cs.riders i).name] }
              undo := ⟨⟨p, (cs.mem p).status, "Assigned Rider"⟩ :: cs.undo.nodes⟩
              transitQueue := ⟨cs.transitQueue.nodes ++ [p]⟩ })
    ∨ (∃ cs1 p id, cs.Shuffles cs1 ∧ cs.Quiet cs1
        ∧ cs.trackingEngine.search cs.mem id = SearchResult.found p
        ∧ cs.step op = cs1.releaseRiderLoad p) := by
  cases op with
  | registerParcel id prio w d => exact Or.inl ⟨id, prio, w, d, rfl⟩
  | processPickupQueue => exact Or.inr (Or.inl (CourierSystem.processPickupQueue_shuffles cs))
  | sortToWarehouse => exact Or.inr (Or.inl (CourierSystem.sortToWarehouse_shuffles cs))
  | assignRider =>
    rcases CourierSystem.assignRider_cases cs with h | ⟨p, rest, hq, h⟩ | h
    · refine Or.inr (Or.inl ?_)
      show cs.Shuffles cs.assignRider ∧ cs.Quiet cs.assignRider
      rw [h]
      exact ⟨CourierSystem.shuffles_refl cs, CourierSystem.quiet_refl cs⟩
    · refine Or.inr (Or.inl ?_)
      show cs.Shuffles cs.assignRider ∧ cs.Quiet cs.assignRider
      rw [h]
      refine ⟨⟨rfl, rfl, ?_, ?_⟩, rfl, fun _ => ⟨rfl, rfl⟩⟩
      · intro q
        unfold CourierSystem.positions
        rw [hq]
        simp only [List.count_append, List.count_cons, List.count_nil]
        omega
      · intro q hq'
        unfold CourierSystem.waiting at hq' ⊢
        rw [hq]
        simp only [List.mem_append, List.mem_cons, List.mem_singleton, List.not_mem_nil,
          or_false] at hq' ⊢
        tauto
    · exact Or.inr (Or.inr (Or.inl h))
  | reportMissing id =>
    refine Or.inr (Or.inl ?_)
    show cs.Shuffles (cs.reportMissing id) ∧ cs.Quiet (cs.reportMissing id)
    unfold CourierSystem.reportMissing
    split
    · rename_i p _
      refine ⟨CourierSystem.shuffles_of_eq _ _ rfl rfl rfl rfl rfl rfl, rfl, ?_⟩
      intro q
      by_cases hqp : q = p
      · subst hqp
        simp [Store.modify, Parcel.setStatus, Parcel.markMissing]
      · simp [Store.modify, Function.update_noteq hqp]
    · exact ⟨CourierSystem.shuffles_refl cs, CourierSystem.quiet_refl cs⟩
    · exact ⟨CourierSystem.shuffles_refl cs, CourierSystem.quiet_refl cs⟩
  | undoLastOperation =>
    refine Or.inr (Or.inl ?_)
    show cs.Shuffles cs.undoLastOperation ∧ cs.Quiet cs.undoLastOperation
    unfold CourierSystem.undoLastOperation
    split
    · rename_i state _ _
      refine ⟨CourierSystem.shuffles_of_eq _ _ rfl rfl rfl rfl rfl rfl, rfl, ?_⟩
      intro q
      by_cases hqp : q = state.p
      · subst hqp
        simp [Store.modify, Parcel.setStatus]
      · simp [Store.modify, Function.update_noteq hqp]
    · exact ⟨CourierSystem.shuffles_refl cs, CourierSystem.quiet_refl cs⟩
  | simulateParcelLifecycle id choice =>
    obtain ⟨cs1, h1, h2, h | ⟨p, hs, h⟩⟩ := CourierSystem.simulateParcelLifecycle_cases cs id choice
    · refine Or.inr (Or.inl ?_)
      show cs.Shuffles (cs.simulateParcelLifecycle id choice)
        ∧ cs.Quiet (cs.simulateParcelLifecycle id choice)
      rw [h]
      exact ⟨h1, h2⟩
    · exact Or.inr (Or.inr (Or.inr ⟨cs1, p, id, h1, h2, hs, h⟩))
  | manageRoads op c1 c2 =>
    refine Or.inr (Or.inl ?_)
    show cs.Shuffles (cs.manageRoads op c1 c2) ∧ cs.Quiet (cs.manageRoads op c1 c2)
    unfold CourierSystem.manageRoads
    split
    · exact ⟨CourierSystem.shuffles_of_eq _ _ rfl rfl rfl rfl rfl rfl, rfl, fun _ => ⟨rfl, rfl⟩⟩
    · split
      · exact ⟨CourierSystem.shuffles_of_eq _ _ rfl rfl rfl rfl rfl rfl, rfl,
          fun _ => ⟨rfl, rfl⟩⟩
      · exact ⟨CourierSystem.shuffles_refl cs, CourierSystem.quiet_refl cs⟩
  | track id => exact Or.inr (Or.inl ⟨CourierSystem.shuffles_refl cs, CourierSystem.quiet_refl cs⟩)

end Courier

namespace Courier

/-! ## One position per parcel -/

theorem CourierSystem.WF_of_shuffles (a b : CourierSystem) (h : a.Shuffles b) (hw : a.WF) :
    b.WF := by
  refine ⟨fun q => le_trans (h.2.2.1 q) (hw.1 q), ?_, ?_⟩
  · intro q hq
    rw [h.1]
    apply hw.2.1
    have h1 : 0 < b.positions.count q := List.count_pos_iff.mpr hq
    have h2 := h.2.2.1 q
    exact List.count_pos_iff.mp (by omega)
  · intro k q hq
    rw [h.1]
    rw [h.2.1] at hq
    exact hw.2.2 k q hq

/-- The successful branch of `assignRider` moves the head of the warehouse queue to the
tail of the transit queue. -/
theorem CourierSystem.shuffles_take (cs : CourierSystem) (p : ParcelPtr)
    (rest : List ParcelPtr) (m : Store) (u : UndoStack) (r : Nat → Rider)
    (hq : cs.warehouseQueue.nodes = p :: rest) :
    cs.Shuffles { cs with warehouseQueue := ⟨rest⟩, riders := r, mem := m, undo := u,
                          transitQueue := ⟨cs.transitQueue.nodes ++ [p]⟩ } := by
  refine ⟨rfl, rfl, ?_, ?_⟩
  · intro q
    unfold CourierSystem.positions
    rw [hq]
    simp only [List.count_append, List.count_cons, List.count_nil]
    omega
  · intro q hq'
    unfold CourierSystem.waiting at hq' ⊢
    rw [hq]
    simp only [List.mem_append, List.mem_cons] at hq' ⊢
    tauto

theorem CourierSystem.step_shuffles (cs : CourierSystem) (op : EngineOp)
    (hop : ∀ id prio w d, op ≠ EngineOp.registerParcel id prio w d) :
    cs.Shuffles (cs.step op) := by
  rcases CourierSystem.step_cases cs op with ⟨id, prio, w, d, h⟩ | h | ⟨p, rest, i, hq, _, _, h⟩
    | ⟨cs1, p, id, h1, _, _, h⟩
  · exact absurd h (hop id prio w d)
  · exact h.1
  · rw [h]
    exact CourierSystem.shuffles_take cs p rest _ _ _ hq
  · rw [h]
    exact CourierSystem.shuffles_trans _ _ _ h1 (CourierSystem.releaseRiderLoad_shuffles cs1 p)

theorem CourierSystem.registerParcel_positions (cs : CourierSystem) (id : String) (prio : Int)
    (w : ℚ) (d : String) :
    (cs.registerParcel id prio w d).positions
      = cs.pickupQueue.nodes ++ [cs.next] ++ cs.sortingEngine.held ++ cs.warehouseQueue.nodes
          ++ cs.transitQueue.nodes
    ∧ (cs.registerParcel id prio w d).waiting
      = cs.pickupQueue.nodes ++ [cs.next] ++ cs.sortingEngine.held ++ cs.warehouseQueue.nodes
    ∧ (cs.registerParcel id prio w d).next = cs.next + 1
    ∧ (cs.registerParcel id prio w d).riders = cs.riders
    ∧ (∀ q, q ≠ cs.next → (cs.registerParcel id prio w d).mem q = cs.mem q)
    ∧ (cs.registerParcel id prio w d).mem cs.next
      = { Parcel.new id prio w d with status := "In Pickup Queue" } := by
  refine ⟨?_, ?_, rfl, rfl, ?_, ?_⟩
  · simp only [CourierSystem.positions, CourierSystem.registerParcel, ParcelQueue.enqueue_eq]
  · simp only [CourierSystem.waiting, CourierSystem.registerParcel, ParcelQueue.enqueue_eq]
  · intro q hq
    simp only [CourierSystem.registerParcel, Store.modify, Function.update_noteq hq]
  · simp only [CourierSystem.registerParcel, Store.modify, Function.update_same,
      Parcel.setStatus]

/-- The tracker table after `registerParcel`: the new parcel stands at the head of the
chain of its identifier when the index is inside the table, and the table is as before
otherwise. -/
theorem CourierSystem.registerParcel_table (cs : CourierSystem) (id : String) (prio : Int)
    (w : ℚ) (d : String) :
    (0 ≤ hashFunc id ∧ hashFunc id < 50 →
      (cs.registerParcel id prio w d).trackingEngine.table
        = Function.update cs.trackingEngine.table (hashFunc id).toNat
            (cs.next :: cs.trackingEngine.table (hashFunc id).toNat))
    ∧ (¬ (0 ≤ hashFunc id ∧ hashFunc id < 50) →
      (cs.registerParcel id prio w d).trackingEngine = cs.trackingEngine) := by
  have hid : (Function.update cs.mem cs.next (Parcel.new id prio w d) cs.next).id = id := by
    rw [Function.update_same]
    rfl
  constructor
  · intro hr
    have hr1 : 0 ≤ hashFunc (Function.update cs.mem cs.next (Parcel.new id prio w d)
        cs.next).id
        ∧ hashFunc (Function.update cs.mem cs.next (Parcel.new id prio w d) cs.next).id
          < 50 := by
      rw [hid]
      exact hr
    simp only [CourierSystem.registerParcel]
    rw [TrackerTable.insert_some _ _ _ hr1, hid]
    rfl
  · intro hr
    have hr1 : ¬ (0 ≤ hashFunc (Function.update cs.mem cs.next (Parcel.new id prio w d)
        cs.next).id
        ∧ hashFunc (Function.update cs.mem cs.next (Parcel.new id prio w d) cs.next).id
          < 50) := by
      rw [hid]
      exact hr
    simp only [CourierSystem.registerParcel]
    rw [TrackerTable.insert_none _ _ _ hr1]
    rfl

theorem CourierSystem.WF_registerParcel (cs : CourierSystem) (id : String) (prio : Int)
    (w : ℚ) (d : String) (hw : cs.WF) : (cs.registerParcel id prio w d).WF := by
  obtain ⟨hpos, _, hn, _, _, _⟩ := CourierSystem.registerParcel_positions cs id prio w d
  have hfresh : cs.positions.count cs.next = 0 := by
    apply List.count_eq_zero.mpr
    intro hmem
    exact absurd (hw.2.1 _ hmem) (lt_irrefl _)
  refine ⟨?_, ?_, ?_⟩
  · intro q
    have h1 := hw.1 q
    rw [hpos]
    unfold CourierSystem.positions at h1 hfresh
    simp only [List.count_append, List.count_cons, List.count_nil] at h1 hfresh ⊢
    by_cases hq : cs.next = q
    · subst hq
      simp only [beq_self_eq_true, if_true]
      omega
    · have : (cs.next == q) = false := by simpa using hq
      simp only [this, Bool.false_eq_true, if_false]
      omega
  · intro q hq
    rw [hn]
    rw [hpos] at hq
    by_cases hqn : q = cs.next
    · rw [hqn]
      exact Nat.lt_succ_self _
    · have : q ∈ cs.positions := by
        unfold CourierSystem.positions
        simp only [List.mem_append, List.mem_singleton] at hq ⊢
        tauto
      exact Nat.lt_succ_of_lt (hw.2.1 q this)
  · intro k q hq
    rw [hn]
    by_cases hr : 0 ≤ hashFunc id ∧ hashFunc id < 50
    · rw [(CourierSystem.registerParcel_table cs id prio w d).1 hr] at hq
      by_cases hk : k = (hashFunc id).toNat
      · rw [hk, Function.update_same, List.mem_cons] at hq
        rcases hq with hq | hq
        · rw [hq]
          exact Nat.lt_succ_self _
        · exact Nat.lt_succ_of_lt (hw.2.2 _ q hq)
      · rw [Function.update_noteq hk] at hq
        exact Nat.lt_succ_of_lt (hw.2.2 _ q hq)
    · rw [(CourierSystem.registerParcel_table cs id prio w d).2 hr] at hq
      exact Nat.lt_succ_of_lt (hw.2.2 _ q hq)

theorem CourierSystem.WF_init : CourierSystem.init.WF := by
  refine ⟨?_, ?_, ?_⟩
  · intro q
    simp [CourierSystem.positions, CourierSystem.init, ParcelQueue.init,
      PriorityScheduler.held]
  · intro q hq
    simp [CourierSystem.positions, CourierSystem.init, ParcelQueue.init,
      PriorityScheduler.held] at hq
  · intro k q hq
    simp [CourierSystem.init, TrackerTable.init] at hq

theorem CourierSystem.WF_step (cs : CourierSystem) (op : EngineOp) (hw : cs.WF) :
    (cs.step op).WF := by
  by_cases hop : ∃ id prio w d, op = EngineOp.registerParcel id prio w d
  · obtain ⟨id, prio, w, d, h⟩ := hop
    rw [h]
    exact CourierSystem.WF_registerParcel cs id prio w d hw
  · exact CourierSystem.WF_of_shuffles _ _
      (CourierSystem.step_shuffles cs op (fun id prio w d h => hop ⟨id, prio, w, d, h⟩)) hw

theorem CourierSystem.WF_of_reachable (cs : CourierSystem) (h : cs.Reachable) : cs.WF := by
  induction h with
  | init => exact CourierSystem.WF_init
  | step cs op _ ih => exact CourierSystem.WF_step cs op ih

end Courier

namespace Courier

/-! ## Rider loads as sums of parcel weights -/

theorem sum_range_change (n p : Nat) (hp : p < n) (f g : Nat → ℚ)
    (h : ∀ q, q ≠ p → g q = f q) :
    Finset.sum (Finset.range n) g = Finset.sum (Finset.range n) f - f p + g p := by
  have hmem : p ∈ Finset.range n := Finset.mem_range.mpr hp
  rw [← Finset.add_sum_erase _ g hmem, ← Finset.add_sum_erase _ f hmem]
  have : Finset.sum ((Finset.range n).erase p) g = Finset.sum ((Finset.range n).erase p) f := by
    apply Finset.sum_congr rfl
    intro q hq
    exact h q (Finset.ne_of_mem_erase hq)
  rw [this]
  ring

theorem CourierSystem.assignedLoad_congr (a b : CourierSystem) (hn : b.next = a.next)
    (hm : ∀ q, (b.mem q).weight = (a.mem q).weight
      ∧ (b.mem q).assignedRiderId = (a.mem q).assignedRiderId) (r : Int) :
    b.assignedLoad r = a.assignedLoad r := by
  unfold CourierSystem.assignedLoad
  rw [hn]
  apply Finset.sum_congr rfl
  intro q _
  rw [(hm q).1, (hm q).2]

/-- The sum for rider id `r` after a write to the rider id of one allocated parcel. -/
theorem CourierSystem.assignedLoad_update (a b : CourierSystem) (p : ParcelPtr)
    (hp : p < a.next) (hn : b.next = a.next) (hm : ∀ q, q ≠ p → b.mem q = a.mem q)
    (hw : (b.mem p).weight = (a.mem p).weight) (r : Int) :
    b.assignedLoad r
      = a.assignedLoad r - (if (a.mem p).assignedRiderId = r then (a.mem p).weight else 0)
        + (if (b.mem p).assignedRiderId = r then (a.mem p).weight else 0) := by
  unfold CourierSystem.assignedLoad
  rw [hn, sum_range_change a.next p hp
    (fun q => if (a.mem q).assignedRiderId = r then (a.mem q).weight else 0)
    (fun q => if (b.mem q).assignedRiderId = r then (b.mem q).weight else 0)
    (fun q hq => by simp only [hm q hq])]
  simp only [hw]

theorem CourierSystem.weight_le_assignedLoad (cs : CourierSystem)
    (hpos : ∀ q, q < cs.next → 0 < (cs.mem q).weight) (p : ParcelPtr) (hp : p < cs.next) :
    (cs.mem p).weight ≤ cs.assignedLoad (cs.mem p).assignedRiderId := by
  unfold CourierSystem.assignedLoad
  have h := Finset.single_le_sum
    (f := fun q => if (cs.mem q).assignedRiderId = (cs.mem p).assignedRiderId
      then (cs.mem q).weight else 0)
    (s := Finset.range cs.next)
    (fun q hq => by
      dsimp only
      split
      · exact le_of_lt (hpos q (Finset.mem_range.mp hq))
      · exact le_refl _)
    (Finset.mem_range.mpr hp)
  simpa using h

theorem CourierSystem.assignedLoad_nonneg (cs : CourierSystem)
    (hpos : ∀ q, q < cs.next → 0 < (cs.mem q).weight) (r : Int) : 0 ≤ cs.assignedLoad r := by
  unfold CourierSystem.assignedLoad
  apply Finset.sum_nonneg
  intro q hq
  split
  · exact le_of_lt (hpos q (Finset.mem_range.mp hq))
  · exact le_refl _

theorem CourierSystem.loadInv_of_quiet (a b : CourierSystem) (hs : a.Shuffles b)
    (hq : a.Quiet b) (h : a.LoadInv) : b.LoadInv := by
  obtain ⟨h1, h2, h3, h4, h5⟩ := h
  refine ⟨?_, ?_, ?_, ?_, ?_⟩
  · intro q hlt
    rw [hs.1] at hlt
    rw [(hq.2 q).1]
    exact h1 q hlt
  · intro q hlt
    rw [hs.1] at hlt
    rw [(hq.2 q).2]
    exact h2 q hlt
  · intro q hmem
    rw [(hq.2 q).2]
    exact h3 q (hs.2.2.2 q hmem)
  · intro i hi
    rw [hq.1, CourierSystem.assignedLoad_congr a b hs.1 hq.2]
    exact h4 i hi
  · intro i hi
    rw [hq.1]
    exact h5 i hi

theorem CourierSystem.loadInv_registerParcel (cs : CourierSystem) (id : String) (prio : Int)
    (w : ℚ) (d : String) (h : cs.LoadInv) (hw : 0 < w) :
    (cs.registerParcel id prio w d).LoadInv := by
  obtain ⟨h1, h2, h3, h4, h5⟩ := h
  obtain ⟨_, hwait, hn, hr, hm, hnew⟩ := CourierSystem.registerParcel_positions cs id prio w d
  have hold : ∀ q, q < cs.next → (cs.registerParcel id prio w d).mem q = cs.mem q :=
    fun q hq => hm q (Nat.ne_of_lt hq)
  have hcases : ∀ q, q < (cs.registerParcel id prio w d).next → q < cs.next ∨ q = cs.next := by
    intro q hq
    rw [hn] at hq
    exact Nat.lt_succ_iff_lt_or_eq.mp hq
  refine ⟨?_, ?_, ?_, ?_, ?_⟩
  · intro q hq
    rcases hcases q hq with hlt | heq
    · rw [hold q hlt]
      exact h1 q hlt
    · rw [heq, hnew]
      exact hw
  · intro q hq
    rcases hcases q hq with hlt | heq
    · rw [hold q hlt]
      exact h2 q hlt
    · rw [heq, hnew]
      exact Or.inl rfl
  · intro q hq
    rw [hwait] at hq
    by_cases hqn : q = cs.next
    · rw [hqn, hnew]
      rfl
    · have hmem : q ∈ cs.waiting := by
        unfold CourierSystem.waiting
        simp only [List.mem_append, List.mem_singleton] at hq ⊢
        tauto
      rw [hm q hqn]
      exact h3 q hmem
  · intro i hi
    rw [hr, h4 i hi]
    unfold CourierSystem.assignedLoad
    rw [hn, Finset.sum_range_succ, hnew]
    have hne : ¬ ((-1 : Int) = (i : Int) + 1) := by omega
    have hz : (if ({ Parcel.new id prio w d with status := "In Pickup Queue" } :
          Parcel).assignedRiderId = (i : Int) + 1
        then ({ Parcel.new id prio w d with status := "In Pickup Queue" } : Parcel).weight
        else 0) = 0 := if_neg hne
    rw [hz, add_zero]
    apply Finset.sum_congr rfl
    intro q hq
    rw [hold q (Finset.mem_range.mp hq)]
  · intro i hi
    rw [hr]
    exact h5 i hi

/-- The successful branch of `assignRider` keeps the loads equal to the sums. -/
theorem CourierSystem.loadInv_take (cs : CourierSystem) (p : ParcelPtr)
    (rest : List ParcelPtr) (i : Nat) (st : String) (hist : List String) (u : UndoStack)
    (hwf : cs.WF) (h : cs.LoadInv) (hid : (cs.riders i).id = (i : Int) + 1)
    (hq : cs.warehouseQueue.nodes = p :: rest) (hi : i < 3)
    (hfit : (cs.riders i).currentLoad + (cs.mem p).weight ≤ (cs.riders i).capacity) :
    CourierSystem.LoadInv
      { cs with
        warehouseQueue := ⟨rest⟩
        riders := Function.update cs.riders i
          { cs.riders i with currentLoad := (cs.riders i).currentLoad + (cs.mem p).weight }
        mem := Function.update cs.mem p
          { cs.mem p with assignedRiderId := (cs.riders i).id, status := st, history := hist }
        undo := u
        transitQueue := ⟨cs.transitQueue.nodes ++ [p]⟩ } := by
  obtain ⟨h1, h2, h3, h4, h5⟩ := h
  have hpw : p ∈ cs.waiting := by
    unfold CourierSystem.waiting
    rw [hq]
    simp
  have hplt : p < cs.next := by
    apply hwf.2.1
    unfold CourierSystem.positions
    rw [hq]
    simp
  have hprid : (cs.mem p).assignedRiderId = -1 := h3 p hpw
  have hcount := hwf.1 p
  unfold CourierSystem.positions at hcount
  rw [hq] at hcount
  simp only [List.count_append, List.count_cons, beq_self_eq_true, if_true] at hcount
  have hnotin : ∀ q, q ∈ cs.pickupQueue.nodes ++ cs.sortingEngine.held ++ rest → q ≠ p := by
    intro q hq' hqp
    rw [hqp] at hq'
    simp only [List.mem_append] at hq'
    rcases hq' with (hq' | hq') | hq'
    · have := List.count_pos_iff.mpr hq'
      omega
    · have := List.count_pos_iff.mpr hq'
      omega
    · have := List.count_pos_iff.mpr hq'
      omega
  refine ⟨?_, ?_, ?_, ?_, ?_⟩
  · intro q hlt
    by_cases hqp : q = p
    · rw [hqp]
      simp only [Function.update_same]
      exact h1 p hplt
    · simp only [Function.update_noteq hqp]
      exact h1 q hlt
  · intro q hlt
    by_cases hqp : q = p
    · rw [hqp]
      simp only [Function.update_same]
      exact Or.inr ⟨i, hi, hid⟩
    · simp only [Function.update_noteq hqp]
      exact h2 q hlt
  · intro q hmem
    have hmem' : q ∈ cs.pickupQueue.nodes ++ cs.sortingEngine.held ++ rest := hmem
    have hqp := hnotin q hmem'
    simp only [Function.update_noteq hqp]
    apply h3 q
    unfold CourierSystem.waiting
    rw [hq]
    simp only [List.mem_append, List.mem_cons] at hmem' ⊢
    tauto
  · intro j hj
    have hupd := CourierSystem.assignedLoad_update cs
      { cs with
        warehouseQueue := ⟨rest⟩
        riders := Function.update cs.riders i
          { cs.riders i with currentLoad := (cs.riders i).currentLoad + (cs.mem p).weight }
        mem := Function.update cs.mem p
          { cs.mem p with assignedRiderId := (cs.riders i).id, status := st, history := hist }
        undo := u
        transitQueue := ⟨cs.transitQueue.nodes ++ [p]⟩ }
      p hplt rfl (fun q hqp => by simp only [Function.update_noteq hqp])
      (by simp only [Function.update_same]) ((j : Int) + 1)
    rw [hupd]
    simp only [Function.update_same, hprid, hid]
    have hm1 : ¬ ((-1 : Int) = (j : Int) + 1) := by omega
    rw [if_neg hm1]
    by_cases hji : j = i
    · subst hji
      simp only [Function.update_same, if_true]
      rw [h4 j hj]
      ring
    · have hne : ¬ ((i : Int) + 1 = (j : Int) + 1) := by omega
      simp only [Function.update_noteq hji, if_neg hne]
      rw [h4 j hj]
      ring
  · intro j hj
    by_cases hji : j = i
    · subst hji
      simp only [Function.update_same]
      exact hfit
    · simp only [Function.update_noteq hji]
      exact h5 j hj

/-- With the loads equal to the sums, `releaseRiderLoad` on an allocated parcel subtracts
its weight without reaching the clamp, and keeps the loads equal to the sums. -/
theorem CourierSystem.loadInv_releaseRiderLoad (cs : CourierSystem) (p : ParcelPtr)
    (hp : p < cs.next) (h : cs.LoadInv) :
    (cs.releaseRiderLoad p).LoadInv
    ∧ ∀ k : Nat, k < 3 → (cs.mem p).assignedRiderId = (k : Int) + 1 →
        0 ≤ (cs.riders k).currentLoad - (cs.mem p).weight
        ∧ ((cs.releaseRiderLoad p).riders k).currentLoad
            = (cs.riders k).currentLoad - (cs.mem p).weight := by
  obtain ⟨h1, h2, h3, h4, h5⟩ := h
  have hge : ∀ k : Nat, k < 3 → (cs.mem p).assignedRiderId = (k : Int) + 1 →
      0 ≤ (cs.riders k).currentLoad - (cs.mem p).weight := by
    intro k hk hrid
    have := CourierSystem.weight_le_assignedLoad cs h1 p hp
    rw [hrid, ← h4 k hk] at this
    linarith
  rcases h2 p hp with hm1 | ⟨k, hk, hrid⟩
  · have hsame : cs.releaseRiderLoad p = cs := by
      unfold CourierSystem.releaseRiderLoad
      dsimp only
      rw [if_neg (not_not.mpr hm1)]
    rw [hsame]
    refine ⟨⟨h1, h2, h3, h4, h5⟩, ?_⟩
    intro k hk hrid
    rw [hm1] at hrid
    omega
  · have hw : wrap32 ((cs.mem p).assignedRiderId - 1) = (k : Int) := by
      unfold wrap32
      omega
    have hne : (cs.mem p).assignedRiderId ≠ -1 := by omega
    have hidx : 0 ≤ wrap32 ((cs.mem p).assignedRiderId - 1)
        ∧ wrap32 ((cs.mem p).assignedRiderId - 1) < 3 := by
      rw [hw]
      omega
    have htn : (wrap32 ((cs.mem p).assignedRiderId - 1)).toNat = k := by
      rw [hw]
      omega
    have hnc : ¬ ((cs.riders k).currentLoad - (cs.mem p).weight < 0) :=
      not_lt.mpr (hge k hk hrid)
    have hrel : cs.releaseRiderLoad p
        = { cs with
            riders := Function.update cs.riders k
              { cs.riders k with
                currentLoad := (cs.riders k).currentLoad - (cs.mem p).weight }
            mem := Function.update cs.mem p { cs.mem p with assignedRiderId := -1 } } := by
      unfold CourierSystem.releaseRiderLoad
      dsimp only
      rw [if_pos hne, if_pos hidx, htn, if_neg hnc]
      rfl
    rw [hrel]
    refine ⟨⟨?_, ?_, ?_, ?_, ?_⟩, ?_⟩
    · intro q hlt
      by_cases hqp : q = p
      · rw [hqp]
        simp only [Function.update_same]
        exact h1 p hp
      · simp only [Function.update_noteq hqp]
        exact h1 q hlt
    · intro q hlt
      by_cases hqp : q = p
      · rw [hqp]
        simp only [Function.update_same]
        exact Or.inl trivial
      · simp only [Function.update_noteq hqp]
        exact h2 q hlt
    · intro q hmem
      by_cases hqp : q = p
      · rw [hqp]
        simp only [Function.update_same]
      · simp only [Function.update_noteq hqp]
        exact h3 q hmem
    · intro j hj
      have hupd := CourierSystem.assignedLoad_update cs
        { cs with
          riders := Function.update cs.riders k
            { cs.riders k with
              currentLoad := (cs.riders k).currentLoad - (cs.mem p).weight }
          mem := Function.update cs.mem p { cs.mem p with assignedRiderId := -1 } }
        p hp rfl (fun q hqp => by simp only [Function.update_noteq hqp])
        (by simp only [Function.update_same]) ((j : Int) + 1)
      rw [hupd]
      simp only [Function.update_same, hrid]
      have hm1 : ¬ ((-1 : Int) = (j : Int) + 1) := by omega
      rw [if_neg hm1]
      by_cases hjk : j = k
      · subst hjk
        simp only [Function.update_same, if_true]
        rw [h4 j hj]
        ring
      · have hne2 : ¬ ((k : Int) + 1 = (j : Int) + 1) := by omega
        simp only [Function.update_noteq hjk, if_neg hne2]
        rw [h4 j hj]
        ring
    · intro j hj
      by_cases hjk : j = k
      · subst hjk
        simp only [Function.update_same]
        have := h5 j hj
        have := h1 p hp
        linarith
      · simp only [Function.update_noteq hjk]
        exact h5 j hj
    · intro k' hk' hrid'
      have hkk : k' = k := by
        rw [hrid] at hrid'
        omega
      subst hkk
      refine ⟨hge k' hk' hrid, ?_⟩
      simp only [Function.update_same]

theorem CourierSystem.search_lt (cs : CourierSystem) (hwf : cs.WF) (id : String)
    (p : ParcelPtr) (h : cs.trackingEngine.search cs.mem id = SearchResult.found p) :
    p < cs.next :=
  hwf.2.2 _ p (TrackerTable.search_found cs.mem cs.trackingEngine id p h).2.1

theorem CourierSystem.loadInv_init : CourierSystem.init.LoadInv := by
  refine ⟨?_, ?_, ?_, ?_, ?_⟩
  · intro q hq
    exact absurd hq (Nat.not_lt_zero q)
  · intro q hq
    exact absurd hq (Nat.not_lt_zero q)
  · intro q hq
    simp [CourierSystem.waiting, CourierSystem.init, ParcelQueue.init,
      PriorityScheduler.held] at hq
  · intro i hi
    have h3 : i = 0 ∨ i = 1 ∨ i = 2 := by omega
    rcases h3 with h | h | h <;> subst h <;>
      simp [CourierSystem.assignedLoad, CourierSystem.init, Rider.new]
  · intro i hi
    have h3 : i = 0 ∨ i = 1 ∨ i = 2 := by omega
    rcases h3 with h | h | h <;> subst h <;>
      norm_num [CourierSystem.init, Rider.new]

theorem CourierSystem.loadInv_step (cs : CourierSystem) (op : EngineOp) (hr : cs.Reachable)
    (h : cs.LoadInv) (hop : ∀ id prio w d, op = EngineOp.registerParcel id prio w d → 0 < w) :
    (cs.step op).LoadInv := by
  have hwf := CourierSystem.WF_of_reachable cs hr
  rcases CourierSystem.step_cases cs op with ⟨id, prio, w, d, hreg⟩ | hq
    | ⟨p, rest, i, hq, hi, hfit, hst⟩ | ⟨cs1, p, id, h1, h2, hs, hst⟩
  · rw [hreg]
    exact CourierSystem.loadInv_registerParcel cs id prio w d h (hop id prio w d hreg)
  · exact CourierSystem.loadInv_of_quiet _ _ hq.1 hq.2 h
  · rw [hst]
    exact CourierSystem.loadInv_take cs p rest i _ _ _ hwf h
      (CourierSystem.rider_id_of_reachable cs hr i hi) hq hi hfit
  · rw [hst]
    have hp : p < cs1.next := by
      rw [h1.1]
      exact CourierSystem.search_lt cs hwf id p hs
    exact (CourierSystem.loadInv_releaseRiderLoad cs1 p hp
      (CourierSystem.loadInv_of_quiet _ _ h1 h2 h)).1

theorem CourierSystem.loadInv_foldl (ops : List EngineOp) (cs : CourierSystem)
    (hr : cs.Reachable) (h : cs.LoadInv) (hpos : PositiveWeights ops) :
    (ops.foldl CourierSystem.step cs).LoadInv := by
  induction ops generalizing cs with
  | nil => exact h
  | cons op ops ih =>
    rw [List.foldl_cons]
    apply ih _ (CourierSystem.Reachable.step cs op hr)
    · apply CourierSystem.loadInv_step cs op hr h
      intro id prio w d hreg
      exact hpos id prio w d (by rw [hreg]; exact List.mem_cons_self _ _)
    · intro id prio w d hmem
      exact hpos id prio w d (List.mem_cons_of_mem _ hmem)

/-- C25: after any sequence of method calls on the fresh controller in which every
registered parcel has a positive weight, the load of each of the three riders is the sum
of the weights of the allocated parcels that carry his id; it is at least zero and at
most his capacity; and `releaseRiderLoad` on an allocated parcel that carries his id
subtracts the weight of the parcel without the clamp to zero taking effect. -/
theorem CourierSystem.rider_load_is_sum (ops : List EngineOp) (hpos : PositiveWeights ops)
    (i : Nat) (hi : i < 3) :
    ((CourierSystem.run ops).riders i).currentLoad
      = Finset.sum (Finset.range (CourierSystem.run ops).next)
          (fun q =>
            if ((CourierSystem.run ops).mem q).assignedRiderId
                = ((CourierSystem.run ops).riders i).id
            then ((CourierSystem.run ops).mem q).weight else 0)
    ∧ 0 ≤ ((CourierSystem.run ops).riders i).currentLoad
    ∧ ((CourierSystem.run ops).riders i).currentLoad
        ≤ ((CourierSystem.run ops).riders i).capacity
    ∧ ∀ p, p < (CourierSystem.run ops).next →
        ((CourierSystem.run ops).mem p).assignedRiderId
          = ((CourierSystem.run ops).riders i).id →
        ¬ (((CourierSystem.run ops).riders i).currentLoad
            - ((CourierSystem.run ops).mem p).weight < 0)
        ∧ (((CourierSystem.run ops).releaseRiderLoad p).riders i).currentLoad
            = ((CourierSystem.run ops).riders i).currentLoad
              - ((CourierSystem.run ops).mem p).weight := by
  have hr := CourierSystem.reachable_run ops
  have hinv : (CourierSystem.run ops).LoadInv :=
    CourierSystem.loadInv_foldl ops CourierSystem.init CourierSystem.Reachable.init
      CourierSystem.loadInv_init hpos
  have hid := CourierSystem.rider_id_of_reachable _ hr i hi
  have hsum := hinv.2.2.2.1 i hi
  refine ⟨?_, ?_, hinv.2.2.2.2 i hi, ?_⟩
  · rw [hsum, hid]
    rfl
  · rw [hsum]
    exact CourierSystem.assignedLoad_nonneg _ hinv.1 _
  · intro p hp hrid
    rw [hid] at hrid
    have := (CourierSystem.loadInv_releaseRiderLoad _ p hp hinv).2 i hi hrid
    exact ⟨not_lt.mpr this.1, this.2⟩

end Courier

namespace Courier

/-! ## Two parcels with one identifier -/

theorem TrackerTable.search_insert_twice (mem : Store) (t : TrackerTable) (p1 p2 : ParcelPtr)
    (hne : p1 ≠ p2) (hid : (mem p2).id = (mem p1).id)
    (hr : 0 ≤ hashFunc (mem p1).id ∧ hashFunc (mem p1).id < 50) :
    ∃ t1 t2, t.insert mem p1 = some t1 ∧ t1.insert mem p2 = some t2
      ∧ t2.search mem (mem p1).id = SearchResult.found p2
      ∧ ∀ id, t2.search mem id ≠ SearchResult.found p1 := by
  have hr2 : 0 ≤ hashFunc (mem p2).id ∧ hashFunc (mem p2).id < 50 := by
    rw [hid]
    exact hr
  refine ⟨_, _, TrackerTable.insert_some mem t p1 hr, TrackerTable.insert_some mem _ p2 hr2,
    ?_⟩
  have hfound : (TrackerTable.mk (Function.update
      (Function.update t.table (hashFunc (mem p1).id).toNat
        (p1 :: t.table (hashFunc (mem p1).id).toNat))
      (hashFunc (mem p2).id).toNat
      (p2 :: Function.update t.table (hashFunc (mem p1).id).toNat
        (p1 :: t.table (hashFunc (mem p1).id).toNat)
        (hashFunc (mem p2).id).toNat))).search mem (mem p1).id = SearchResult.found p2 := by
    rw [TrackerTable.search_in_range mem _ _ hr]
    dsimp only
    rw [hid, Function.update_same]
    simp only [searchChain, hid, if_true]
  refine ⟨hfound, ?_⟩
  intro id h
  have hid1 := (TrackerTable.search_found mem _ id p1 h).2.2
  rw [← hid1, hfound] at h
  injection h with h
  exact hne h.symm

theorem CourierSystem.shadowed_search (cs : CourierSystem) (p1 p2 : ParcelPtr)
    (h : cs.Shadowed p1 p2) (id : String) :
    cs.trackingEngine.search cs.mem id ≠ SearchResult.found p1 := by
  obtain ⟨_, _, hne, hid, hr, pre, post, hchain, hpre⟩ := h
  intro hs
  have hid1 := (TrackerTable.search_found cs.mem _ id p1 hs).2.2
  rw [← hid1, TrackerTable.search_in_range cs.mem _ _ hr, hchain, searchChain_eq_find,
    List.find?_append] at hs
  cases hf : pre.find? (fun p => decide ((cs.mem p).id = (cs.mem p1).id)) with
  | some x =>
    rw [hf] at hs
    simp only [Option.or] at hs
    injection hs with hs
    rw [hs] at hf
    exact hpre (List.mem_of_find?_eq_some hf)
  | none =>
    rw [hf] at hs
    simp only [Option.or, List.find?_cons, hid, decide_True] at hs
    injection hs with hs
    exact hne hs.symm

theorem CourierSystem.shadowed_register_twice (cs : CourierSystem) (s : String)
    (prio1 : Int) (w1 : ℚ) (d1 : String) (prio2 : Int) (w2 : ℚ) (d2 : String)
    (hr : 0 ≤ hashFunc s ∧ hashFunc s < 50) :
    ((cs.registerParcel s prio1 w1 d1).registerParcel s prio2 w2 d2).Shadowed cs.next
      (cs.next + 1) := by
  have hm1 : ((cs.registerParcel s prio1 w1 d1).registerParcel s prio2 w2 d2).mem cs.next
      = { Parcel.new s prio1 w1 d1 with status := "In Pickup Queue" } := by
    have hne : cs.next ≠ cs.next + 1 := Nat.ne_of_lt (Nat.lt_succ_self _)
    simp only [CourierSystem.registerParcel, Store.modify, Function.update_same,
      Function.update_noteq hne, Parcel.setStatus]
  have hm2 : ((cs.registerParcel s prio1 w1 d1).registerParcel s prio2 w2 d2).mem (cs.next + 1)
      = { Parcel.new s prio2 w2 d2 with status := "In Pickup Queue" } := by
    simp only [CourierSystem.registerParcel, Store.modify, Function.update_same,
      Parcel.setStatus]
  have hs : ({ Parcel.new s prio1 w1 d1 with status := "In Pickup Queue" } : Parcel).id = s :=
    rfl
  refine ⟨?_, ?_, Nat.ne_of_lt (Nat.lt_succ_self _), ?_, ?_, [],
    cs.next :: cs.trackingEngine.table (hashFunc s).toNat, ?_, List.not_mem_nil _⟩
  · exact Nat.lt_succ_of_lt (Nat.lt_succ_self _)
  · exact Nat.lt_succ_self _
  · rw [hm1, hm2]
    rfl
  · rw [hm1, hs]
    exact hr
  · rw [hm1, hs, (CourierSystem.registerParcel_table _ s prio2 w2 d2).1 hr,
      (CourierSystem.registerParcel_table cs s prio1 w1 d1).1 hr]
    simp only [Function.update_same, List.nil_append]
    rfl

theorem CourierSystem.shadowed_step (cs : CourierSystem) (op : EngineOp) (p1 p2 : ParcelPtr)
    (h : cs.Shadowed p1 p2) : (cs.step op).Shadowed p1 p2 := by
  obtain ⟨h1, h2, hne, hid, hr, pre, post, hchain, hpre⟩ := h
  have hext := CourierSystem.step_extends cs op
  have hid1 : ((cs.step op).mem p1).id = (cs.mem p1).id := congrArg Prod.fst (hext.2.2 p1 h1)
  have hid2 : ((cs.step op).mem p2).id = (cs.mem p2).id := congrArg Prod.fst (hext.2.2 p2 h2)
  refine ⟨lt_of_lt_of_le h1 hext.1, lt_of_lt_of_le h2 hext.1, hne, by rw [hid1, hid2, hid],
    by rw [hid1]; exact hr, ?_⟩
  rw [hid1]
  by_cases hop : ∃ id prio w d, op = EngineOp.registerParcel id prio w d
  · obtain ⟨id, prio, w, d, hreg⟩ := hop
    rw [hreg]
    show ∃ pre post, (cs.registerParcel id prio w d).trackingEngine.table
      (hashFunc (cs.mem p1).id).toNat = pre ++ p2 :: post ∧ p1 ∉ pre
    by_cases hin : 0 ≤ hashFunc id ∧ hashFunc id < 50
    · rw [(CourierSystem.registerParcel_table cs id prio w d).1 hin]
      by_cases hk : (hashFunc (cs.mem p1).id).toNat = (hashFunc id).toNat
      · refine ⟨cs.next :: pre, post, ?_, ?_⟩
        · rw [hk, Function.update_same, ← hk, hchain]
          rfl
        · intro hmem
          rcases List.mem_cons.mp hmem with hm | hm
          · exact absurd h1 (by rw [hm]; exact lt_irrefl _)
          · exact hpre hm
      · refine ⟨pre, post, ?_, hpre⟩
        rw [Function.update_noteq hk, hchain]
    · rw [(CourierSystem.registerParcel_table cs id prio w d).2 hin]
      exact ⟨pre, post, hchain, hpre⟩
  · have hsh := CourierSystem.step_shuffles cs op
      (fun id prio w d hreg => hop ⟨id, prio, w, d, hreg⟩)
    rw [hsh.2.1]
    exact ⟨pre, post, hchain, hpre⟩

theorem CourierSystem.shadowed_foldl (ops : List EngineOp) (cs : CourierSystem)
    (p1 p2 : ParcelPtr) (h : cs.Shadowed p1 p2) :
    (ops.foldl CourierSystem.step cs).Shadowed p1 p2 := by
  induction ops generalizing cs with
  | nil => exact h
  | cons op ops ih => exact ih _ (CourierSystem.shadowed_step cs op p1 p2 h)

theorem CourierSystem.releaseRiderLoad_mem_other (cs : CourierSystem) (p q : ParcelPtr)
    (h : q ≠ p) : (cs.releaseRiderLoad p).mem q = cs.mem q := by
  unfold CourierSystem.releaseRiderLoad
  dsimp only
  split
  · simp only [Store.modify, Function.update_noteq h]
  · rfl

/-- The method calls that look a parcel up under an identifier write to no parcel but the
one `search` returns. -/
theorem CourierSystem.lookup_mem_other (cs : CourierSystem) (id : String) (q : ParcelPtr)
    (h : cs.trackingEngine.search cs.mem id ≠ SearchResult.found q) :
    (cs.reportMissing id).mem q = cs.mem q
    ∧ ∀ choice, (cs.simulateParcelLifecycle id choice).mem q = cs.mem q := by
  constructor
  · unfold CourierSystem.reportMissing
    cases hs : cs.trackingEngine.search cs.mem id with
    | notFound => rfl
    | indexOutOfRange => rfl
    | found p =>
      have hqp : q ≠ p := fun e => h (by rw [hs, e])
      simp only [Store.modify, Function.update_noteq hqp]
  · intro choice
    unfold CourierSystem.simulateParcelLifecycle
    cases hs : cs.trackingEngine.search cs.mem id with
    | notFound => rfl
    | indexOutOfRange => rfl
    | found p =>
      have hqp : q ≠ p := fun e => h (by rw [hs, e])
      dsimp only
      split
      · rw [CourierSystem.releaseRiderLoad_mem_other _ p q hqp]
        simp only [Store.modify, Function.update_noteq hqp]
      · split
        · simp only [Store.modify, Function.update_noteq hqp]
        · split
          · rw [CourierSystem.releaseRiderLoad_mem_other _ p q hqp]
            simp only [Store.modify, Function.update_noteq hqp]
          · split
            · rw [CourierSystem.releaseRiderLoad_mem_other _ p q hqp]
              simp only [Store.modify, Function.update_noteq hqp]
            · rfl

/-- C26: for an identifier `s` with an index inside the table: when two distinct parcels
`p1` and `p2` that carry `s` are inserted, `p1` first, both inserts stay inside the table,
`search` returns `p2` for `s` and returns `p1` for no identifier; and `registerParcel`
called twice with `s` creates two such parcels, after which, through any further method
calls that hand the table identifiers with an index inside it, `search` returns the first
of the two for no such identifier, so that `reportMissing` and the manual updates leave
it as it is.  For an identifier `s` with an index outside the table, as "é" with index -48,
the inserts write outside the array and `search(s)` reads outside it. -/
theorem CourierSystem.duplicate_identifier (mem : Store) (t : TrackerTable)
    (p1 p2 : ParcelPtr) (cs : CourierSystem) (s : String) (prio1 : Int) (w1 : ℚ)
    (d1 : String) (prio2 : Int) (w2 : ℚ) (d2 : String) (ops : List EngineOp) :
    (0 ≤ hashFunc s ∧ hashFunc s < 50 →
      (p1 ≠ p2 → (mem p1).id = s → (mem p2).id = s →
        ∃ t1 t2, t.insert mem p1 = some t1 ∧ t1.insert mem p2 = some t2
          ∧ t2.search mem s = SearchResult.found p2
          ∧ ∀ id, t2.search mem id ≠ SearchResult.found p1)
      ∧ (InTable ops → ∀ id, 0 ≤ hashFunc id ∧ hashFunc id < 50 →
          (ops.foldl CourierSystem.step
            ((cs.registerParcel s prio1 w1 d1).registerParcel s prio2 w2
              d2)).trackingEngine.search
            (ops.foldl CourierSystem.step
              ((cs.registerParcel s prio1 w1 d1).registerParcel s prio2 w2 d2)).mem id
            ≠ SearchResult.found cs.next
          ∧ ((ops.foldl CourierSystem.step
              ((cs.registerParcel s prio1 w1 d1).registerParcel s prio2 w2
                d2)).reportMissing id).mem cs.next
            = (ops.foldl CourierSystem.step
              ((cs.registerParcel s prio1 w1 d1).registerParcel s prio2 w2 d2)).mem cs.next
          ∧ ∀ choice,
            ((ops.foldl CourierSystem.step
              ((cs.registerParcel s prio1 w1 d1).registerParcel s prio2 w2
                d2)).simulateParcelLifecycle id choice).mem cs.next
            = (ops.foldl CourierSystem.step
              ((cs.registerParcel s prio1 w1 d1).registerParcel s prio2 w2 d2)).mem
                cs.next))
    ∧ (((cs.registerParcel s prio1 w1 d1).registerParcel s prio2 w2 d2).mem cs.next).id = s
    ∧ (((cs.registerParcel s prio1 w1 d1).registerParcel s prio2 w2 d2).mem
        (cs.next + 1)).id = s
    ∧ (¬ (0 ≤ hashFunc s ∧ hashFunc s < 50) →
        ((mem p1).id = s → t.insert mem p1 = none)
        ∧ t.search mem s = SearchResult.indexOutOfRange)
    ∧ hashFunc "é" = -48 := by
  refine ⟨?_, ?_, ?_, ?_, by decide⟩
  · intro hr
    constructor
    · intro hne h1 h2
      have := TrackerTable.search_insert_twice mem t p1 p2 hne (by rw [h1, h2])
        (by rw [h1]; exact hr)
      rw [h1] at this
      exact this
    · intro _ id _
      have hsh := CourierSystem.shadowed_foldl ops _ _ _
        (CourierSystem.shadowed_register_twice cs s prio1 w1 d1 prio2 w2 d2 hr)
      have hs := CourierSystem.shadowed_search _ _ _ hsh id
      have := CourierSystem.lookup_mem_other _ id cs.next hs
      exact ⟨hs, this.1, this.2⟩
  · have hne : cs.next ≠ cs.next + 1 := Nat.ne_of_lt (Nat.lt_succ_self _)
    simp only [CourierSystem.registerParcel, Store.modify, Function.update_same,
      Function.update_noteq hne, Parcel.setStatus]
    rfl
  · simp only [CourierSystem.registerParcel, Store.modify, Function.update_same,
      Parcel.setStatus]
    rfl
  · intro hr
    refine ⟨?_, TrackerTable.search_out_of_range mem t s hr⟩
    intro h1
    exact TrackerTable.insert_none mem t p1 (by rw [h1]; exact hr)

end Courier

namespace Courier

/-! ## Concrete scenarios: lookups, positions and loads -/

/-- The missing-report theorem applied to the parcel of `deliveryOps`, found under "P1",
to the identifier "ZZ", under which nothing is found, and to the identifier "éa", whose
index -1 is outside the table. -/
theorem CourierSystem.reportMissing_frame_witness :
    (CourierSystem.run deliveryOps).trackingEngine.search (CourierSystem.run deliveryOps).mem
        "P1" = SearchResult.found 0
    ∧ ((CourierSystem.run deliveryOps).reportMissing "P1").mem 0
        = { (CourierSystem.run deliveryOps).mem 0 with status := "MISSING", isMissing := true }
    ∧ ((CourierSystem.run deliveryOps).reportMissing "P1").undo.nodes
        = { p := 0, prevStatus := ((CourierSystem.run deliveryOps).mem 0).status,
            description := "Reported Missing" } :: (CourierSystem.run deliveryOps).undo.nodes
    ∧ ((CourierSystem.run deliveryOps).reportMissing "P1").transitQueue
        = (CourierSystem.run deliveryOps).transitQueue
    ∧ ((CourierSystem.run deliveryOps).reportMissing "P1").riders
        = (CourierSystem.run deliveryOps).riders
    ∧ (CourierSystem.run deliveryOps).trackingEngine.search (CourierSystem.run deliveryOps).mem
        "ZZ" = SearchResult.notFound
    ∧ (CourierSystem.run deliveryOps).reportMissing "ZZ" = CourierSystem.run deliveryOps
    ∧ ¬ (0 ≤ hashFunc "éa" ∧ hashFunc "éa" < 50)
    ∧ (CourierSystem.run deliveryOps).trackingEngine.search (CourierSystem.run deliveryOps).mem
        "éa" = SearchResult.indexOutOfRange :=
  have hs : (CourierSystem.run deliveryOps).trackingEngine.search
      (CourierSystem.run deliveryOps).mem "P1" = SearchResult.found 0 := by decide!
  have hn : (CourierSystem.run deliveryOps).trackingEngine.search
      (CourierSystem.run deliveryOps).mem "ZZ" = SearchResult.notFound := by decide!
  have ho : ¬ (0 ≤ hashFunc "éa" ∧ hashFunc "éa" < 50) := by decide
  have h := (CourierSystem.reportMissing_frame (CourierSystem.run deliveryOps) "P1").1 0 hs
  ⟨hs, h.1, h.2.1, h.2.2.2.2.2.2.1, h.2.2.2.2.2.2.2.2.1, hn,
    (CourierSystem.reportMissing_frame (CourierSystem.run deliveryOps) "ZZ").2.1 hn, ho,
    (CourierSystem.reportMissing_frame (CourierSystem.run deliveryOps) "éa").2.2.2.1 ho⟩

/-- The parcel of `deliveryOps` reported missing: flag, status and rider id. -/
theorem CourierSystem.reportMissing_scenario :
    (((CourierSystem.run deliveryOps).reportMissing "P1").mem 0).isMissing = true
    ∧ (((CourierSystem.run deliveryOps).reportMissing "P1").mem 0).status = "MISSING"
    ∧ (((CourierSystem.run deliveryOps).reportMissing "P1").mem 0).assignedRiderId = 1
    ∧ (((CourierSystem.run deliveryOps).reportMissing "P1").undoLastOperation.mem 0).status
        = "In Transit (Rider: Ali (Bike))"
    ∧ (((CourierSystem.run deliveryOps).reportMissing "P1").undoLastOperation.mem
        0).isMissing = true := by
  decide!

/-- The road map of the fresh controller queried with the unknown name "Quetta":
`findShortestPath` reports invalid cities either way, `findAllRoutes` prints nothing when
the destination is unknown, and indexes `visited[-1]` when the source is. -/
theorem RoutingGraph.unknown_city_scenario :
    CourierSystem.init.routingEngine.getCityIndex "Quetta" = none
    ∧ CourierSystem.init.routingEngine.getCityIndex "Lahore" = some 0
    ∧ CourierSystem.init.routingEngine.findShortestPath "Quetta" "Lahore"
        = PathResult.invalidCities
    ∧ CourierSystem.init.routingEngine.findShortestPath "Lahore" "Quetta"
        = PathResult.invalidCities
    ∧ CourierSystem.init.routingEngine.findAllRoutes "Lahore" "Quetta"
        = RoutesResult.emitted []
    ∧ CourierSystem.init.routingEngine.findAllRoutes "Quetta" "Lahore"
        = RoutesResult.indexOutOfRange
    ∧ CourierSystem.init.routingEngine.findAllRoutes "Quetta" "Quetta"
        = RoutesResult.indexOutOfRange := by
  decide

/-- Where the three parcels of `intakeOps` are, call after call. -/
theorem CourierSystem.positions_scenario :
    (CourierSystem.run intakeOps).pickupQueue.nodes = [0, 1, 2]
    ∧ (CourierSystem.run intakeOps).processPickupQueue.pickupQueue.nodes = []
    ∧ (CourierSystem.run intakeOps).processPickupQueue.sortingEngine.held = [0, 1, 2]
    ∧ (CourierSystem.run intakeOps).processPickupQueue.sortToWarehouse.sortingEngine.held = []
    ∧ (CourierSystem.run intakeOps).processPickupQueue.sortToWarehouse.warehouseQueue.nodes
        = [0, 1, 2]
    ∧ (CourierSystem.run bikeOps).warehouseQueue.nodes = [2]
    ∧ (CourierSystem.run bikeOps).transitQueue.nodes = [0, 1]
    ∧ (CourierSystem.run roundOps).warehouseQueue.nodes = []
    ∧ (CourierSystem.run roundOps).transitQueue.nodes = [0, 1, 2] := by
  decide!

theorem positiveWeights_loadedOps : PositiveWeights loadedOps := by
  intro id prio w d h
  simp only [loadedOps, bikeOps, intakeOps, List.cons_append, List.nil_append, List.mem_cons,
    EngineOp.registerParcel.injEq, List.mem_singleton, List.not_mem_nil, or_false, reduceCtorEq,
    false_or] at h
  rcases h with ⟨_, _, hw, _⟩ | ⟨_, _, hw, _⟩ | ⟨_, _, hw, _⟩ <;> rw [hw] <;> norm_num

/-- The load theorem applied to the first rider after `loadedOps`: he carries the parcels
0 and 1 of 4 kg each, his load is 8, and releasing parcel 0 takes his load to 4 without
the clamp; and to the second rider, who carries parcel 2 of 5 kg. -/
theorem CourierSystem.rider_load_is_sum_witness :
    PositiveWeights loadedOps
    ∧ ((CourierSystem.run loadedOps).riders 0).currentLoad = 8
    ∧ (CourierSystem.run loadedOps).next = 3
    ∧ ((List.range 3).map (fun q => ((CourierSystem.run loadedOps).mem q).assignedRiderId))
        = [1, 1, 2]
    ∧ ((List.range 3).map (fun q => ((CourierSystem.run loadedOps).mem q).weight)) = [4, 4, 5]
    ∧ ((CourierSystem.run loadedOps).riders 0).currentLoad
      = Finset.sum (Finset.range (CourierSystem.run loadedOps).next)
          (fun q =>
            if ((CourierSystem.run loadedOps).mem q).assignedRiderId
                = ((CourierSystem.run loadedOps).riders 0).id
            then ((CourierSystem.run loadedOps).mem q).weight else 0)
    ∧ 0 ≤ ((CourierSystem.run loadedOps).riders 0).currentLoad
    ∧ ((CourierSystem.run loadedOps).riders 0).currentLoad
        ≤ ((CourierSystem.run loadedOps).riders 0).capacity
    ∧ ((CourierSystem.run loadedOps).mem 0).assignedRiderId
        = ((CourierSystem.run loadedOps).riders 0).id
    ∧ ¬ (((CourierSystem.run loadedOps).riders 0).currentLoad
          - ((CourierSystem.run loadedOps).mem 0).weight < 0)
    ∧ (((CourierSystem.run loadedOps).releaseRiderLoad 0).riders 0).currentLoad
        = ((CourierSystem.run loadedOps).riders 0).currentLoad
          - ((CourierSystem.run loadedOps).mem 0).weight
    ∧ (((CourierSystem.run loadedOps).releaseRiderLoad 0).riders 0).currentLoad = 4
    ∧ ((CourierSystem.run loadedOps).riders 1).currentLoad = 5
    ∧ ((CourierSystem.run loadedOps).riders 1).currentLoad
      = Finset.sum (Finset.range (CourierSystem.run loadedOps).next)
          (fun q =>
            if ((CourierSystem.run loadedOps).mem q).assignedRiderId
                = ((CourierSystem.run loadedOps).riders 1).id
            then ((CourierSystem.run loadedOps).mem q).weight else 0)
    ∧ (((CourierSystem.run loadedOps).releaseRiderLoad 2).riders 1).currentLoad
        = ((CourierSystem.run loadedOps).riders 1).currentLoad
          - ((CourierSystem.run loadedOps).mem 2).weight :=
  have h := CourierSystem.rider_load_is_sum loadedOps positiveWeights_loadedOps 0 (by decide)
  have g := CourierSystem.rider_load_is_sum loadedOps positiveWeights_loadedOps 1 (by decide)
  have hid : ((CourierSystem.run loadedOps).mem 0).assignedRiderId
      = ((CourierSystem.run loadedOps).riders 0).id := by decide!
  have hr := h.2.2.2 0 (by decide!) hid
  ⟨positiveWeights_loadedOps, by decide!, by decide!, by decide!, by decide!, h.1, h.2.1,
    h.2.2.1, hid, hr.1, hr.2, by decide!, by decide!, g.1,
    (g.2.2.2 2 (by decide!) (by decide!)).2⟩

/-- The loads of the three riders and the rider ids of the three parcels along
`roundOps`: after the assignments, and after the delivery and the return. -/
theorem CourierSystem.rider_load_scenario :
    ((CourierSystem.run (bikeOps ++ [EngineOp.assignRider])).riders 0).currentLoad = 8
    ∧ ((CourierSystem.run (bikeOps ++ [EngineOp.assignRider])).riders 1).currentLoad = 5
    ∧ ((CourierSystem.run (bikeOps ++ [EngineOp.assignRider])).riders 2).currentLoad = 0
    ∧ ((List.range 3).map (fun q =>
        ((CourierSystem.run (bikeOps ++ [EngineOp.assignRider])).mem q).assignedRiderId))
        = [1, 1, 2]
    ∧ ((CourierSystem.run roundOps).riders 0).currentLoad = 0
    ∧ ((CourierSystem.run roundOps).riders 1).currentLoad = 5
    ∧ ((List.range 3).map (fun q => ((CourierSystem.run roundOps).mem q).assignedRiderId))
        = [-1, -1, 2] := by
  decide!

/-- The duplicate theorem applied to the sample parcels 2 and 3, which both carry "Q7",
to "P1" registered twice on the fresh controller, taken to the riders and looked up, and
to the identifier "é", which has no cell of the table. -/
theorem CourierSystem.duplicate_identifier_witness :
    (0 ≤ hashFunc "Q7" ∧ hashFunc "Q7" < 50)
    ∧ (∃ t1 t2, TrackerTable.init.insert sampleStore 2 = some t1
        ∧ t1.insert sampleStore 3 = some t2
        ∧ t2.search sampleStore "Q7" = SearchResult.found 3
        ∧ ∀ id, t2.search sampleStore id ≠ SearchResult.found 2)
    ∧ InTable [EngineOp.processPickupQueue, EngineOp.sortToWarehouse, EngineOp.assignRider,
        EngineOp.reportMissing "P1", EngineOp.simulateParcelLifecycle "P1" 3]
    ∧ (∀ id, 0 ≤ hashFunc id ∧ hashFunc id < 50 →
        (CourierSystem.run (duplicateOps ++ [EngineOp.processPickupQueue,
          EngineOp.sortToWarehouse, EngineOp.assignRider, EngineOp.reportMissing "P1",
          EngineOp.simulateParcelLifecycle "P1" 3])).trackingEngine.search
          (CourierSystem.run (duplicateOps ++ [EngineOp.processPickupQueue,
            EngineOp.sortToWarehouse, EngineOp.assignRider, EngineOp.reportMissing "P1",
            EngineOp.simulateParcelLifecycle "P1" 3])).mem id ≠ SearchResult.found 0)
    ∧ ¬ (0 ≤ hashFunc "é" ∧ hashFunc "é" < 50)
    ∧ TrackerTable.init.search sampleStore "é" = SearchResult.indexOutOfRange :=
  have hin : InTable [EngineOp.processPickupQueue, EngineOp.sortToWarehouse,
      EngineOp.assignRider, EngineOp.reportMissing "P1",
      EngineOp.simulateParcelLifecycle "P1" 3] := by
    intro op id hop hid
    simp only [List.mem_cons, List.mem_singleton, List.not_mem_nil, or_false] at hop
    rcases hop with h | h | h | h | h <;> subst h
      <;> simp only [EngineOp.ident, Option.some.injEq, reduceCtorEq] at hid
    all_goals (subst hid; decide)
  have hq : 0 ≤ hashFunc "Q7" ∧ hashFunc "Q7" < 50 := by decide
  have ho : ¬ (0 ≤ hashFunc "é" ∧ hashFunc "é" < 50) := by decide
  have h := ((CourierSystem.duplicate_identifier sampleStore TrackerTable.init 2 3
    CourierSystem.init "P1" 1 4 "Lahore" 2 6 "Multan"
    [EngineOp.processPickupQueue, EngineOp.sortToWarehouse, EngineOp.assignRider,
      EngineOp.reportMissing "P1", EngineOp.simulateParcelLifecycle "P1" 3]).1
    (by decide)).2 hin
  have h1 := ((CourierSystem.duplicate_identifier sampleStore TrackerTable.init 2 3
    CourierSystem.init "Q7" 1 4 "Lahore" 2 6 "Multan" []).1 hq).1 (by decide) (by decide)
    (by decide)
  have h2 := (CourierSystem.duplicate_identifier sampleStore TrackerTable.init 2 3
    CourierSystem.init "é" 1 4 "Lahore" 2 6 "Multan" []).2.2.2.1 ho
  ⟨hq, h1, hin, fun id hid => (h id hid).1, ho, h2.2⟩

/-- The identifier "P1" registered twice: `search` finds the second parcel, and a missing
report under "P1" marks the second parcel and not the first.  The identifier "é"
registered: the table holds no parcel afterwards, and `search` leaves the table. -/
theorem CourierSystem.duplicate_identifier_scenario :
    ((CourierSystem.run duplicateOps).mem 0).id = "P1"
    ∧ ((CourierSystem.run duplicateOps).mem 1).id = "P1"
    ∧ (CourierSystem.run duplicateOps).trackingEngine.search (CourierSystem.run duplicateOps).mem
        "P1" = SearchResult.found 1
    ∧ (((CourierSystem.run duplicateOps).reportMissing "P1").mem 1).isMissing = true
    ∧ (((CourierSystem.run duplicateOps).reportMissing "P1").mem 0).isMissing = false
    ∧ (CourierSystem.run [EngineOp.registerParcel "é" 1 4 "Lahore"]).trackingEngine.search
        (CourierSystem.run [EngineOp.registerParcel "é" 1 4 "Lahore"]).mem "é"
        = SearchResult.indexOutOfRange := by
  decide!

/-- Bucket indices of identifiers made of ASCII letters and digits, and of "é". -/
theorem hashFunc_scenario :
    hashFunc "P1" = 29 ∧ hashFunc "1P" = 29 ∧ hashFunc "" = 0 ∧ hashFunc "é" = -48 := by
  decide

end Courier
